import Mathlib

/-!
# GASInventory: hierarchical item containment

A shallow embedding of `Source/Portfolio/Private/GASInventory.cpp` and
`Source/Portfolio/Public/GASInventory.h`.

* Actors live in an arena (`World.items`); an `AInventoryItem*` is an index into it and a
  null pointer is `none`.  Dereferencing an index outside the arena is a `Fault.crash`.
* The ability system component, the blueprint hooks, the scene graph and the multicast
  delegates are external: every call made to them is appended to `World.log`.
* The recursive member functions take a recursion budget; exhausting it is `Fault.fuel`.

The resize functions of `Source/Portfolio/Private/ProceduralGenerator.cpp` are embedded in
the namespace `ProceduralGenerator`, after the inventory.
-/

namespace GASInventory

/-! ## Engine types -/

/-- An `FName`, represented by its comparison index. -/
abbrev FName := Nat

/-- The empty name, `FName("")`. -/
def NAME_None : FName := 0

/-- Engine enum `ENetRole`, by numeric value: `ROLE_None = 0`, `ROLE_SimulatedProxy = 1`,
`ROLE_AutonomousProxy = 2`, `ROLE_Authority = 3`. -/
abbrev ENetRole := Nat

/-- The authoritative role. -/
def ROLE_Authority : ENetRole := 3

/-- A gameplay tag. -/
structure FGameplayTag where
  TagName : FName
deriving DecidableEq, Repr

/-- A tag container: the explicit tags and their expanded parents. -/
structure FGameplayTagContainer where
  GameplayTags : List FGameplayTag
  ParentTags : List FGameplayTag
deriving DecidableEq, Repr

/-- Engine behaviour of `FGameplayTagContainer::HasTag`: an invalid tag is never present,
a valid one is looked up among the explicit and the parent tags. -/
def FGameplayTagContainer.HasTag (c : FGameplayTagContainer) (TagToCheck : FGameplayTag) : Bool :=
  if TagToCheck.TagName = NAME_None then false
  else decide (TagToCheck ∈ c.GameplayTags) || decide (TagToCheck ∈ c.ParentTags)

/-! ## Data model (GASInventory.h) -/

/-- Struct `FItemSlot`. `InventoryItems` holds pointers to the slotted actors. -/
structure FItemSlot where
  SlotName : FName
  AllowedItemCategories : FGameplayTagContainer
  AllowedItemSizes : FGameplayTagContainer
  ItemCapacity : Int := 1
  bActivateItem : Bool := false
  bShowItem : Bool := false
  InventoryItems : List Nat := []
deriving DecidableEq, Repr

/-- Struct `UItemData`, the immutable description of an item kind. -/
structure UItemData where
  ItemName : FName
  ItemCategory : FGameplayTag
  ItemSize : FGameplayTag
  PassiveAbilities : List Nat
  PassiveEffects : List Nat
  ActiveAbilities : List Nat
  ActiveEffects : List Nat
  InventoryItemClass : Option Nat
  ItemSlots : List FItemSlot
deriving DecidableEq, Repr

/-- Struct `AInventoryItem`. `Role` is what `GetLocalRole()` returns for the actor and
`RootComponent` what `GetRootComponent()` returns. -/
structure AInventoryItem where
  Role : ENetRole
  RootComponent : Option Nat
  ItemData : Option UItemData
  OwnerASC : Option Nat
  OwnerInventoryItem : Option Nat
  OwnerSlotName : FName
  bIsItemActive : Bool
  bIsItemVisible : Bool
  ActiveAbilitiesHandles : List Nat
  ActiveEffectsHandles : List Nat
  PassiveAbilitiesHandles : List Nat
  PassiveEffectsHandles : List Nat
  ItemSlots : List FItemSlot
  AlternativeAttachComponent : Option Nat
deriving DecidableEq, Repr

/-- Calls that leave the inventory code, in the order they are made. -/
inductive Event where
  | GiveAbility (asc : Nat) (abilityClass : Nat) (handle : Nat)
  | ClearAbility (asc : Nat) (handle : Nat)
  | ApplyGameplayEffectToSelf (asc : Nat) (effectClass : Nat) (handle : Nat)
  | RemoveActiveGameplayEffect (asc : Nat) (handle : Nat)
  | BP_OnActivateItem (item : Nat)
  | BP_OnDeactivateItem (item : Nat)
  | BP_OnShowItem (item : Nat)
  | BP_OnHideItem (item : Nat)
  | SetHiddenInGame (component : Nat) (hidden : Bool)
  | AttachToComponent (item : Nat) (component : Option Nat) (socket : FName)
  | DetachFromActor (item : Nat)
  | OnItemAdded (owner : Nat) (item : Nat) (slot : FName)
  | OnItemRemoved (owner : Nat) (item : Nat) (slot : FName)
  | OnInventoryChanged (owner : Nat)
deriving DecidableEq, Repr

/-- The actors, the record of outgoing calls, and the next handle an ability system
component will hand out (each grant returns a distinct handle). -/
structure World where
  items : List AInventoryItem
  log : List Event
  nextHandle : Nat
deriving DecidableEq, Repr

/-- Why a call did not return. -/
inductive Fault where
  | crash
  | fuel
deriving DecidableEq, Repr

instance {α : Type} [DecidableEq α] : DecidableEq (Except Fault α) := fun a b =>
  match a, b with
  | .ok x, .ok y =>
    if h : x = y then isTrue (by rw [h]) else isFalse (fun e => h (by cases e; rfl))
  | .error x, .error y =>
    if h : x = y then isTrue (by rw [h]) else isFalse (fun e => h (by cases e; rfl))
  | .ok _, .error _ => isFalse (fun e => by cases e)
  | .error _, .ok _ => isFalse (fun e => by cases e)

/-- Overwrite the actor at `p`. -/
def World.store (w : World) (p : Nat) (it : AInventoryItem) : World :=
  { w with items := w.items.set p it }

/-- Record an outgoing call. -/
def World.emit (w : World) (e : Event) : World :=
  { w with log := w.log ++ [e] }

/-- A range-based `for` whose body threads the world. -/
def forEach {α : Type} (body : World → α → Except Fault World) :
    List α → World → Except Fault World
  | [], w => .ok w
  | a :: rest, w =>
    match body w a with
    | .ok w1 => forEach body rest w1
    | .error e => .error e

/-- Engine `TArray::AddUnique`. -/
def AddUnique (l : List Nat) (x : Nat) : List Nat :=
  if x ∈ l then l else l ++ [x]

/-- Engine `TArray::Remove`: drops every element equal to `x`. -/
def Remove (l : List Nat) (x : Nat) : List Nat :=
  l.filter (fun y => decide (y ≠ x))

/-- Engine `TArray::Contains` for a pointer that may be null; the arrays hold no null entry. -/
def Contains (l : List Nat) (p : Option Nat) : Bool :=
  match p with
  | some x => decide (x ∈ l)
  | none => false

/-- Apply `f` through the pointer to the first element satisfying `p`. -/
def modifyFirst {α : Type} (p : α → Bool) (f : α → α) : List α → List α
  | [] => []
  | a :: rest => if p a then f a :: rest else a :: modifyFirst p f rest

/-! ## GASInventory.cpp -/

/-- Source function `FItemSlot::CanSlotItem`. -/
def FItemSlot.CanSlotItem (slot : FItemSlot) (w : World) (NewItem : Option Nat) :
    Except Fault Bool :=
  match NewItem with
  | none => .ok true
  | some x =>
    match w.items[x]? with
    | none => .error .crash
    | some item =>
      match item.ItemData with
      | none => .ok true
      | some data =>
        let bIsItemCategoryAllowed := slot.AllowedItemCategories.HasTag data.ItemCategory
        let bIsItemSizeAllowed := slot.AllowedItemSizes.HasTag data.ItemSize
        .ok (bIsItemCategoryAllowed && bIsItemSizeAllowed)

/-- Source function `AInventoryItem::SetItemData`. -/
def SetItemData (w : World) (self : Nat) (NewSourceItem : Option UItemData) :
    Except Fault World :=
  match w.items[self]? with
  | none => .error .crash
  | some me =>
    if me.Role = ROLE_Authority then
      match me.ItemData with
      | some _ => .ok w
      | none =>
        match NewSourceItem with
        | none => .ok w
        | some data =>
          .ok (w.store self
            { me with ItemData := some data, ItemSlots := me.ItemSlots ++ data.ItemSlots })
    else .ok w

/-- Source function `AInventoryItem::RemoveAbilitiesFromASC`, called on the actor `me`. The handle array is
only read. -/
def RemoveAbilitiesFromASC (w : World) (me : AInventoryItem) (InAbilityHandles : List Nat) :
    World × Int :=
  match me.OwnerASC with
  | none => (w, 0)
  | some asc =>
    if me.Role < ROLE_Authority then (w, 0)
    else
      InAbilityHandles.foldl
        (fun acc AbilityHandle => (acc.1.emit (Event.ClearAbility asc AbilityHandle), acc.2 + 1))
        (w, 0)

/-- Source function `AInventoryItem::RemoveEffectsFromASC`, called on the actor `me`. The handle array is
only read. -/
def RemoveEffectsFromASC (w : World) (me : AInventoryItem) (InEffectHandles : List Nat) :
    World × Int :=
  match me.OwnerASC with
  | none => (w, 0)
  | some asc =>
    if me.Role < ROLE_Authority then (w, 0)
    else
      InEffectHandles.foldl
        (fun acc EffectHandle =>
          (acc.1.emit (Event.RemoveActiveGameplayEffect asc EffectHandle), acc.2 + 1))
        (w, 0)

/-- Source function `AInventoryItem::GiveAbilitiesToASC`, called on the actor `me`; the second component is
the new content of the array passed as `OutAbilityHandles`. -/
def GiveAbilitiesToASC (w : World) (me : AInventoryItem) (InAbilities : List Nat)
    (OutAbilityHandles : List Nat) : World × List Nat :=
  match me.OwnerASC with
  | none => (w, OutAbilityHandles)
  | some asc =>
    if me.Role < ROLE_Authority then (w, OutAbilityHandles)
    else
      InAbilities.foldl
        (fun acc AbilityClass =>
          ({ acc.1 with
              log := acc.1.log ++ [Event.GiveAbility asc AbilityClass acc.1.nextHandle],
              nextHandle := acc.1.nextHandle + 1 },
            acc.2 ++ [acc.1.nextHandle]))
        (w, OutAbilityHandles)

/-- Source function `AInventoryItem::ApplyEffectsToASC`, called on the actor `me`; the second component is
the new content of the array passed as `OutEffectHandles`. -/
def ApplyEffectsToASC (w : World) (me : AInventoryItem) (InEffects : List Nat)
    (OutEffectHandles : List Nat) : World × List Nat :=
  match me.OwnerASC with
  | none => (w, OutEffectHandles)
  | some asc =>
    if me.Role < ROLE_Authority then (w, OutEffectHandles)
    else
      InEffects.foldl
        (fun acc EffectClass =>
          ({ acc.1 with
              log := acc.1.log ++
                [Event.ApplyGameplayEffectToSelf asc EffectClass acc.1.nextHandle],
              nextHandle := acc.1.nextHandle + 1 },
            acc.2 ++ [acc.1.nextHandle]))
        (w, OutEffectHandles)

/-- The part of `SetOwnerASC` between its guard and its loop, for an actor `me` at `self`
whose asset is `data`. -/
def SetOwnerASC.body (w : World) (self : Nat) (me : AInventoryItem) (data : UItemData)
    (NewASC : Option Nat) : World :=
  let w1 :=
    if me.OwnerASC.isSome then
      let a := (RemoveAbilitiesFromASC w me me.ActiveAbilitiesHandles).1
      let b := (RemoveAbilitiesFromASC a me me.PassiveAbilitiesHandles).1
      let c := (RemoveEffectsFromASC b me me.ActiveEffectsHandles).1
      (RemoveEffectsFromASC c me me.PassiveEffectsHandles).1
    else w
  let me1 := { me with OwnerASC := NewASC }
  if me1.OwnerASC.isSome then
    let g := GiveAbilitiesToASC w1 me1 data.PassiveAbilities me1.PassiveAbilitiesHandles
    let h := ApplyEffectsToASC g.1 me1 data.PassiveEffects me1.PassiveEffectsHandles
    h.1.store self { me1 with PassiveAbilitiesHandles := g.2, PassiveEffectsHandles := h.2 }
  else w1.store self me1

/-- Source function `AInventoryItem::SetOwnerASC`. `check(ItemData)` failing is a crash. -/
def SetOwnerASC : Nat → World → Nat → Option Nat → Except Fault World
  | 0, _, _, _ => .error .fuel
  | fuel + 1, w, self, NewASC =>
    match w.items[self]? with
    | none => .error .crash
    | some me =>
      match me.ItemData with
      | none => .error .crash
      | some data =>
        if me.Role = ROLE_Authority ∧ me.OwnerASC ≠ NewASC then
          forEach
            (fun w2 (Slot : FItemSlot) =>
              forEach (fun w3 Item => SetOwnerASC fuel w3 Item NewASC) Slot.InventoryItems w2)
            me.ItemSlots (SetOwnerASC.body w self me data NewASC)
        else .ok w

/-- Source function `AInventoryItem::GetAttachToComponent_Implementation`. -/
def GetAttachToComponent (me : AInventoryItem) : Option Nat :=
  match me.AlternativeAttachComponent with
  | some c => some c
  | none => me.RootComponent

/-- Source function `AInventoryItem::SetOwnerItem`. -/
def SetOwnerItem (w : World) (self : Nat) (NewOwner : Option Nat) (SlotName : FName) :
    Except Fault World :=
  match w.items[self]? with
  | none => .error .crash
  | some me =>
    let w1 := w.store self { me with OwnerInventoryItem := NewOwner, OwnerSlotName := SlotName }
    match NewOwner with
    | some o =>
      match w1.items[o]? with
      | none => .error .crash
      | some owner =>
        .ok (w1.emit (Event.AttachToComponent self (GetAttachToComponent owner) SlotName))
    | none => .ok (w1.emit (Event.DetachFromActor self))

/-- The part of `ActivateItem` between its guard and its loop. Reading `ItemData` of an
actor that has none is a crash. -/
def ActivateItem.body (w : World) (self : Nat) (me : AInventoryItem) : Except Fault World :=
  let me1 := { me with bIsItemActive := true }
  match me1.OwnerASC with
  | none => .ok ((w.store self me1).emit (Event.BP_OnActivateItem self))
  | some _ =>
    match me1.ItemData with
    | none => .error .crash
    | some data =>
      let g := GiveAbilitiesToASC w me1 data.ActiveAbilities me1.ActiveAbilitiesHandles
      let h := ApplyEffectsToASC g.1 me1 data.ActiveEffects me1.ActiveEffectsHandles
      .ok ((h.1.store self
        { me1 with ActiveAbilitiesHandles := g.2, ActiveEffectsHandles := h.2 }).emit
          (Event.BP_OnActivateItem self))

/-- Source function `AInventoryItem::ActivateItem`. -/
def ActivateItem : Nat → World → Nat → Except Fault World
  | 0, _, _ => .error .fuel
  | fuel + 1, w, self =>
    match w.items[self]? with
    | none => .error .crash
    | some me =>
      if me.bIsItemActive = true ∨ me.Role < ROLE_Authority then .ok w
      else
        match ActivateItem.body w self me with
        | .error e => .error e
        | .ok w1 =>
          forEach
            (fun w2 (Slot : FItemSlot) =>
              if Slot.bActivateItem = true then
                forEach (fun w3 Item => ActivateItem fuel w3 Item) Slot.InventoryItems w2
              else .ok w2)
            me.ItemSlots w1

/-- The part of `DeactivateItem` between its guard and its loop. -/
def DeactivateItem.body (w : World) (self : Nat) (me : AInventoryItem) : World :=
  let me1 := { me with bIsItemActive := false }
  let w1 := w.store self me1
  let w2 :=
    if me1.OwnerASC.isSome then
      let a := (RemoveAbilitiesFromASC w1 me1 me1.ActiveAbilitiesHandles).1
      (RemoveEffectsFromASC a me1 me1.ActiveEffectsHandles).1
    else w1
  w2.emit (Event.BP_OnDeactivateItem self)

/-- Source function `AInventoryItem::DeactivateItem`. -/
def DeactivateItem : Nat → World → Nat → Except Fault World
  | 0, _, _ => .error .fuel
  | fuel + 1, w, self =>
    match w.items[self]? with
    | none => .error .crash
    | some me =>
      if me.bIsItemActive = false ∨ me.Role < ROLE_Authority then .ok w
      else
        forEach
          (fun w2 (Slot : FItemSlot) =>
            forEach (fun w3 Item => DeactivateItem fuel w3 Item) Slot.InventoryItems w2)
          me.ItemSlots (DeactivateItem.body w self me)

/-- The part of `ShowItem` between its guard and its loop. -/
def ShowItem.body (w : World) (self : Nat) (me : AInventoryItem) : World :=
  let w1 := w.store self { me with bIsItemVisible := true }
  let w2 :=
    match me.RootComponent with
    | some root => w1.emit (Event.SetHiddenInGame root false)
    | none => w1
  w2.emit (Event.BP_OnShowItem self)

/-- Source function `AInventoryItem::ShowItem`. -/
def ShowItem : Nat → World → Nat → Except Fault World
  | 0, _, _ => .error .fuel
  | fuel + 1, w, self =>
    match w.items[self]? with
    | none => .error .crash
    | some me =>
      if me.bIsItemVisible = true then .ok w
      else
        forEach
          (fun w2 (Slot : FItemSlot) =>
            if Slot.bShowItem = true then
              forEach (fun w3 Item => ShowItem fuel w3 Item) Slot.InventoryItems w2
            else .ok w2)
          me.ItemSlots (ShowItem.body w self me)

/-- The part of `HideItem` between its guard and its loop. -/
def HideItem.body (w : World) (self : Nat) (me : AInventoryItem) : World :=
  let w1 := w.store self { me with bIsItemVisible := false }
  let w2 :=
    match me.RootComponent with
    | some root => w1.emit (Event.SetHiddenInGame root true)
    | none => w1
  w2.emit (Event.BP_OnHideItem self)

/-- Source function `AInventoryItem::HideItem`. -/
def HideItem : Nat → World → Nat → Except Fault World
  | 0, _, _ => .error .fuel
  | fuel + 1, w, self =>
    match w.items[self]? with
    | none => .error .crash
    | some me =>
      if me.bIsItemVisible = false then .ok w
      else
        forEach
          (fun w2 (Slot : FItemSlot) =>
            forEach (fun w3 Item => HideItem fuel w3 Item) Slot.InventoryItems w2)
          me.ItemSlots (HideItem.body w self me)

/-- Source function `AInventoryItem::SetItemEnabled`. -/
def SetItemEnabled (fuel : Nat) (w : World) (self : Nat) (bEnable : Bool)
    (NewOwnerASC : Option Nat) : Except Fault World :=
  if bEnable = true then
    match SetOwnerASC fuel w self NewOwnerASC with
    | .error e => .error e
    | .ok w1 =>
      match ActivateItem fuel w1 self with
      | .error e => .error e
      | .ok w2 => ShowItem fuel w2 self
  else
    match HideItem fuel w self with
    | .error e => .error e
    | .ok w1 =>
      match DeactivateItem fuel w1 self with
      | .error e => .error e
      | .ok w2 => SetOwnerASC fuel w2 self none

/-- Source function `AInventoryItem::FindSlotByName`: the first slot with that name. -/
def FindSlotByName (me : AInventoryItem) (SlotName : FName) : Option FItemSlot :=
  me.ItemSlots.find? (fun Slot => decide (Slot.SlotName = SlotName))

/-- Source function `AInventoryItem::CanPlaceItemInSlot`. -/
def CanPlaceItemInSlot (w : World) (self : Nat) (NewItem : Option Nat) (SlotName : FName) :
    Except Fault Bool :=
  match w.items[self]? with
  | none => .error .crash
  | some me =>
    match FindSlotByName me SlotName with
    | none => .ok false
    | some ItemSlot =>
      match ItemSlot.CanSlotItem w NewItem with
      | .error e => .error e
      | .ok false => .ok false
      | .ok true =>
        if Contains ItemSlot.InventoryItems NewItem = true then .ok true
        else
          let NumItemsInSlot : Int := ItemSlot.InventoryItems.length
          if NumItemsInSlot < ItemSlot.ItemCapacity then .ok true
          else .ok false

/-- The loop of `FindSlotForItem` over the remaining slots. -/
def FindSlotForItem.scan (w : World) (self : Nat) (NewItem : Option Nat) :
    List FItemSlot → Except Fault (Option FItemSlot)
  | [] => .ok none
  | ItemSlot :: rest =>
    match CanPlaceItemInSlot w self NewItem ItemSlot.SlotName with
    | .error e => .error e
    | .ok true => .ok (some ItemSlot)
    | .ok false => FindSlotForItem.scan w self NewItem rest

/-- Source function `AInventoryItem::FindSlotForItem`. -/
def FindSlotForItem (w : World) (self : Nat) (NewItem : Option Nat) :
    Except Fault (Option FItemSlot) :=
  match w.items[self]? with
  | none => .error .crash
  | some me => FindSlotForItem.scan w self NewItem me.ItemSlots

/-- Source function `AInventoryItem::AddItemToSlot`. Both operands of its first test lead to
the same `return false`, so the null test is made by the `match` that names the item. -/
def AddItemToSlot (fuel : Nat) (w : World) (self : Nat) (NewItem : Option Nat)
    (SlotName : FName) : Except Fault (World × Bool) :=
  match w.items[self]? with
  | none => .error .crash
  | some me =>
    match NewItem with
    | none => .ok (w, false)
    | some x =>
      if me.Role < ROLE_Authority then .ok (w, false)
      else
        match FindSlotByName me SlotName with
        | none => .ok (w, false)
        | some _ =>
          match CanPlaceItemInSlot w self NewItem SlotName with
          | .error e => .error e
          | .ok false => .ok (w, false)
          | .ok true =>
            let w1 := w.store self
              { me with
                ItemSlots := modifyFirst (fun Slot => decide (Slot.SlotName = SlotName))
                  (fun Slot => { Slot with InventoryItems := AddUnique Slot.InventoryItems x })
                  me.ItemSlots }
            match SetOwnerASC fuel w1 x me.OwnerASC with
            | .error e => .error e
            | .ok w2 =>
              match SetOwnerItem w2 x (some self) SlotName with
              | .error e => .error e
              | .ok w3 =>
                match w3.items[self]? with
                | none => .error .crash
                | some me3 =>
                  match FindSlotByName me3 SlotName with
                  | none => .error .crash
                  | some ItemSlot3 =>
                    match (if me3.bIsItemActive = true ∧ ItemSlot3.bActivateItem = true
                           then ActivateItem fuel w3 x else DeactivateItem fuel w3 x) with
                    | .error e => .error e
                    | .ok w4 =>
                      match w4.items[self]? with
                      | none => .error .crash
                      | some me4 =>
                        match FindSlotByName me4 SlotName with
                        | none => .error .crash
                        | some ItemSlot4 =>
                          match (if me4.bIsItemVisible = true ∧ ItemSlot4.bShowItem = true
                                 then ShowItem fuel w4 x else HideItem fuel w4 x) with
                          | .error e => .error e
                          | .ok w5 =>
                            .ok (((w5.emit (Event.OnItemAdded self x ItemSlot4.SlotName)).emit
                              (Event.OnInventoryChanged self)), true)

/-- Source function `AInventoryItem::AddItem`. -/
def AddItem (fuel : Nat) (w : World) (self : Nat) (NewItem : Option Nat) :
    Except Fault (World × Bool) :=
  match w.items[self]? with
  | none => .error .crash
  | some me =>
    if me.Role < ROLE_Authority ∨ NewItem = none then .ok (w, false)
    else
      match FindSlotForItem w self NewItem with
      | .error e => .error e
      | .ok (some ItemSlot) => AddItemToSlot fuel w self NewItem ItemSlot.SlotName
      | .ok none => .ok (w, false)

/-- Source function `AInventoryItem::RemoveItemFromSlot`, with its first test split as in
`AddItemToSlot`. -/
def RemoveItemFromSlot (fuel : Nat) (w : World) (self : Nat) (ItemToRemove : Option Nat)
    (SlotName : FName) : Except Fault (World × Bool) :=
  match w.items[self]? with
  | none => .error .crash
  | some me =>
    match ItemToRemove with
    | none => .ok (w, false)
    | some x =>
      if me.Role < ROLE_Authority then .ok (w, false)
      else
        match FindSlotByName me SlotName with
        | none => .ok (w, false)
        | some ItemSlot =>
          let w1 := w.store self
            { me with
              ItemSlots := modifyFirst (fun Slot => decide (Slot.SlotName = SlotName))
                (fun Slot => { Slot with InventoryItems := Remove Slot.InventoryItems x })
                me.ItemSlots }
          match DeactivateItem fuel w1 x with
          | .error e => .error e
          | .ok w2 =>
            match HideItem fuel w2 x with
            | .error e => .error e
            | .ok w3 =>
              match SetOwnerItem w3 x none NAME_None with
              | .error e => .error e
              | .ok w4 =>
                .ok (((w4.emit (Event.OnItemRemoved self x ItemSlot.SlotName)).emit
                  (Event.OnInventoryChanged self)), true)

/-- Source function `AInventoryItem::RemoveItem`. -/
def RemoveItem (fuel : Nat) (w : World) (self : Nat) (ItemToRemove : Option Nat) :
    Except Fault (World × Bool) :=
  match w.items[self]? with
  | none => .error .crash
  | some me =>
    match ItemToRemove with
    | none => .ok (w, false)
    | some x =>
      if me.Role < ROLE_Authority then .ok (w, false)
      else
        match w.items[x]? with
        | none => .error .crash
        | some item => RemoveItemFromSlot fuel w self ItemToRemove item.OwnerSlotName

/-- A range-based `for` whose body threads an output array. -/
def forEachOut {α : Type} (body : List Nat → α → Except Fault (List Nat)) :
    List α → List Nat → Except Fault (List Nat)
  | [], out => .ok out
  | a :: rest, out =>
    match body out a with
    | .ok out1 => forEachOut body rest out1
    | .error e => .error e

/-- Source function `AInventoryItem::GetInventoryItems`; the result is the new content of
`OutItems`. -/
def GetInventoryItems : Nat → World → Nat → Bool → Bool → List Nat → Except Fault (List Nat)
  | 0, _, _, _, _, _ => .error .fuel
  | fuel + 1, w, self, bIncludeSelf, bPropagateToChildren, OutItems =>
    match w.items[self]? with
    | none => .error .crash
    | some me =>
      forEachOut
        (fun out (Slot : FItemSlot) =>
          forEachOut
            (fun out1 Item =>
              if bPropagateToChildren = true then
                GetInventoryItems fuel w Item false true (out1 ++ [Item])
              else .ok (out1 ++ [Item]))
            Slot.InventoryItems out)
        me.ItemSlots (if bIncludeSelf = true then OutItems ++ [self] else OutItems)

/-- Source function `AInventoryItem::BP_FilterItemsBySlot`; the result is the new content of
`OutItems`. -/
def BP_FilterItemsBySlot (w : World) (SlotName : FName) (InItems : List Nat)
    (OutItems : List Nat) : Except Fault (List Nat) :=
  forEachOut
    (fun out Item =>
      match w.items[Item]? with
      | none => .error .crash
      | some it => if it.OwnerSlotName = SlotName then .ok (out ++ [Item]) else .ok out)
    InItems OutItems

/-- Source function `AInventoryItem::SetAlternativeAttachToComponent`. -/
def SetAlternativeAttachToComponent (w : World) (self : Nat) (NewComponent : Option Nat) :
    Except Fault World :=
  match w.items[self]? with
  | none => .error .crash
  | some me =>
    forEach
      (fun w2 (Slot : FItemSlot) =>
        forEach (fun w3 Item => SetOwnerItem w3 Item (some self) Slot.SlotName)
          Slot.InventoryItems w2)
      me.ItemSlots (w.store self { me with AlternativeAttachComponent := NewComponent })

/-- Source function `AInventoryItem::OnRep_ItemSlots`. -/
def OnRep_ItemSlots (w : World) (self : Nat) : World :=
  w.emit (Event.OnInventoryChanged self)

/-! ## Propagation scheme

`SetOwnerASC`, `ActivateItem`, `DeactivateItem`, `ShowItem` and `HideItem` share one shape:
an assertion, a guard that returns at once, an edit of the actor itself, and a loop that
calls the same function on the items of some of the actor's slots.  `cascade` is that shape;
each function is shown below to be an instance of it. -/

/-- The four ingredients of a propagating member function. -/
structure Wave where
  pre : AInventoryItem → Bool
  skip : AInventoryItem → Bool
  visit : World → Nat → AInventoryItem → Except Fault World
  descend : FItemSlot → Bool

/-- The common shape of the propagating member functions. -/
def cascade (k : Wave) : Nat → World → Nat → Except Fault World
  | 0, _, _ => .error .fuel
  | fuel + 1, w, self =>
    match w.items[self]? with
    | none => .error .crash
    | some me =>
      if k.pre me = false then .error .crash
      else if k.skip me = true then .ok w
      else
        match k.visit w self me with
        | .error e => .error e
        | .ok w1 =>
          forEach
            (fun w2 (Slot : FItemSlot) =>
              if k.descend Slot = true then
                forEach (fun w3 Item => cascade k fuel w3 Item) Slot.InventoryItems w2
              else .ok w2)
            me.ItemSlots w1

/-- Function `SetOwnerASC` as a wave. -/
def setOwnerWave (NewASC : Option Nat) : Wave where
  pre := fun me => me.ItemData.isSome
  skip := fun me => !(decide (me.Role = ROLE_Authority ∧ me.OwnerASC ≠ NewASC))
  visit := fun w self me =>
    match me.ItemData with
    | none => .error .crash
    | some data => .ok (SetOwnerASC.body w self me data NewASC)
  descend := fun _ => true

/-- Function `ActivateItem` as a wave. -/
def activateWave : Wave where
  pre := fun _ => true
  skip := fun me => decide (me.bIsItemActive = true ∨ me.Role < ROLE_Authority)
  visit := ActivateItem.body
  descend := fun Slot => Slot.bActivateItem

/-- Function `DeactivateItem` as a wave. -/
def deactivateWave : Wave where
  pre := fun _ => true
  skip := fun me => decide (me.bIsItemActive = false ∨ me.Role < ROLE_Authority)
  visit := fun w self me => .ok (DeactivateItem.body w self me)
  descend := fun _ => true

/-- Function `ShowItem` as a wave. -/
def showWave : Wave where
  pre := fun _ => true
  skip := fun me => me.bIsItemVisible
  visit := fun w self me => .ok (ShowItem.body w self me)
  descend := fun Slot => Slot.bShowItem

/-- Function `HideItem` as a wave. -/
def hideWave : Wave where
  pre := fun _ => true
  skip := fun me => !me.bIsItemVisible
  visit := fun w self me => .ok (HideItem.body w self me)
  descend := fun _ => true

/-- A range-based `for` whose body also reports the actors it edited. -/
def forEachTrace {α : Type} (body : World → α → Except Fault (World × List Nat)) :
    List α → World → Except Fault (World × List Nat)
  | [], w => .ok (w, [])
  | a :: rest, w =>
    match body w a with
    | .error e => .error e
    | .ok r1 =>
      match forEachTrace body rest r1.1 with
      | .error e => .error e
      | .ok r2 => .ok (r2.1, r1.2 ++ r2.2)

/-- The propagation `cascade`, made to report as well the actors it writes to, one entry per
write, in the order of the writes: an actor is entered each time the guard does not return
on it and `visit` edits it. The world it returns is the one `cascade` returns. -/
def cascadeTrace (k : Wave) : Nat → World → Nat → Except Fault (World × List Nat)
  | 0, _, _ => .error .fuel
  | fuel + 1, w, self =>
    match w.items[self]? with
    | none => .error .crash
    | some me =>
      if k.pre me = false then .error .crash
      else if k.skip me = true then .ok (w, [])
      else
        match k.visit w self me with
        | .error e => .error e
        | .ok w1 =>
          match forEachTrace
            (fun w2 (Slot : FItemSlot) =>
              if k.descend Slot = true then
                forEachTrace (fun w3 Item => cascadeTrace k fuel w3 Item) Slot.InventoryItems w2
              else .ok (w2, []))
            me.ItemSlots w1 with
          | .error e => .error e
          | .ok r => .ok (r.1, self :: r.2)

/-- Number of actors a wave has not settled yet. -/
def pending (k : Wave) (w : World) : Nat :=
  w.items.countP (fun it => !k.skip it)

/-- What a wave's edit does: it overwrites the visited actor only, keeps its slots, and
leaves it in a state the guard returns on. -/
structure Wave.Spec (k : Wave) (edit : AInventoryItem → AInventoryItem → Prop) : Prop where
  sound : ∀ w self me w1, w.items[self]? = some me → k.pre me = true → k.skip me = false →
    k.visit w self me = .ok w1 → ∃ me1, w1.items = w.items.set self me1 ∧ edit me me1
  slots : ∀ me me1, edit me me1 → me1.ItemSlots = me.ItemSlots
  settled : ∀ me me1, edit me me1 → k.skip me1 = true

/-- Every actor of `w` is still there in `w1` and is related to its former self by `T`. -/
@[reducible] def NodeRel (T : AInventoryItem → AInventoryItem → Prop) (w w1 : World) : Prop :=
  w1.items.length = w.items.length ∧
    ∀ (i : Nat) (it : AInventoryItem), w.items[i]? = some it →
      ∃ it1, w1.items[i]? = some it1 ∧ T it it1

/-- Every item held in a slot is an actor of the world and satisfies `good`. -/
@[reducible] def Closed (good : AInventoryItem → Prop) (w : World) : Prop :=
  ∀ (i : Nat) (it : AInventoryItem), w.items[i]? = some it →
    ∀ slot ∈ it.ItemSlots, ∀ x ∈ slot.InventoryItems,
      ∃ itx, w.items[x]? = some itx ∧ good itx

/-- The edit `SetOwnerASC` makes to the actor it is called on. -/
def setOwnerEdit (NewASC : Option Nat) (me me1 : AInventoryItem) : Prop :=
  ∃ pa pe, me1 =
    { me with OwnerASC := NewASC, PassiveAbilitiesHandles := pa, PassiveEffectsHandles := pe }

/-- The edit `ActivateItem` makes to the actor it is called on. -/
def activateEdit (me me1 : AInventoryItem) : Prop :=
  ∃ aa ae, me1 =
    { me with bIsItemActive := true, ActiveAbilitiesHandles := aa, ActiveEffectsHandles := ae }

/-- The edit `DeactivateItem` makes to the actor it is called on. -/
def deactivateEdit (me me1 : AInventoryItem) : Prop :=
  me1 = { me with bIsItemActive := false }

/-- The edit `ShowItem` makes to the actor it is called on. -/
def showEdit (me me1 : AInventoryItem) : Prop :=
  me1 = { me with bIsItemVisible := true }

/-- The edit `HideItem` makes to the actor it is called on. -/
def hideEdit (me me1 : AInventoryItem) : Prop :=
  me1 = { me with bIsItemVisible := false }

/-! ## Vocabulary of the properties -/

/-- The part of an actor that no propagating function writes. -/
def shape (it : AInventoryItem) : ENetRole × Option UItemData × List FItemSlot :=
  (it.Role, it.ItemData, it.ItemSlots)

/-- What an actor is: its role and its asset, which no containment request changes. -/
def kind (it : AInventoryItem) : ENetRole × Option UItemData :=
  (it.Role, it.ItemData)

/-- Every pointer held in a slot refers to an actor of the arena. -/
def World.Linked (w : World) : Prop :=
  ∀ it ∈ w.items, ∀ slot ∈ it.ItemSlots, ∀ x ∈ slot.InventoryItems, x < w.items.length

instance (w : World) : Decidable w.Linked := by
  unfold World.Linked
  infer_instance

/-- Every pointer held in a slot refers to an actor of the arena that has item data. -/
def World.Templated (w : World) : Prop :=
  ∀ it ∈ w.items, ∀ slot ∈ it.ItemSlots, ∀ x ∈ slot.InventoryItems,
    (w.items[x]?.bind (fun itx => itx.ItemData)).isSome = true

instance (w : World) : Decidable w.Templated := by
  unfold World.Templated
  infer_instance

/-- The item array of the slot that `FindSlotByName` resolves `SlotName` to on actor `n`. -/
def slotItems (w : World) (n : Nat) (SlotName : FName) : List Nat :=
  match w.items[n]? with
  | none => []
  | some me =>
    match FindSlotByName me SlotName with
    | none => []
    | some ItemSlot => ItemSlot.InventoryItems

/-- How many entries of the slot arrays of one actor point to `x`. -/
def slotCount (x : Nat) (slots : List FItemSlot) : Nat :=
  (slots.map (fun Slot => Slot.InventoryItems.count x)).sum

/-- How many entries of all slot arrays of all actors point to `x`. -/
def occurrences (w : World) (x : Nat) : Nat :=
  (w.items.map (fun it => slotCount x it.ItemSlots)).sum

/-- No slot holds more items than its capacity. -/
def World.WithinCapacity (w : World) : Prop :=
  ∀ it ∈ w.items, ∀ slot ∈ it.ItemSlots, (slot.InventoryItems.length : Int) ≤ slot.ItemCapacity

instance (w : World) : Decidable w.WithinCapacity := by
  unfold World.WithinCapacity
  infer_instance

/-- A containment request. -/
inductive Call where
  | add (node : Nat) (item : Option Nat) (slot : FName)
  | remove (node : Nat) (item : Option Nat) (slot : FName)
deriving DecidableEq, Repr

/-- Issue one containment request. -/
def applyCall (fuel : Nat) (w : World) : Call → Except Fault (World × Bool)
  | .add n x s => AddItemToSlot fuel w n x s
  | .remove n x s => RemoveItemFromSlot fuel w n x s

/-- Issue a sequence of containment requests, ignoring the boolean results. -/
def run (fuel : Nat) : World → List Call → Except Fault World
  | w, [] => .ok w
  | w, c :: rest =>
    match applyCall fuel w c with
    | .error e => .error e
    | .ok r => run fuel r.1 rest

/-- A request that cannot give an item a second place: a removal, or an insertion of an item
that is held nowhere or is already in the slot it is inserted into. -/
def Call.Disciplined (w : World) : Call → Prop
  | .add n x s =>
    match x with
    | none => True
    | some i => occurrences w i = 0 ∨ i ∈ slotItems w n s
  | .remove _ _ _ => True

instance (w : World) (c : Call) : Decidable (c.Disciplined w) := by
  cases c with
  | add n x s =>
    cases x with
    | none => exact isTrue trivial
    | some i =>
      unfold Call.Disciplined
      infer_instance
  | remove n x s => exact isTrue trivial

/-- Every request of the sequence is disciplined in the state it is issued in. -/
def Disciplined (fuel : Nat) : World → List Call → Bool
  | _, [] => true
  | w, c :: rest =>
    decide (c.Disciplined w) &&
      match applyCall fuel w c with
      | .error _ => true
      | .ok r => Disciplined fuel r.1 rest

/-- No slot of any actor holds an item. -/
def World.Empty (w : World) : Prop :=
  ∀ it ∈ w.items, ∀ slot ∈ it.ItemSlots, slot.InventoryItems = []

instance (w : World) : Decidable w.Empty := by
  unfold World.Empty
  infer_instance

/-- Reached from `p` by descending, from an actor the wave's guard does not return on, into
the items of a slot the wave loops over; `p` itself is reached. -/
inductive Chain (k : Wave) (w : World) : Nat → Nat → Prop where
  | root (p : Nat) : Chain k w p p
  | step (p z c : Nat) (it : AInventoryItem) (slot : FItemSlot) :
      Chain k w p z → w.items[z]? = some it → k.skip it = false →
      slot ∈ it.ItemSlots → k.descend slot = true → c ∈ slot.InventoryItems →
      Chain k w p c

/-- Actor `p` itself or an actor contained in `p`, directly or through other actors. -/
inductive Under (w : World) : Nat → Nat → Prop where
  | root (p : Nat) : Under w p p
  | step (p z c : Nat) (it : AInventoryItem) (slot : FItemSlot) :
      Under w p z → w.items[z]? = some it → slot ∈ it.ItemSlots →
      c ∈ slot.InventoryItems → Under w p c

/-- The wave's guard returns on actor `c` in world `v`. -/
@[reducible] def Settled (k : Wave) (c : Nat) (v : World) : Prop :=
  ∃ it, v.items[c]? = some it ∧ k.skip it = true

/-- Every actor the guard did not return on in `w` and returns on in `w1` has had the items
of its looped-over slots settled. -/
@[reducible] def Swept (k : Wave) (w w1 : World) : Prop :=
  ∀ (z : Nat) (it it1 : AInventoryItem), w.items[z]? = some it → k.skip it = false →
    w1.items[z]? = some it1 → k.skip it1 = true →
    ∀ slot ∈ it.ItemSlots, k.descend slot = true → ∀ c ∈ slot.InventoryItems, Settled k c w1

/-- What every wave does to an actor: it keeps the slots, leaves an actor its guard returns
on as it is, and either leaves an actor as it is or turns it into one its guard returns
on. -/
@[reducible] def Steady (k : Wave) (a b : AInventoryItem) : Prop :=
  b.ItemSlots = a.ItemSlots ∧ (k.skip a = true → b = a) ∧ (k.skip b = false → b = a)

/-- What a run of a wave from `w` to `w1` that wrote to the actors `t` has done: every actor
is written at most once, an actor not written is as before, and a written actor is the edit
of what it was. -/
@[reducible] def Once (k : Wave) (edit : AInventoryItem → AInventoryItem → Prop)
    (w w1 : World) (t : List Nat) : Prop :=
  NodeRel (Steady k) w w1 ∧ t.Nodup ∧
    (∀ i, i ∉ t → w1.items[i]? = w.items[i]?) ∧
    ∀ i ∈ t, ∃ it it1, w.items[i]? = some it ∧ w1.items[i]? = some it1 ∧
      k.skip it = false ∧ edit it it1

/-- The direct contents of actor `n`: the items of its slots, slot after slot in declaration
order and, within a slot, in array order. -/
def directContents (w : World) (n : Nat) : List Nat :=
  match w.items[n]? with
  | none => []
  | some me => me.ItemSlots.flatMap (fun Slot => Slot.InventoryItems)

/-- The depth-first pre-order listing in the words of the specification, down to depth `d`:
every directly contained item, each followed by its own expansion without the item itself.
This is the specification's side of the comparison with `GetInventoryItems`. -/
def specPreorder : Nat → World → Nat → List Nat
  | 0, _, _ => []
  | d + 1, w, n => (directContents w n).flatMap (fun x => x :: specPreorder d w x)

/-- The containment is well founded: `rank` is strictly smaller on every item than on the
actor that holds it, as the depth below a node is in a finite tree. -/
@[reducible] def Ranked (w : World) (rank : Nat → Nat) : Prop :=
  ∀ (z : Nat) (itz : AInventoryItem) (slot : FItemSlot) (c : Nat), w.items[z]? = some itz →
    slot ∈ itz.ItemSlots → c ∈ slot.InventoryItems → rank c < rank z

/-- Everything of an actor except its back-reference (`OwnerInventoryItem`, `OwnerSlotName`)
and its `AlternativeAttachComponent`. -/
def standing (it : AInventoryItem) :
    ENetRole × Option Nat × Option UItemData × Option Nat × Bool × Bool × List Nat × List Nat ×
      List Nat × List Nat × List FItemSlot :=
  (it.Role, it.RootComponent, it.ItemData, it.OwnerASC, it.bIsItemActive, it.bIsItemVisible,
    it.ActiveAbilitiesHandles, it.ActiveEffectsHandles, it.PassiveAbilitiesHandles,
    it.PassiveEffectsHandles, it.ItemSlots)

/-- The back-reference of the actor at `i` is to a slot of the actor at `n`, with slots
`slots`, that lists `i`. -/
@[reducible] def Placed (n : Nat) (slots : List FItemSlot) (i : Nat) (it : AInventoryItem) :
    Prop :=
  it.OwnerInventoryItem = some n ∧
    ∃ slot ∈ slots, i ∈ slot.InventoryItems ∧ it.OwnerSlotName = slot.SlotName

/-- What the loop of `SetAlternativeAttachToComponent` on the actor at `n` may do to the
actors: each keeps everything but its back-reference, and is either as before or placed. -/
@[reducible] def Reattached (n : Nat) (slots : List FItemSlot) (v v1 : World) : Prop :=
  v1.items.length = v.items.length ∧
    ∀ (i : Nat) (it : AInventoryItem), v.items[i]? = some it →
      ∃ it1, v1.items[i]? = some it1 ∧ standing it1 = standing it ∧
        it1.AlternativeAttachComponent = it.AlternativeAttachComponent ∧
        (it1 = it ∨ Placed n slots i it1)

/-- Among the actors under `n`, no active actor sits in a slot of an inactive one. -/
@[reducible] def DownClosed (w : World) (n : Nat) : Prop :=
  ∀ (z : Nat) (itz : AInventoryItem) (slot : FItemSlot) (c : Nat) (itc : AInventoryItem),
    Under w n z → w.items[z]? = some itz → itz.bIsItemActive = false →
    slot ∈ itz.ItemSlots → c ∈ slot.InventoryItems → w.items[c]? = some itc →
    itc.bIsItemActive = false

/-- The log of the second world extends the log of the first. -/
@[reducible] def LogGrows (a b : World) : Prop := ∃ ext, b.log = a.log ++ ext

/-- The `GiveAbility` calls of one `GiveAbilitiesToASC`, the first returning handle `h`. -/
def giveEvents (asc : Nat) : List Nat → Nat → List Event
  | [], _ => []
  | c :: rest, h => Event.GiveAbility asc c h :: giveEvents asc rest (h + 1)

/-- The `ApplyGameplayEffectToSelf` calls of one `ApplyEffectsToASC`, the first returning
handle `h`. -/
def applyEvents (asc : Nat) : List Nat → Nat → List Event
  | [], _ => []
  | c :: rest, h => Event.ApplyGameplayEffectToSelf asc c h :: applyEvents asc rest (h + 1)

/-- The `ClearAbility` calls of one `RemoveAbilitiesFromASC`. -/
def clearEvents (asc : Nat) (handles : List Nat) : List Event :=
  handles.map (Event.ClearAbility asc)

/-- The `RemoveActiveGameplayEffect` calls of one `RemoveEffectsFromASC`. -/
def removeEvents (asc : Nat) (handles : List Nat) : List Event :=
  handles.map (Event.RemoveActiveGameplayEffect asc)

/-- The calls of the revoke pass of `SetOwnerASC` on the actor `me` owned by `asc`, in the
order the four arrays are walked. -/
def revokeAll (asc : Nat) (me : AInventoryItem) : List Event :=
  clearEvents asc me.ActiveAbilitiesHandles ++ clearEvents asc me.PassiveAbilitiesHandles ++
    removeEvents asc me.ActiveEffectsHandles ++ removeEvents asc me.PassiveEffectsHandles

/-- A grant made to ability system `asc`. -/
def Event.isGrantTo (asc : Nat) : Event → Bool
  | .GiveAbility a _ _ => decide (a = asc)
  | .ApplyGameplayEffectToSelf a _ _ => decide (a = asc)
  | _ => false

/-- A revoke issued against ability system `asc`. -/
def Event.isRevokeFrom (asc : Nat) : Event → Bool
  | .ClearAbility a _ => decide (a = asc)
  | .RemoveActiveGameplayEffect a _ => decide (a = asc)
  | _ => false

/-- Number of grants made to `asc` in a stretch of the call log. -/
def grantsTo (asc : Nat) (log : List Event) : Nat :=
  log.countP (Event.isGrantTo asc)

/-- Number of revokes issued against `asc` in a stretch of the call log. -/
def revokesFrom (asc : Nat) (log : List Event) : Nat :=
  log.countP (Event.isRevokeFrom asc)

/-- The calls made to `asc` in a stretch of the call log, in order. -/
def callsTo (asc : Nat) (log : List Event) : List Event :=
  log.filter (fun e => e.isGrantTo asc || e.isRevokeFrom asc)

/-- The ability system of an actor and its two arrays of active handles. -/
def activeGrants (it : AInventoryItem) : Option Nat × List Nat × List Nat :=
  (it.OwnerASC, it.ActiveAbilitiesHandles, it.ActiveEffectsHandles)

/-- The ability system of an actor and its two arrays of passive handles. -/
def passiveGrants (it : AInventoryItem) : Option Nat × List Nat × List Nat :=
  (it.OwnerASC, it.PassiveAbilitiesHandles, it.PassiveEffectsHandles)

/-- A call that is no grant and that, if it is a revoke, revokes a handle held in an active
handle array of an actor of `w` owned by the ability system the revoke goes to. -/
def Event.SparesPassive (w : World) : Event → Prop
  | .ClearAbility a h =>
    ∃ (z : Nat) (itz : AInventoryItem),
      w.items[z]? = some itz ∧ itz.OwnerASC = some a ∧ h ∈ itz.ActiveAbilitiesHandles
  | .RemoveActiveGameplayEffect a h =>
    ∃ (z : Nat) (itz : AInventoryItem),
      w.items[z]? = some itz ∧ itz.OwnerASC = some a ∧ h ∈ itz.ActiveEffectsHandles
  | .GiveAbility _ _ _ => False
  | .ApplyGameplayEffectToSelf _ _ _ => False
  | _ => True

/-- From `v` to `v1` the ability systems and active handle arrays are kept and only calls
that spare the passive grants are recorded. -/
@[reducible] def Spares (v v1 : World) : Prop :=
  v1.items.map activeGrants = v.items.map activeGrants ∧
    ∃ ext, v1.log = v.log ++ ext ∧ ∀ e ∈ ext, e.SparesPassive v

/-- Actor `z` lists `c` in one of its slots. -/
@[reducible] def Holds (w : World) (z c : Nat) : Prop :=
  ∃ (itz : AInventoryItem) (slot : FItemSlot),
    w.items[z]? = some itz ∧ slot ∈ itz.ItemSlots ∧ c ∈ slot.InventoryItems

/-- There is a chain of `d` containment steps down from actor `n`: `n` lists an item, which
lists an item, and so on, `d` times. -/
inductive Descent (w : World) : Nat → Nat → Prop where
  | here (n : Nat) : Descent w n 0
  | down (n c d : Nat) : Holds w n c → Descent w c d → Descent w n (d + 1)

/-- The depth of the containment below actor `n` is `h`: the longest chain of containment
steps down from `n` has `h` steps. -/
@[reducible] def IsDepth (w : World) (n h : Nat) : Prop :=
  Descent w n h ∧ ∀ d, Descent w n d → d ≤ h

/-- A request to one of the four containment functions. -/
inductive Request where
  | addItem (node : Nat) (item : Option Nat)
  | addItemToSlot (node : Nat) (item : Option Nat) (slot : FName)
  | removeItem (node : Nat) (item : Option Nat)
  | removeItemFromSlot (node : Nat) (item : Option Nat) (slot : FName)
deriving DecidableEq, Repr

/-- Issue one request. -/
def perform (fuel : Nat) (w : World) : Request → Except Fault (World × Bool)
  | .addItem n x => AddItem fuel w n x
  | .addItemToSlot n x s => AddItemToSlot fuel w n x s
  | .removeItem n x => RemoveItem fuel w n x
  | .removeItemFromSlot n x s => RemoveItemFromSlot fuel w n x s

/-- Issue a sequence of requests, ignoring the boolean results. -/
def serve (fuel : Nat) : World → List Request → Except Fault World
  | w, [] => .ok w
  | w, r :: rest =>
    match perform fuel w r with
    | .error e => .error e
    | .ok res => serve fuel res.1 rest

/-- A request that cannot close a loop: a removal, or an insertion of an item into an actor
that is neither the item itself nor contained in it, directly or through other actors. -/
def Request.Orderly (w : World) : Request → Prop
  | .addItem n (some x) => ¬ Under w x n
  | .addItemToSlot n (some x) _ => ¬ Under w x n
  | _ => True

/-- Every request of the sequence is orderly in the state it is issued in. -/
def Orderly (fuel : Nat) : World → List Request → Prop
  | _, [] => True
  | w, r :: rest =>
    r.Orderly w ∧ ∀ res, perform fuel w r = .ok res → Orderly fuel res.1 rest

/-! ## Sample worlds -/

/-- Category tag "Weapon". -/
def weaponTag : FGameplayTag := ⟨1⟩

/-- Category tag "Consumable". -/
def consumableTag : FGameplayTag := ⟨2⟩

/-- Size tag "Small". -/
def smallTag : FGameplayTag := ⟨3⟩

/-- A weapon asset with one grant of each kind and no slots. -/
def weaponData : UItemData :=
  { ItemName := 10, ItemCategory := weaponTag, ItemSize := smallTag,
    PassiveAbilities := [11], PassiveEffects := [12], ActiveAbilities := [13],
    ActiveEffects := [14], InventoryItemClass := none, ItemSlots := [] }

/-- A slot for small weapons, of capacity 1, that activates and shows its items. -/
def weaponSlot (name : FName) : FItemSlot :=
  { SlotName := name, AllowedItemCategories := ⟨[weaponTag], []⟩,
    AllowedItemSizes := ⟨[smallTag], []⟩, ItemCapacity := 1,
    bActivateItem := true, bShowItem := true }

/-- A slot for small consumables, of capacity 5. -/
def consumableSlot (name : FName) : FItemSlot :=
  { SlotName := name, AllowedItemCategories := ⟨[consumableTag], []⟩,
    AllowedItemSizes := ⟨[smallTag], []⟩, ItemCapacity := 5 }

/-- A freshly spawned authoritative actor. -/
def freshItem : AInventoryItem :=
  { Role := ROLE_Authority, RootComponent := some 50, ItemData := none, OwnerASC := none,
    OwnerInventoryItem := none, OwnerSlotName := NAME_None, bIsItemActive := false,
    bIsItemVisible := false, ActiveAbilitiesHandles := [], ActiveEffectsHandles := [],
    PassiveAbilitiesHandles := [], PassiveEffectsHandles := [], ItemSlots := [],
    AlternativeAttachComponent := none }

/-- A detached weapon. -/
def weaponItem : AInventoryItem :=
  { freshItem with ItemData := some weaponData }

/-- An active, visible holder owned by ability system 7, with weapon slots 1 and 2 and
consumable slot 3. -/
def holderItem : AInventoryItem :=
  { freshItem with
    ItemData := some { weaponData with ItemSlots := [weaponSlot 1, weaponSlot 2, consumableSlot 3] },
    ItemSlots := [weaponSlot 1, weaponSlot 2, consumableSlot 3],
    OwnerASC := some 7, bIsItemActive := true, bIsItemVisible := true }

/-- The holder at 0 and two detached weapons at 1 and 2. -/
def sampleWorld : World :=
  { items := [holderItem, weaponItem, weaponItem], log := [], nextHandle := 100 }

/-- The sample world seen from a client: the holder is a simulated proxy. -/
def clientWorld : World :=
  { items := [{ holderItem with Role := 1 }, weaponItem, weaponItem], log := [],
    nextHandle := 100 }

/-- A holder whose only slot is for consumables and already lists the weapon at 1. -/
def misfiledWorld : World :=
  { items := [{ holderItem with
                ItemSlots := [{ consumableSlot 3 with InventoryItems := [1] }] },
              weaponItem],
    log := [], nextHandle := 100 }

/-- The sample world after the holder's `AddItemToSlot` of the weapon at 1 into slot 1. -/
def stockedWorld : World :=
  { items :=
      [{ holderItem with
          ItemSlots := [{ weaponSlot 1 with InventoryItems := [1] }, weaponSlot 2,
            consumableSlot 3] },
       { weaponItem with
          OwnerASC := some 7, OwnerInventoryItem := some 0, OwnerSlotName := 1,
          bIsItemActive := true, bIsItemVisible := true,
          ActiveAbilitiesHandles := [102], ActiveEffectsHandles := [103],
          PassiveAbilitiesHandles := [100], PassiveEffectsHandles := [101] },
       weaponItem],
    log :=
      [Event.GiveAbility 7 11 100, Event.ApplyGameplayEffectToSelf 7 12 101,
       Event.AttachToComponent 1 (some 50) 1, Event.GiveAbility 7 13 102,
       Event.ApplyGameplayEffectToSelf 7 14 103, Event.BP_OnActivateItem 1,
       Event.SetHiddenInGame 50 false, Event.BP_OnShowItem 1, Event.OnItemAdded 0 1 1,
       Event.OnInventoryChanged 0],
    nextHandle := 104 }

/-- A lone detached weapon. -/
def loneWorld : World :=
  { items := [weaponItem], log := [], nextHandle := 100 }

/-- Three nested actors: the active holder owned by 7 at 0 holds in slot 1 an inactive crate
owned by 8 at 1, which holds in its own slot 1 an active weapon owned by 7 at 2. -/
def nestedWorld : World :=
  { items :=
      [{ holderItem with
          ItemSlots := [{ weaponSlot 1 with InventoryItems := [1] }, weaponSlot 2,
            consumableSlot 3] },
       { weaponItem with
          ItemData := some { weaponData with ItemSlots := [weaponSlot 1] },
          ItemSlots := [{ weaponSlot 1 with InventoryItems := [2] }],
          OwnerASC := some 8, OwnerInventoryItem := some 0, OwnerSlotName := 1 },
       { weaponItem with
          OwnerASC := some 7, OwnerInventoryItem := some 1, OwnerSlotName := 1,
          bIsItemActive := true }],
    log := [], nextHandle := 100 }

/-- A second holder at 2 holds the weapon at 1 in its slot 1; the holder at 0 holds
nothing. -/
def rivalWorld : World :=
  { items :=
      [holderItem,
       { weaponItem with
          OwnerASC := some 7, OwnerInventoryItem := some 2, OwnerSlotName := 1,
          bIsItemActive := true, bIsItemVisible := true,
          ActiveAbilitiesHandles := [102], ActiveEffectsHandles := [103],
          PassiveAbilitiesHandles := [100], PassiveEffectsHandles := [101] },
       { holderItem with
          ItemSlots := [{ weaponSlot 1 with InventoryItems := [1] }, weaponSlot 2,
            consumableSlot 3] }],
    log := [], nextHandle := 104 }

/-- An inactive, hidden holder owned by 7 at 0, with the inactive, hidden weapon at 1 in
slot 1, which activates and shows its items, and the inactive, hidden weapon at 2 in slot 3,
which does neither. -/
def idleWorld : World :=
  { items :=
      [{ holderItem with
          bIsItemActive := false, bIsItemVisible := false,
          ItemSlots := [{ weaponSlot 1 with InventoryItems := [1] },
            { consumableSlot 3 with InventoryItems := [2] }] },
       { weaponItem with OwnerASC := some 7, OwnerInventoryItem := some 0, OwnerSlotName := 1 },
       { weaponItem with OwnerASC := some 7, OwnerInventoryItem := some 0, OwnerSlotName := 3 }],
    log := [], nextHandle := 100 }

/-- The same holder and weapons as in `idleWorld`, all three active and visible. -/
def busyWorld : World :=
  { items :=
      [{ holderItem with
          ItemSlots := [{ weaponSlot 1 with InventoryItems := [1] },
            { consumableSlot 3 with InventoryItems := [2] }] },
       { weaponItem with
          OwnerASC := some 7, OwnerInventoryItem := some 0, OwnerSlotName := 1,
          bIsItemActive := true, bIsItemVisible := true },
       { weaponItem with
          OwnerASC := some 7, OwnerInventoryItem := some 0, OwnerSlotName := 3,
          bIsItemActive := true, bIsItemVisible := true }],
    log := [], nextHandle := 100 }

/-- The actors of `idleWorld` seen from a client: all three are simulated proxies. -/
def mirrorWorld : World :=
  { idleWorld with items := idleWorld.items.map (fun it => { it with Role := 1 }) }

/-- Two inactive, hidden holders that hold each other: the holder at 0 lists the holder at 1
in its slots 1 and 2, and the holder at 1 lists the holder at 0 in its slot 1. -/
def knotWorld : World :=
  { items :=
      [{ holderItem with
          bIsItemActive := false, bIsItemVisible := false,
          ItemSlots := [{ weaponSlot 1 with InventoryItems := [1] },
            { weaponSlot 2 with InventoryItems := [1] }, consumableSlot 3] },
       { holderItem with
          bIsItemActive := false, bIsItemVisible := false,
          OwnerInventoryItem := some 0, OwnerSlotName := 2,
          ItemSlots := [{ weaponSlot 1 with InventoryItems := [0] }, weaponSlot 2,
            consumableSlot 3] }],
    log := [], nextHandle := 100 }

end GASInventory

/-! # ProceduralGenerator.cpp

The quads of `Source/Portfolio/Public/ProceduralGenerator.h` and the two resize functions of
`UGeneratorLibrary`, over an ordered field `K` in the place of `float`. -/

namespace ProceduralGenerator

/-- Engine type `FVector2D`, over a field `K` standing for `float`. -/
structure FVector2D (K : Type) where
  X : K
  Y : K
deriving DecidableEq, Repr

/-- Engine `FVector2D::operator+`. -/
instance {K : Type} [Add K] : Add (FVector2D K) := ⟨fun v u => ⟨v.X + u.X, v.Y + u.Y⟩⟩

/-- Engine `FVector2D::operator-`. -/
instance {K : Type} [Sub K] : Sub (FVector2D K) := ⟨fun v u => ⟨v.X - u.X, v.Y - u.Y⟩⟩

/-- Engine `FVector2D::operator*(float)`. -/
instance {K : Type} [Mul K] : HMul (FVector2D K) K (FVector2D K) :=
  ⟨fun v s => ⟨v.X * s, v.Y * s⟩⟩

/-- Modelled from the spec: engine `FVector2D::GetSafeNormal`, which is not among the sources:
the normalisation of a vector, returning the zero vector when the squared length is not above
the tolerance. `InvSqrt` is the engine's inverse square root, taken as a parameter. -/
def GetSafeNormal {K : Type} [LinearOrderedField K] (InvSqrt : K → K) (v : FVector2D K)
    (Tolerance : K) : FVector2D K :=
  let SquareSum := v.X * v.X + v.Y * v.Y
  if Tolerance < SquareSum then
    let Scale := InvSqrt SquareSum
    ⟨v.X * Scale, v.Y * Scale⟩
  else ⟨0, 0⟩

/-- Struct `FQuad2D`. -/
structure FQuad2D (K : Type) where
  A : FVector2D K
  B : FVector2D K
  C : FVector2D K
  D : FVector2D K
deriving DecidableEq, Repr

/-- Source function `FQuad2D::GetAB`. -/
def FQuad2D.GetAB {K : Type} [Sub K] (q : FQuad2D K) : FVector2D K := q.B - q.A

/-- Source function `FQuad2D::GetBC`. -/
def FQuad2D.GetBC {K : Type} [Sub K] (q : FQuad2D K) : FVector2D K := q.C - q.B

/-- Source function `FQuad2D::GetCD`. -/
def FQuad2D.GetCD {K : Type} [Sub K] (q : FQuad2D K) : FVector2D K := q.D - q.C

/-- Source function `FQuad2D::GetDA`. -/
def FQuad2D.GetDA {K : Type} [Sub K] (q : FQuad2D K) : FVector2D K := q.A - q.D

/-- The literal `1e-6f` passed to `GetSafeNormal`. -/
def SafeNormalTolerance (K : Type) [LinearOrderedField K] : K := 1 / 1000000

/-- Source function `UGeneratorLibrary::ResizeQuad2D`: every edge is read from `InQuad`. -/
def ResizeQuad2D {K : Type} [LinearOrderedField K] (InvSqrt : K → K) (InQuad : FQuad2D K)
    (Delta : K) : FQuad2D K :=
  let tol := SafeNormalTolerance K
  let ResizedQuad := InQuad
  let ResizedQuad := { ResizedQuad with
    A := ResizedQuad.A + (GetSafeNormal InvSqrt InQuad.GetDA tol * Delta
      + GetSafeNormal InvSqrt InQuad.GetAB tol * Delta * (-1 : K)) }
  let ResizedQuad := { ResizedQuad with
    B := ResizedQuad.B + (GetSafeNormal InvSqrt InQuad.GetAB tol * Delta
      + GetSafeNormal InvSqrt InQuad.GetBC tol * Delta * (-1 : K)) }
  let ResizedQuad := { ResizedQuad with
    C := ResizedQuad.C + (GetSafeNormal InvSqrt InQuad.GetBC tol * Delta
      + GetSafeNormal InvSqrt InQuad.GetCD tol * Delta * (-1 : K)) }
  let ResizedQuad := { ResizedQuad with
    D := ResizedQuad.D + (GetSafeNormal InvSqrt InQuad.GetCD tol * Delta
      + GetSafeNormal InvSqrt InQuad.GetDA tol * Delta * (-1 : K)) }
  ResizedQuad

/-- Source function `UGeneratorLibrary::ResizeQuad2DRef`; the result is the new content of
`InOutQuad`. Each statement reads the edges of the quad as the statements before it left
it. -/
def ResizeQuad2DRef {K : Type} [LinearOrderedField K] (InvSqrt : K → K)
    (InOutQuad : FQuad2D K) (Delta : K) : FQuad2D K :=
  let tol := SafeNormalTolerance K
  let InOutQuad := { InOutQuad with
    A := InOutQuad.A + (GetSafeNormal InvSqrt InOutQuad.GetDA tol * Delta
      + GetSafeNormal InvSqrt InOutQuad.GetAB tol * Delta * (-1 : K)) }
  let InOutQuad := { InOutQuad with
    B := InOutQuad.B + (GetSafeNormal InvSqrt InOutQuad.GetAB tol * Delta
      + GetSafeNormal InvSqrt InOutQuad.GetBC tol * Delta * (-1 : K)) }
  let InOutQuad := { InOutQuad with
    C := InOutQuad.C + (GetSafeNormal InvSqrt InOutQuad.GetBC tol * Delta
      + GetSafeNormal InvSqrt InOutQuad.GetCD tol * Delta * (-1 : K)) }
  let InOutQuad := { InOutQuad with
    D := InOutQuad.D + (GetSafeNormal InvSqrt InOutQuad.GetCD tol * Delta
      + GetSafeNormal InvSqrt InOutQuad.GetDA tol * Delta * (-1 : K)) }
  InOutQuad

/-- The unit square with corners A (0,0), B (1,0), C (1,1), D (0,1). -/
def unitSquare (K : Type) [LinearOrderedField K] : FQuad2D K :=
  ⟨⟨0, 0⟩, ⟨1, 0⟩, ⟨1, 1⟩, ⟨0, 1⟩⟩

end ProceduralGenerator

namespace GASInventory

/-! ## Loops and the propagation scheme -/

theorem forEach_rel {α : Type} (R : World → World → Prop) (hrefl : ∀ w, R w w)
    (htrans : ∀ a b c, R a b → R b c → R a c) (body : World → α → Except Fault World)
    (l : List α) (hbody : ∀ w a w1, a ∈ l → body w a = .ok w1 → R w w1) :
    ∀ w w1, forEach body l w = .ok w1 → R w w1 := by
  induction l with
  | nil =>
    intro w w1 h
    simp only [forEach, Except.ok.injEq] at h
    subst h
    exact hrefl w
  | cons a rest ih =>
    intro w w1 h
    simp only [forEach] at h
    cases hb : body w a with
    | error e => simp [hb] at h
    | ok w2 =>
      simp only [hb] at h
      have h1 := hbody w a w2 (List.mem_cons_self a rest) hb
      have h2 := ih (fun w a w1 ha => hbody w a w1 (List.mem_cons_of_mem _ ha)) w2 w1 h
      exact htrans _ _ _ h1 h2

theorem forEach_total {α : Type} (I : World → Prop) (body : World → α → Except Fault World)
    (l : List α) (hbody : ∀ w a, a ∈ l → I w → ∃ w1, body w a = .ok w1 ∧ I w1) :
    ∀ w, I w → ∃ w1, forEach body l w = .ok w1 ∧ I w1 := by
  induction l with
  | nil => intro w hw; exact ⟨w, rfl, hw⟩
  | cons a rest ih =>
    intro w hw
    obtain ⟨w2, hb, hw2⟩ := hbody w a (List.mem_cons_self a rest) hw
    obtain ⟨w3, hf, hw3⟩ := ih (fun w a ha => hbody w a (List.mem_cons_of_mem _ ha)) w2 hw2
    exact ⟨w3, by simp [forEach, hb, hf], hw3⟩

theorem countP_set_settle {α : Type} (p : α → Bool) :
    ∀ (l : List α) (i : Nat) (a b : α), l[i]? = some a → p a = true → p b = false →
      (l.set i b).countP p + 1 = l.countP p := by
  intro l
  induction l with
  | nil => intro i a b h; simp at h
  | cons c rest ih =>
    intro i a b h ha hb
    cases i with
    | zero =>
      simp only [List.getElem?_cons_zero, Option.some.injEq] at h
      subst h
      simp [List.countP_cons, ha, hb]
    | succ j =>
      simp only [List.getElem?_cons_succ] at h
      have := ih j a b h ha hb
      simp only [List.set_cons_succ, List.countP_cons]
      omega


theorem nodeRel_refl {T : AInventoryItem → AInventoryItem → Prop} (hrefl : ∀ a, T a a)
    (w : World) : NodeRel T w w :=
  ⟨rfl, fun _ it h => ⟨it, h, hrefl it⟩⟩

theorem nodeRel_trans {T : AInventoryItem → AInventoryItem → Prop}
    (htrans : ∀ a b c, T a b → T b c → T a c) (a b c : World)
    (h1 : NodeRel T a b) (h2 : NodeRel T b c) : NodeRel T a c := by
  refine ⟨h2.1.trans h1.1, fun i it h => ?_⟩
  obtain ⟨it1, hb, t1⟩ := h1.2 i it h
  obtain ⟨it2, hc, t2⟩ := h2.2 i it1 hb
  exact ⟨it2, hc, htrans _ _ _ t1 t2⟩

theorem nodeRel_of_set {T : AInventoryItem → AInventoryItem → Prop} (hrefl : ∀ a, T a a)
    (w w1 : World) (self : Nat) (me me1 : AInventoryItem) (hme : w.items[self]? = some me)
    (hset : w1.items = w.items.set self me1) (ht : T me me1) : NodeRel T w w1 := by
  refine ⟨by rw [hset, List.length_set], fun i it h => ?_⟩
  by_cases hi : self = i
  · subst hi
    rw [hme] at h
    cases h
    have hlt : self < w.items.length := by
      rcases List.getElem?_eq_some.mp hme with ⟨hl, _⟩
      exact hl
    exact ⟨me1, by rw [hset, List.getElem?_set_self hlt], ht⟩
  · exact ⟨it, by rw [hset, List.getElem?_set_ne hi]; exact h, hrefl it⟩

theorem cascade_rel (k : Wave) (R : World → World → Prop) (hrefl : ∀ w, R w w)
    (htrans : ∀ a b c, R a b → R b c → R a c)
    (hvisit : ∀ w self me w1, w.items[self]? = some me → k.pre me = true →
      k.skip me = false → k.visit w self me = .ok w1 → R w w1) :
    ∀ fuel w self w1, cascade k fuel w self = .ok w1 → R w w1 := by
  intro fuel
  induction fuel with
  | zero => intro w self w1 h; simp [cascade] at h
  | succ n ih =>
    intro w self w1 h
    simp only [cascade] at h
    cases hme : w.items[self]? with
    | none => simp [hme] at h
    | some me =>
      simp only [hme] at h
      by_cases hp : k.pre me = false
      · simp [hp] at h
      · have hp1 : k.pre me = true := by simpa using hp
        by_cases hs : k.skip me = true
        · simp only [hp1, hs] at h
          simp at h
          subst h
          exact hrefl w
        · have hs1 : k.skip me = false := by simpa using hs
          simp only [hp1, hs1] at h
          simp only [Bool.true_eq_false, Bool.false_eq_true, if_false] at h
          cases hv : k.visit w self me with
          | error e => simp [hv] at h
          | ok w2 =>
            simp only [hv] at h
            have r1 := hvisit w self me w2 hme hp1 hs1 hv
            refine htrans _ _ _ r1 (forEach_rel R hrefl htrans _ _ ?_ w2 w1 h)
            intro w3 slot w4 _ hb
            by_cases hd : k.descend slot = true
            · simp only [hd, if_true] at hb
              exact forEach_rel R hrefl htrans _ _ (fun w5 x w6 _ hx => ih w5 x w6 hx) w3 w4 hb
            · simp only [hd] at hb
              simp at hb
              subst hb
              exact hrefl w3

theorem cascade_nodes (k : Wave) (edit : AInventoryItem → AInventoryItem → Prop)
    (hk : k.Spec edit) (T : AInventoryItem → AInventoryItem → Prop) (hrefl : ∀ a, T a a)
    (htrans : ∀ a b c, T a b → T b c → T a c)
    (hT : ∀ me me1, k.pre me = true → k.skip me = false → edit me me1 → T me me1)
    (fuel : Nat) (w : World) (self : Nat) (w1 : World)
    (h : cascade k fuel w self = .ok w1) : NodeRel T w w1 := by
  refine cascade_rel k (NodeRel T) (nodeRel_refl hrefl) (nodeRel_trans htrans) ?_ fuel w self w1 h
  intro w self me w2 hme hp hs hv
  obtain ⟨me1, hset, he⟩ := hk.sound w self me w2 hme hp hs hv
  exact nodeRel_of_set hrefl w w2 self me me1 hme hset (hT me me1 hp hs he)

theorem cascade_pending (k : Wave) (edit : AInventoryItem → AInventoryItem → Prop)
    (hk : k.Spec edit) (fuel : Nat) (w : World) (self : Nat) (w1 : World)
    (h : cascade k fuel w self = .ok w1) : pending k w1 ≤ pending k w := by
  refine cascade_rel k (fun a b => pending k b ≤ pending k a) (fun _ => Nat.le_refl _)
    (fun a b c h1 h2 => Nat.le_trans h2 h1) ?_ fuel w self w1 h
  intro w self me w2 hme hp hs hv
  obtain ⟨me1, hset, he⟩ := hk.sound w self me w2 hme hp hs hv
  have := countP_set_settle (fun it => !k.skip it) w.items self me me1 hme (by simp [hs])
    (by simp [hk.settled me me1 he])
  simp only [pending, hset]
  omega

theorem closed_of_nodeRel (good : AInventoryItem → Prop) (w w1 : World)
    (h : NodeRel (fun a b => b.ItemSlots = a.ItemSlots ∧ (good a → good b)) w w1)
    (hc : Closed good w) : Closed good w1 := by
  intro i it1 hi slot hslot x hx
  have hlt : i < w.items.length := by
    rcases List.getElem?_eq_some.mp hi with ⟨hl, _⟩
    rw [h.1] at hl
    exact hl
  obtain ⟨it2, h2, hs, _⟩ := h.2 i w.items[i] (List.getElem?_eq_getElem hlt)
  rw [hi] at h2
  cases h2
  rw [hs] at hslot
  obtain ⟨itx, hx1, hg⟩ := hc i _ (List.getElem?_eq_getElem hlt) slot hslot x hx
  obtain ⟨itx1, hx2, _, hg1⟩ := h.2 x itx hx1
  exact ⟨itx1, hx2, hg1 hg⟩

theorem cascade_total (k : Wave) (edit : AInventoryItem → AInventoryItem → Prop)
    (hk : k.Spec edit) (good : AInventoryItem → Prop)
    (hpre : ∀ me, good me → k.pre me = true)
    (hvis : ∀ w self me, w.items[self]? = some me → good me → k.skip me = false →
      ∃ w1, k.visit w self me = .ok w1)
    (hkeep : ∀ me me1, edit me me1 → good me → good me1) :
    ∀ fuel w self me, Closed good w → w.items[self]? = some me → good me →
      pending k w < fuel → ∃ w1, cascade k fuel w self = .ok w1 := by
  have keep : ∀ fuel w self w1, cascade k fuel w self = .ok w1 →
      NodeRel (fun a b => b.ItemSlots = a.ItemSlots ∧ (good a → good b)) w w1 := by
    intro fuel w self w1 h
    exact cascade_nodes k edit hk _ (fun a => ⟨rfl, id⟩)
      (fun a b c h1 h2 => ⟨h2.1.trans h1.1, fun g => h2.2 (h1.2 g)⟩)
      (fun me me1 _ _ he => ⟨hk.slots me me1 he, hkeep me me1 he⟩) fuel w self w1 h
  intro fuel
  induction fuel with
  | zero => intro w self me _ _ _ hlt; omega
  | succ n ih =>
    intro w self me hc hme hg hlt
    have hp1 := hpre me hg
    simp only [cascade, hme, hp1]
    by_cases hs : k.skip me = true
    · exact ⟨w, by simp [hs]⟩
    · have hs1 : k.skip me = false := by simpa using hs
      obtain ⟨w2, hv⟩ := hvis w self me hme hg hs1
      obtain ⟨me1, hset, he⟩ := hk.sound w self me w2 hme hp1 hs1 hv
      have hcount := countP_set_settle (fun it => !k.skip it) w.items self me me1 hme
        (by simp [hs1]) (by simp [hk.settled me me1 he])
      have hrel : NodeRel (fun a b => b.ItemSlots = a.ItemSlots ∧ (good a → good b)) w w2 :=
        nodeRel_of_set (fun a => ⟨rfl, id⟩) w w2 self me me1 hme hset
          ⟨hk.slots me me1 he, hkeep me me1 he⟩
      let I : World → Prop := fun v =>
        Closed good v ∧ pending k v < n ∧
          ∀ slot ∈ me.ItemSlots, ∀ x ∈ slot.InventoryItems, ∃ itx, v.items[x]? = some itx ∧ good itx
      have hI2 : I w2 := by
        refine ⟨closed_of_nodeRel good w w2 hrel hc, ?_, ?_⟩
        · simp only [pending, hset]
          simp only [pending] at hlt
          omega
        · intro slot hslot x hx
          obtain ⟨itx, hx1, hgx⟩ := hc self me hme slot hslot x hx
          obtain ⟨itx1, hx2, _, hg1⟩ := hrel.2 x itx hx1
          exact ⟨itx1, hx2, hg1 hgx⟩
      have hstep : ∀ v x, I v → (∃ itx, v.items[x]? = some itx ∧ good itx) →
          ∃ v1, cascade k n v x = .ok v1 ∧ I v1 := by
        intro v x hv hx
        obtain ⟨itx, hx1, hgx⟩ := hx
        obtain ⟨v1, hv1⟩ := ih v x itx hv.1 hx1 hgx hv.2.1
        have hr := keep n v x v1 hv1
        refine ⟨v1, hv1, closed_of_nodeRel good v v1 hr hv.1, ?_, ?_⟩
        · have := cascade_pending k edit hk n v x v1 hv1
          have := hv.2.1
          omega
        · intro slot hslot y hy
          obtain ⟨ity, hy1, hgy⟩ := hv.2.2 slot hslot y hy
          obtain ⟨ity1, hy2, _, hg1⟩ := hr.2 y ity hy1
          exact ⟨ity1, hy2, hg1 hgy⟩
      have hloop := forEach_total I
        (fun w2 (Slot : FItemSlot) =>
          if k.descend Slot = true then
            forEach (fun w3 Item => cascade k n w3 Item) Slot.InventoryItems w2
          else .ok w2) me.ItemSlots ?_ w2 hI2
      · obtain ⟨w3, h3, _⟩ := hloop
        exact ⟨w3, by simp [hs1, hv, h3]⟩
      · intro v slot hslot hv
        by_cases hd : k.descend slot = true
        · simp only [hd, if_true]
          refine forEach_total I _ slot.InventoryItems ?_ v hv
          intro v1 x hx hv1
          exact hstep v1 x hv1 (hv1.2.2 slot hslot x hx)
        · exact ⟨v, by simp [hd], hv⟩

theorem cascade_self (k : Wave) (edit : AInventoryItem → AInventoryItem → Prop)
    (hk : k.Spec edit) (fuel : Nat) (w : World) (self : Nat) (w1 : World)
    (h : cascade k fuel w self = .ok w1) :
    ∃ me me1, w.items[self]? = some me ∧ w1.items[self]? = some me1 ∧
      ((k.skip me = true ∧ w1 = w) ∨ (k.skip me = false ∧ edit me me1)) := by
  cases fuel with
  | zero => simp [cascade] at h
  | succ n =>
    simp only [cascade] at h
    cases hme : w.items[self]? with
    | none => simp [hme] at h
    | some me =>
      simp only [hme] at h
      by_cases hp : k.pre me = false
      · simp [hp] at h
      · have hp1 : k.pre me = true := by simpa using hp
        by_cases hs : k.skip me = true
        · simp only [hp1, hs] at h
          simp at h
          subst h
          exact ⟨me, me, rfl, hme, Or.inl ⟨hs, rfl⟩⟩
        · have hs1 : k.skip me = false := by simpa using hs
          simp only [hp1, hs1] at h
          simp only [Bool.true_eq_false, Bool.false_eq_true, if_false] at h
          cases hv : k.visit w self me with
          | error e => simp [hv] at h
          | ok w2 =>
            simp only [hv] at h
            obtain ⟨me1, hset, he⟩ := hk.sound w self me w2 hme hp1 hs1 hv
            have hlt : self < w.items.length := by
              rcases List.getElem?_eq_some.mp hme with ⟨hl, _⟩
              exact hl
            have h2 : w2.items[self]? = some me1 := by
              rw [hset, List.getElem?_set_self hlt]
            let T : AInventoryItem → AInventoryItem → Prop := fun a b => k.skip a = true → b = a
            have hT : ∀ a b c, T a b → T b c → T a c := by
              intro a b c h1 h2 ha
              have hb := h1 ha
              subst hb
              exact h2 ha
            have hr : NodeRel T w2 w1 := by
              refine forEach_rel (NodeRel T) (nodeRel_refl (fun _ _ => rfl)) (nodeRel_trans hT)
                _ _ ?_ w2 w1 h
              intro w3 slot w4 _ hb
              by_cases hd : k.descend slot = true
              · simp only [hd, if_true] at hb
                refine forEach_rel (NodeRel T) (nodeRel_refl (fun _ _ => rfl)) (nodeRel_trans hT)
                  _ _ ?_ w3 w4 hb
                intro w5 x w6 _ hx
                exact cascade_nodes k edit hk T (fun _ _ => rfl) hT
                  (fun a b _ hsa _ hsa1 => by rw [hsa] at hsa1; cases hsa1) n w5 x w6 hx
              · simp only [hd] at hb
                simp at hb
                subst hb
                exact nodeRel_refl (fun _ _ => rfl) w3
            obtain ⟨me2, h3, ht⟩ := hr.2 self me1 h2
            have := ht (hk.settled me me1 he)
            subst this
            exact ⟨me, me2, rfl, h3, Or.inr ⟨hs1, he⟩⟩

/-! ## The five propagating functions -/

theorem RemoveAbilitiesFromASC_items (w : World) (me : AInventoryItem) (hs : List Nat) :
    (RemoveAbilitiesFromASC w me hs).1.items = w.items := by
  unfold RemoveAbilitiesFromASC
  cases me.OwnerASC with
  | none => rfl
  | some asc =>
    by_cases hr : me.Role < ROLE_Authority
    · simp [hr]
    · simp only [hr, if_false]
      generalize (0 : Int) = c
      induction hs generalizing w c with
      | nil => rfl
      | cons a rest ih => simp only [List.foldl_cons]; rw [ih]; rfl

theorem RemoveEffectsFromASC_items (w : World) (me : AInventoryItem) (hs : List Nat) :
    (RemoveEffectsFromASC w me hs).1.items = w.items := by
  unfold RemoveEffectsFromASC
  cases me.OwnerASC with
  | none => rfl
  | some asc =>
    by_cases hr : me.Role < ROLE_Authority
    · simp [hr]
    · simp only [hr, if_false]
      generalize (0 : Int) = c
      induction hs generalizing w c with
      | nil => rfl
      | cons a rest ih => simp only [List.foldl_cons]; rw [ih]; rfl

theorem GiveAbilitiesToASC_items (w : World) (me : AInventoryItem) (cs out : List Nat) :
    (GiveAbilitiesToASC w me cs out).1.items = w.items := by
  unfold GiveAbilitiesToASC
  cases me.OwnerASC with
  | none => rfl
  | some asc =>
    by_cases hr : me.Role < ROLE_Authority
    · simp [hr]
    · simp only [hr, if_false]
      induction cs generalizing w out with
      | nil => rfl
      | cons a rest ih => simp only [List.foldl_cons]; rw [ih]

theorem ApplyEffectsToASC_items (w : World) (me : AInventoryItem) (cs out : List Nat) :
    (ApplyEffectsToASC w me cs out).1.items = w.items := by
  unfold ApplyEffectsToASC
  cases me.OwnerASC with
  | none => rfl
  | some asc =>
    by_cases hr : me.Role < ROLE_Authority
    · simp [hr]
    · simp only [hr, if_false]
      induction cs generalizing w out with
      | nil => rfl
      | cons a rest ih => simp only [List.foldl_cons]; rw [ih]

theorem SetOwnerASC_body_items (w : World) (self : Nat) (me : AInventoryItem)
    (data : UItemData) (NewASC : Option Nat) :
    ∃ pa pe, (SetOwnerASC.body w self me data NewASC).items = w.items.set self
      { me with OwnerASC := NewASC, PassiveAbilitiesHandles := pa,
                PassiveEffectsHandles := pe } := by
  unfold SetOwnerASC.body
  have h1 : (if me.OwnerASC.isSome = true then
      (RemoveEffectsFromASC (RemoveEffectsFromASC (RemoveAbilitiesFromASC
        (RemoveAbilitiesFromASC w me me.ActiveAbilitiesHandles).1 me
          me.PassiveAbilitiesHandles).1 me me.ActiveEffectsHandles).1 me
            me.PassiveEffectsHandles).1 else w).items = w.items := by
    split
    · simp only [RemoveEffectsFromASC_items, RemoveAbilitiesFromASC_items]
    · rfl
  by_cases hn : NewASC.isSome = true
  · simp only [hn, if_true, World.store, ApplyEffectsToASC_items, GiveAbilitiesToASC_items, h1]
    exact ⟨_, _, rfl⟩
  · simp only [hn, Bool.false_eq_true, if_false, World.store, h1]
    exact ⟨_, _, rfl⟩

theorem ActivateItem_body_items (w : World) (self : Nat) (me : AInventoryItem) (w1 : World)
    (hv : ActivateItem.body w self me = .ok w1) :
    ∃ aa ae, w1.items = w.items.set self
      { me with bIsItemActive := true, ActiveAbilitiesHandles := aa,
                ActiveEffectsHandles := ae } := by
  unfold ActivateItem.body at hv
  simp only at hv
  split at hv
  · cases hv
    exact ⟨me.ActiveAbilitiesHandles, me.ActiveEffectsHandles, rfl⟩
  · split at hv
    · cases hv
    · cases hv
      simp only [World.emit, World.store, ApplyEffectsToASC_items, GiveAbilitiesToASC_items]
      exact ⟨_, _, rfl⟩

theorem setOwnerWave_spec (NewASC : Option Nat) :
    (setOwnerWave NewASC).Spec (setOwnerEdit NewASC) where
  sound := by
    intro w self me w1 _ _ _ hv
    simp only [setOwnerWave] at hv
    cases hd : me.ItemData with
    | none => simp [hd] at hv
    | some data =>
      simp only [hd, Except.ok.injEq] at hv
      subst hv
      obtain ⟨pa, pe, h⟩ := SetOwnerASC_body_items w self me data NewASC
      exact ⟨_, h, ⟨pa, pe, rfl⟩⟩
  slots := by
    rintro me me1 ⟨pa, pe, rfl⟩
    rfl
  settled := by
    rintro me me1 ⟨pa, pe, rfl⟩
    simp [setOwnerWave]

theorem activateWave_spec : activateWave.Spec activateEdit where
  sound := by
    intro w self me w1 _ _ _ hv
    obtain ⟨aa, ae, h⟩ := ActivateItem_body_items w self me w1 hv
    exact ⟨_, h, ⟨aa, ae, rfl⟩⟩
  slots := by
    rintro me me1 ⟨aa, ae, rfl⟩
    rfl
  settled := by
    rintro me me1 ⟨aa, ae, rfl⟩
    simp [activateWave]

theorem deactivateWave_spec : deactivateWave.Spec deactivateEdit where
  sound := by
    intro w self me w1 _ _ _ hv
    simp only [deactivateWave, Except.ok.injEq] at hv
    subst hv
    refine ⟨_, ?_, rfl⟩
    unfold DeactivateItem.body
    simp only [World.emit]
    split
    · simp only [RemoveEffectsFromASC_items, RemoveAbilitiesFromASC_items, World.store]
    · rfl
  slots := by
    rintro me me1 rfl
    rfl
  settled := by
    rintro me me1 rfl
    simp [deactivateWave]

theorem showWave_spec : showWave.Spec showEdit where
  sound := by
    intro w self me w1 _ _ _ hv
    simp only [showWave, Except.ok.injEq] at hv
    subst hv
    refine ⟨_, ?_, rfl⟩
    unfold ShowItem.body
    cases me.RootComponent <;> rfl
  slots := by
    rintro me me1 rfl
    rfl
  settled := by
    rintro me me1 rfl
    rfl

theorem hideWave_spec : hideWave.Spec hideEdit where
  sound := by
    intro w self me w1 _ _ _ hv
    simp only [hideWave, Except.ok.injEq] at hv
    subst hv
    refine ⟨_, ?_, rfl⟩
    unfold HideItem.body
    cases me.RootComponent <;> rfl
  slots := by
    rintro me me1 rfl
    rfl
  settled := by
    rintro me me1 rfl
    rfl

theorem SetOwnerASC_eq_cascade (NewASC : Option Nat) : ∀ fuel w self,
    SetOwnerASC fuel w self NewASC = cascade (setOwnerWave NewASC) fuel w self := by
  intro fuel
  induction fuel with
  | zero => intro w self; rfl
  | succ n ih =>
    intro w self
    simp only [SetOwnerASC, cascade]
    cases h : w.items[self]? with
    | none => rfl
    | some me =>
      simp only
      cases hd : me.ItemData with
      | none => simp [setOwnerWave, hd]
      | some data =>
        by_cases hg : me.Role = ROLE_Authority ∧ me.OwnerASC ≠ NewASC
        · simp [setOwnerWave, hd, hg, ih]
        · have hg2 : ¬me.Role = ROLE_Authority ∨ me.OwnerASC = NewASC := by tauto
          simp [setOwnerWave, hd, hg, hg2]

theorem ActivateItem_eq_cascade : ∀ fuel w self,
    ActivateItem fuel w self = cascade activateWave fuel w self := by
  intro fuel
  induction fuel with
  | zero => intro w self; rfl
  | succ n ih =>
    intro w self
    simp only [ActivateItem, cascade]
    cases h : w.items[self]? with
    | none => rfl
    | some me =>
      by_cases hg : me.bIsItemActive = true ∨ me.Role < ROLE_Authority
      · simp [activateWave, hg]
      · simp [activateWave, hg, ih]

theorem DeactivateItem_eq_cascade : ∀ fuel w self,
    DeactivateItem fuel w self = cascade deactivateWave fuel w self := by
  intro fuel
  induction fuel with
  | zero => intro w self; rfl
  | succ n ih =>
    intro w self
    simp only [DeactivateItem, cascade]
    cases h : w.items[self]? with
    | none => rfl
    | some me =>
      by_cases hg : me.bIsItemActive = false ∨ me.Role < ROLE_Authority
      · simp [deactivateWave, hg]
      · simp [deactivateWave, hg, ih]

theorem ShowItem_eq_cascade : ∀ fuel w self,
    ShowItem fuel w self = cascade showWave fuel w self := by
  intro fuel
  induction fuel with
  | zero => intro w self; rfl
  | succ n ih =>
    intro w self
    simp only [ShowItem, cascade]
    cases h : w.items[self]? with
    | none => rfl
    | some me =>
      by_cases hg : me.bIsItemVisible = true
      · simp [showWave, hg]
      · simp [showWave, hg, ih]

theorem HideItem_eq_cascade : ∀ fuel w self,
    HideItem fuel w self = cascade hideWave fuel w self := by
  intro fuel
  induction fuel with
  | zero => intro w self; rfl
  | succ n ih =>
    intro w self
    simp only [HideItem, cascade]
    cases h : w.items[self]? with
    | none => rfl
    | some me =>
      by_cases hg : me.bIsItemVisible = false
      · simp [hideWave, hg]
      · simp [hideWave, hg, ih]

/-! ## Frames -/

theorem getElem?_of_map_eq {β : Type} (f : AInventoryItem → β) (l1 l : List AInventoryItem)
    (h : l1.map f = l.map f) (i : Nat) (a : AInventoryItem) (ha : l1[i]? = some a) :
    ∃ b, l[i]? = some b ∧ f b = f a := by
  have h1 : (l1.map f)[i]? = (l.map f)[i]? := by rw [h]
  simp only [List.getElem?_map, ha, Option.map_some'] at h1
  cases hb : l[i]? with
  | none => simp [hb] at h1
  | some b =>
    simp only [hb, Option.map_some', Option.some.injEq] at h1
    exact ⟨b, rfl, h1.symm⟩

theorem nodeRel_map_eq {β : Type} (f : AInventoryItem → β) (w w1 : World)
    (h : NodeRel (fun a b => f b = f a) w w1) : w1.items.map f = w.items.map f := by
  apply List.ext_getElem?
  intro i
  simp only [List.getElem?_map]
  cases hi : w.items[i]? with
  | none =>
    have : w1.items[i]? = none := by
      rw [List.getElem?_eq_none_iff] at hi ⊢
      rw [h.1]
      exact hi
    simp [this]
  | some it =>
    obtain ⟨it1, h1, hf⟩ := h.2 i it hi
    simp [h1, hf]

theorem cascade_map_eq {β : Type} (k : Wave) (edit : AInventoryItem → AInventoryItem → Prop)
    (hk : k.Spec edit) (f : AInventoryItem → β) (hf : ∀ me me1, edit me me1 → f me1 = f me)
    (fuel : Nat) (w : World) (self : Nat) (w1 : World)
    (h : cascade k fuel w self = .ok w1) : w1.items.map f = w.items.map f :=
  nodeRel_map_eq f w w1
    (cascade_nodes k edit hk (fun a b => f b = f a) (fun _ => rfl)
      (fun _ _ _ h1 h2 => h2.trans h1) (fun me me1 _ _ he => hf me me1 he) fuel w self w1 h)

theorem cascade_untouched (k : Wave) (edit : AInventoryItem → AInventoryItem → Prop)
    (hk : k.Spec edit) (fuel : Nat) (w : World) (self : Nat) (w1 : World)
    (h : cascade k fuel w self = .ok w1) (i : Nat) (it : AInventoryItem)
    (hi : w.items[i]? = some it) (hs : k.skip it = true) : w1.items[i]? = some it := by
  have hr := cascade_nodes k edit hk (fun a b => k.skip a = true → b = a) (fun _ _ => rfl)
    (fun a b c h1 h2 ha => by
      have hb := h1 ha
      subst hb
      exact h2 ha)
    (fun a b _ hsa _ hsa1 => by rw [hsa] at hsa1; cases hsa1) fuel w self w1 h
  obtain ⟨it1, h1, ht⟩ := hr.2 i it hi
  rw [h1, ht hs]

theorem pending_le_length (k : Wave) (w : World) : pending k w ≤ w.items.length :=
  List.countP_le_length _

theorem cascade_returns (k : Wave) (edit : AInventoryItem → AInventoryItem → Prop)
    (hk : k.Spec edit) (good : AInventoryItem → Prop)
    (hpre : ∀ me, good me → k.pre me = true)
    (hvis : ∀ w self me, w.items[self]? = some me → good me → k.skip me = false →
      ∃ w1, k.visit w self me = .ok w1)
    (hkeep : ∀ me me1, edit me me1 → good me → good me1)
    (fuel : Nat) (w : World) (self : Nat) (me : AInventoryItem) (hc : Closed good w)
    (hme : w.items[self]? = some me) (hg : good me) (hfuel : w.items.length < fuel) :
    ∃ w1, cascade k fuel w self = .ok w1 :=
  cascade_total k edit hk good hpre hvis hkeep fuel w self me hc hme hg
    (Nat.lt_of_le_of_lt (pending_le_length k w) hfuel)

theorem templated_closed (w : World) (h : w.Templated) :
    Closed (fun it => it.ItemData.isSome = true) w := by
  intro i it hi slot hslot x hx
  have hmem : it ∈ w.items := List.getElem?_mem hi
  have := h it hmem slot hslot x hx
  cases hx1 : w.items[x]? with
  | none => simp [hx1] at this
  | some itx =>
    simp only [hx1, Option.some_bind] at this
    exact ⟨itx, rfl, this⟩

theorem linked_closed (w : World) (h : w.Linked) : Closed (fun _ => True) w := by
  intro i it hi slot hslot x hx
  have hmem : it ∈ w.items := List.getElem?_mem hi
  have hlt := h it hmem slot hslot x hx
  exact ⟨w.items[x], List.getElem?_eq_getElem hlt, trivial⟩

theorem templated_linked (w : World) (h : w.Templated) : w.Linked := by
  intro it hmem slot hslot x hx
  have := h it hmem slot hslot x hx
  cases hx1 : w.items[x]? with
  | none => simp [hx1] at this
  | some itx =>
    rcases List.getElem?_eq_some.mp hx1 with ⟨hl, _⟩
    exact hl

theorem templated_congr (w w1 : World) (hs : w1.items.map shape = w.items.map shape)
    (h : w.Templated) : w1.Templated := by
  intro it1 hmem slot hslot x hx
  obtain ⟨i, hi⟩ := List.getElem?_of_mem hmem
  obtain ⟨it, h0, hsh⟩ := getElem?_of_map_eq shape _ _ hs i it1 hi
  simp only [shape, Prod.mk.injEq] at hsh
  rw [← hsh.2.2] at hslot
  have := h it (List.getElem?_mem h0) slot hslot x hx
  cases hx0 : w.items[x]? with
  | none => simp [hx0] at this
  | some itx =>
    simp only [hx0, Option.some_bind] at this
    obtain ⟨itx1, hx1, hsh1⟩ := getElem?_of_map_eq shape _ _ hs.symm x itx hx0
    simp only [shape, Prod.mk.injEq] at hsh1
    simp only [hx1, Option.some_bind, hsh1.2.1, this]

theorem linked_congr (w w1 : World) (hs : w1.items.map shape = w.items.map shape)
    (h : w.Linked) : w1.Linked := by
  intro it1 hmem slot hslot x hx
  obtain ⟨i, hi⟩ := List.getElem?_of_mem hmem
  obtain ⟨it, h0, hsh⟩ := getElem?_of_map_eq shape _ _ hs i it1 hi
  simp only [shape, Prod.mk.injEq] at hsh
  rw [← hsh.2.2] at hslot
  have := h it (List.getElem?_mem h0) slot hslot x hx
  have hl : w1.items.length = w.items.length := by
    have := congrArg List.length hs
    simpa using this
  omega

theorem withinCapacity_congr (w w1 : World)
    (hs : w1.items.map shape = w.items.map shape) (h : w.WithinCapacity) :
    w1.WithinCapacity := by
  intro it1 hmem slot hslot
  obtain ⟨i, hi⟩ := List.getElem?_of_mem hmem
  obtain ⟨it, h0, hsh⟩ := getElem?_of_map_eq shape _ _ hs i it1 hi
  simp only [shape, Prod.mk.injEq] at hsh
  rw [← hsh.2.2] at hslot
  exact h it (List.getElem?_mem h0) slot hslot

theorem occurrences_congr (w w1 : World) (hs : w1.items.map shape = w.items.map shape)
    (x : Nat) : occurrences w1 x = occurrences w x := by
  have h : w1.items.map (fun it => slotCount x it.ItemSlots) =
      w.items.map (fun it => slotCount x it.ItemSlots) := by
    have := congrArg (List.map (fun (s : ENetRole × Option UItemData × List FItemSlot) =>
      slotCount x s.2.2)) hs
    simpa [List.map_map, Function.comp, shape] using this
  simp only [occurrences, h]

theorem slotItems_congr (w w1 : World) (hs : w1.items.map shape = w.items.map shape)
    (n : Nat) (s : FName) : slotItems w1 n s = slotItems w n s := by
  unfold slotItems
  cases h1 : w1.items[n]? with
  | none =>
    have hl : w1.items.length = w.items.length := by
      have := congrArg List.length hs
      simpa using this
    have : w.items[n]? = none := by
      rw [List.getElem?_eq_none_iff] at h1 ⊢
      omega
    simp [this]
  | some it1 =>
    obtain ⟨it, h0, hsh⟩ := getElem?_of_map_eq shape _ _ hs n it1 h1
    simp only [shape, Prod.mk.injEq] at hsh
    simp only [h0, FindSlotByName, hsh.2.2]

/-! ## What each propagating function keeps, reaches and returns -/

theorem SetOwnerASC_map_eq {β : Type} (f : AInventoryItem → β)
    (hf : ∀ (me : AInventoryItem) s pa pe,
      f { me with OwnerASC := s, PassiveAbilitiesHandles := pa, PassiveEffectsHandles := pe }
        = f me)
    (fuel : Nat) (w : World) (self : Nat) (s : Option Nat) (w1 : World)
    (h : SetOwnerASC fuel w self s = .ok w1) : w1.items.map f = w.items.map f := by
  rw [SetOwnerASC_eq_cascade] at h
  refine cascade_map_eq _ _ (setOwnerWave_spec s) f ?_ fuel w self w1 h
  rintro me me1 ⟨pa, pe, rfl⟩
  exact hf me s pa pe

theorem ActivateItem_map_eq {β : Type} (f : AInventoryItem → β)
    (hf : ∀ (me : AInventoryItem) aa ae,
      f { me with bIsItemActive := true, ActiveAbilitiesHandles := aa,
                  ActiveEffectsHandles := ae } = f me)
    (fuel : Nat) (w : World) (self : Nat) (w1 : World)
    (h : ActivateItem fuel w self = .ok w1) : w1.items.map f = w.items.map f := by
  rw [ActivateItem_eq_cascade] at h
  refine cascade_map_eq _ _ activateWave_spec f ?_ fuel w self w1 h
  rintro me me1 ⟨aa, ae, rfl⟩
  exact hf me aa ae

theorem DeactivateItem_map_eq {β : Type} (f : AInventoryItem → β)
    (hf : ∀ (me : AInventoryItem), f { me with bIsItemActive := false } = f me)
    (fuel : Nat) (w : World) (self : Nat) (w1 : World)
    (h : DeactivateItem fuel w self = .ok w1) : w1.items.map f = w.items.map f := by
  rw [DeactivateItem_eq_cascade] at h
  refine cascade_map_eq _ _ deactivateWave_spec f ?_ fuel w self w1 h
  rintro me me1 rfl
  exact hf me

theorem ShowItem_map_eq {β : Type} (f : AInventoryItem → β)
    (hf : ∀ (me : AInventoryItem), f { me with bIsItemVisible := true } = f me)
    (fuel : Nat) (w : World) (self : Nat) (w1 : World)
    (h : ShowItem fuel w self = .ok w1) : w1.items.map f = w.items.map f := by
  rw [ShowItem_eq_cascade] at h
  refine cascade_map_eq _ _ showWave_spec f ?_ fuel w self w1 h
  rintro me me1 rfl
  exact hf me

theorem HideItem_map_eq {β : Type} (f : AInventoryItem → β)
    (hf : ∀ (me : AInventoryItem), f { me with bIsItemVisible := false } = f me)
    (fuel : Nat) (w : World) (self : Nat) (w1 : World)
    (h : HideItem fuel w self = .ok w1) : w1.items.map f = w.items.map f := by
  rw [HideItem_eq_cascade] at h
  refine cascade_map_eq _ _ hideWave_spec f ?_ fuel w self w1 h
  rintro me me1 rfl
  exact hf me

theorem SetOwnerItem_items (w : World) (self : Nat) (o : Option Nat) (s : FName) (w1 : World)
    (h : SetOwnerItem w self o s = .ok w1) :
    ∃ me, w.items[self]? = some me ∧
      w1.items = w.items.set self { me with OwnerInventoryItem := o, OwnerSlotName := s } := by
  unfold SetOwnerItem at h
  cases hme : w.items[self]? with
  | none => simp [hme] at h
  | some me =>
    simp only [hme] at h
    refine ⟨me, rfl, ?_⟩
    cases o with
    | none =>
      simp only [Except.ok.injEq] at h
      subst h
      rfl
    | some p =>
      simp only at h
      split at h
      · cases h
      · simp only [Except.ok.injEq] at h
        subst h
        rfl

theorem map_set_eq {β : Type} (f : AInventoryItem → β) (l : List AInventoryItem) (i : Nat)
    (a b : AInventoryItem) (ha : l[i]? = some a) (hf : f b = f a) :
    (l.set i b).map f = l.map f := by
  apply List.ext_getElem?
  intro j
  simp only [List.getElem?_map]
  by_cases hij : i = j
  · subst hij
    have hlt : i < l.length := by
      rcases List.getElem?_eq_some.mp ha with ⟨hl, _⟩
      exact hl
    rw [List.getElem?_set_self hlt, ha]
    simp [hf]
  · rw [List.getElem?_set_ne hij]

theorem SetOwnerItem_map_eq {β : Type} (f : AInventoryItem → β)
    (hf : ∀ (me : AInventoryItem) o s,
      f { me with OwnerInventoryItem := o, OwnerSlotName := s } = f me)
    (w : World) (self : Nat) (o : Option Nat) (s : FName) (w1 : World)
    (h : SetOwnerItem w self o s = .ok w1) : w1.items.map f = w.items.map f := by
  obtain ⟨me, hme, hset⟩ := SetOwnerItem_items w self o s w1 h
  rw [hset]
  exact map_set_eq f w.items self me _ hme (hf me o s)

theorem SetOwnerItem_returns (w : World) (self : Nat) (o : Option Nat) (s : FName)
    (hself : self < w.items.length) (ho : ∀ p, o = some p → p < w.items.length) :
    ∃ w1, SetOwnerItem w self o s = .ok w1 := by
  unfold SetOwnerItem
  rw [List.getElem?_eq_getElem hself]
  cases o with
  | none => exact ⟨_, rfl⟩
  | some p =>
    have hp : p < (w.store self
        { w.items[self] with OwnerInventoryItem := some p, OwnerSlotName := s }).items.length := by
      simp only [World.store, List.length_set]
      exact ho p rfl
    simp only [List.getElem?_eq_getElem hp]
    exact ⟨_, rfl⟩

theorem closed_mono (good good1 : AInventoryItem → Prop) (h : ∀ it, good it → good1 it)
    (w : World) (hc : Closed good w) : Closed good1 w := by
  intro i it hi slot hslot x hx
  obtain ⟨itx, hx1, hg⟩ := hc i it hi slot hslot x hx
  exact ⟨itx, hx1, h itx hg⟩

theorem SetOwnerASC_returns (fuel : Nat) (w : World) (self : Nat) (s : Option Nat)
    (me : AInventoryItem) (hw : w.Templated) (hme : w.items[self]? = some me)
    (hd : me.ItemData.isSome = true) (hfuel : w.items.length < fuel) :
    ∃ w1, SetOwnerASC fuel w self s = .ok w1 := by
  rw [SetOwnerASC_eq_cascade]
  refine cascade_returns _ _ (setOwnerWave_spec s) (fun it => it.ItemData.isSome = true)
    (fun _ h => h) ?_ ?_ fuel w self me (templated_closed _ hw) hme hd hfuel
  · intro v p it _ hg _
    simp only [setOwnerWave]
    cases hd1 : it.ItemData with
    | none => simp [hd1] at hg
    | some data => exact ⟨_, rfl⟩
  · rintro it it1 ⟨pa, pe, rfl⟩ hg
    exact hg

theorem ActivateItem_returns (fuel : Nat) (w : World) (self : Nat)
    (me : AInventoryItem) (hw : w.Templated) (hme : w.items[self]? = some me)
    (hd : me.OwnerASC.isSome = true → me.ItemData.isSome = true)
    (hfuel : w.items.length < fuel) :
    ∃ w1, ActivateItem fuel w self = .ok w1 := by
  rw [ActivateItem_eq_cascade]
  refine cascade_returns _ _ activateWave_spec
    (fun it => it.OwnerASC.isSome = true → it.ItemData.isSome = true)
    (fun _ _ => rfl) ?_ ?_ fuel w self me
    (closed_mono (fun it => it.ItemData.isSome = true)
      (fun it => it.OwnerASC.isSome = true → it.ItemData.isSome = true)
      (fun _ h _ => h) w (templated_closed _ hw)) hme hd hfuel
  · intro v p it _ hg _
    simp only [activateWave, ActivateItem.body]
    cases ha : it.OwnerASC with
    | none => exact ⟨_, rfl⟩
    | some asc =>
      have := hg (by simp [ha])
      cases hd1 : it.ItemData with
      | none => simp [hd1] at this
      | some data => exact ⟨_, rfl⟩
  · rintro it it1 ⟨aa, ae, rfl⟩ hg
    exact hg

theorem DeactivateItem_returns (fuel : Nat) (w : World) (self : Nat) (hw : w.Linked)
    (hself : self < w.items.length) (hfuel : w.items.length < fuel) :
    ∃ w1, DeactivateItem fuel w self = .ok w1 := by
  rw [DeactivateItem_eq_cascade]
  exact cascade_returns _ _ deactivateWave_spec (fun _ => True) (fun _ _ => rfl)
    (fun _ _ _ _ _ _ => ⟨_, rfl⟩) (fun _ _ _ _ => trivial) fuel w self _
    (linked_closed _ hw)
    (List.getElem?_eq_getElem hself) trivial hfuel

theorem ShowItem_returns (fuel : Nat) (w : World) (self : Nat) (hw : w.Linked)
    (hself : self < w.items.length) (hfuel : w.items.length < fuel) :
    ∃ w1, ShowItem fuel w self = .ok w1 := by
  rw [ShowItem_eq_cascade]
  exact cascade_returns _ _ showWave_spec (fun _ => True) (fun _ _ => rfl)
    (fun _ _ _ _ _ _ => ⟨_, rfl⟩) (fun _ _ _ _ => trivial) fuel w self _
    (linked_closed _ hw)
    (List.getElem?_eq_getElem hself) trivial hfuel

theorem HideItem_returns (fuel : Nat) (w : World) (self : Nat) (hw : w.Linked)
    (hself : self < w.items.length) (hfuel : w.items.length < fuel) :
    ∃ w1, HideItem fuel w self = .ok w1 := by
  rw [HideItem_eq_cascade]
  exact cascade_returns _ _ hideWave_spec (fun _ => True) (fun _ _ => rfl)
    (fun _ _ _ _ _ _ => ⟨_, rfl⟩) (fun _ _ _ _ => trivial) fuel w self _
    (linked_closed _ hw)
    (List.getElem?_eq_getElem hself) trivial hfuel

theorem SetOwnerASC_self (fuel : Nat) (w : World) (self : Nat) (s : Option Nat) (w1 : World)
    (h : SetOwnerASC fuel w self s = .ok w1) :
    ∃ me me1, w.items[self]? = some me ∧ w1.items[self]? = some me1 ∧
      me.ItemData.isSome = true ∧ (me.Role = ROLE_Authority → me1.OwnerASC = s) := by
  have hd : ∃ me, w.items[self]? = some me ∧ me.ItemData.isSome = true := by
    cases fuel with
    | zero => simp [SetOwnerASC] at h
    | succ n =>
      simp only [SetOwnerASC] at h
      cases hme : w.items[self]? with
      | none => simp [hme] at h
      | some me =>
        simp only [hme] at h
        cases hd : me.ItemData with
        | none => simp [hd] at h
        | some data => exact ⟨me, rfl, by simp [hd]⟩
  rw [SetOwnerASC_eq_cascade] at h
  obtain ⟨me, me1, hme, hme1, hc⟩ := cascade_self _ _ (setOwnerWave_spec s) fuel w self w1 h
  obtain ⟨me0, hme0, hd0⟩ := hd
  rw [hme] at hme0
  cases hme0
  refine ⟨me, me1, hme, hme1, hd0, fun hr => ?_⟩
  rcases hc with ⟨hs, rfl⟩ | ⟨_, pa, pe, rfl⟩
  · rw [hme] at hme1
    cases hme1
    simp only [setOwnerWave, Bool.not_eq_true', decide_eq_false_iff_not, not_and,
      Decidable.not_not] at hs
    exact hs hr
  · rfl

theorem ActivateItem_self (fuel : Nat) (w : World) (self : Nat) (w1 : World)
    (h : ActivateItem fuel w self = .ok w1) :
    ∃ me me1, w.items[self]? = some me ∧ w1.items[self]? = some me1 ∧
      (¬ me.Role < ROLE_Authority → me1.bIsItemActive = true) := by
  rw [ActivateItem_eq_cascade] at h
  obtain ⟨me, me1, hme, hme1, hc⟩ := cascade_self _ _ activateWave_spec fuel w self w1 h
  refine ⟨me, me1, hme, hme1, fun hr => ?_⟩
  rcases hc with ⟨hs, rfl⟩ | ⟨_, aa, ae, rfl⟩
  · rw [hme] at hme1
    cases hme1
    simp only [activateWave, decide_eq_true_eq] at hs
    tauto
  · rfl

theorem DeactivateItem_self (fuel : Nat) (w : World) (self : Nat) (w1 : World)
    (h : DeactivateItem fuel w self = .ok w1) :
    ∃ me me1, w.items[self]? = some me ∧ w1.items[self]? = some me1 ∧
      (¬ me.Role < ROLE_Authority → me1.bIsItemActive = false) := by
  rw [DeactivateItem_eq_cascade] at h
  obtain ⟨me, me1, hme, hme1, hc⟩ := cascade_self _ _ deactivateWave_spec fuel w self w1 h
  refine ⟨me, me1, hme, hme1, fun hr => ?_⟩
  rcases hc with ⟨hs, rfl⟩ | ⟨_, rfl⟩
  · rw [hme] at hme1
    cases hme1
    simp only [deactivateWave, decide_eq_true_eq] at hs
    tauto
  · rfl

theorem ShowItem_self (fuel : Nat) (w : World) (self : Nat) (w1 : World)
    (h : ShowItem fuel w self = .ok w1) :
    ∃ me1, w1.items[self]? = some me1 ∧ me1.bIsItemVisible = true := by
  rw [ShowItem_eq_cascade] at h
  obtain ⟨me, me1, hme, hme1, hc⟩ := cascade_self _ _ showWave_spec fuel w self w1 h
  refine ⟨me1, hme1, ?_⟩
  rcases hc with ⟨hs, rfl⟩ | ⟨_, rfl⟩
  · rw [hme] at hme1
    cases hme1
    exact hs
  · rfl

theorem HideItem_self (fuel : Nat) (w : World) (self : Nat) (w1 : World)
    (h : HideItem fuel w self = .ok w1) :
    ∃ me1, w1.items[self]? = some me1 ∧ me1.bIsItemVisible = false := by
  rw [HideItem_eq_cascade] at h
  obtain ⟨me, me1, hme, hme1, hc⟩ := cascade_self _ _ hideWave_spec fuel w self w1 h
  refine ⟨me1, hme1, ?_⟩
  rcases hc with ⟨hs, rfl⟩ | ⟨_, rfl⟩
  · rw [hme] at hme1
    cases hme1
    simpa [hideWave] using hs
  · rfl

theorem SetOwnerASC_untouched (fuel : Nat) (w : World) (self : Nat) (s : Option Nat)
    (w1 : World) (h : SetOwnerASC fuel w self s = .ok w1) (i : Nat) (it : AInventoryItem)
    (hi : w.items[i]? = some it) (hs : it.OwnerASC = s) : w1.items[i]? = some it := by
  rw [SetOwnerASC_eq_cascade] at h
  exact cascade_untouched _ _ (setOwnerWave_spec s) fuel w self w1 h i it hi
    (by simp [setOwnerWave, hs])

theorem ActivateItem_untouched (fuel : Nat) (w : World) (self : Nat)
    (w1 : World) (h : ActivateItem fuel w self = .ok w1) (i : Nat) (it : AInventoryItem)
    (hi : w.items[i]? = some it) (hs : it.bIsItemActive = true) : w1.items[i]? = some it := by
  rw [ActivateItem_eq_cascade] at h
  exact cascade_untouched _ _ activateWave_spec fuel w self w1 h i it hi
    (by simp [activateWave, hs])

theorem DeactivateItem_untouched (fuel : Nat) (w : World) (self : Nat)
    (w1 : World) (h : DeactivateItem fuel w self = .ok w1) (i : Nat) (it : AInventoryItem)
    (hi : w.items[i]? = some it) (hs : it.bIsItemActive = false) : w1.items[i]? = some it := by
  rw [DeactivateItem_eq_cascade] at h
  exact cascade_untouched _ _ deactivateWave_spec fuel w self w1 h i it hi
    (by simp [deactivateWave, hs])

theorem ShowItem_untouched (fuel : Nat) (w : World) (self : Nat)
    (w1 : World) (h : ShowItem fuel w self = .ok w1) (i : Nat) (it : AInventoryItem)
    (hi : w.items[i]? = some it) (hs : it.bIsItemVisible = true) : w1.items[i]? = some it := by
  rw [ShowItem_eq_cascade] at h
  exact cascade_untouched _ _ showWave_spec fuel w self w1 h i it hi hs

theorem HideItem_untouched (fuel : Nat) (w : World) (self : Nat)
    (w1 : World) (h : HideItem fuel w self = .ok w1) (i : Nat) (it : AInventoryItem)
    (hi : w.items[i]? = some it) (hs : it.bIsItemVisible = false) : w1.items[i]? = some it := by
  rw [HideItem_eq_cascade] at h
  exact cascade_untouched _ _ hideWave_spec fuel w self w1 h i it hi
    (by simp [hideWave, hs])

/-! ## Containment requests -/

theorem AddItemToSlot_false (fuel : Nat) (w : World) (n : Nat) (me : AInventoryItem)
    (NewItem : Option Nat) (SlotName : FName) (w1 : World) (hme : w.items[n]? = some me) :
    AddItemToSlot fuel w n NewItem SlotName = .ok (w1, false) ↔
      (w1 = w ∧ (me.Role < ROLE_Authority ∨ NewItem = none ∨ FindSlotByName me SlotName = none ∨
        CanPlaceItemInSlot w n NewItem SlotName = .ok false)) := by
  unfold AddItemToSlot
  simp only [hme]
  cases NewItem with
  | none => simp [eq_comm]
  | some x =>
    simp only
    by_cases hr : me.Role < ROLE_Authority
    · simp [hr, eq_comm]
    · simp only [hr, if_false, false_or]
      cases hs : FindSlotByName me SlotName with
      | none => simp [eq_comm]
      | some slot =>
        simp only
        cases hc : CanPlaceItemInSlot w n (some x) SlotName with
        | error e => simp
        | ok b =>
          cases b with
          | false => simp [eq_comm]
          | true =>
            constructor
            · intro h
              exfalso
              repeat' split at h
              all_goals simp_all
            · rintro ⟨_, h⟩
              simp at h

theorem find?_modifyFirst {α : Type} (p : α → Bool) (f : α → α) (hp : ∀ a, p (f a) = p a) :
    ∀ l : List α, (modifyFirst p f l).find? p = (l.find? p).map f := by
  intro l
  induction l with
  | nil => rfl
  | cons a rest ih =>
    by_cases ha : p a = true
    · simp [modifyFirst, ha, hp]
    · simp [modifyFirst, ha, ih]

theorem mem_modifyFirst {α : Type} (p : α → Bool) (f : α → α) :
    ∀ (l : List α) (b : α), b ∈ modifyFirst p f l →
      b ∈ l ∨ ∃ a, l.find? p = some a ∧ b = f a := by
  intro l
  induction l with
  | nil => intro b hb; simp [modifyFirst] at hb
  | cons a rest ih =>
    intro b hb
    by_cases ha : p a = true
    · simp only [modifyFirst, ha, if_true, List.mem_cons] at hb
      rcases hb with rfl | hb
      · exact Or.inr ⟨a, by simp [ha], rfl⟩
      · exact Or.inl (List.mem_cons_of_mem _ hb)
    · simp only [modifyFirst, ha, List.mem_cons] at hb
      simp only [Bool.false_eq_true, if_false, List.mem_cons] at hb
      rcases hb with rfl | hb
      · exact Or.inl (List.mem_cons_self _ _)
      · rcases ih b hb with h | ⟨c, hc, rfl⟩
        · exact Or.inl (List.mem_cons_of_mem _ h)
        · exact Or.inr ⟨c, by simp [ha, hc], rfl⟩

theorem slotCount_modifyFirst (y : Nat) (p : FItemSlot → Bool) (f : FItemSlot → FItemSlot) :
    ∀ (l : List FItemSlot) (a : FItemSlot), l.find? p = some a →
      slotCount y (modifyFirst p f l) + a.InventoryItems.count y =
        slotCount y l + (f a).InventoryItems.count y := by
  intro l
  induction l with
  | nil => intro a h; simp at h
  | cons c rest ih =>
    intro a h
    by_cases hc : p c = true
    · simp only [List.find?_cons_of_pos _ hc, Option.some.injEq] at h
      subst h
      simp only [modifyFirst, hc, if_true, slotCount, List.map_cons, List.sum_cons]
      omega
    · simp only [List.find?_cons_of_neg _ hc] at h
      have := ih a h
      simp only [slotCount] at this
      simp only [modifyFirst, hc, slotCount, List.map_cons, List.sum_cons]
      simp only [Bool.false_eq_true, if_false, List.map_cons, List.sum_cons]
      omega

theorem sum_map_set (g : AInventoryItem → Nat) :
    ∀ (l : List AInventoryItem) (i : Nat) (a b : AInventoryItem), l[i]? = some a →
      ((l.set i b).map g).sum + g a = (l.map g).sum + g b := by
  intro l
  induction l with
  | nil => intro i a b h; simp at h
  | cons c rest ih =>
    intro i a b h
    cases i with
    | zero =>
      simp only [List.getElem?_cons_zero, Option.some.injEq] at h
      subst h
      simp only [List.set_cons_zero, List.map_cons, List.sum_cons]
      omega
    | succ j =>
      simp only [List.getElem?_cons_succ] at h
      have := ih j a b h
      simp only [List.set_cons_succ, List.map_cons, List.sum_cons]
      omega

theorem count_AddUnique (l : List Nat) (x y : Nat) :
    (AddUnique l x).count y = if x ∈ l then l.count y else l.count y + (if y = x then 1 else 0) := by
  unfold AddUnique
  by_cases hx : x ∈ l
  · simp [hx]
  · simp only [hx, if_false, List.count_append]
    by_cases hy : y = x
    · subst hy
      simp
    · have : x ≠ y := fun h => hy h.symm
      simp [hy, List.count_cons_of_ne hy]

theorem count_Remove_le (l : List Nat) (x y : Nat) : (Remove l x).count y ≤ l.count y :=
  List.Sublist.count_le (List.filter_sublist l) y

theorem not_mem_Remove (l : List Nat) (x : Nat) : x ∉ Remove l x := by
  simp [Remove]

theorem length_Remove_le (l : List Nat) (x : Nat) : (Remove l x).length ≤ l.length :=
  List.length_filter_le _ _

theorem CanPlaceItemInSlot_true (w : World) (n : Nat) (me : AInventoryItem) (x : Nat)
    (SlotName : FName) (ItemSlot : FItemSlot) (hme : w.items[n]? = some me)
    (hslot : FindSlotByName me SlotName = some ItemSlot)
    (h : CanPlaceItemInSlot w n (some x) SlotName = .ok true) :
    ItemSlot.CanSlotItem w (some x) = .ok true ∧
      (x ∈ ItemSlot.InventoryItems ∨
        (ItemSlot.InventoryItems.length : Int) < ItemSlot.ItemCapacity) := by
  simp only [CanPlaceItemInSlot, hme, hslot] at h
  cases hf : ItemSlot.CanSlotItem w (some x) with
  | error e => simp [hf] at h
  | ok b =>
    cases b with
    | false => simp [hf] at h
    | true =>
      refine ⟨rfl, ?_⟩
      simp only [hf, Contains, decide_eq_true_eq] at h
      by_cases hin : x ∈ ItemSlot.InventoryItems
      · exact Or.inl hin
      · simp only [hin, if_false] at h
        by_cases hcap : (ItemSlot.InventoryItems.length : Int) < ItemSlot.ItemCapacity
        · exact Or.inr hcap
        · simp [hcap] at h

theorem AddItemToSlot_true (fuel : Nat) (w : World) (n : Nat) (NewItem : Option Nat)
    (SlotName : FName) (w' : World)
    (h : AddItemToSlot fuel w n NewItem SlotName = .ok (w', true)) :
    ∃ me x ItemSlot w2 w3 me3 ItemSlot3 w4 me4 ItemSlot4 w5,
      w.items[n]? = some me ∧ NewItem = some x ∧ ¬ me.Role < ROLE_Authority ∧
      FindSlotByName me SlotName = some ItemSlot ∧
      CanPlaceItemInSlot w n (some x) SlotName = .ok true ∧
      SetOwnerASC fuel (w.store n
        { me with
          ItemSlots := modifyFirst (fun Slot => decide (Slot.SlotName = SlotName))
            (fun Slot => { Slot with InventoryItems := AddUnique Slot.InventoryItems x })
            me.ItemSlots }) x me.OwnerASC = .ok w2 ∧
      SetOwnerItem w2 x (some n) SlotName = .ok w3 ∧
      w3.items[n]? = some me3 ∧ FindSlotByName me3 SlotName = some ItemSlot3 ∧
      (if me3.bIsItemActive = true ∧ ItemSlot3.bActivateItem = true
        then ActivateItem fuel w3 x else DeactivateItem fuel w3 x) = .ok w4 ∧
      w4.items[n]? = some me4 ∧ FindSlotByName me4 SlotName = some ItemSlot4 ∧
      (if me4.bIsItemVisible = true ∧ ItemSlot4.bShowItem = true
        then ShowItem fuel w4 x else HideItem fuel w4 x) = .ok w5 ∧
      w' = (w5.emit (Event.OnItemAdded n x ItemSlot4.SlotName)).emit
        (Event.OnInventoryChanged n) := by
  unfold AddItemToSlot at h
  cases hme : w.items[n]? with
  | none => simp [hme] at h
  | some me =>
    simp only [hme] at h
    cases NewItem with
    | none => simp at h
    | some x =>
      simp only at h
      by_cases hr : me.Role < ROLE_Authority
      · simp [hr] at h
      · simp only [hr, if_false] at h
        cases hs : FindSlotByName me SlotName with
        | none => simp [hs] at h
        | some slot =>
          simp only [hs] at h
          cases hc : CanPlaceItemInSlot w n (some x) SlotName with
          | error e => simp [hc] at h
          | ok b =>
            cases b with
            | false => simp [hc] at h
            | true =>
              simp only [hc] at h
              split at h
              · cases h
              · rename_i w2 h2
                split at h
                · cases h
                · rename_i w3 h3
                  split at h
                  · cases h
                  · rename_i me3 hme3
                    split at h
                    · cases h
                    · rename_i slot3 hs3
                      split at h
                      · cases h
                      · rename_i w4 h4
                        split at h
                        · cases h
                        · rename_i me4 hme4
                          split at h
                          · cases h
                          · rename_i slot4 hs4
                            split at h
                            · cases h
                            · rename_i w5 h5
                              simp only [Except.ok.injEq, Prod.mk.injEq, and_true] at h
                              exact ⟨me, x, slot, w2, w3, me3, slot3, w4, me4, slot4, w5, rfl,
                                rfl, hr, hs, hc, h2, h3, hme3, hs3, h4, hme4, hs4, h5, h.symm⟩

theorem RemoveItemFromSlot_false (fuel : Nat) (w : World) (n : Nat) (me : AInventoryItem)
    (Item : Option Nat) (SlotName : FName) (w1 : World) (hme : w.items[n]? = some me) :
    RemoveItemFromSlot fuel w n Item SlotName = .ok (w1, false) ↔
      (w1 = w ∧ (me.Role < ROLE_Authority ∨ Item = none ∨
        FindSlotByName me SlotName = none)) := by
  unfold RemoveItemFromSlot
  simp only [hme]
  cases Item with
  | none => simp [eq_comm]
  | some x =>
    simp only
    by_cases hr : me.Role < ROLE_Authority
    · simp [hr, eq_comm]
    · simp only [hr, if_false, false_or]
      cases hs : FindSlotByName me SlotName with
      | none => simp [eq_comm]
      | some slot =>
        constructor
        · intro h
          exfalso
          repeat' split at h
          all_goals simp_all
        · rintro ⟨_, h⟩
          simp at h

theorem RemoveItemFromSlot_true (fuel : Nat) (w : World) (n : Nat) (Item : Option Nat)
    (SlotName : FName) (w' : World)
    (h : RemoveItemFromSlot fuel w n Item SlotName = .ok (w', true)) :
    ∃ me x ItemSlot w2 w3 w4,
      w.items[n]? = some me ∧ Item = some x ∧ ¬ me.Role < ROLE_Authority ∧
      FindSlotByName me SlotName = some ItemSlot ∧
      DeactivateItem fuel (w.store n
        { me with
          ItemSlots := modifyFirst (fun Slot => decide (Slot.SlotName = SlotName))
            (fun Slot => { Slot with InventoryItems := Remove Slot.InventoryItems x })
            me.ItemSlots }) x = .ok w2 ∧
      HideItem fuel w2 x = .ok w3 ∧
      SetOwnerItem w3 x none NAME_None = .ok w4 ∧
      w' = (w4.emit (Event.OnItemRemoved n x ItemSlot.SlotName)).emit
        (Event.OnInventoryChanged n) := by
  unfold RemoveItemFromSlot at h
  cases hme : w.items[n]? with
  | none => simp [hme] at h
  | some me =>
    simp only [hme] at h
    cases Item with
    | none => simp at h
    | some x =>
      simp only at h
      by_cases hr : me.Role < ROLE_Authority
      · simp [hr] at h
      · simp only [hr, if_false] at h
        cases hs : FindSlotByName me SlotName with
        | none => simp [hs] at h
        | some slot =>
          simp only [hs] at h
          split at h
          · cases h
          · rename_i w2 h2
            split at h
            · cases h
            · rename_i w3 h3
              split at h
              · cases h
              · rename_i w4 h4
                simp only [Except.ok.injEq, Prod.mk.injEq, and_true] at h
                exact ⟨me, x, slot, w2, w3, w4, rfl, rfl, hr, hs, h2, h3, h4, h.symm⟩

theorem emit_items (w : World) (e : Event) : (w.emit e).items = w.items := rfl

theorem AddItemToSlot_shape (fuel : Nat) (w : World) (n : Nat) (NewItem : Option Nat)
    (SlotName : FName) (w' : World)
    (h : AddItemToSlot fuel w n NewItem SlotName = .ok (w', true)) :
    ∃ me x ItemSlot,
      w.items[n]? = some me ∧ NewItem = some x ∧ ¬ me.Role < ROLE_Authority ∧
      FindSlotByName me SlotName = some ItemSlot ∧
      CanPlaceItemInSlot w n (some x) SlotName = .ok true ∧
      w'.items.map shape = (w.store n
        { me with
          ItemSlots := modifyFirst (fun Slot => decide (Slot.SlotName = SlotName))
            (fun Slot => { Slot with InventoryItems := AddUnique Slot.InventoryItems x })
            me.ItemSlots }).items.map shape := by
  obtain ⟨me, x, slot, w2, w3, me3, slot3, w4, me4, slot4, w5, hme, hx, hr, hs, hc, h2, h3,
    _, _, h4, _, _, h5, hw⟩ := AddItemToSlot_true fuel w n NewItem SlotName w' h
  refine ⟨me, x, slot, hme, hx, hr, hs, hc, ?_⟩
  have e2 := SetOwnerASC_map_eq shape (fun _ _ _ _ => rfl) fuel _ x _ w2 h2
  have e3 := SetOwnerItem_map_eq shape (fun _ _ _ => rfl) w2 x _ _ w3 h3
  have e4 : w4.items.map shape = w3.items.map shape := by
    split at h4
    · exact ActivateItem_map_eq shape (fun _ _ _ => rfl) fuel w3 x w4 h4
    · exact DeactivateItem_map_eq shape (fun _ => rfl) fuel w3 x w4 h4
  have e5 : w5.items.map shape = w4.items.map shape := by
    split at h5
    · exact ShowItem_map_eq shape (fun _ => rfl) fuel w4 x w5 h5
    · exact HideItem_map_eq shape (fun _ => rfl) fuel w4 x w5 h5
  rw [hw, emit_items, emit_items, e5, e4, e3, e2]

theorem RemoveItemFromSlot_shape (fuel : Nat) (w : World) (n : Nat) (Item : Option Nat)
    (SlotName : FName) (w' : World)
    (h : RemoveItemFromSlot fuel w n Item SlotName = .ok (w', true)) :
    ∃ me x ItemSlot,
      w.items[n]? = some me ∧ Item = some x ∧ ¬ me.Role < ROLE_Authority ∧
      FindSlotByName me SlotName = some ItemSlot ∧
      w'.items.map shape = (w.store n
        { me with
          ItemSlots := modifyFirst (fun Slot => decide (Slot.SlotName = SlotName))
            (fun Slot => { Slot with InventoryItems := Remove Slot.InventoryItems x })
            me.ItemSlots }).items.map shape := by
  obtain ⟨me, x, slot, w2, w3, w4, hme, hx, hr, hs, h2, h3, h4, hw⟩ :=
    RemoveItemFromSlot_true fuel w n Item SlotName w' h
  refine ⟨me, x, slot, hme, hx, hr, hs, ?_⟩
  have e2 := DeactivateItem_map_eq shape (fun _ => rfl) fuel _ x w2 h2
  have e3 := HideItem_map_eq shape (fun _ => rfl) fuel w2 x w3 h3
  have e4 := SetOwnerItem_map_eq shape (fun _ _ _ => rfl) w3 x _ _ w4 h4
  rw [hw, emit_items, emit_items, e4, e3, e2]

theorem occurrences_store (w : World) (n : Nat) (me : AInventoryItem) (y : Nat)
    (p : FItemSlot → Bool) (f : FItemSlot → FItemSlot) (ItemSlot : FItemSlot)
    (hme : w.items[n]? = some me) (hs : me.ItemSlots.find? p = some ItemSlot) :
    occurrences (w.store n { me with ItemSlots := modifyFirst p f me.ItemSlots }) y +
        ItemSlot.InventoryItems.count y =
      occurrences w y + (f ItemSlot).InventoryItems.count y := by
  have h1 := sum_map_set (fun it => slotCount y it.ItemSlots) w.items n me
    { me with ItemSlots := modifyFirst p f me.ItemSlots } hme
  have h2 := slotCount_modifyFirst y p f me.ItemSlots ItemSlot hs
  simp only [occurrences, World.store]
  simp only at h1
  omega

theorem WithinCapacity_store (w : World) (n : Nat) (me : AInventoryItem)
    (p : FItemSlot → Bool) (f : FItemSlot → FItemSlot)
    (hme : w.items[n]? = some me) (hw : w.WithinCapacity)
    (hf : ∀ a, me.ItemSlots.find? p = some a →
      ((f a).InventoryItems.length : Int) ≤ (f a).ItemCapacity) :
    (w.store n { me with ItemSlots := modifyFirst p f me.ItemSlots }).WithinCapacity := by
  intro it hit slot hslot
  simp only [World.store] at hit
  rcases List.mem_or_eq_of_mem_set hit with h | rfl
  · exact hw it h slot hslot
  · simp only at hslot
    rcases mem_modifyFirst p f me.ItemSlots slot hslot with h | ⟨a, ha, rfl⟩
    · exact hw me (List.getElem?_mem hme) slot h
    · exact hf a ha

theorem length_AddUnique (l : List Nat) (x : Nat) (hx : x ∉ l) :
    (AddUnique l x).length = l.length + 1 := by
  simp [AddUnique, hx]

theorem AddUnique_of_mem (l : List Nat) (x : Nat) (hx : x ∈ l) : AddUnique l x = l := by
  simp [AddUnique, hx]

theorem AddItemToSlot_capacity (fuel : Nat) (w : World) (n : Nat) (NewItem : Option Nat)
    (SlotName : FName) (w' : World) (b : Bool) (hw : w.WithinCapacity)
    (h : AddItemToSlot fuel w n NewItem SlotName = .ok (w', b)) : w'.WithinCapacity := by
  cases b with
  | false =>
    cases hme : w.items[n]? with
    | none => simp [AddItemToSlot, hme] at h
    | some me =>
      rw [((AddItemToSlot_false fuel w n me NewItem SlotName w' hme).mp h).1]
      exact hw
  | true =>
    obtain ⟨me, x, slot, hme, _, _, hs, hc, hshape⟩ :=
      AddItemToSlot_shape fuel w n NewItem SlotName w' h
    refine withinCapacity_congr _ _ hshape ?_
    refine WithinCapacity_store w n me _ _ hme hw ?_
    intro a ha
    have hsa : FindSlotByName me SlotName = some a := ha
    rw [hs] at hsa
    cases hsa
    have hcap := hw me (List.getElem?_mem hme) slot (List.mem_of_find?_eq_some ha)
    rcases (CanPlaceItemInSlot_true w n me x SlotName slot hme hs hc).2 with hin | hlt
    · simp only [AddUnique_of_mem _ _ hin]
      exact hcap
    · by_cases hin : x ∈ slot.InventoryItems
      · simp only [AddUnique_of_mem _ _ hin]
        exact hcap
      · simp only [length_AddUnique _ _ hin]
        push_cast
        omega

theorem RemoveItemFromSlot_capacity (fuel : Nat) (w : World) (n : Nat) (Item : Option Nat)
    (SlotName : FName) (w' : World) (b : Bool) (hw : w.WithinCapacity)
    (h : RemoveItemFromSlot fuel w n Item SlotName = .ok (w', b)) : w'.WithinCapacity := by
  cases b with
  | false =>
    cases hme : w.items[n]? with
    | none => simp [RemoveItemFromSlot, hme] at h
    | some me =>
      rw [((RemoveItemFromSlot_false fuel w n me Item SlotName w' hme).mp h).1]
      exact hw
  | true =>
    obtain ⟨me, x, slot, hme, _, _, hs, hshape⟩ :=
      RemoveItemFromSlot_shape fuel w n Item SlotName w' h
    refine withinCapacity_congr _ _ hshape ?_
    refine WithinCapacity_store w n me _ _ hme hw ?_
    intro a ha
    have hcap := hw me (List.getElem?_mem hme) a (List.mem_of_find?_eq_some ha)
    have := length_Remove_le a.InventoryItems x
    simp only
    omega

theorem AddItem_cases (fuel : Nat) (w : World) (n : Nat) (NewItem : Option Nat)
    (r : World × Bool) (h : AddItem fuel w n NewItem = .ok r) :
    r = (w, false) ∨ ∃ SlotName, AddItemToSlot fuel w n NewItem SlotName = .ok r := by
  unfold AddItem at h
  cases hme : w.items[n]? with
  | none => simp [hme] at h
  | some me =>
    simp only [hme] at h
    split at h
    · simp only [Except.ok.injEq] at h
      exact Or.inl h.symm
    · split at h
      · cases h
      · exact Or.inr ⟨_, h⟩
      · simp only [Except.ok.injEq] at h
        exact Or.inl h.symm

theorem RemoveItem_cases (fuel : Nat) (w : World) (n : Nat) (Item : Option Nat)
    (r : World × Bool) (h : RemoveItem fuel w n Item = .ok r) :
    r = (w, false) ∨ ∃ SlotName, RemoveItemFromSlot fuel w n Item SlotName = .ok r := by
  unfold RemoveItem at h
  cases hme : w.items[n]? with
  | none => simp [hme] at h
  | some me =>
    simp only [hme] at h
    cases Item with
    | none =>
      simp only [Except.ok.injEq] at h
      exact Or.inl h.symm
    | some x =>
      simp only at h
      split at h
      · simp only [Except.ok.injEq] at h
        exact Or.inl h.symm
      · split at h
        · cases h
        · exact Or.inr ⟨_, h⟩

theorem occurrences_of_empty (w : World) (h : w.Empty) (x : Nat) : occurrences w x = 0 := by
  unfold occurrences
  apply List.sum_eq_zero
  intro c hc
  simp only [List.mem_map] at hc
  obtain ⟨it, hit, rfl⟩ := hc
  unfold slotCount
  apply List.sum_eq_zero
  intro d hd
  simp only [List.mem_map] at hd
  obtain ⟨slot, hslot, rfl⟩ := hd
  rw [h it hit slot hslot]
  rfl

theorem slotItems_eq (w : World) (n : Nat) (me : AInventoryItem) (SlotName : FName)
    (ItemSlot : FItemSlot) (hme : w.items[n]? = some me)
    (hs : FindSlotByName me SlotName = some ItemSlot) :
    slotItems w n SlotName = ItemSlot.InventoryItems := by
  simp [slotItems, hme, hs]

theorem applyCall_single (fuel : Nat) (w : World) (c : Call) (r : World × Bool)
    (hw : ∀ y, occurrences w y ≤ 1) (hd : c.Disciplined w)
    (h : applyCall fuel w c = .ok r) : ∀ y, occurrences r.1 y ≤ 1 := by
  obtain ⟨w', b⟩ := r
  intro y
  cases c with
  | add n Item SlotName =>
    simp only [applyCall] at h
    cases b with
    | false =>
      cases hme : w.items[n]? with
      | none => simp [AddItemToSlot, hme] at h
      | some me =>
        rw [((AddItemToSlot_false fuel w n me Item SlotName w' hme).mp h).1]
        exact hw y
    | true =>
      obtain ⟨me, x, slot, hme, hx, _, hs, _, hshape⟩ :=
        AddItemToSlot_shape fuel w n Item SlotName w' h
      subst hx
      simp only [Call.Disciplined] at hd
      rw [slotItems_eq w n me SlotName slot hme hs] at hd
      have hocc := occurrences_store w n me y (fun Slot => decide (Slot.SlotName = SlotName))
        (fun Slot => { Slot with InventoryItems := AddUnique Slot.InventoryItems x }) slot hme hs
      have hcount := count_AddUnique slot.InventoryItems x y
      simp only at hocc
      show occurrences w' y ≤ 1
      rw [occurrences_congr _ _ hshape y]
      have hy := hw y
      by_cases hin : x ∈ slot.InventoryItems
      · simp only [hin, if_true] at hcount
        omega
      · simp only [hin, if_false] at hcount
        have h0 : occurrences w x = 0 := by
          rcases hd with h0 | h1
          · exact h0
          · exact absurd h1 hin
        by_cases hyx : y = x
        · subst hyx
          simp only [if_true] at hcount
          omega
        · simp only [hyx, if_false] at hcount
          omega
  | remove n Item SlotName =>
    simp only [applyCall] at h
    cases b with
    | false =>
      cases hme : w.items[n]? with
      | none => simp [RemoveItemFromSlot, hme] at h
      | some me =>
        rw [((RemoveItemFromSlot_false fuel w n me Item SlotName w' hme).mp h).1]
        exact hw y
    | true =>
      obtain ⟨me, x, slot, hme, hx, _, hs, hshape⟩ :=
        RemoveItemFromSlot_shape fuel w n Item SlotName w' h
      have hocc := occurrences_store w n me y (fun Slot => decide (Slot.SlotName = SlotName))
        (fun Slot => { Slot with InventoryItems := Remove Slot.InventoryItems x }) slot hme hs
      have hcount := count_Remove_le slot.InventoryItems x y
      simp only at hocc
      show occurrences w' y ≤ 1
      rw [occurrences_congr _ _ hshape y]
      have hy := hw y
      omega

theorem run_single (fuel : Nat) : ∀ (calls : List Call) (w w' : World),
    (∀ y, occurrences w y ≤ 1) → Disciplined fuel w calls = true →
    run fuel w calls = .ok w' → ∀ y, occurrences w' y ≤ 1 := by
  intro calls
  induction calls with
  | nil =>
    intro w w' hw _ hrun
    simp only [run, Except.ok.injEq] at hrun
    subst hrun
    exact hw
  | cons c rest ih =>
    intro w w' hw hd hrun
    simp only [run] at hrun
    simp only [Disciplined, Bool.and_eq_true, decide_eq_true_eq] at hd
    cases hc : applyCall fuel w c with
    | error e => simp [hc] at hrun
    | ok r =>
      simp only [hc] at hrun hd
      exact ih r.1 w' (applyCall_single fuel w c r hw hd.1 hc) hd.2 hrun

theorem field_eq_of_map_eq {β : Type} (f : AInventoryItem → β) (l1 l : List AInventoryItem)
    (h : l1.map f = l.map f) (i : Nat) (a b : AInventoryItem) (ha : l1[i]? = some a)
    (hb : l[i]? = some b) : f a = f b := by
  obtain ⟨c, hc, hf⟩ := getElem?_of_map_eq f l1 l h i a ha
  rw [hb] at hc
  cases hc
  exact hf.symm

theorem length_eq_of_map_eq {β : Type} (f : AInventoryItem → β) (l1 l : List AInventoryItem)
    (h : l1.map f = l.map f) : l1.length = l.length := by
  have := congrArg List.length h
  simpa using this

theorem store_get_self (w : World) (n : Nat) (me me1 : AInventoryItem)
    (hme : w.items[n]? = some me) : (w.store n me1).items[n]? = some me1 := by
  have hlt : n < w.items.length := by
    rcases List.getElem?_eq_some.mp hme with ⟨hl, _⟩
    exact hl
  simp only [World.store, List.getElem?_set_self hlt]

theorem store_map_eq {β : Type} (f : AInventoryItem → β) (w : World) (n : Nat)
    (me me1 : AInventoryItem) (hme : w.items[n]? = some me) (hf : f me1 = f me) :
    (w.store n me1).items.map f = w.items.map f :=
  map_set_eq f w.items n me me1 hme hf

theorem FindSlotByName_modify (me : AInventoryItem) (SlotName : FName)
    (g : List Nat → List Nat) :
    FindSlotByName
      { me with
        ItemSlots := modifyFirst (fun Slot => decide (Slot.SlotName = SlotName))
          (fun Slot => { Slot with InventoryItems := g Slot.InventoryItems }) me.ItemSlots }
      SlotName =
    (FindSlotByName me SlotName).map
      (fun Slot => { Slot with InventoryItems := g Slot.InventoryItems }) := by
  unfold FindSlotByName
  exact find?_modifyFirst (fun Slot => decide (Slot.SlotName = SlotName))
    (fun Slot => { Slot with InventoryItems := g Slot.InventoryItems }) (fun _ => rfl)
    me.ItemSlots

theorem FindSlotByName_congr (me me1 : AInventoryItem) (h : me1.ItemSlots = me.ItemSlots)
    (SlotName : FName) : FindSlotByName me1 SlotName = FindSlotByName me SlotName := by
  simp only [FindSlotByName, h]

theorem Templated_store (w : World) (n : Nat) (me : AInventoryItem)
    (p : FItemSlot → Bool) (f : FItemSlot → FItemSlot)
    (hme : w.items[n]? = some me) (hw : w.Templated)
    (hf : ∀ a, me.ItemSlots.find? p = some a → ∀ y ∈ (f a).InventoryItems,
      (w.items[y]?.bind (fun itx => itx.ItemData)).isSome = true) :
    (w.store n { me with ItemSlots := modifyFirst p f me.ItemSlots }).Templated := by
  have hd : ∀ y : Nat,
      ((w.store n { me with ItemSlots := modifyFirst p f me.ItemSlots }).items[y]?.bind
        (fun (itx : AInventoryItem) => itx.ItemData)) =
      (w.items[y]?.bind (fun (itx : AInventoryItem) => itx.ItemData)) := by
    intro y
    have hm := store_map_eq (fun it => it.ItemData) w n me
      { me with ItemSlots := modifyFirst p f me.ItemSlots } hme rfl
    have := congrArg (fun l => l[y]?) hm
    simp only [List.getElem?_map] at this
    cases h1 : (w.store n { me with ItemSlots := modifyFirst p f me.ItemSlots }).items[y]? <;>
      cases h2 : w.items[y]? <;> simp_all
  intro it hit slot hslot y hy
  rw [hd]
  simp only [World.store] at hit
  rcases List.mem_or_eq_of_mem_set hit with h | rfl
  · exact hw it h slot hslot y hy
  · simp only at hslot
    rcases mem_modifyFirst p f me.ItemSlots slot hslot with h | ⟨a, ha, rfl⟩
    · exact hw me (List.getElem?_mem hme) slot h y hy
    · exact hf a ha y hy

theorem Linked_store (w : World) (n : Nat) (me : AInventoryItem)
    (p : FItemSlot → Bool) (f : FItemSlot → FItemSlot)
    (hme : w.items[n]? = some me) (hw : w.Linked)
    (hf : ∀ a, me.ItemSlots.find? p = some a → ∀ y ∈ (f a).InventoryItems,
      y < w.items.length) :
    (w.store n { me with ItemSlots := modifyFirst p f me.ItemSlots }).Linked := by
  intro it hit slot hslot y hy
  simp only [World.store, List.length_set]
  simp only [World.store] at hit
  rcases List.mem_or_eq_of_mem_set hit with h | rfl
  · exact hw it h slot hslot y hy
  · simp only at hslot
    rcases mem_modifyFirst p f me.ItemSlots slot hslot with h | ⟨a, ha, rfl⟩
    · exact hw me (List.getElem?_mem hme) slot h y hy
    · exact hf a ha y hy

theorem mem_AddUnique (l : List Nat) (x y : Nat) (h : y ∈ AddUnique l x) : y ∈ l ∨ y = x := by
  unfold AddUnique at h
  split at h
  · exact Or.inl h
  · simpa using h

theorem mem_Remove (l : List Nat) (x y : Nat) (h : y ∈ Remove l x) : y ∈ l := by
  unfold Remove at h
  exact (List.mem_filter.mp h).1

theorem CanSlotItem_congr (slot : FItemSlot) (w w1 : World)
    (hs : w1.items.map shape = w.items.map shape) (x : Option Nat) :
    slot.CanSlotItem w1 x = slot.CanSlotItem w x := by
  cases x with
  | none => rfl
  | some i =>
    unfold FItemSlot.CanSlotItem
    simp only
    cases h1 : w1.items[i]? with
    | none =>
      have hl := length_eq_of_map_eq shape _ _ hs
      have : w.items[i]? = none := by
        rw [List.getElem?_eq_none_iff] at h1 ⊢
        omega
      simp [this]
    | some it1 =>
      obtain ⟨it, h0, hsh⟩ := getElem?_of_map_eq shape _ _ hs i it1 h1
      simp only [shape, Prod.mk.injEq] at hsh
      simp only [h0, hsh.2.1]

theorem CanPlaceItemInSlot_congr (w w1 : World)
    (hs : w1.items.map shape = w.items.map shape) (n : Nat) (x : Option Nat) (s : FName) :
    CanPlaceItemInSlot w1 n x s = CanPlaceItemInSlot w n x s := by
  unfold CanPlaceItemInSlot
  cases h1 : w1.items[n]? with
  | none =>
    have hl := length_eq_of_map_eq shape _ _ hs
    have : w.items[n]? = none := by
      rw [List.getElem?_eq_none_iff] at h1 ⊢
      omega
    simp [this]
  | some it1 =>
    obtain ⟨it, h0, hsh⟩ := getElem?_of_map_eq shape _ _ hs n it1 h1
    simp only [shape, Prod.mk.injEq] at hsh
    simp only [h0, FindSlotByName_congr it it1 hsh.2.2.symm s]
    cases hfs : FindSlotByName it s with
    | none => rfl
    | some slot => simp only [CanSlotItem_congr slot w w1 hs x]

theorem AddItemToSlot_slotItems (fuel : Nat) (w : World) (n : Nat) (x : Nat)
    (SlotName : FName) (w' : World) (me : AInventoryItem) (ItemSlot : FItemSlot)
    (hme : w.items[n]? = some me) (hs : FindSlotByName me SlotName = some ItemSlot)
    (h : AddItemToSlot fuel w n (some x) SlotName = .ok (w', true)) :
    slotItems w' n SlotName = AddUnique ItemSlot.InventoryItems x := by
  obtain ⟨me0, x0, slot0, hme0, hx0, _, _, _, hshape⟩ :=
    AddItemToSlot_shape fuel w n (some x) SlotName w' h
  rw [hme] at hme0
  cases hme0
  cases hx0
  rw [slotItems_congr _ _ hshape n SlotName]
  rw [slotItems_eq _ n _ SlotName _ (store_get_self w n me _ hme)
    (by rw [FindSlotByName_modify me SlotName (fun l => AddUnique l x), hs]; rfl)]

theorem RemoveItemFromSlot_slotItems (fuel : Nat) (w : World) (n : Nat) (x : Nat)
    (SlotName : FName) (w' : World) (me : AInventoryItem) (ItemSlot : FItemSlot)
    (hme : w.items[n]? = some me) (hs : FindSlotByName me SlotName = some ItemSlot)
    (h : RemoveItemFromSlot fuel w n (some x) SlotName = .ok (w', true)) :
    slotItems w' n SlotName = Remove ItemSlot.InventoryItems x := by
  obtain ⟨me0, x0, slot0, hme0, hx0, _, _, hshape⟩ :=
    RemoveItemFromSlot_shape fuel w n (some x) SlotName w' h
  rw [hme] at hme0
  cases hme0
  cases hx0
  rw [slotItems_congr _ _ hshape n SlotName]
  rw [slotItems_eq _ n _ SlotName _ (store_get_self w n me _ hme)
    (by rw [FindSlotByName_modify me SlotName (fun l => Remove l x), hs]; rfl)]

theorem kind_of_shape (w w1 : World) (hs : w1.items.map shape = w.items.map shape) :
    w1.items.map kind = w.items.map kind := by
  have := congrArg (List.map (fun (s : ENetRole × Option UItemData × List FItemSlot) =>
    (s.1, s.2.1))) hs
  simpa [List.map_map, Function.comp, shape, kind] using this

theorem get_of_map_eq {β : Type} (f : AInventoryItem → β) (w w1 : World)
    (h : w1.items.map f = w.items.map f) (i : Nat) (it : AInventoryItem)
    (hi : w.items[i]? = some it) : ∃ it1, w1.items[i]? = some it1 ∧ f it1 = f it :=
  getElem?_of_map_eq f w.items w1.items h.symm i it hi

theorem lt_of_get (w : World) (i : Nat) (it : AInventoryItem) (h : w.items[i]? = some it) :
    i < w.items.length := by
  rcases List.getElem?_eq_some.mp h with ⟨hl, _⟩
  exact hl

theorem AddItemToSlot_returns (fuel : Nat) (w : World) (n x : Nat) (SlotName : FName)
    (me itx : AInventoryItem) (ItemSlot : FItemSlot) (hw : w.Templated)
    (hme : w.items[n]? = some me) (hr : ¬ me.Role < ROLE_Authority)
    (hx : w.items[x]? = some itx) (hd : itx.ItemData.isSome = true)
    (hs : FindSlotByName me SlotName = some ItemSlot)
    (hc : CanPlaceItemInSlot w n (some x) SlotName = .ok true)
    (hfuel : w.items.length < fuel) :
    ∃ w', AddItemToSlot fuel w n (some x) SlotName = .ok (w', true) := by
  have hw1 := Templated_store w n me (fun Slot => decide (Slot.SlotName = SlotName))
    (fun Slot => { Slot with InventoryItems := AddUnique Slot.InventoryItems x }) hme hw
    (by
      intro a ha y hy
      rcases mem_AddUnique _ _ _ hy with h | rfl
      · exact hw me (List.getElem?_mem hme) a (List.mem_of_find?_eq_some ha) y h
      · simp [hx, hd])
  have hk1 := store_map_eq kind w n me
    { me with
      ItemSlots := modifyFirst (fun Slot => decide (Slot.SlotName = SlotName))
        (fun Slot => { Slot with InventoryItems := AddUnique Slot.InventoryItems x })
        me.ItemSlots } hme rfl
  generalize hw1def : w.store n
    { me with
      ItemSlots := modifyFirst (fun Slot => decide (Slot.SlotName = SlotName))
        (fun Slot => { Slot with InventoryItems := AddUnique Slot.InventoryItems x })
        me.ItemSlots } = w1 at hw1 hk1
  have hn1 : ∃ m1, w1.items[n]? = some m1 ∧ FindSlotByName m1 SlotName =
      some { ItemSlot with InventoryItems := AddUnique ItemSlot.InventoryItems x } := by
    refine ⟨_, by rw [← hw1def]; exact store_get_self w n me _ hme, ?_⟩
    rw [FindSlotByName_modify me SlotName (fun l => AddUnique l x), hs]
    rfl
  obtain ⟨m1, hm1, hf1⟩ := hn1
  have hl1 := length_eq_of_map_eq kind _ _ hk1
  obtain ⟨x1, hx1, hkx1⟩ := get_of_map_eq kind w w1 hk1 x itx hx
  simp only [kind, Prod.mk.injEq] at hkx1
  obtain ⟨w2, h2⟩ := SetOwnerASC_returns fuel w1 x me.OwnerASC x1 hw1 hx1
    (by rw [hkx1.2]; exact hd) (by omega)
  have hs2 := SetOwnerASC_map_eq shape (fun _ _ _ _ => rfl) fuel w1 x _ w2 h2
  have hl2 := length_eq_of_map_eq shape _ _ hs2
  obtain ⟨w3, h3⟩ := SetOwnerItem_returns w2 x (some n) SlotName
    (by have := lt_of_get w x itx hx; omega)
    (by intro p hp; cases hp; have := lt_of_get w n me hme; omega)
  have hs3 := (SetOwnerItem_map_eq shape (fun _ _ _ => rfl) w2 x _ _ w3 h3).trans hs2
  have hl3 := length_eq_of_map_eq shape _ _ hs3
  have hw3 := templated_congr w1 w3 hs3 hw1
  obtain ⟨m3, hm3, hsh3⟩ := get_of_map_eq shape w1 w3 hs3 n m1 hm1
  simp only [shape, Prod.mk.injEq] at hsh3
  have hf3 := (FindSlotByName_congr m1 m3 hsh3.2.2 SlotName).trans hf1
  obtain ⟨x3, hx3, hshx3⟩ := get_of_map_eq shape w1 w3 hs3 x x1 hx1
  simp only [shape, Prod.mk.injEq] at hshx3
  have h4 : ∃ w4, (if m3.bIsItemActive = true ∧
      ({ ItemSlot with InventoryItems := AddUnique ItemSlot.InventoryItems x } :
        FItemSlot).bActivateItem = true
      then ActivateItem fuel w3 x else DeactivateItem fuel w3 x) = .ok w4 := by
    split
    · exact ActivateItem_returns fuel w3 x x3 hw3 hx3
        (fun _ => by rw [hshx3.2.1, hkx1.2]; exact hd) (by omega)
    · exact DeactivateItem_returns fuel w3 x (templated_linked _ hw3)
        (lt_of_get w3 x x3 hx3) (by omega)
  obtain ⟨w4, h4⟩ := h4
  have hs4 : w4.items.map shape = w1.items.map shape := by
    refine Eq.trans ?_ hs3
    split at h4
    · exact ActivateItem_map_eq shape (fun _ _ _ => rfl) fuel w3 x w4 h4
    · exact DeactivateItem_map_eq shape (fun _ => rfl) fuel w3 x w4 h4
  have hl4 := length_eq_of_map_eq shape _ _ hs4
  have hw4 := templated_congr w1 w4 hs4 hw1
  obtain ⟨m4, hm4, hsh4⟩ := get_of_map_eq shape w1 w4 hs4 n m1 hm1
  simp only [shape, Prod.mk.injEq] at hsh4
  have hf4 := (FindSlotByName_congr m1 m4 hsh4.2.2 SlotName).trans hf1
  have h5 : ∃ w5, (if m4.bIsItemVisible = true ∧
      ({ ItemSlot with InventoryItems := AddUnique ItemSlot.InventoryItems x } :
        FItemSlot).bShowItem = true
      then ShowItem fuel w4 x else HideItem fuel w4 x) = .ok w5 := by
    split
    · exact ShowItem_returns fuel w4 x (templated_linked _ hw4)
        (by have := lt_of_get w x itx hx; omega)
        (by omega)
    · exact HideItem_returns fuel w4 x (templated_linked _ hw4)
        (by have := lt_of_get w x itx hx; omega)
        (by omega)
  obtain ⟨w5, h5⟩ := h5
  unfold AddItemToSlot
  simp only [hme, hr, if_false, hs, hc, hw1def, h2, h3, hm3, hf3, h4, hm4, hf4, h5]
  exact ⟨_, rfl⟩

theorem AddItemToSlot_kind (fuel : Nat) (w : World) (n : Nat) (Item : Option Nat)
    (SlotName : FName) (w' : World) (b : Bool)
    (h : AddItemToSlot fuel w n Item SlotName = .ok (w', b)) :
    w'.items.map kind = w.items.map kind := by
  cases b with
  | false =>
    cases hme : w.items[n]? with
    | none => simp [AddItemToSlot, hme] at h
    | some me => rw [((AddItemToSlot_false fuel w n me Item SlotName w' hme).mp h).1]
  | true =>
    obtain ⟨me, x, slot, hme, _, _, _, _, hshape⟩ :=
      AddItemToSlot_shape fuel w n Item SlotName w' h
    exact (kind_of_shape _ _ hshape).trans (store_map_eq kind w n me _ hme rfl)

theorem AddItemToSlot_templated (fuel : Nat) (w : World) (n : Nat) (Item : Option Nat)
    (SlotName : FName) (w' : World) (b : Bool) (hw : w.Templated)
    (h : AddItemToSlot fuel w n Item SlotName = .ok (w', b)) : w'.Templated := by
  cases b with
  | false =>
    cases hme : w.items[n]? with
    | none => simp [AddItemToSlot, hme] at h
    | some me =>
      rw [((AddItemToSlot_false fuel w n me Item SlotName w' hme).mp h).1]
      exact hw
  | true =>
    obtain ⟨me, x, slot, hme, hx, _, hs, _, hshape⟩ :=
      AddItemToSlot_shape fuel w n Item SlotName w' h
    obtain ⟨me0, x0, _, w2, _, _, _, _, _, _, _, hme0, hx0, _, _, _, h2, _⟩ :=
      AddItemToSlot_true fuel w n Item SlotName w' h
    rw [hme] at hme0
    cases hme0
    rw [hx] at hx0
    cases hx0
    obtain ⟨mx, _, hmx, _, hdx, _⟩ := SetOwnerASC_self fuel _ x _ w2 h2
    have hk1 := store_map_eq kind w n me
      { me with
        ItemSlots := modifyFirst (fun Slot => decide (Slot.SlotName = SlotName))
          (fun Slot => { Slot with InventoryItems := AddUnique Slot.InventoryItems x })
          me.ItemSlots } hme rfl
    obtain ⟨itx, hitx, hkx⟩ := getElem?_of_map_eq kind _ _ hk1 x mx hmx
    simp only [kind, Prod.mk.injEq] at hkx
    refine templated_congr _ _ hshape ?_
    refine Templated_store w n me _ _ hme hw ?_
    intro a ha y hy
    rcases mem_AddUnique _ _ _ hy with h1 | rfl
    · exact hw me (List.getElem?_mem hme) a (List.mem_of_find?_eq_some ha) y h1
    · simp [hitx, hkx.2, hdx]

theorem RemoveItemFromSlot_returns (fuel : Nat) (w : World) (n x : Nat) (SlotName : FName)
    (me : AInventoryItem) (ItemSlot : FItemSlot) (hw : w.Linked)
    (hme : w.items[n]? = some me) (hr : ¬ me.Role < ROLE_Authority)
    (hx : x < w.items.length) (hs : FindSlotByName me SlotName = some ItemSlot)
    (hfuel : w.items.length < fuel) :
    ∃ w', RemoveItemFromSlot fuel w n (some x) SlotName = .ok (w', true) := by
  have hw1 := Linked_store w n me (fun Slot => decide (Slot.SlotName = SlotName))
    (fun Slot => { Slot with InventoryItems := Remove Slot.InventoryItems x }) hme hw
    (by
      intro a ha y hy
      exact hw me (List.getElem?_mem hme) a (List.mem_of_find?_eq_some ha) y
        (mem_Remove _ _ _ hy))
  have hk1 := store_map_eq kind w n me
    { me with
      ItemSlots := modifyFirst (fun Slot => decide (Slot.SlotName = SlotName))
        (fun Slot => { Slot with InventoryItems := Remove Slot.InventoryItems x })
        me.ItemSlots } hme rfl
  generalize hw1def : w.store n
    { me with
      ItemSlots := modifyFirst (fun Slot => decide (Slot.SlotName = SlotName))
        (fun Slot => { Slot with InventoryItems := Remove Slot.InventoryItems x })
        me.ItemSlots } = w1 at hw1 hk1
  have hl1 := length_eq_of_map_eq kind _ _ hk1
  obtain ⟨w2, h2⟩ := DeactivateItem_returns fuel w1 x hw1 (by omega) (by omega)
  have hs2 := DeactivateItem_map_eq shape (fun _ => rfl) fuel w1 x w2 h2
  have hl2 := length_eq_of_map_eq shape _ _ hs2
  obtain ⟨w3, h3⟩ := HideItem_returns fuel w2 x (linked_congr w1 w2 hs2 hw1)
    (by omega) (by omega)
  have hs3 := HideItem_map_eq shape (fun _ => rfl) fuel w2 x w3 h3
  have hl3 := length_eq_of_map_eq shape _ _ hs3
  obtain ⟨w4, h4⟩ := SetOwnerItem_returns w3 x none NAME_None (by omega)
    (by intro p hp; cases hp)
  unfold RemoveItemFromSlot
  simp only [hme, hr, if_false, hs, hw1def, h2, h3, h4]
  exact ⟨_, rfl⟩

theorem RemoveItemFromSlot_kind (fuel : Nat) (w : World) (n : Nat) (Item : Option Nat)
    (SlotName : FName) (w' : World) (b : Bool)
    (h : RemoveItemFromSlot fuel w n Item SlotName = .ok (w', b)) :
    w'.items.map kind = w.items.map kind := by
  cases b with
  | false =>
    cases hme : w.items[n]? with
    | none => simp [RemoveItemFromSlot, hme] at h
    | some me => rw [((RemoveItemFromSlot_false fuel w n me Item SlotName w' hme).mp h).1]
  | true =>
    obtain ⟨me, x, slot, hme, _, _, _, hshape⟩ :=
      RemoveItemFromSlot_shape fuel w n Item SlotName w' h
    exact (kind_of_shape _ _ hshape).trans (store_map_eq kind w n me _ hme rfl)

theorem RemoveItemFromSlot_templated (fuel : Nat) (w : World) (n : Nat) (Item : Option Nat)
    (SlotName : FName) (w' : World) (b : Bool) (hw : w.Templated)
    (h : RemoveItemFromSlot fuel w n Item SlotName = .ok (w', b)) : w'.Templated := by
  cases b with
  | false =>
    cases hme : w.items[n]? with
    | none => simp [RemoveItemFromSlot, hme] at h
    | some me =>
      rw [((RemoveItemFromSlot_false fuel w n me Item SlotName w' hme).mp h).1]
      exact hw
  | true =>
    obtain ⟨me, x, slot, hme, hx, _, hs, hshape⟩ :=
      RemoveItemFromSlot_shape fuel w n Item SlotName w' h
    refine templated_congr _ _ hshape ?_
    refine Templated_store w n me _ _ hme hw ?_
    intro a ha y hy
    exact hw me (List.getElem?_mem hme) a (List.mem_of_find?_eq_some ha) y
      (mem_Remove _ _ _ hy)

theorem activation_step_map_eq {β : Type} (f : AInventoryItem → β)
    (hfa : ∀ (me : AInventoryItem) aa ae,
      f { me with bIsItemActive := true, ActiveAbilitiesHandles := aa,
                  ActiveEffectsHandles := ae } = f me)
    (hfd : ∀ (me : AInventoryItem), f { me with bIsItemActive := false } = f me)
    (c : Prop) [Decidable c] (fuel : Nat) (w : World) (x : Nat) (w1 : World)
    (h : (if c then ActivateItem fuel w x else DeactivateItem fuel w x) = .ok w1) :
    w1.items.map f = w.items.map f := by
  split at h
  · exact ActivateItem_map_eq f hfa fuel w x w1 h
  · exact DeactivateItem_map_eq f hfd fuel w x w1 h

theorem visibility_step_map_eq {β : Type} (f : AInventoryItem → β)
    (hf : ∀ (me : AInventoryItem) b, f { me with bIsItemVisible := b } = f me)
    (c : Prop) [Decidable c] (fuel : Nat) (w : World) (x : Nat) (w1 : World)
    (h : (if c then ShowItem fuel w x else HideItem fuel w x) = .ok w1) :
    w1.items.map f = w.items.map f := by
  split at h
  · exact ShowItem_map_eq f (fun me => hf me true) fuel w x w1 h
  · exact HideItem_map_eq f (fun me => hf me false) fuel w x w1 h

theorem false_eq_and_of_not (a b : Bool) (h : ¬ (a = true ∧ b = true)) :
    false = (a && b) := by
  cases a <;> cases b <;> simp_all

theorem CanSlotItem_congr_kind (slot : FItemSlot) (w w1 : World)
    (hs : w1.items.map kind = w.items.map kind) (x : Option Nat) :
    slot.CanSlotItem w1 x = slot.CanSlotItem w x := by
  cases x with
  | none => rfl
  | some i =>
    unfold FItemSlot.CanSlotItem
    simp only
    cases h1 : w1.items[i]? with
    | none =>
      have hl := length_eq_of_map_eq kind _ _ hs
      have : w.items[i]? = none := by
        rw [List.getElem?_eq_none_iff] at h1 ⊢
        omega
      simp [this]
    | some it1 =>
      obtain ⟨it, h0, hsh⟩ := getElem?_of_map_eq kind _ _ hs i it1 h1
      simp only [kind, Prod.mk.injEq] at hsh
      simp only [h0, hsh.2]

theorem CanPlaceItemInSlot_eval (w : World) (n : Nat) (me : AInventoryItem) (x : Nat)
    (SlotName : FName) (ItemSlot : FItemSlot) (hme : w.items[n]? = some me)
    (hslot : FindSlotByName me SlotName = some ItemSlot)
    (hfilter : ItemSlot.CanSlotItem w (some x) = .ok true) :
    CanPlaceItemInSlot w n (some x) SlotName =
      .ok (decide (x ∈ ItemSlot.InventoryItems ∨
        (ItemSlot.InventoryItems.length : Int) < ItemSlot.ItemCapacity)) := by
  simp only [CanPlaceItemInSlot, hme, hslot, hfilter, Contains, decide_eq_true_eq]
  by_cases hin : x ∈ ItemSlot.InventoryItems
  · simp [hin]
  · by_cases hcap : (ItemSlot.InventoryItems.length : Int) < ItemSlot.ItemCapacity
    · simp [hin, hcap]
    · simp [hin, hcap]

theorem AddItemToSlot_actor (fuel : Nat) (w : World) (n x : Nat) (SlotName : FName)
    (w' : World) (me : AInventoryItem) (ItemSlot : FItemSlot)
    (hme : w.items[n]? = some me) (hs : FindSlotByName me SlotName = some ItemSlot)
    (h : AddItemToSlot fuel w n (some x) SlotName = .ok (w', true)) :
    ∃ me', w'.items[n]? = some me' ∧ me'.Role = me.Role ∧
      FindSlotByName me' SlotName =
        some { ItemSlot with InventoryItems := AddUnique ItemSlot.InventoryItems x } := by
  obtain ⟨me0, x0, slot0, hme0, hx0, _, _, _, hshape⟩ :=
    AddItemToSlot_shape fuel w n (some x) SlotName w' h
  rw [hme] at hme0
  cases hme0
  cases hx0
  obtain ⟨me', hme', hsh⟩ := get_of_map_eq shape _ w' hshape n _ (store_get_self w n me _ hme)
  simp only [shape, Prod.mk.injEq] at hsh
  refine ⟨me', hme', hsh.1, ?_⟩
  rw [FindSlotByName_congr
    { me with
      ItemSlots := modifyFirst (fun Slot => decide (Slot.SlotName = SlotName))
        (fun Slot => { Slot with InventoryItems := AddUnique Slot.InventoryItems x })
        me.ItemSlots } me' hsh.2.2 SlotName,
    FindSlotByName_modify me SlotName (fun l => AddUnique l x), hs]
  rfl

theorem RemoveItemFromSlot_actor (fuel : Nat) (w : World) (n x : Nat) (SlotName : FName)
    (w' : World) (me : AInventoryItem) (ItemSlot : FItemSlot)
    (hme : w.items[n]? = some me) (hs : FindSlotByName me SlotName = some ItemSlot)
    (h : RemoveItemFromSlot fuel w n (some x) SlotName = .ok (w', true)) :
    ∃ me', w'.items[n]? = some me' ∧ me'.Role = me.Role ∧
      FindSlotByName me' SlotName =
        some { ItemSlot with InventoryItems := Remove ItemSlot.InventoryItems x } := by
  obtain ⟨me0, x0, slot0, hme0, hx0, _, _, hshape⟩ :=
    RemoveItemFromSlot_shape fuel w n (some x) SlotName w' h
  rw [hme] at hme0
  cases hme0
  cases hx0
  obtain ⟨me', hme', hsh⟩ := get_of_map_eq shape _ w' hshape n _ (store_get_self w n me _ hme)
  simp only [shape, Prod.mk.injEq] at hsh
  refine ⟨me', hme', hsh.1, ?_⟩
  rw [FindSlotByName_congr
    { me with
      ItemSlots := modifyFirst (fun Slot => decide (Slot.SlotName = SlotName))
        (fun Slot => { Slot with InventoryItems := Remove Slot.InventoryItems x })
        me.ItemSlots } me' hsh.2.2 SlotName,
    FindSlotByName_modify me SlotName (fun l => Remove l x), hs]
  rfl

theorem CanSlotItem_items (slot : FItemSlot) (l : List Nat) (w : World) (x : Option Nat) :
    ({ slot with InventoryItems := l } : FItemSlot).CanSlotItem w x = slot.CanSlotItem w x :=
  rfl

/-! ## Where a wave goes and what it settles -/

theorem chain_under (k : Wave) (w : World) (p y : Nat) (h : Chain k w p y) : Under w p y := by
  induction h with
  | root => exact Under.root _
  | step z c it slot _ hz _ hs _ hc ih => exact Under.step _ z c it slot ih hz hs hc

theorem cascade_steady (k : Wave) (edit : AInventoryItem → AInventoryItem → Prop)
    (hk : k.Spec edit) (fuel : Nat) (w : World) (self : Nat) (w1 : World)
    (h : cascade k fuel w self = .ok w1) :
    NodeRel (Steady k) w w1 := by
  refine cascade_nodes k edit hk _ (fun a => ⟨rfl, fun _ => rfl, fun _ => rfl⟩) ?_ ?_
    fuel w self w1 h
  · rintro a b c ⟨s1, k1, n1⟩ ⟨s2, k2, n2⟩
    refine ⟨s2.trans s1, fun ha => ?_, fun hc => ?_⟩
    · have hb := k1 ha
      subst hb
      exact k2 ha
    · have hb := n2 hc
      subst hb
      exact n1 hc
  · intro me me1 _ hs he
    refine ⟨hk.slots me me1 he, fun h1 => ?_, fun h1 => ?_⟩
    · rw [hs] at h1
      cases h1
    · rw [hk.settled me me1 he] at h1
      cases h1

theorem forEach_establish {α : Type} (R : World → World → Prop) (hrefl : ∀ w, R w w)
    (htrans : ∀ a b c, R a b → R b c → R a c) (Q : α → World → Prop)
    (hstable : ∀ a v v1, R v v1 → Q a v → Q a v1)
    (body : World → α → Except Fault World) (l : List α)
    (hbody : ∀ v a v1, a ∈ l → body v a = .ok v1 → R v v1 ∧ Q a v1) :
    ∀ v v1, forEach body l v = .ok v1 → ∀ a ∈ l, Q a v1 := by
  induction l with
  | nil => intro v v1 _ a ha; cases ha
  | cons b rest ih =>
    intro v v1 h a ha
    simp only [forEach] at h
    cases hb : body v b with
    | error e => simp [hb] at h
    | ok v2 =>
      simp only [hb] at h
      have hrest : R v2 v1 :=
        forEach_rel R hrefl htrans body rest
          (fun u c u1 hc hu => (hbody u c u1 (List.mem_cons_of_mem _ hc) hu).1) v2 v1 h
      rcases List.mem_cons.mp ha with rfl | hmem
      · exact hstable _ _ _ hrest (hbody v a v2 (List.mem_cons_self _ _) hb).2
      · exact ih (fun u c u1 hc hu => hbody u c u1 (List.mem_cons_of_mem _ hc) hu) v2 v1 h a hmem

theorem steady_refl (k : Wave) (a : AInventoryItem) : Steady k a a :=
  ⟨rfl, fun _ => rfl, fun _ => rfl⟩

theorem steady_trans (k : Wave) (a b c : AInventoryItem) (h1 : Steady k a b)
    (h2 : Steady k b c) : Steady k a c := by
  obtain ⟨s1, k1, n1⟩ := h1
  obtain ⟨s2, k2, n2⟩ := h2
  refine ⟨s2.trans s1, fun ha => ?_, fun hc => ?_⟩
  · have hb := k1 ha
    subst hb
    exact k2 ha
  · have hb := n2 hc
    subst hb
    exact n1 hc

theorem settled_of_steady (k : Wave) (c : Nat) (v v1 : World)
    (h : NodeRel (Steady k) v v1) (hs : Settled k c v) : Settled k c v1 := by
  obtain ⟨it, hit, hskip⟩ := hs
  obtain ⟨it1, hit1, hst⟩ := h.2 c it hit
  have := hst.2.1 hskip
  subst this
  exact ⟨it1, hit1, hskip⟩

theorem cascade_settles_self (k : Wave) (edit : AInventoryItem → AInventoryItem → Prop)
    (hk : k.Spec edit) (fuel : Nat) (w : World) (self : Nat) (w1 : World)
    (h : cascade k fuel w self = .ok w1) : Settled k self w1 := by
  obtain ⟨me, me1, hme, hme1, hc⟩ := cascade_self k edit hk fuel w self w1 h
  rcases hc with ⟨hs, rfl⟩ | ⟨_, he⟩
  · exact ⟨me, hme, hs⟩
  · exact ⟨me1, hme1, hk.settled me me1 he⟩

theorem swept_refl (k : Wave) (w : World) : Swept k w w := by
  intro z it it1 hz hs hz1 hs1
  rw [hz] at hz1
  cases hz1
  rw [hs] at hs1
  cases hs1

theorem swept_trans (k : Wave) (a b c : World) (hab : NodeRel (Steady k) a b)
    (hbc : NodeRel (Steady k) b c) (sab : Swept k a b) (sbc : Swept k b c) : Swept k a c := by
  intro z it it2 hz hs hz2 hs2 slot hslot hd x hx
  obtain ⟨it1, hz1, hst⟩ := hab.2 z it hz
  by_cases h1 : k.skip it1 = true
  · exact settled_of_steady k x b c hbc (sab z it it1 hz hs hz1 h1 slot hslot hd x hx)
  · have h1f : k.skip it1 = false := by simpa using h1
    have := hst.2.2 h1f
    subst this
    exact sbc z it1 it2 hz1 hs hz2 hs2 slot hslot hd x hx

theorem cascade_swept (k : Wave) (edit : AInventoryItem → AInventoryItem → Prop)
    (hk : k.Spec edit) :
    ∀ fuel w self w1, cascade k fuel w self = .ok w1 → Swept k w w1 := by
  intro fuel
  induction fuel with
  | zero => intro w self w1 h; simp [cascade] at h
  | succ n ih =>
    intro w self w1 h
    have hwhole := h
    simp only [cascade] at h
    cases hme : w.items[self]? with
    | none => simp [hme] at h
    | some me =>
      simp only [hme] at h
      by_cases hp : k.pre me = false
      · simp [hp] at h
      · have hp1 : k.pre me = true := by simpa using hp
        by_cases hs : k.skip me = true
        · simp only [hp1, hs] at h
          simp at h
          subst h
          exact swept_refl k w
        · have hs1 : k.skip me = false := by simpa using hs
          simp only [hp1, hs1] at h
          simp only [Bool.true_eq_false, Bool.false_eq_true, if_false] at h
          cases hv : k.visit w self me with
          | error e => simp [hv] at h
          | ok w2 =>
            simp only [hv] at h
            obtain ⟨me1, hset, he⟩ := hk.sound w self me w2 hme hp1 hs1 hv
            let RS : World → World → Prop := fun a b => NodeRel (Steady k) a b ∧ Swept k a b
            have hRSrefl : ∀ a, RS a a :=
              fun a => ⟨nodeRel_refl (steady_refl k) a, swept_refl k a⟩
            have hRStrans : ∀ a b c, RS a b → RS b c → RS a c :=
              fun a b c h1 h2 =>
                ⟨nodeRel_trans (steady_trans k) a b c h1.1 h2.1,
                  swept_trans k a b c h1.1 h2.1 h1.2 h2.2⟩
            have hcall : ∀ v c v1, cascade k n v c = .ok v1 → RS v v1 :=
              fun v c v1 hc => ⟨cascade_steady k edit hk n v c v1 hc, ih v c v1 hc⟩
            have hloops : RS w2 w1 := by
              refine forEach_rel RS hRSrefl hRStrans _ _ ?_ w2 w1 h
              intro v slot v1 _ hb
              by_cases hd : k.descend slot = true
              · simp only [hd, if_true] at hb
                exact forEach_rel RS hRSrefl hRStrans _ _
                  (fun u c u1 _ hu => hcall u c u1 hu) v v1 hb
              · simp only [hd] at hb
                simp at hb
                subst hb
                exact hRSrefl v
            have hchildren : ∀ slot ∈ me.ItemSlots,
                (k.descend slot = true → ∀ c ∈ slot.InventoryItems, Settled k c w1) := by
              refine forEach_establish (NodeRel (Steady k)) (nodeRel_refl (steady_refl k))
                (nodeRel_trans (steady_trans k))
                (fun (slot : FItemSlot) v =>
                  k.descend slot = true → ∀ c ∈ slot.InventoryItems, Settled k c v)
                (fun slot v v1 hr hq hd c hc => settled_of_steady k c v v1 hr (hq hd c hc))
                _ me.ItemSlots ?_ w2 w1 h
              intro v slot v1 _ hb
              by_cases hd : k.descend slot = true
              · simp only [hd, if_true] at hb
                refine ⟨forEach_rel (NodeRel (Steady k)) (nodeRel_refl (steady_refl k))
                  (nodeRel_trans (steady_trans k)) _ _
                  (fun u c u1 _ hu => (hcall u c u1 hu).1) v v1 hb, fun _ => ?_⟩
                exact forEach_establish (NodeRel (Steady k)) (nodeRel_refl (steady_refl k))
                  (nodeRel_trans (steady_trans k)) (fun c v => Settled k c v)
                  (fun c v v1 hr hq => settled_of_steady k c v v1 hr hq) _ slot.InventoryItems
                  (fun u c u1 _ hu =>
                    ⟨(hcall u c u1 hu).1, cascade_settles_self k edit hk n u c u1 hu⟩) v v1 hb
              · simp only [hd] at hb
                simp at hb
                subst hb
                exact ⟨nodeRel_refl (steady_refl k) v, fun h => absurd h hd⟩
            intro z it it1 hz hsz hz1 hsz1 slot hslot hd c hc
            by_cases hzx : self = z
            · subst hzx
              rw [hme] at hz
              cases hz
              exact hchildren slot hslot hd c hc
            · have hz2 : w2.items[z]? = some it := by
                rw [hset, List.getElem?_set_ne hzx]
                exact hz
              exact hloops.2 z it it1 hz2 hsz hz1 hsz1 slot hslot hd c hc

theorem chain_settled (k : Wave) (edit : AInventoryItem → AInventoryItem → Prop)
    (hk : k.Spec edit) (fuel : Nat) (w : World) (p : Nat) (w1 : World)
    (h : cascade k fuel w p = .ok w1) (y : Nat) (hc : Chain k w p y) : Settled k y w1 := by
  induction hc with
  | root => exact cascade_settles_self k edit hk fuel w _ w1 h
  | step z c it slot _ hz hs hslot hd hcmem ih =>
    obtain ⟨it1, hz1, hs1⟩ := ih
    exact cascade_swept k edit hk fuel w _ w1 h z it it1 hz hs hz1 hs1 slot hslot hd c hcmem

theorem cascade_frame (k : Wave) (edit : AInventoryItem → AInventoryItem → Prop)
    (hk : k.Spec edit) (w : World) (p : Nat) :
    ∀ fuel v x v1, NodeRel (Steady k) w v → Chain k w p x → cascade k fuel v x = .ok v1 →
      ∀ (i : Nat) (it : AInventoryItem), v.items[i]? = some it →
        v1.items[i]? = some it ∨ Chain k w p i := by
  intro fuel
  induction fuel with
  | zero => intro v x v1 _ _ h; simp [cascade] at h
  | succ n ih =>
    intro v x v1 hwv hch h
    simp only [cascade] at h
    cases hme : v.items[x]? with
    | none => simp [hme] at h
    | some me =>
      simp only [hme] at h
      by_cases hp : k.pre me = false
      · simp [hp] at h
      · have hp1 : k.pre me = true := by simpa using hp
        by_cases hs : k.skip me = true
        · simp only [hp1, hs] at h
          simp at h
          subst h
          exact fun i it hi => Or.inl hi
        · have hs1 : k.skip me = false := by simpa using hs
          simp only [hp1, hs1] at h
          simp only [Bool.true_eq_false, Bool.false_eq_true, if_false] at h
          cases hv : k.visit v x me with
          | error e => simp [hv] at h
          | ok v2 =>
            simp only [hv] at h
            obtain ⟨me1, hset, he⟩ := hk.sound v x me v2 hme hp1 hs1 hv
            -- the actor is the one of the first world
            have hwx : w.items[x]? = some me := by
              have hlt : x < w.items.length := by
                have := lt_of_get v x me hme
                rw [hwv.1] at this
                exact this
              obtain ⟨me', hme', hst⟩ := hwv.2 x _ (List.getElem?_eq_getElem hlt)
              rw [hme] at hme'
              cases hme'
              rw [List.getElem?_eq_getElem hlt, ← hst.2.2 hs1]
            let F : World → World → Prop := fun a b =>
              ∀ (i : Nat) (it : AInventoryItem), a.items[i]? = some it →
                b.items[i]? = some it ∨ Chain k w p i
            let R : World → World → Prop := fun a b =>
              NodeRel (Steady k) w a → NodeRel (Steady k) w b ∧ F a b
            have hRrefl : ∀ a, R a a := fun a ha => ⟨ha, fun i it hi => Or.inl hi⟩
            have hRtrans : ∀ a b c, R a b → R b c → R a c := by
              intro a b c h1 h2 ha
              obtain ⟨hb, f1⟩ := h1 ha
              obtain ⟨hc, f2⟩ := h2 hb
              refine ⟨hc, fun i it hi => ?_⟩
              rcases f1 i it hi with h3 | h3
              · exact f2 i it h3
              · exact Or.inr h3
            have hwv2 : NodeRel (Steady k) w v2 :=
              nodeRel_trans (steady_trans k) w v v2 hwv
                (nodeRel_of_set (steady_refl k) v v2 x me me1 hme hset
                  ⟨hk.slots me me1 he, fun h1 => absurd h1 hs,
                    fun h1 => absurd (hk.settled me me1 he) (by simp [h1])⟩)
            have hloops : R v2 v1 := by
              refine forEach_rel R hRrefl hRtrans _ _ ?_ v2 v1 h
              intro u slot u1 hslot hb
              by_cases hd : k.descend slot = true
              · simp only [hd, if_true] at hb
                refine forEach_rel R hRrefl hRtrans _ _ ?_ u u1 hb
                intro a c a1 hc ha hwa
                exact ⟨nodeRel_trans (steady_trans k) w a a1 hwa
                    (cascade_steady k edit hk n a c a1 ha),
                  ih a c a1 hwa (Chain.step p x c me slot hch hwx hs1 hslot hd hc) ha⟩
              · simp only [hd] at hb
                simp at hb
                subst hb
                exact hRrefl u
            intro i it hi
            by_cases hix : x = i
            · subst hix
              exact Or.inr hch
            · have hi2 : v2.items[i]? = some it := by
                rw [hset, List.getElem?_set_ne hix]
                exact hi
              exact (hloops hwv2).2 i it hi2

theorem cascade_beyond (k : Wave) (edit : AInventoryItem → AInventoryItem → Prop)
    (hk : k.Spec edit) (fuel : Nat) (w : World) (p : Nat) (w1 : World)
    (h : cascade k fuel w p = .ok w1) (i : Nat) (it : AInventoryItem)
    (hi : w.items[i]? = some it) (hn : ¬ Chain k w p i) : w1.items[i]? = some it := by
  rcases cascade_frame k edit hk w p fuel w p w1 (nodeRel_refl (steady_refl k) w)
    (Chain.root p) h i it hi with h1 | h1
  · exact h1
  · exact absurd h1 hn

theorem cascade_self_visit (k : Wave) (edit : AInventoryItem → AInventoryItem → Prop)
    (hk : k.Spec edit) (R : World → World → Prop) (hrefl : ∀ w, R w w)
    (htrans : ∀ a b c, R a b → R b c → R a c)
    (hvisit : ∀ w self me w1, w.items[self]? = some me → k.pre me = true →
      k.skip me = false → k.visit w self me = .ok w1 → R w w1)
    (fuel : Nat) (w : World) (self : Nat) (w1 : World) (me : AInventoryItem)
    (h : cascade k fuel w self = .ok w1) (hme : w.items[self]? = some me)
    (hs : k.skip me = false) :
    ∃ w2, k.visit w self me = .ok w2 ∧ w1.items[self]? = w2.items[self]? ∧ R w2 w1 := by
  cases fuel with
  | zero => simp [cascade] at h
  | succ n =>
    simp only [cascade, hme] at h
    by_cases hp : k.pre me = false
    · simp [hp] at h
    · have hp1 : k.pre me = true := by simpa using hp
      simp only [hp1, hs] at h
      simp only [Bool.true_eq_false, Bool.false_eq_true, if_false] at h
      cases hv : k.visit w self me with
      | error e => simp [hv] at h
      | ok w2 =>
        simp only [hv] at h
        obtain ⟨me1, hset, he⟩ := hk.sound w self me w2 hme hp1 hs hv
        have h2 : w2.items[self]? = some me1 := by
          rw [hset, List.getElem?_set_self (lt_of_get w self me hme)]
        have hloop : ∀ (Q : World → World → Prop), (∀ a, Q a a) →
            (∀ a b c, Q a b → Q b c → Q a c) →
            (∀ v c v1, cascade k n v c = .ok v1 → Q v v1) → Q w2 w1 := by
          intro Q hq1 hq2 hq3
          refine forEach_rel Q hq1 hq2 _ _ ?_ w2 w1 h
          intro v slot v1 _ hb
          by_cases hd : k.descend slot = true
          · simp only [hd, if_true] at hb
            exact forEach_rel Q hq1 hq2 _ _ (fun u c u1 _ hu => hq3 u c u1 hu) v v1 hb
          · simp only [hd] at hb
            simp at hb
            subst hb
            exact hq1 v
        have hst := hloop (NodeRel (Steady k)) (nodeRel_refl (steady_refl k))
          (nodeRel_trans (steady_trans k)) (fun v c v1 hc => cascade_steady k edit hk n v c v1 hc)
        obtain ⟨me2, h3, hs3⟩ := hst.2 self me1 h2
        have := hs3.2.1 (hk.settled me me1 he)
        subst this
        exact ⟨w2, rfl, by rw [h3, h2],
          hloop R hrefl htrans (fun v c v1 hc => cascade_rel k R hrefl htrans hvisit n v c v1 hc)⟩

/-! ## The calls made to an ability system -/

theorem give_foldl (asc : Nat) (cs : List Nat) : ∀ (w : World) (out : List Nat),
    cs.foldl
      (fun (acc : World × List Nat) AbilityClass =>
        ({ acc.1 with
            log := acc.1.log ++ [Event.GiveAbility asc AbilityClass acc.1.nextHandle],
            nextHandle := acc.1.nextHandle + 1 },
          acc.2 ++ [acc.1.nextHandle]))
      (w, out) =
    ({ w with log := w.log ++ giveEvents asc cs w.nextHandle,
              nextHandle := w.nextHandle + cs.length },
      out ++ List.range' w.nextHandle cs.length) := by
  induction cs with
  | nil => intro w out; simp [giveEvents]
  | cons c rest ih =>
    intro w out
    rw [List.foldl_cons, ih]
    simp [giveEvents, List.range'_succ, Nat.add_assoc, Nat.add_comm 1]

theorem apply_foldl (asc : Nat) (cs : List Nat) : ∀ (w : World) (out : List Nat),
    cs.foldl
      (fun (acc : World × List Nat) EffectClass =>
        ({ acc.1 with
            log := acc.1.log ++
              [Event.ApplyGameplayEffectToSelf asc EffectClass acc.1.nextHandle],
            nextHandle := acc.1.nextHandle + 1 },
          acc.2 ++ [acc.1.nextHandle]))
      (w, out) =
    ({ w with log := w.log ++ applyEvents asc cs w.nextHandle,
              nextHandle := w.nextHandle + cs.length },
      out ++ List.range' w.nextHandle cs.length) := by
  induction cs with
  | nil => intro w out; simp [applyEvents]
  | cons c rest ih =>
    intro w out
    rw [List.foldl_cons, ih]
    simp [applyEvents, List.range'_succ, Nat.add_assoc, Nat.add_comm 1]

theorem clear_foldl (asc : Nat) (hs : List Nat) : ∀ (w : World) (n : Int),
    (hs.foldl
      (fun (acc : World × Int) AbilityHandle =>
        (acc.1.emit (Event.ClearAbility asc AbilityHandle), acc.2 + 1))
      (w, n)).1 = { w with log := w.log ++ clearEvents asc hs } := by
  induction hs with
  | nil => intro w n; simp [clearEvents]
  | cons c rest ih =>
    intro w n
    rw [List.foldl_cons, ih]
    simp [clearEvents, World.emit]

theorem remove_foldl (asc : Nat) (hs : List Nat) : ∀ (w : World) (n : Int),
    (hs.foldl
      (fun (acc : World × Int) EffectHandle =>
        (acc.1.emit (Event.RemoveActiveGameplayEffect asc EffectHandle), acc.2 + 1))
      (w, n)).1 = { w with log := w.log ++ removeEvents asc hs } := by
  induction hs with
  | nil => intro w n; simp [removeEvents]
  | cons c rest ih =>
    intro w n
    rw [List.foldl_cons, ih]
    simp [removeEvents, World.emit]

theorem GiveAbilitiesToASC_eq (w : World) (me : AInventoryItem) (asc : Nat)
    (cs out : List Nat) (ha : me.OwnerASC = some asc) (hr : ¬ me.Role < ROLE_Authority) :
    GiveAbilitiesToASC w me cs out =
      ({ w with log := w.log ++ giveEvents asc cs w.nextHandle,
                nextHandle := w.nextHandle + cs.length },
        out ++ List.range' w.nextHandle cs.length) := by
  simp only [GiveAbilitiesToASC, ha, hr, if_false]
  exact give_foldl asc cs w out

theorem ApplyEffectsToASC_eq (w : World) (me : AInventoryItem) (asc : Nat)
    (cs out : List Nat) (ha : me.OwnerASC = some asc) (hr : ¬ me.Role < ROLE_Authority) :
    ApplyEffectsToASC w me cs out =
      ({ w with log := w.log ++ applyEvents asc cs w.nextHandle,
                nextHandle := w.nextHandle + cs.length },
        out ++ List.range' w.nextHandle cs.length) := by
  simp only [ApplyEffectsToASC, ha, hr, if_false]
  exact apply_foldl asc cs w out

theorem RemoveAbilitiesFromASC_eq (w : World) (me : AInventoryItem) (asc : Nat)
    (hs : List Nat) (ha : me.OwnerASC = some asc) (hr : ¬ me.Role < ROLE_Authority) :
    (RemoveAbilitiesFromASC w me hs).1 = { w with log := w.log ++ clearEvents asc hs } := by
  simp only [RemoveAbilitiesFromASC, ha, hr, if_false]
  exact clear_foldl asc hs w 0

theorem RemoveEffectsFromASC_eq (w : World) (me : AInventoryItem) (asc : Nat)
    (hs : List Nat) (ha : me.OwnerASC = some asc) (hr : ¬ me.Role < ROLE_Authority) :
    (RemoveEffectsFromASC w me hs).1 = { w with log := w.log ++ removeEvents asc hs } := by
  simp only [RemoveEffectsFromASC, ha, hr, if_false]
  exact remove_foldl asc hs w 0

theorem giveEvents_length (asc : Nat) (cs : List Nat) : ∀ h, (giveEvents asc cs h).length = cs.length := by
  induction cs with
  | nil => intro h; rfl
  | cons c rest ih => intro h; simp [giveEvents, ih]

theorem applyEvents_length (asc : Nat) (cs : List Nat) :
    ∀ h, (applyEvents asc cs h).length = cs.length := by
  induction cs with
  | nil => intro h; rfl
  | cons c rest ih => intro h; simp [applyEvents, ih]

theorem grantsTo_append (a : Nat) (l1 l2 : List Event) :
    grantsTo a (l1 ++ l2) = grantsTo a l1 + grantsTo a l2 := by
  simp [grantsTo]

theorem revokesFrom_append (a : Nat) (l1 l2 : List Event) :
    revokesFrom a (l1 ++ l2) = revokesFrom a l1 + revokesFrom a l2 := by
  simp [revokesFrom]

theorem callsTo_append (a : Nat) (l1 l2 : List Event) :
    callsTo a (l1 ++ l2) = callsTo a l1 ++ callsTo a l2 := by
  simp [callsTo]

theorem grantsTo_giveEvents (a b : Nat) (cs : List Nat) : ∀ h,
    grantsTo a (giveEvents b cs h) = if b = a then cs.length else 0 := by
  induction cs with
  | nil => intro h; simp [grantsTo, giveEvents]
  | cons c rest ih =>
    intro h
    have := ih (h + 1)
    simp only [grantsTo] at this
    simp only [grantsTo, giveEvents, List.countP_cons, this, Event.isGrantTo]
    by_cases hab : b = a <;> simp [hab]

theorem grantsTo_applyEvents (a b : Nat) (cs : List Nat) : ∀ h,
    grantsTo a (applyEvents b cs h) = if b = a then cs.length else 0 := by
  induction cs with
  | nil => intro h; simp [grantsTo, applyEvents]
  | cons c rest ih =>
    intro h
    have := ih (h + 1)
    simp only [grantsTo] at this
    simp only [grantsTo, applyEvents, List.countP_cons, this, Event.isGrantTo]
    by_cases hab : b = a <;> simp [hab]

theorem grantsTo_clearEvents (a b : Nat) (hs : List Nat) :
    grantsTo a (clearEvents b hs) = 0 := by
  induction hs with
  | nil => rfl
  | cons c rest ih =>
    simp only [grantsTo, clearEvents, List.map_cons, List.countP_cons] at ih ⊢
    simp [ih, Event.isGrantTo]

theorem grantsTo_removeEvents (a b : Nat) (hs : List Nat) :
    grantsTo a (removeEvents b hs) = 0 := by
  induction hs with
  | nil => rfl
  | cons c rest ih =>
    simp only [grantsTo, removeEvents, List.map_cons, List.countP_cons] at ih ⊢
    simp [ih, Event.isGrantTo]

theorem revokesFrom_giveEvents (a b : Nat) (cs : List Nat) : ∀ h,
    revokesFrom a (giveEvents b cs h) = 0 := by
  induction cs with
  | nil => intro h; rfl
  | cons c rest ih =>
    intro h
    have := ih (h + 1)
    simp only [revokesFrom] at this
    simp [revokesFrom, giveEvents, List.countP_cons, this, Event.isRevokeFrom]

theorem revokesFrom_applyEvents (a b : Nat) (cs : List Nat) : ∀ h,
    revokesFrom a (applyEvents b cs h) = 0 := by
  induction cs with
  | nil => intro h; rfl
  | cons c rest ih =>
    intro h
    have := ih (h + 1)
    simp only [revokesFrom] at this
    simp [revokesFrom, applyEvents, List.countP_cons, this, Event.isRevokeFrom]

theorem revokesFrom_clearEvents (a b : Nat) (hs : List Nat) :
    revokesFrom a (clearEvents b hs) = if b = a then hs.length else 0 := by
  induction hs with
  | nil => simp [revokesFrom, clearEvents]
  | cons c rest ih =>
    simp only [revokesFrom, clearEvents, List.map_cons, List.countP_cons] at ih ⊢
    simp only [ih, Event.isRevokeFrom]
    by_cases hab : b = a <;> simp [hab]

theorem revokesFrom_removeEvents (a b : Nat) (hs : List Nat) :
    revokesFrom a (removeEvents b hs) = if b = a then hs.length else 0 := by
  induction hs with
  | nil => simp [revokesFrom, removeEvents]
  | cons c rest ih =>
    simp only [revokesFrom, removeEvents, List.map_cons, List.countP_cons] at ih ⊢
    simp only [ih, Event.isRevokeFrom]
    by_cases hab : b = a <;> simp [hab]

theorem callsTo_giveEvents (a b : Nat) (cs : List Nat) : ∀ h,
    callsTo a (giveEvents b cs h) = if b = a then giveEvents b cs h else [] := by
  induction cs with
  | nil => intro h; simp [callsTo, giveEvents]
  | cons c rest ih =>
    intro h
    have := ih (h + 1)
    by_cases hab : b = a
    · simp only [hab, if_true] at this ⊢
      simp only [callsTo, giveEvents, List.filter_cons] at this ⊢
      rw [this]
      simp [Event.isGrantTo]
    · simp only [hab, if_false] at this ⊢
      simp only [callsTo, giveEvents, List.filter_cons] at this ⊢
      rw [this]
      simp [Event.isGrantTo, Event.isRevokeFrom, hab]

theorem callsTo_applyEvents (a b : Nat) (cs : List Nat) : ∀ h,
    callsTo a (applyEvents b cs h) = if b = a then applyEvents b cs h else [] := by
  induction cs with
  | nil => intro h; simp [callsTo, applyEvents]
  | cons c rest ih =>
    intro h
    have := ih (h + 1)
    by_cases hab : b = a
    · simp only [hab, if_true] at this ⊢
      simp only [callsTo, applyEvents, List.filter_cons] at this ⊢
      rw [this]
      simp [Event.isGrantTo]
    · simp only [hab, if_false] at this ⊢
      simp only [callsTo, applyEvents, List.filter_cons] at this ⊢
      rw [this]
      simp [Event.isGrantTo, Event.isRevokeFrom, hab]

theorem callsTo_clearEvents (a b : Nat) (hs : List Nat) :
    callsTo a (clearEvents b hs) = if b = a then clearEvents b hs else [] := by
  induction hs with
  | nil => simp [callsTo, clearEvents]
  | cons c rest ih =>
    simp only [callsTo, clearEvents, List.map_cons, List.filter_cons] at ih ⊢
    simp only [ih, Event.isGrantTo, Event.isRevokeFrom]
    by_cases hab : b = a <;> simp [hab]

theorem callsTo_removeEvents (a b : Nat) (hs : List Nat) :
    callsTo a (removeEvents b hs) = if b = a then removeEvents b hs else [] := by
  induction hs with
  | nil => simp [callsTo, removeEvents]
  | cons c rest ih =>
    simp only [callsTo, removeEvents, List.map_cons, List.filter_cons] at ih ⊢
    simp only [ih, Event.isGrantTo, Event.isRevokeFrom]
    by_cases hab : b = a <;> simp [hab]

theorem forEach_no_items (body : World → Nat → Except Fault World) (slots : List FItemSlot)
    (p : FItemSlot → Prop) [DecidablePred p]
    (h : ∀ slot ∈ slots, slot.InventoryItems = []) (w : World) :
    forEach
      (fun w2 (Slot : FItemSlot) =>
        if p Slot then forEach body Slot.InventoryItems w2 else .ok w2) slots w = .ok w := by
  induction slots with
  | nil => rfl
  | cons s rest ih =>
    have hs := h s (List.mem_cons_self _ _)
    simp only [forEach, hs]
    simp only [ite_self]
    exact ih (fun slot hslot => h slot (List.mem_cons_of_mem _ hslot))

theorem logGrows_refl (a : World) : LogGrows a a := ⟨[], by simp⟩

theorem logGrows_trans (a b c : World) (h1 : LogGrows a b) (h2 : LogGrows b c) :
    LogGrows a c := by
  obtain ⟨e1, h1⟩ := h1
  obtain ⟨e2, h2⟩ := h2
  exact ⟨e1 ++ e2, by rw [h2, h1, List.append_assoc]⟩

theorem GiveAbilitiesToASC_closed (w : World) (me : AInventoryItem) (cs out : List Nat) :
    GiveAbilitiesToASC w me cs out =
      match me.OwnerASC with
      | none => (w, out)
      | some asc =>
        if me.Role < ROLE_Authority then (w, out)
        else
          ({ w with log := w.log ++ giveEvents asc cs w.nextHandle,
                    nextHandle := w.nextHandle + cs.length },
            out ++ List.range' w.nextHandle cs.length) := by
  cases ha : me.OwnerASC with
  | none => simp [GiveAbilitiesToASC, ha]
  | some asc =>
    by_cases hr : me.Role < ROLE_Authority
    · simp [GiveAbilitiesToASC, ha, hr]
    · rw [GiveAbilitiesToASC_eq w me asc cs out ha hr]
      simp [hr]

theorem ApplyEffectsToASC_closed (w : World) (me : AInventoryItem) (cs out : List Nat) :
    ApplyEffectsToASC w me cs out =
      match me.OwnerASC with
      | none => (w, out)
      | some asc =>
        if me.Role < ROLE_Authority then (w, out)
        else
          ({ w with log := w.log ++ applyEvents asc cs w.nextHandle,
                    nextHandle := w.nextHandle + cs.length },
            out ++ List.range' w.nextHandle cs.length) := by
  cases ha : me.OwnerASC with
  | none => simp [ApplyEffectsToASC, ha]
  | some asc =>
    by_cases hr : me.Role < ROLE_Authority
    · simp [ApplyEffectsToASC, ha, hr]
    · rw [ApplyEffectsToASC_eq w me asc cs out ha hr]
      simp [hr]

theorem RemoveAbilitiesFromASC_closed (w : World) (me : AInventoryItem) (hs : List Nat) :
    (RemoveAbilitiesFromASC w me hs).1 =
      match me.OwnerASC with
      | none => w
      | some asc =>
        if me.Role < ROLE_Authority then w
        else { w with log := w.log ++ clearEvents asc hs } := by
  cases ha : me.OwnerASC with
  | none => simp [RemoveAbilitiesFromASC, ha]
  | some asc =>
    by_cases hr : me.Role < ROLE_Authority
    · simp [RemoveAbilitiesFromASC, ha, hr]
    · rw [RemoveAbilitiesFromASC_eq w me asc hs ha hr]
      simp [hr]

theorem RemoveEffectsFromASC_closed (w : World) (me : AInventoryItem) (hs : List Nat) :
    (RemoveEffectsFromASC w me hs).1 =
      match me.OwnerASC with
      | none => w
      | some asc =>
        if me.Role < ROLE_Authority then w
        else { w with log := w.log ++ removeEvents asc hs } := by
  cases ha : me.OwnerASC with
  | none => simp [RemoveEffectsFromASC, ha]
  | some asc =>
    by_cases hr : me.Role < ROLE_Authority
    · simp [RemoveEffectsFromASC, ha, hr]
    · rw [RemoveEffectsFromASC_eq w me asc hs ha hr]
      simp [hr]

theorem ActivateItem_body_none (w : World) (self : Nat) (me : AInventoryItem)
    (ha : me.OwnerASC = none) :
    ActivateItem.body w self me =
      .ok { items := w.items.set self { me with bIsItemActive := true },
            log := w.log ++ [Event.BP_OnActivateItem self], nextHandle := w.nextHandle } := by
  simp [ActivateItem.body, ha, World.store, World.emit]

theorem ActivateItem_body_some (w : World) (self : Nat) (me : AInventoryItem) (asc : Nat)
    (data : UItemData) (ha : me.OwnerASC = some asc) (hdata : me.ItemData = some data)
    (hr : ¬ me.Role < ROLE_Authority) :
    ActivateItem.body w self me =
      .ok { items := w.items.set self
              { me with
                bIsItemActive := true,
                ActiveAbilitiesHandles :=
                  me.ActiveAbilitiesHandles ++
                    List.range' w.nextHandle data.ActiveAbilities.length,
                ActiveEffectsHandles :=
                  me.ActiveEffectsHandles ++
                    List.range' (w.nextHandle + data.ActiveAbilities.length)
                      data.ActiveEffects.length },
            log := w.log ++ giveEvents asc data.ActiveAbilities w.nextHandle ++
              applyEvents asc data.ActiveEffects (w.nextHandle + data.ActiveAbilities.length) ++
              [Event.BP_OnActivateItem self],
            nextHandle := w.nextHandle + data.ActiveAbilities.length +
              data.ActiveEffects.length } := by
  simp only [ActivateItem.body, ha, hdata, GiveAbilitiesToASC_closed, ApplyEffectsToASC_closed,
    hr, if_false]
  simp [World.store, World.emit, Nat.add_assoc]

theorem ActivateItem_body_log (w : World) (self : Nat) (me : AInventoryItem) (w1 : World)
    (h : ActivateItem.body w self me = .ok w1) : LogGrows w w1 := by
  cases ha : me.OwnerASC with
  | none =>
    rw [ActivateItem_body_none w self me ha] at h
    cases h
    exact ⟨_, rfl⟩
  | some asc =>
    cases hdata : me.ItemData with
    | none => simp [ActivateItem.body, ha, hdata] at h
    | some data =>
      by_cases hr : me.Role < ROLE_Authority
      · simp only [ActivateItem.body, ha, hdata, GiveAbilitiesToASC, ApplyEffectsToASC, hr,
          if_true] at h
        cases h
        exact ⟨_, rfl⟩
      · rw [ActivateItem_body_some w self me asc data ha hdata hr] at h
        cases h
        exact ⟨_, by simp only [List.append_assoc]; rfl⟩

theorem SetOwnerASC_body_revoke (w : World) (me : AInventoryItem) (asc : Nat)
    (ha : me.OwnerASC = some asc) (hr : ¬ me.Role < ROLE_Authority) :
    (RemoveEffectsFromASC
      (RemoveEffectsFromASC
        (RemoveAbilitiesFromASC (RemoveAbilitiesFromASC w me me.ActiveAbilitiesHandles).1 me
          me.PassiveAbilitiesHandles).1 me me.ActiveEffectsHandles).1 me
      me.PassiveEffectsHandles).1 = { w with log := w.log ++ revokeAll asc me } := by
  simp only [RemoveAbilitiesFromASC_closed, RemoveEffectsFromASC_closed, ha, hr, if_false,
    revokeAll, List.append_assoc]

theorem SetOwnerASC_body_fresh (w : World) (self : Nat) (me : AInventoryItem)
    (data : UItemData) (b : Nat) (ha : me.OwnerASC = none) (hr : ¬ me.Role < ROLE_Authority) :
    SetOwnerASC.body w self me data (some b) =
      { items := w.items.set self
          { me with
            OwnerASC := some b,
            PassiveAbilitiesHandles :=
              me.PassiveAbilitiesHandles ++
                List.range' w.nextHandle data.PassiveAbilities.length,
            PassiveEffectsHandles :=
              me.PassiveEffectsHandles ++
                List.range' (w.nextHandle + data.PassiveAbilities.length)
                  data.PassiveEffects.length },
        log := w.log ++ (giveEvents b data.PassiveAbilities w.nextHandle ++
          applyEvents b data.PassiveEffects (w.nextHandle + data.PassiveAbilities.length)),
        nextHandle := w.nextHandle + data.PassiveAbilities.length +
          data.PassiveEffects.length } := by
  simp only [SetOwnerASC.body, ha, GiveAbilitiesToASC_closed, ApplyEffectsToASC_closed, hr,
    if_false]
  simp [World.store, Nat.add_assoc]

theorem SetOwnerASC_body_swap (w : World) (self : Nat) (me : AInventoryItem)
    (data : UItemData) (a b : Nat) (ha : me.OwnerASC = some a)
    (hr : ¬ me.Role < ROLE_Authority) :
    SetOwnerASC.body w self me data (some b) =
      { items := w.items.set self
          { me with
            OwnerASC := some b,
            PassiveAbilitiesHandles :=
              me.PassiveAbilitiesHandles ++
                List.range' w.nextHandle data.PassiveAbilities.length,
            PassiveEffectsHandles :=
              me.PassiveEffectsHandles ++
                List.range' (w.nextHandle + data.PassiveAbilities.length)
                  data.PassiveEffects.length },
        log := w.log ++ (revokeAll a me ++ (giveEvents b data.PassiveAbilities w.nextHandle ++
          applyEvents b data.PassiveEffects (w.nextHandle + data.PassiveAbilities.length))),
        nextHandle := w.nextHandle + data.PassiveAbilities.length +
          data.PassiveEffects.length } := by
  have hrev := SetOwnerASC_body_revoke w me a ha hr
  simp only [SetOwnerASC.body, ha, Option.isSome_some, if_true, hrev,
    GiveAbilitiesToASC_closed, ApplyEffectsToASC_closed, hr, if_false]
  simp [World.store, Nat.add_assoc]

theorem SetOwnerASC_body_drop (w : World) (self : Nat) (me : AInventoryItem)
    (data : UItemData) (a : Nat) (ha : me.OwnerASC = some a)
    (hr : ¬ me.Role < ROLE_Authority) :
    SetOwnerASC.body w self me data none =
      { items := w.items.set self { me with OwnerASC := none },
        log := w.log ++ revokeAll a me, nextHandle := w.nextHandle } := by
  have hrev := SetOwnerASC_body_revoke w me a ha hr
  simp only [SetOwnerASC.body, ha, Option.isSome_some, if_true, hrev]
  simp [World.store]

theorem cascade_leaf (k : Wave) (fuel : Nat) (w : World) (self : Nat) (me : AInventoryItem)
    (w1 : World) (hme : w.items[self]? = some me) (hp : k.pre me = true)
    (hs : k.skip me = false) (hv : k.visit w self me = .ok w1)
    (hempty : ∀ slot ∈ me.ItemSlots, slot.InventoryItems = []) :
    cascade k (fuel + 1) w self = .ok w1 := by
  simp only [cascade, hme, hp, hs, hv]
  simp only [Bool.true_eq_false, Bool.false_eq_true, if_false]
  exact forEach_no_items _ me.ItemSlots (fun s => k.descend s = true) hempty w1

/-! ## First fit -/

theorem find?_modifyFirst_other {α : Type} (p q : α → Bool) (f : α → α)
    (hq : ∀ a, q (f a) = q a) (hpq : ∀ a, p a = true → q a = false) :
    ∀ l : List α, (modifyFirst p f l).find? q = l.find? q := by
  intro l
  induction l with
  | nil => rfl
  | cons a rest ih =>
    by_cases ha : p a = true
    · simp [modifyFirst, ha, List.find?_cons, hq, hpq a ha]
    · simp [modifyFirst, ha, List.find?_cons, ih]

theorem FindSlotByName_modify_ne (me : AInventoryItem) (SlotName Other : FName)
    (hne : Other ≠ SlotName) (g : List Nat → List Nat) :
    FindSlotByName
      { me with
        ItemSlots := modifyFirst (fun Slot => decide (Slot.SlotName = SlotName))
          (fun Slot => { Slot with InventoryItems := g Slot.InventoryItems }) me.ItemSlots }
      Other = FindSlotByName me Other := by
  unfold FindSlotByName
  refine find?_modifyFirst_other (fun Slot => decide (Slot.SlotName = SlotName))
    (fun Slot => decide (Slot.SlotName = Other))
    (fun Slot => { Slot with InventoryItems := g Slot.InventoryItems }) (fun _ => rfl) ?_
    me.ItemSlots
  intro a ha
  have h1 : a.SlotName = SlotName := by simpa using ha
  simp only [decide_eq_false_iff_not, h1]
  exact fun h => hne h.symm

theorem AddItemToSlot_slotItems_ne (fuel : Nat) (w : World) (n : Nat) (x : Nat)
    (SlotName Other : FName) (w' : World) (hne : Other ≠ SlotName)
    (h : AddItemToSlot fuel w n (some x) SlotName = .ok (w', true)) :
    slotItems w' n Other = slotItems w n Other := by
  obtain ⟨me, x0, slot0, hme, hx0, _, _, _, hshape⟩ :=
    AddItemToSlot_shape fuel w n (some x) SlotName w' h
  cases hx0
  rw [slotItems_congr _ _ hshape n Other]
  simp only [slotItems, store_get_self w n me _ hme, hme]
  rw [FindSlotByName_modify_ne me SlotName Other hne (fun l => AddUnique l x)]

theorem CanPlaceItemInSlot_total (w : World) (n x : Nat) (me itx : AInventoryItem)
    (hme : w.items[n]? = some me) (hx : w.items[x]? = some itx) (SlotName : FName) :
    ∃ b, CanPlaceItemInSlot w n (some x) SlotName = .ok b := by
  simp only [CanPlaceItemInSlot, hme]
  cases hs : FindSlotByName me SlotName with
  | none => exact ⟨false, rfl⟩
  | some ItemSlot =>
    simp only [FItemSlot.CanSlotItem, hx]
    cases itx.ItemData with
    | none =>
      simp only
      split <;> [exact ⟨true, rfl⟩; (split <;> [exact ⟨true, rfl⟩; exact ⟨false, rfl⟩])]
    | some data =>
      simp only
      cases (ItemSlot.AllowedItemCategories.HasTag data.ItemCategory &&
        ItemSlot.AllowedItemSizes.HasTag data.ItemSize) with
      | false => exact ⟨false, rfl⟩
      | true =>
        simp only
        split <;> [exact ⟨true, rfl⟩; (split <;> [exact ⟨true, rfl⟩; exact ⟨false, rfl⟩])]

theorem scan_first_fit (w : World) (n : Nat) (NewItem : Option Nat)
    (htotal : ∀ SlotName, ∃ b, CanPlaceItemInSlot w n NewItem SlotName = .ok b) :
    ∀ slots : List FItemSlot,
      (FindSlotForItem.scan w n NewItem slots = .ok none ∧
        ∀ s ∈ slots, CanPlaceItemInSlot w n NewItem s.SlotName = .ok false) ∨
      ∃ pre S post, slots = pre ++ S :: post ∧
        (∀ s ∈ pre, CanPlaceItemInSlot w n NewItem s.SlotName = .ok false) ∧
        CanPlaceItemInSlot w n NewItem S.SlotName = .ok true ∧
        FindSlotForItem.scan w n NewItem slots = .ok (some S) := by
  intro slots
  induction slots with
  | nil => exact Or.inl ⟨rfl, fun s hs => absurd hs (List.not_mem_nil _)⟩
  | cons a rest ih =>
    obtain ⟨b, hb⟩ := htotal a.SlotName
    cases b with
    | true =>
      exact Or.inr ⟨[], a, rest, rfl, fun s hs => absurd hs (List.not_mem_nil _), hb,
        by simp [FindSlotForItem.scan, hb]⟩
    | false =>
      rcases ih with ⟨hnone, hall⟩ | ⟨pre, S, post, hsplit, hpre, hS, hscan⟩
      · refine Or.inl ⟨by simp [FindSlotForItem.scan, hb, hnone], fun s hs => ?_⟩
        rcases List.mem_cons.mp hs with rfl | hs
        · exact hb
        · exact hall s hs
      · refine Or.inr ⟨a :: pre, S, post, by rw [hsplit]; rfl, fun s hs => ?_, hS,
          by simp [FindSlotForItem.scan, hb, hscan]⟩
        rcases List.mem_cons.mp hs with rfl | hs
        · exact hb
        · exact hpre s hs

theorem FindSlotByName_of_nodup (me : AInventoryItem) (S : FItemSlot) (hS : S ∈ me.ItemSlots)
    (hnames : (me.ItemSlots.map (fun Slot => Slot.SlotName)).Nodup) :
    FindSlotByName me S.SlotName = some S := by
  unfold FindSlotByName
  generalize me.ItemSlots = slots at hS hnames
  induction slots with
  | nil => exact absurd hS (List.not_mem_nil _)
  | cons a rest ih =>
    rw [List.map_cons, List.nodup_cons] at hnames
    rcases List.mem_cons.mp hS with rfl | hmem
    · simp
    · have hne : a.SlotName ≠ S.SlotName := by
        intro h
        exact hnames.1 (by rw [h]; exact List.mem_map_of_mem _ hmem)
      simp only [List.find?_cons, hne, decide_False]
      exact ih hmem hnames.2

/-! ## Enumeration -/

theorem forEachOut_append {α : Type} (body : List Nat → α → Except Fault (List Nat))
    (g : α → List Nat) (l : List α)
    (hbody : ∀ a ∈ l, ∀ out, body out a = .ok (out ++ g a)) :
    ∀ out, forEachOut body l out = .ok (out ++ l.flatMap g) := by
  induction l with
  | nil => intro out; simp [forEachOut]
  | cons a rest ih =>
    intro out
    simp only [forEachOut, hbody a (List.mem_cons_self _ _) out]
    rw [ih (fun b hb => hbody b (List.mem_cons_of_mem _ hb))]
    simp [List.flatMap_cons]

theorem mem_directContents (w : World) (n x : Nat) (hx : x ∈ directContents w n) :
    ∃ me slot, w.items[n]? = some me ∧ slot ∈ me.ItemSlots ∧ x ∈ slot.InventoryItems := by
  unfold directContents at hx
  cases hme : w.items[n]? with
  | none => simp [hme] at hx
  | some me =>
    simp only [hme, List.mem_flatMap] at hx
    obtain ⟨slot, hslot, hmem⟩ := hx
    exact ⟨me, slot, rfl, hslot, hmem⟩

theorem specPreorder_stable (w : World) (rank : Nat → Nat) (hrank : Ranked w rank) :
    ∀ (d d1 n : Nat), rank n ≤ d → rank n ≤ d1 → specPreorder d w n = specPreorder d1 w n := by
  have hleaf : ∀ n, rank n = 0 → directContents w n = [] := by
    intro n hn
    apply List.eq_nil_iff_forall_not_mem.mpr
    intro x hx
    obtain ⟨me, slot, hme, hslot, hmem⟩ := mem_directContents w n x hx
    have := hrank n me slot x hme hslot hmem
    omega
  intro d
  induction d with
  | zero =>
    intro d1 n h0 _
    cases d1 with
    | zero => rfl
    | succ e => simp [specPreorder, hleaf n (by omega)]
  | succ d ih =>
    intro d1 n hd hd1
    cases d1 with
    | zero => simp [specPreorder, hleaf n (by omega)]
    | succ e =>
      simp only [specPreorder]
      apply List.flatMap_congr
      intro x hx
      obtain ⟨me, slot, hme, hslot, hmem⟩ := mem_directContents w n x hx
      have := hrank n me slot x hme hslot hmem
      rw [ih e x (by omega) (by omega)]

theorem GetInventoryItems_flat (w : World) (fuel : Nat) (n : Nat)
    (hn : n < w.items.length) (bIncludeSelf : Bool) (OutItems : List Nat) :
    GetInventoryItems (fuel + 1) w n bIncludeSelf false OutItems =
      .ok (OutItems ++ (if bIncludeSelf = true then [n] else []) ++ directContents w n) := by
  simp only [GetInventoryItems, List.getElem?_eq_getElem hn, directContents]
  rw [forEachOut_append _ (fun (Slot : FItemSlot) => Slot.InventoryItems)]
  · cases bIncludeSelf <;> simp
  · intro slot _ out
    rw [forEachOut_append _ (fun (x : Nat) => [x])]
    · simp
    · intro x _ out1
      simp

theorem GetInventoryItems_deep (w : World) (hw : w.Linked) (rank : Nat → Nat)
    (hrank : Ranked w rank) :
    ∀ (fuel n : Nat), n < w.items.length → rank n < fuel →
      ∀ (bIncludeSelf : Bool) (OutItems : List Nat),
        GetInventoryItems fuel w n bIncludeSelf true OutItems =
          .ok (OutItems ++ (if bIncludeSelf = true then [n] else []) ++
            specPreorder fuel w n) := by
  intro fuel
  induction fuel with
  | zero => intro n _ h; omega
  | succ f ih =>
    intro n hn hr inc out
    have hme := List.getElem?_eq_getElem hn
    simp only [GetInventoryItems, hme, specPreorder, directContents]
    rw [forEachOut_append _
      (fun (Slot : FItemSlot) => Slot.InventoryItems.flatMap (fun x => x :: specPreorder f w x))]
    · cases inc <;> simp [List.flatMap_assoc]
    · intro slot hslot out0
      rw [forEachOut_append _ (fun (x : Nat) => x :: specPreorder f w x)]
      intro x hx out1
      have hxlt : x < w.items.length := hw _ (List.getElem?_mem hme) slot hslot x hx
      have hxr := hrank n _ slot x hme hslot hx
      simp only [if_true]
      rw [ih x hxlt (by omega) false (out1 ++ [x])]
      simp

/-! ## Re-attachment -/

theorem reattached_refl (n : Nat) (slots : List FItemSlot) (v : World) :
    Reattached n slots v v :=
  ⟨rfl, fun _ it hi => ⟨it, hi, rfl, rfl, Or.inl rfl⟩⟩

theorem reattached_trans (n : Nat) (slots : List FItemSlot) (a b c : World)
    (h1 : Reattached n slots a b) (h2 : Reattached n slots b c) : Reattached n slots a c := by
  refine ⟨h2.1.trans h1.1, fun i it hi => ?_⟩
  obtain ⟨it1, hi1, hs1, ha1, hp1⟩ := h1.2 i it hi
  obtain ⟨it2, hi2, hs2, ha2, hp2⟩ := h2.2 i it1 hi1
  refine ⟨it2, hi2, hs2.trans hs1, ha2.trans ha1, ?_⟩
  rcases hp2 with rfl | hp2
  · exact hp1
  · exact Or.inr hp2

theorem SetOwnerItem_reattached (n : Nat) (slots : List FItemSlot) (slot : FItemSlot)
    (hslot : slot ∈ slots) (y : Nat) (hy : y ∈ slot.InventoryItems) (v v1 : World)
    (h : SetOwnerItem v y (some n) slot.SlotName = .ok v1) :
    Reattached n slots v v1 ∧ ∃ it1, v1.items[y]? = some it1 ∧ Placed n slots y it1 := by
  obtain ⟨it, hit, hset⟩ := SetOwnerItem_items v y (some n) slot.SlotName v1 h
  have hylt := lt_of_get v y it hit
  have hplaced : Placed n slots y
      { it with OwnerInventoryItem := some n, OwnerSlotName := slot.SlotName } :=
    ⟨rfl, slot, hslot, hy, rfl⟩
  refine ⟨⟨by rw [hset, List.length_set], fun i iti hi => ?_⟩,
    ⟨_, by rw [hset]; exact List.getElem?_set_self hylt, hplaced⟩⟩
  by_cases hiy : y = i
  · subst hiy
    rw [hit] at hi
    cases hi
    exact ⟨{ it with OwnerInventoryItem := some n, OwnerSlotName := slot.SlotName },
      by rw [hset]; exact List.getElem?_set_self hylt, rfl, rfl, Or.inr hplaced⟩
  · exact ⟨iti, by rw [hset, List.getElem?_set_ne hiy]; exact hi, rfl, rfl, Or.inl rfl⟩

theorem placed_of_reattached (n : Nat) (slots : List FItemSlot) (y : Nat) (v v1 : World)
    (hr : Reattached n slots v v1)
    (hq : ∃ it, v.items[y]? = some it ∧ Placed n slots y it) :
    ∃ it1, v1.items[y]? = some it1 ∧ Placed n slots y it1 := by
  obtain ⟨it, hit, hp⟩ := hq
  obtain ⟨it1, hit1, _, _, hp1⟩ := hr.2 y it hit
  rcases hp1 with rfl | hp1
  · exact ⟨it1, hit1, hp⟩
  · exact ⟨it1, hit1, hp1⟩

theorem reattach_loops (n : Nat) (slots : List FItemSlot) (hsub : List FItemSlot)
    (hin : ∀ slot ∈ hsub, slot ∈ slots) (v v1 : World)
    (h : forEach
      (fun w2 (Slot : FItemSlot) =>
        forEach (fun w3 Item => SetOwnerItem w3 Item (some n) Slot.SlotName)
          Slot.InventoryItems w2) hsub v = .ok v1) :
    Reattached n slots v v1 ∧
      ∀ slot ∈ hsub, ∀ y ∈ slot.InventoryItems,
        ∃ it1, v1.items[y]? = some it1 ∧ Placed n slots y it1 := by
  constructor
  · refine forEach_rel (Reattached n slots) (reattached_refl n slots)
      (reattached_trans n slots) _ _ ?_ v v1 h
    intro u slot u1 hslot hb
    exact forEach_rel (Reattached n slots) (reattached_refl n slots)
      (reattached_trans n slots) _ _
      (fun a y a1 hy ha =>
        (SetOwnerItem_reattached n slots slot (hin slot hslot) y hy a a1 ha).1) u u1 hb
  · refine forEach_establish (Reattached n slots) (reattached_refl n slots)
      (reattached_trans n slots)
      (fun (slot : FItemSlot) u =>
        ∀ y ∈ slot.InventoryItems, ∃ it1, u.items[y]? = some it1 ∧ Placed n slots y it1)
      (fun slot u u1 hr hq y hy => placed_of_reattached n slots y u u1 hr (hq y hy))
      _ hsub ?_ v v1 h
    intro u slot u1 hslot hb
    refine ⟨forEach_rel (Reattached n slots) (reattached_refl n slots)
      (reattached_trans n slots) _ _
      (fun a y a1 hy ha =>
        (SetOwnerItem_reattached n slots slot (hin slot hslot) y hy a a1 ha).1) u u1 hb, ?_⟩
    exact forEach_establish (Reattached n slots) (reattached_refl n slots)
      (reattached_trans n slots)
      (fun (y : Nat) u => ∃ it1, u.items[y]? = some it1 ∧ Placed n slots y it1)
      (fun y u u1 hr hq => placed_of_reattached n slots y u u1 hr hq)
      _ slot.InventoryItems
      (fun a y a1 hy ha => SetOwnerItem_reattached n slots slot (hin slot hslot) y hy a a1 ha)
      u u1 hb

theorem reattach_returns (n : Nat) (hsub : List FItemSlot) (len : Nat) (hn : n < len)
    (hin : ∀ slot ∈ hsub, ∀ y ∈ slot.InventoryItems, y < len) (v : World)
    (hv : v.items.length = len) :
    ∃ v1, forEach
      (fun w2 (Slot : FItemSlot) =>
        forEach (fun w3 Item => SetOwnerItem w3 Item (some n) Slot.SlotName)
          Slot.InventoryItems w2) hsub v = .ok v1 := by
  have hstep : ∀ (u : World) (y : Nat) (s : FName), y < len → u.items.length = len →
      ∃ u1, SetOwnerItem u y (some n) s = .ok u1 ∧ u1.items.length = len := by
    intro u y s hy hu
    obtain ⟨u1, h1⟩ := SetOwnerItem_returns u y (some n) s (by omega)
      (fun p hp => by cases hp; omega)
    obtain ⟨it, _, hset⟩ := SetOwnerItem_items u y (some n) s u1 h1
    exact ⟨u1, h1, by rw [hset, List.length_set]; exact hu⟩
  obtain ⟨v1, h1, _⟩ := forEach_total (fun u => u.items.length = len) _ hsub
    (fun u slot hslot hu =>
      forEach_total (fun u => u.items.length = len) _ slot.InventoryItems
        (fun a y hy ha => hstep a y slot.SlotName (hin slot hslot y hy) ha) u hu) v hv
  exact ⟨v1, h1⟩

/-! ## Downward closure -/

theorem under_congr (w w1 : World) (hs : w1.items.map shape = w.items.map shape) (p y : Nat)
    (h : Under w p y) : Under w1 p y := by
  induction h with
  | root => exact Under.root _
  | step z c it slot _ hz hslot hc ih =>
    obtain ⟨it1, hit1, hsh⟩ := get_of_map_eq shape w w1 hs z it hz
    simp only [shape, Prod.mk.injEq] at hsh
    exact Under.step _ z c it1 slot ih hit1 (by rw [hsh.2.2]; exact hslot) hc

theorem under_inactive_or_chain (w : World) (n : Nat) (hw : w.Linked)
    (hn : n < w.items.length)
    (hauth : ∀ (y : Nat) (ity : AInventoryItem), Under w n y → w.items[y]? = some ity →
      ity.Role = ROLE_Authority)
    (hdc : DownClosed w n) (y : Nat) (h : Under w n y) :
    ∃ ity, w.items[y]? = some ity ∧
      (ity.bIsItemActive = false ∨ Chain deactivateWave w n y) := by
  induction h with
  | root => exact ⟨_, List.getElem?_eq_getElem hn, Or.inr (Chain.root n)⟩
  | step z c it slot hu hz hslot hc ih =>
    obtain ⟨it', hz', hcase⟩ := ih
    rw [hz] at hz'
    cases hz'
    have hclt : c < w.items.length := hw it (List.getElem?_mem hz) slot hslot c hc
    have hcget := List.getElem?_eq_getElem hclt
    refine ⟨_, hcget, ?_⟩
    by_cases hact : it.bIsItemActive = true
    · rcases hcase with hin | hch
      · rw [hact] at hin
        cases hin
      · refine Or.inr (Chain.step n z c it slot hch hz ?_ hslot rfl hc)
        simp [deactivateWave, hact, hauth z it hu hz, ROLE_Authority]
    · exact Or.inl (hdc z it slot c _ hu hz (by simpa using hact) hslot hc hcget)

/-! ## Calls that spare the passive grants -/

theorem sparesPassive_congr (v v1 : World)
    (hs : v1.items.map activeGrants = v.items.map activeGrants) (e : Event)
    (h : e.SparesPassive v1) : e.SparesPassive v := by
  cases e <;> try exact h
  · obtain ⟨z, itz, hz, ha, hh⟩ := h
    obtain ⟨it, hit, hf⟩ := getElem?_of_map_eq activeGrants _ _ hs z itz hz
    simp only [activeGrants, Prod.mk.injEq] at hf
    exact ⟨z, it, hit, by rw [hf.1]; exact ha, by rw [hf.2.1]; exact hh⟩
  · obtain ⟨z, itz, hz, ha, hh⟩ := h
    obtain ⟨it, hit, hf⟩ := getElem?_of_map_eq activeGrants _ _ hs z itz hz
    simp only [activeGrants, Prod.mk.injEq] at hf
    exact ⟨z, it, hit, by rw [hf.1]; exact ha, by rw [hf.2.2]; exact hh⟩

theorem spares_refl (v : World) : Spares v v :=
  ⟨rfl, [], by simp, fun e he => absurd he (List.not_mem_nil _)⟩

theorem spares_trans (a b c : World) (h1 : Spares a b) (h2 : Spares b c) : Spares a c := by
  obtain ⟨hs1, e1, hl1, hp1⟩ := h1
  obtain ⟨hs2, e2, hl2, hp2⟩ := h2
  refine ⟨hs2.trans hs1, e1 ++ e2, by rw [hl2, hl1, List.append_assoc], fun e he => ?_⟩
  rcases List.mem_append.mp he with h | h
  · exact hp1 e h
  · exact sparesPassive_congr a b hs1 e (hp2 e h)

theorem spares_of_quiet (v v1 : World) (ext : List Event)
    (hs : v1.items.map activeGrants = v.items.map activeGrants) (hl : v1.log = v.log ++ ext)
    (hq : ∀ e ∈ ext, ∀ a, e.isGrantTo a = false ∧ e.isRevokeFrom a = false) : Spares v v1 := by
  refine ⟨hs, ext, hl, fun e he => ?_⟩
  cases e with
  | GiveAbility a c k =>
    have h := (hq _ he a).1
    simp [Event.isGrantTo] at h
  | ApplyGameplayEffectToSelf a c k =>
    have h := (hq _ he a).1
    simp [Event.isGrantTo] at h
  | ClearAbility a k =>
    have h := (hq _ he a).2
    simp [Event.isRevokeFrom] at h
  | RemoveActiveGameplayEffect a k =>
    have h := (hq _ he a).2
    simp [Event.isRevokeFrom] at h
  | _ => trivial

theorem DeactivateItem_body_spares (w : World) (self : Nat) (me : AInventoryItem)
    (hme : w.items[self]? = some me) : Spares w (DeactivateItem.body w self me) := by
  have hitems : (DeactivateItem.body w self me).items =
      w.items.set self { me with bIsItemActive := false } := by
    simp only [DeactivateItem.body, emit_items]
    split
    · rw [RemoveEffectsFromASC_items, RemoveAbilitiesFromASC_items]
      rfl
    · rfl
  refine ⟨by rw [hitems]; exact map_set_eq activeGrants w.items self me _ hme rfl, ?_⟩
  cases ha : me.OwnerASC with
  | none =>
    refine ⟨[Event.BP_OnDeactivateItem self], by simp [DeactivateItem.body, ha, World.emit,
      World.store], fun e he => ?_⟩
    have : e = Event.BP_OnDeactivateItem self := by simpa using he
    subst this
    trivial
  | some asc =>
    by_cases hr : me.Role < ROLE_Authority
    · refine ⟨[Event.BP_OnDeactivateItem self], by
        simp [DeactivateItem.body, ha, World.emit, World.store,
          RemoveAbilitiesFromASC_closed, RemoveEffectsFromASC_closed, hr], fun e he => ?_⟩
      have : e = Event.BP_OnDeactivateItem self := by simpa using he
      subst this
      trivial
    · refine ⟨clearEvents asc me.ActiveAbilitiesHandles ++
          removeEvents asc me.ActiveEffectsHandles ++ [Event.BP_OnDeactivateItem self], by
        simp [DeactivateItem.body, ha, World.emit, World.store,
          RemoveAbilitiesFromASC_closed, RemoveEffectsFromASC_closed, hr], fun e he => ?_⟩
      simp only [List.mem_append, clearEvents, removeEvents, List.mem_map,
        List.mem_singleton] at he
      rcases he with (⟨h, hh, rfl⟩ | ⟨h, hh, rfl⟩) | rfl
      · exact ⟨self, me, hme, ha, hh⟩
      · exact ⟨self, me, hme, ha, hh⟩
      · trivial

theorem DeactivateItem_spares (fuel : Nat) (w : World) (x : Nat) (w1 : World)
    (h : DeactivateItem fuel w x = .ok w1) : Spares w w1 := by
  rw [DeactivateItem_eq_cascade] at h
  refine cascade_rel deactivateWave Spares spares_refl spares_trans ?_ fuel w x w1 h
  intro v self me v1 hme _ _ hv
  have hv1 : Except.ok (DeactivateItem.body v self me) = Except.ok v1 := hv
  cases hv1
  exact DeactivateItem_body_spares v self me hme

theorem HideItem_spares (fuel : Nat) (w : World) (x : Nat) (w1 : World)
    (h : HideItem fuel w x = .ok w1) : Spares w w1 := by
  rw [HideItem_eq_cascade] at h
  refine cascade_rel hideWave Spares spares_refl spares_trans ?_ fuel w x w1 h
  intro v self me v1 hme _ _ hv
  have hv1 : Except.ok (HideItem.body v self me) = Except.ok v1 := hv
  cases hv1
  cases hroot : me.RootComponent with
  | none =>
    refine spares_of_quiet v _ [Event.BP_OnHideItem self] ?_ ?_ ?_
    · simp only [HideItem.body, hroot, emit_items]
      exact map_set_eq activeGrants v.items self me _ hme rfl
    · simp [HideItem.body, hroot, World.emit, World.store]
    · intro e he a
      have : e = Event.BP_OnHideItem self := by simpa using he
      subst this
      exact ⟨rfl, rfl⟩
  | some root =>
    refine spares_of_quiet v _ [Event.SetHiddenInGame root true, Event.BP_OnHideItem self]
      ?_ ?_ ?_
    · simp only [HideItem.body, hroot, emit_items]
      exact map_set_eq activeGrants v.items self me _ hme rfl
    · simp [HideItem.body, hroot, World.emit, World.store]
    · intro e he a
      simp only [List.mem_cons, List.mem_singleton, List.not_mem_nil, or_false] at he
      rcases he with rfl | rfl <;> exact ⟨rfl, rfl⟩

theorem SetOwnerItem_detach_spares (w : World) (x : Nat) (w1 : World)
    (h : SetOwnerItem w x none NAME_None = .ok w1) : Spares w w1 := by
  have hs := SetOwnerItem_map_eq activeGrants (fun _ _ _ => rfl) w x none NAME_None w1 h
  refine spares_of_quiet w w1 [Event.DetachFromActor x] hs ?_ ?_
  · unfold SetOwnerItem at h
    cases hme : w.items[x]? with
    | none => simp [hme] at h
    | some me =>
      simp only [hme, Except.ok.injEq] at h
      subst h
      simp [World.emit, World.store]
  · intro e he a
    have : e = Event.DetachFromActor x := by simpa using he
    subst this
    exact ⟨rfl, rfl⟩

theorem RemoveItemFromSlot_spares (fuel : Nat) (w : World) (n : Nat) (Item : Option Nat)
    (SlotName : FName) (w' : World)
    (h : RemoveItemFromSlot fuel w n Item SlotName = .ok (w', true)) :
    Spares w w' ∧ w'.items.map passiveGrants = w.items.map passiveGrants := by
  obtain ⟨me, x, ItemSlot, w2, w3, w4, hme, _, _, _, h2, h3, h4, hw'⟩ :=
    RemoveItemFromSlot_true fuel w n Item SlotName w' h
  have h0 : Spares w (w.store n
      { me with
        ItemSlots := modifyFirst (fun Slot => decide (Slot.SlotName = SlotName))
          (fun Slot => { Slot with InventoryItems := Remove Slot.InventoryItems x })
          me.ItemSlots }) :=
    ⟨store_map_eq activeGrants w n me _ hme rfl, [], by simp [World.store],
      fun e he => absurd he (List.not_mem_nil _)⟩
  have h5 : Spares w4 w' := by
    refine spares_of_quiet w4 w'
      [Event.OnItemRemoved n x ItemSlot.SlotName, Event.OnInventoryChanged n] ?_ ?_ ?_
    · rw [hw']
      rfl
    · rw [hw']
      simp [World.emit]
    · intro e he a
      simp only [List.mem_cons, List.mem_singleton, List.not_mem_nil, or_false] at he
      rcases he with rfl | rfl <;> exact ⟨rfl, rfl⟩
  refine ⟨spares_trans _ _ _ h0 (spares_trans _ _ _ (DeactivateItem_spares fuel _ x w2 h2)
    (spares_trans _ _ _ (HideItem_spares fuel w2 x w3 h3)
      (spares_trans _ _ _ (SetOwnerItem_detach_spares w3 x w4 h4) h5))), ?_⟩
  have p0 := store_map_eq passiveGrants w n me
    { me with
      ItemSlots := modifyFirst (fun Slot => decide (Slot.SlotName = SlotName))
        (fun Slot => { Slot with InventoryItems := Remove Slot.InventoryItems x })
        me.ItemSlots } hme rfl
  have p2 := DeactivateItem_map_eq passiveGrants (fun _ => rfl) fuel _ x w2 h2
  have p3 := HideItem_map_eq passiveGrants (fun _ => rfl) fuel w2 x w3 h3
  have p4 := SetOwnerItem_map_eq passiveGrants (fun _ _ _ => rfl) w3 x none NAME_None w4 h4
  rw [hw']
  exact (p4.trans (p3.trans (p2.trans p0)))

/-! ## Every actor is written at most once -/

theorem forEachTrace_fst {α : Type} (body : World → α → Except Fault World)
    (tbody : World → α → Except Fault (World × List Nat)) (l : List α)
    (hbody : ∀ w a, a ∈ l → (tbody w a).map Prod.fst = body w a) :
    ∀ w, (forEachTrace tbody l w).map Prod.fst = forEach body l w := by
  induction l with
  | nil => intro w; rfl
  | cons a rest ih =>
    intro w
    have ha := hbody w a (List.mem_cons_self _ _)
    simp only [forEachTrace, forEach]
    cases hb : tbody w a with
    | error e =>
      rw [hb] at ha
      rw [← ha]
      rfl
    | ok r1 =>
      rw [hb] at ha
      rw [← ha]
      have hrest := ih (fun v b hb => hbody v b (List.mem_cons_of_mem _ hb)) r1.1
      simp only [Except.map]
      cases hr : forEachTrace tbody rest r1.1 with
      | error e =>
        rw [hr] at hrest
        rw [← hrest]
        rfl
      | ok r2 =>
        rw [hr] at hrest
        rw [← hrest]
        rfl

theorem cascadeTrace_fst (k : Wave) : ∀ fuel w self,
    (cascadeTrace k fuel w self).map Prod.fst = cascade k fuel w self := by
  intro fuel
  induction fuel with
  | zero => intro w self; rfl
  | succ n ih =>
    intro w self
    simp only [cascadeTrace, cascade]
    cases hme : w.items[self]? with
    | none => rfl
    | some me =>
      simp only
      by_cases hp : k.pre me = false
      · simp [hp, Except.map]
      · by_cases hs : k.skip me = true
        · simp [hp, hs, Except.map]
        · simp only [hp, hs, if_false]
          cases hv : k.visit w self me with
          | error e => rfl
          | ok w1 =>
            simp only
            have hloops := forEachTrace_fst
              (fun w2 (Slot : FItemSlot) =>
                if k.descend Slot = true then
                  forEach (fun w3 Item => cascade k n w3 Item) Slot.InventoryItems w2
                else .ok w2)
              (fun w2 (Slot : FItemSlot) =>
                if k.descend Slot = true then
                  forEachTrace (fun w3 Item => cascadeTrace k n w3 Item) Slot.InventoryItems w2
                else .ok (w2, []))
              me.ItemSlots
              (fun v slot _ => by
                by_cases hd : k.descend slot = true
                · simp only [hd, if_true]
                  exact forEachTrace_fst _ _ slot.InventoryItems (fun u c _ => ih u c) v
                · simp [hd, Except.map]) w1
            rw [← hloops]
            cases forEachTrace
              (fun w2 (Slot : FItemSlot) =>
                if k.descend Slot = true then
                  forEachTrace (fun w3 Item => cascadeTrace k n w3 Item) Slot.InventoryItems w2
                else .ok (w2, []))
              me.ItemSlots w1 <;> rfl

theorem cascadeTrace_of_cascade (k : Wave) (fuel : Nat) (w : World) (self : Nat) (w1 : World)
    (h : cascade k fuel w self = .ok w1) :
    ∃ t, cascadeTrace k fuel w self = .ok (w1, t) := by
  have hf := cascadeTrace_fst k fuel w self
  rw [h] at hf
  cases hc : cascadeTrace k fuel w self with
  | error e => rw [hc] at hf; cases hf
  | ok r =>
    rw [hc] at hf
    simp only [Except.map, Except.ok.injEq] at hf
    obtain ⟨v, t⟩ := r
    cases hf
    exact ⟨t, rfl⟩

theorem once_refl (k : Wave) (edit : AInventoryItem → AInventoryItem → Prop) (w : World) :
    Once k edit w w [] :=
  ⟨nodeRel_refl (steady_refl k) w, List.nodup_nil, fun _ _ => rfl,
    fun _ hi => absurd hi (List.not_mem_nil _)⟩

theorem once_append (k : Wave) (edit : AInventoryItem → AInventoryItem → Prop)
    (hk : k.Spec edit) (a b c : World) (t1 t2 : List Nat) (h1 : Once k edit a b t1)
    (h2 : Once k edit b c t2) : Once k edit a c (t1 ++ t2) := by
  obtain ⟨s1, n1, f1, e1⟩ := h1
  obtain ⟨s2, n2, f2, e2⟩ := h2
  refine ⟨nodeRel_trans (steady_trans k) a b c s1 s2, ?_, ?_, ?_⟩
  · rw [List.nodup_append]
    refine ⟨n1, n2, ?_⟩
    intro i hi1 hi2
    obtain ⟨_, it1, _, hb1, _, hed⟩ := e1 i hi1
    obtain ⟨it2, _, hb2, _, hsk, _⟩ := e2 i hi2
    rw [hb1] at hb2
    cases hb2
    rw [hk.settled _ _ hed] at hsk
    cases hsk
  · intro i hi
    rw [List.mem_append, not_or] at hi
    rw [f2 i hi.2, f1 i hi.1]
  · intro i hi
    rcases List.mem_append.mp hi with hi1 | hi2
    · obtain ⟨it, it1, ha, hb, hsk, hed⟩ := e1 i hi1
      obtain ⟨it2, hc, hst⟩ := s2.2 i it1 hb
      have := hst.2.1 (hk.settled _ _ hed)
      subst this
      exact ⟨it, it2, ha, hc, hsk, hed⟩
    · obtain ⟨itb, itc, hb, hc, hsk, hed⟩ := e2 i hi2
      have hlt : i < a.items.length := by
        have := lt_of_get b i itb hb
        rw [s1.1] at this
        exact this
      obtain ⟨itb', hb', hst⟩ := s1.2 i _ (List.getElem?_eq_getElem hlt)
      rw [hb] at hb'
      cases hb'
      have heq := hst.2.2 hsk
      exact ⟨itb, itc, by rw [List.getElem?_eq_getElem hlt, ← heq], hc, hsk, hed⟩

theorem forEachTrace_once {α : Type} (k : Wave)
    (edit : AInventoryItem → AInventoryItem → Prop) (hk : k.Spec edit)
    (tbody : World → α → Except Fault (World × List Nat)) (l : List α)
    (hbody : ∀ w a r, a ∈ l → tbody w a = .ok r → Once k edit w r.1 r.2) :
    ∀ w r, forEachTrace tbody l w = .ok r → Once k edit w r.1 r.2 := by
  induction l with
  | nil =>
    intro w r h
    simp only [forEachTrace, Except.ok.injEq] at h
    subst h
    exact once_refl k edit w
  | cons a rest ih =>
    intro w r h
    simp only [forEachTrace] at h
    cases hb : tbody w a with
    | error e => simp [hb] at h
    | ok r1 =>
      simp only [hb] at h
      cases hr : forEachTrace tbody rest r1.1 with
      | error e => simp [hr] at h
      | ok r2 =>
        simp only [hr, Except.ok.injEq] at h
        subst h
        exact once_append k edit hk w r1.1 r2.1 r1.2 r2.2
          (hbody w a r1 (List.mem_cons_self _ _) hb)
          (ih (fun v b r hb hv => hbody v b r (List.mem_cons_of_mem _ hb) hv) r1.1 r2 hr)

theorem cascadeTrace_once (k : Wave) (edit : AInventoryItem → AInventoryItem → Prop)
    (hk : k.Spec edit) :
    ∀ fuel w self r, cascadeTrace k fuel w self = .ok r → Once k edit w r.1 r.2 := by
  intro fuel
  induction fuel with
  | zero => intro w self r h; simp [cascadeTrace] at h
  | succ n ih =>
    intro w self r h
    simp only [cascadeTrace] at h
    cases hme : w.items[self]? with
    | none => simp [hme] at h
    | some me =>
      simp only [hme] at h
      by_cases hp : k.pre me = false
      · simp [hp] at h
      · have hp1 : k.pre me = true := by simpa using hp
        by_cases hs : k.skip me = true
        · simp only [hp1, hs] at h
          simp at h
          subst h
          exact once_refl k edit w
        · have hs1 : k.skip me = false := by simpa using hs
          simp only [hp1, hs1] at h
          simp only [Bool.true_eq_false, Bool.false_eq_true, if_false] at h
          cases hv : k.visit w self me with
          | error e => simp [hv] at h
          | ok w2 =>
            simp only [hv] at h
            obtain ⟨me1, hset, he⟩ := hk.sound w self me w2 hme hp1 hs1 hv
            have hlt := lt_of_get w self me hme
            have hfirst : Once k edit w w2 [self] := by
              refine ⟨nodeRel_of_set (steady_refl k) w w2 self me me1 hme hset
                ⟨hk.slots me me1 he, fun h1 => absurd h1 hs,
                  fun h1 => absurd (hk.settled me me1 he) (by simp [h1])⟩,
                List.nodup_singleton self, ?_, ?_⟩
              · intro i hi
                have hne : self ≠ i := fun h => hi (by simp [h])
                rw [hset, List.getElem?_set_ne hne]
              · intro i hi
                have : i = self := by simpa using hi
                subst this
                exact ⟨me, me1, hme, by rw [hset]; exact List.getElem?_set_self hlt, hs1, he⟩
            cases hl : forEachTrace
                (fun w2 (Slot : FItemSlot) =>
                  if k.descend Slot = true then
                    forEachTrace (fun w3 Item => cascadeTrace k n w3 Item)
                      Slot.InventoryItems w2
                  else .ok (w2, []))
                me.ItemSlots w2 with
            | error e => simp [hl] at h
            | ok r2 =>
              simp only [hl, Except.ok.injEq] at h
              subst h
              have hloops := forEachTrace_once k edit hk _ me.ItemSlots
                (fun v slot r _ hb => by
                  by_cases hd : k.descend slot = true
                  · simp only [hd, if_true] at hb
                    exact forEachTrace_once k edit hk _ slot.InventoryItems
                      (fun u c r1 _ hu => ih u c r1 hu) v r hb
                  · simp only [hd] at hb
                    simp at hb
                    subst hb
                    exact once_refl k edit v) w2 r2 hl
              exact once_append k edit hk w w2 r2.1 [self] r2.2 hfirst hloops

theorem cascade_once (k : Wave) (edit : AInventoryItem → AInventoryItem → Prop)
    (hk : k.Spec edit) (fuel : Nat) (w : World) (self : Nat) (w1 : World)
    (h : cascade k fuel w self = .ok w1) :
    ∃ t, cascadeTrace k fuel w self = .ok (w1, t) ∧ Once k edit w w1 t := by
  obtain ⟨t, ht⟩ := cascadeTrace_of_cascade k fuel w self w1 h
  exact ⟨t, ht, cascadeTrace_once k edit hk fuel w self (w1, t) ht⟩

/-! ## The containment stays well founded -/

theorem under_head (w : World) (p c y : Nat) (hpc : Holds w p c) (h : Under w c y) :
    Under w p y := by
  induction h with
  | root =>
    obtain ⟨itz, slot, hz, hs, hc⟩ := hpc
    exact Under.step p p c itz slot (Under.root p) hz hs hc
  | step z d it slot _ hz hs hd ih => exact Under.step p z d it slot ih hz hs hd

theorem under_rank (w : World) (rank : Nat → Nat) (hr : Ranked w rank) (p y : Nat)
    (h : Under w p y) : rank y ≤ rank p := by
  induction h with
  | root => exact Nat.le_refl _
  | step z c it slot _ hz hs hc ih =>
    have := hr z it slot c hz hs hc
    omega

theorem ranked_acyclic (w : World) (rank : Nat → Nat) (hr : Ranked w rank) (z c : Nat)
    (h : Holds w z c) : ¬ Under w c z := by
  intro hu
  obtain ⟨itz, slot, hz, hs, hc⟩ := h
  have h1 := hr z itz slot c hz hs hc
  have h2 := under_rank w rank hr c z hu
  omega

theorem holds_congr (w w1 : World) (hs : w1.items.map shape = w.items.map shape) (z c : Nat)
    (h : Holds w1 z c) : Holds w z c := by
  obtain ⟨it1, slot, hz, hslot, hc⟩ := h
  obtain ⟨it, hit, hsh⟩ := getElem?_of_map_eq shape _ _ hs z it1 hz
  simp only [shape, Prod.mk.injEq] at hsh
  exact ⟨it, slot, hit, by rw [hsh.2.2]; exact hslot, hc⟩

theorem holds_store (w : World) (n : Nat) (me : AInventoryItem) (SlotName : FName)
    (g : List Nat → List Nat) (hme : w.items[n]? = some me) (z c : Nat)
    (h : Holds (w.store n
      { me with
        ItemSlots := modifyFirst (fun Slot => decide (Slot.SlotName = SlotName))
          (fun Slot => { Slot with InventoryItems := g Slot.InventoryItems })
          me.ItemSlots }) z c) :
    Holds w z c ∨ (z = n ∧ ∃ slot ∈ me.ItemSlots, c ∈ g slot.InventoryItems) := by
  obtain ⟨it1, slot, hz, hslot, hc⟩ := h
  by_cases hzn : n = z
  · subst hzn
    rw [store_get_self w n me _ hme] at hz
    cases hz
    rcases mem_modifyFirst _ _ me.ItemSlots slot hslot with hold | ⟨a, ha, rfl⟩
    · exact Or.inl ⟨me, slot, hme, hold, hc⟩
    · exact Or.inr ⟨rfl, a, List.mem_of_find?_eq_some ha, hc⟩
  · simp only [World.store] at hz
    rw [List.getElem?_set_ne hzn] at hz
    exact Or.inl ⟨it1, slot, hz, hslot, hc⟩

theorem ranked_of_holds (w : World) (rank : Nat → Nat)
    (h : ∀ z c, Holds w z c → rank c < rank z) : Ranked w rank :=
  fun z itz slot c hz hs hc => h z c ⟨itz, slot, hz, hs, hc⟩

theorem ranked_insert (w w0 : World) (rank : Nat → Nat) (hr : Ranked w rank) (n x : Nat)
    (hno : ¬ Under w x n)
    (hedges : ∀ z c, Holds w0 z c → Holds w z c ∨ (z = n ∧ c = x)) :
    ∃ rank0, Ranked w0 rank0 := by
  classical
  refine ⟨fun z => if Under w z n then rank z + rank x + 1 else rank z, ?_⟩
  apply ranked_of_holds
  intro z c hzc
  rcases hedges z c hzc with hold | ⟨rfl, rfl⟩
  · obtain ⟨itz, slot, hz, hs, hc⟩ := hold
    have hlt := hr z itz slot c hz hs hc
    by_cases hcz : Under w c n
    · have hzn : Under w z n := under_head w z c n ⟨itz, slot, hz, hs, hc⟩ hcz
      simp only [hcz, hzn, if_true]
      omega
    · simp only [hcz, if_false]
      split <;> omega
  · simp only [hno, if_false, Under.root, if_true]
    omega

theorem AddItemToSlot_ranked (fuel : Nat) (w : World) (n : Nat) (Item : Option Nat)
    (SlotName : FName) (res : World × Bool)
    (hrank : ∃ rank, Ranked w rank)
    (hord : ∀ x, Item = some x → ¬ Under w x n)
    (h : AddItemToSlot fuel w n Item SlotName = .ok res) : ∃ rank, Ranked res.1 rank := by
  obtain ⟨w', b⟩ := res
  cases b with
  | false =>
    cases hme : w.items[n]? with
    | none => simp [AddItemToSlot, hme] at h
    | some me =>
      rw [(AddItemToSlot_false fuel w n me Item SlotName w' hme).mp h |>.1]
      exact hrank
  | true =>
    obtain ⟨rank, hr⟩ := hrank
    obtain ⟨me, x, slot, hme, hx, _, _, _, hshape⟩ :=
      AddItemToSlot_shape fuel w n Item SlotName w' h
    refine ranked_insert w w' rank hr n x (hord x hx) ?_
    intro z c hzc
    rcases holds_store w n me SlotName (fun l => AddUnique l x) hme z c
        (holds_congr _ w' hshape z c hzc) with hold | ⟨rfl, s, hs, hc⟩
    · exact Or.inl hold
    · rcases mem_AddUnique _ _ _ hc with hc1 | hc1
      · exact Or.inl ⟨me, s, hme, hs, hc1⟩
      · exact Or.inr ⟨rfl, hc1⟩

theorem RemoveItemFromSlot_ranked (fuel : Nat) (w : World) (n : Nat) (Item : Option Nat)
    (SlotName : FName) (res : World × Bool)
    (hrank : ∃ rank, Ranked w rank)
    (h : RemoveItemFromSlot fuel w n Item SlotName = .ok res) : ∃ rank, Ranked res.1 rank := by
  obtain ⟨w', b⟩ := res
  cases b with
  | false =>
    cases hme : w.items[n]? with
    | none => simp [RemoveItemFromSlot, hme] at h
    | some me =>
      rw [(RemoveItemFromSlot_false fuel w n me Item SlotName w' hme).mp h |>.1]
      exact hrank
  | true =>
    obtain ⟨rank, hr⟩ := hrank
    obtain ⟨me, x, slot, hme, hx, _, _, hshape⟩ :=
      RemoveItemFromSlot_shape fuel w n Item SlotName w' h
    refine ⟨rank, ranked_of_holds w' rank ?_⟩
    intro z c hzc
    rcases holds_store w n me SlotName (fun l => Remove l x) hme z c
        (holds_congr _ w' hshape z c hzc) with hold | ⟨rfl, s, hs, hc⟩
    · obtain ⟨itz, sl, hz, hsl, hcc⟩ := hold
      exact hr z itz sl c hz hsl hcc
    · exact hr z me s c hme hs (mem_Remove _ _ _ hc)

theorem templated_of_empty (w : World) (h : w.Empty) : w.Templated := by
  intro it hit slot hslot x hx
  rw [h it hit slot hslot] at hx
  exact absurd hx (List.not_mem_nil _)

theorem ranked_of_empty (w : World) (h : w.Empty) : Ranked w (fun _ => 0) := by
  intro z itz slot c hz hs hc
  rw [h itz (List.getElem?_mem hz) slot hs] at hc
  exact absurd hc (List.not_mem_nil _)

theorem perform_tree (fuel : Nat) (w : World) (r : Request) (res : World × Bool)
    (hw : w.Templated) (hrank : ∃ rank, Ranked w rank) (hord : r.Orderly w)
    (h : perform fuel w r = .ok res) : res.1.Templated ∧ ∃ rank, Ranked res.1 rank := by
  cases r with
  | addItem n Item =>
    rcases AddItem_cases fuel w n Item res h with rfl | ⟨s, hs⟩
    · exact ⟨hw, hrank⟩
    · exact ⟨AddItemToSlot_templated fuel w n Item s res.1 res.2 hw hs,
        AddItemToSlot_ranked fuel w n Item s res hrank
          (fun x hx => by subst hx; exact hord) hs⟩
  | addItemToSlot n Item s =>
    exact ⟨AddItemToSlot_templated fuel w n Item s res.1 res.2 hw h,
      AddItemToSlot_ranked fuel w n Item s res hrank
        (fun x hx => by subst hx; exact hord) h⟩
  | removeItem n Item =>
    rcases RemoveItem_cases fuel w n Item res h with rfl | ⟨s, hs⟩
    · exact ⟨hw, hrank⟩
    · exact ⟨RemoveItemFromSlot_templated fuel w n Item s res.1 res.2 hw hs,
        RemoveItemFromSlot_ranked fuel w n Item s res hrank hs⟩
  | removeItemFromSlot n Item s =>
    exact ⟨RemoveItemFromSlot_templated fuel w n Item s res.1 res.2 hw h,
      RemoveItemFromSlot_ranked fuel w n Item s res hrank h⟩

theorem serve_tree (fuel : Nat) (reqs : List Request) : ∀ (w w' : World),
    w.Templated → (∃ rank, Ranked w rank) → Orderly fuel w reqs →
    serve fuel w reqs = .ok w' → w'.Templated ∧ ∃ rank, Ranked w' rank := by
  induction reqs with
  | nil =>
    intro w w' hw hr _ h
    simp only [serve, Except.ok.injEq] at h
    subst h
    exact ⟨hw, hr⟩
  | cons r rest ih =>
    intro w w' hw hr hord h
    simp only [serve] at h
    cases hp : perform fuel w r with
    | error e => simp [hp] at h
    | ok res =>
      simp only [hp] at h
      obtain ⟨hw1, hr1⟩ := perform_tree fuel w r res hw hr hord.1 hp
      exact ih res.1 w' hw1 hr1 (hord.2 res hp) h

theorem GetInventoryItems_self_loop (w : World) (n : Nat) (me : AInventoryItem)
    (slot : FItemSlot) (rest : List FItemSlot) (items : List Nat)
    (hme : w.items[n]? = some me) (hslots : me.ItemSlots = slot :: rest)
    (hitems : slot.InventoryItems = n :: items) :
    ∀ (fuel : Nat) (bIncludeSelf : Bool) (OutItems : List Nat),
      GetInventoryItems fuel w n bIncludeSelf true OutItems = .error .fuel := by
  intro fuel
  induction fuel with
  | zero => intro _ _; rfl
  | succ f ih =>
    intro inc out
    simp only [GetInventoryItems, hme, hslots, forEachOut, hitems, if_true, ih]

theorem under_leaf (w : World) (p y : Nat) (it : AInventoryItem) (hp : w.items[p]? = some it)
    (hslots : it.ItemSlots = []) (h : Under w p y) : y = p := by
  induction h with
  | root => rfl
  | step z c itz slot _ hz hs _ ih =>
    subst ih
    rw [hp] at hz
    cases hz
    rw [hslots] at hs
    exact absurd hs (List.not_mem_nil _)

/-! ## The depth of the containment -/

theorem descent_rank (w : World) (rank : Nat → Nat) (hr : Ranked w rank) (n d : Nat)
    (h : Descent w n d) : d ≤ rank n := by
  induction h with
  | here => exact Nat.zero_le _
  | down n c d hnc _ ih =>
    obtain ⟨itz, slot, hz, hs, hc⟩ := hnc
    have := hr n itz slot c hz hs hc
    omega

theorem depth_exists (w : World) (rank : Nat → Nat) (hr : Ranked w rank) (n : Nat) :
    ∃ h, IsDepth w n h := by
  classical
  refine ⟨Nat.findGreatest (fun d => Descent w n d) (rank n), ?_, ?_⟩
  · exact Nat.findGreatest_spec (P := fun d => Descent w n d) (Nat.zero_le _)
      (Descent.here n)
  · intro d hd
    exact Nat.le_findGreatest (descent_rank w rank hr n d hd) hd

theorem descent_of_mem (w : World) (n x d : Nat) (hx : x ∈ directContents w n)
    (h : Descent w x d) : Descent w n (d + 1) := by
  obtain ⟨me, slot, hme, hslot, hmem⟩ := mem_directContents w n x hx
  exact Descent.down n x d ⟨me, slot, hme, hslot, hmem⟩ h

theorem specPreorder_settled (w : World) :
    ∀ (d d1 n : Nat), (∀ e, Descent w n e → e ≤ d) → (∀ e, Descent w n e → e ≤ d1) →
      specPreorder d w n = specPreorder d1 w n := by
  have hleaf : ∀ n, (∀ e, Descent w n e → e ≤ 0) → directContents w n = [] := by
    intro n hn
    apply List.eq_nil_iff_forall_not_mem.mpr
    intro x hx
    have := hn 1 (descent_of_mem w n x 0 hx (Descent.here x))
    omega
  intro d
  induction d with
  | zero =>
    intro d1 n h0 _
    cases d1 with
    | zero => rfl
    | succ e => simp [specPreorder, hleaf n h0]
  | succ d ih =>
    intro d1 n hd hd1
    cases d1 with
    | zero => simp [specPreorder, hleaf n hd1]
    | succ e =>
      simp only [specPreorder]
      apply List.flatMap_congr
      intro x hx
      rw [ih e x
        (fun k hk => by have := hd (k + 1) (descent_of_mem w n x k hx hk); omega)
        (fun k hk => by have := hd1 (k + 1) (descent_of_mem w n x k hx hk); omega)]

theorem GetInventoryItems_within (w : World) (hw : w.Linked) :
    ∀ (fuel n : Nat), n < w.items.length → (∀ d, Descent w n d → d < fuel) →
      ∀ (bIncludeSelf : Bool) (OutItems : List Nat),
        GetInventoryItems fuel w n bIncludeSelf true OutItems =
          .ok (OutItems ++ (if bIncludeSelf = true then [n] else []) ++
            specPreorder fuel w n) := by
  intro fuel
  induction fuel with
  | zero =>
    intro n _ h
    have := h 0 (Descent.here n)
    omega
  | succ f ih =>
    intro n hn hr inc out
    have hme := List.getElem?_eq_getElem hn
    simp only [GetInventoryItems, hme, specPreorder, directContents]
    rw [forEachOut_append _
      (fun (Slot : FItemSlot) => Slot.InventoryItems.flatMap (fun x => x :: specPreorder f w x))]
    · cases inc <;> simp [List.flatMap_assoc]
    · intro slot hslot out0
      rw [forEachOut_append _ (fun (x : Nat) => x :: specPreorder f w x)]
      intro x hx out1
      have hxlt : x < w.items.length := hw _ (List.getElem?_mem hme) slot hslot x hx
      simp only [if_true]
      rw [ih x hxlt
        (fun d hd => by
          have := hr (d + 1) (Descent.down n x d ⟨_, slot, hme, hslot, hx⟩ hd)
          omega) false (out1 ++ [x])]
      simp

theorem GetInventoryItems_depth (w : World) (hw : w.Linked) (n h : Nat)
    (hn : n < w.items.length) (hh : ∀ d, Descent w n d → d ≤ h) (f : Nat) (hf : h < f)
    (bIncludeSelf bPropagateToChildren : Bool) (OutItems : List Nat) :
    GetInventoryItems f w n bIncludeSelf bPropagateToChildren OutItems =
      .ok (OutItems ++ (if bIncludeSelf = true then [n] else []) ++
        (if bPropagateToChildren = true then specPreorder h w n else directContents w n)) := by
  cases bPropagateToChildren with
  | true =>
    rw [GetInventoryItems_within w hw f n hn
        (fun d hd => by have := hh d hd; omega) bIncludeSelf OutItems,
      specPreorder_settled w f h n (fun d hd => by have := hh d hd; omega) hh]
    rfl
  | false =>
    obtain ⟨g, rfl⟩ : ∃ g, f = g + 1 := ⟨f - 1, by omega⟩
    rw [GetInventoryItems_flat w g n hn bIncludeSelf OutItems]
    rfl

theorem forEachOut_no_crash {α : Type} (body : List Nat → α → Except Fault (List Nat))
    (l : List α) (hbody : ∀ a ∈ l, ∀ out, body out a ≠ .error .crash) :
    ∀ out, forEachOut body l out ≠ .error .crash := by
  induction l with
  | nil => intro out h; simp [forEachOut] at h
  | cons a rest ih =>
    intro out
    have ha := hbody a (List.mem_cons_self _ _) out
    simp only [forEachOut]
    cases hb : body out a with
    | ok out1 => exact ih (fun b hb1 => hbody b (List.mem_cons_of_mem _ hb1)) out1
    | error e =>
      rw [hb] at ha
      exact ha

theorem forEachOut_fuel {α : Type} (body : List Nat → α → Except Fault (List Nat))
    (l : List α) (hbody : ∀ a ∈ l, ∀ out, body out a ≠ .error .crash) (a : α) (ha : a ∈ l)
    (hfail : ∀ out, body out a = .error .fuel) :
    ∀ out, forEachOut body l out = .error .fuel := by
  induction l with
  | nil => exact absurd ha (List.not_mem_nil _)
  | cons b rest ih =>
    intro out
    have hb0 := hbody b (List.mem_cons_self _ _) out
    simp only [forEachOut]
    cases hb : body out b with
    | ok out1 =>
      rcases List.mem_cons.mp ha with hab | hab
      · subst hab
        rw [hfail out] at hb
        cases hb
      · exact ih (fun c hc => hbody c (List.mem_cons_of_mem _ hc)) hab out1
    | error e =>
      rw [hb] at hb0
      cases e with
      | crash => exact absurd rfl hb0
      | fuel => rfl

theorem GetInventoryItems_no_crash (w : World) (hw : w.Linked) :
    ∀ (fuel n : Nat), n < w.items.length →
      ∀ (bIncludeSelf bPropagateToChildren : Bool) (OutItems : List Nat),
        GetInventoryItems fuel w n bIncludeSelf bPropagateToChildren OutItems ≠
          .error .crash := by
  intro fuel
  induction fuel with
  | zero =>
    intro n _ inc prop out h
    simp [GetInventoryItems] at h
  | succ f ih =>
    intro n hn inc prop out
    have hme := List.getElem?_eq_getElem hn
    simp only [GetInventoryItems, hme]
    apply forEachOut_no_crash
    intro slot hslot out0
    apply forEachOut_no_crash
    intro x hx out1
    have hxlt : x < w.items.length := hw _ (List.getElem?_mem hme) slot hslot x hx
    cases prop with
    | true =>
      simp only [if_true]
      exact ih x hxlt false true (out1 ++ [x])
    | false => simp

theorem GetInventoryItems_short (w : World) (hw : w.Linked) :
    ∀ (fuel n d : Nat), Descent w n d → fuel ≤ d →
      ∀ (bIncludeSelf : Bool) (OutItems : List Nat),
        GetInventoryItems fuel w n bIncludeSelf true OutItems = .error .fuel := by
  intro fuel
  induction fuel with
  | zero => intro _ _ _ _ _ _; rfl
  | succ f ih =>
    intro n d hd hle inc out
    cases hd with
    | here => omega
    | down _ c e hnc hc =>
      obtain ⟨me, slot, hme, hslot, hmem⟩ := hnc
      simp only [GetInventoryItems, hme]
      have hinner : ∀ (s : FItemSlot), s ∈ me.ItemSlots → ∀ x ∈ s.InventoryItems,
          ∀ out1, (if true = true then GetInventoryItems f w x false true (out1 ++ [x])
            else .ok (out1 ++ [x])) ≠ .error .crash := by
        intro s hs x hx out1
        simp only [if_true]
        exact GetInventoryItems_no_crash w hw f x (hw _ (List.getElem?_mem hme) s hs x hx)
          false true (out1 ++ [x])
      apply forEachOut_fuel _ _ _ slot hslot
      · intro out0
        apply forEachOut_fuel _ _ (hinner slot hslot) c hmem
        intro out1
        simp only [if_true]
        exact ih c e hc (by omega) false (out1 ++ [c])
      · intro s hs out0
        exact forEachOut_no_crash _ _ (hinner s hs) out0

theorem holds_mem_directContents (w : World) (n x : Nat) (h : Holds w n x) :
    x ∈ directContents w n := by
  obtain ⟨me, slot, hme, hslot, hmem⟩ := h
  simp only [directContents, hme, List.mem_flatMap]
  exact ⟨slot, hslot, hmem⟩

theorem descent_leaf (w : World) (n d : Nat) (hleaf : directContents w n = [])
    (h : Descent w n d) : d = 0 := by
  cases h with
  | here => rfl
  | down _ c e hnc _ =>
    have := holds_mem_directContents w n c hnc
    rw [hleaf] at this
    exact absurd this (List.not_mem_nil _)

theorem isDepth_unique (w : World) (n h k : Nat) (hh : IsDepth w n h) (hk : IsDepth w n k) :
    h = k :=
  Nat.le_antisymm (hk.2 h hh.1) (hh.2 k hk.1)

end GASInventory

/-! ## Resizing the unit square -/

namespace ProceduralGenerator

theorem vector_add_def {K : Type} [Add K] (v u : FVector2D K) :
    v + u = ⟨v.X + u.X, v.Y + u.Y⟩ := rfl

theorem vector_sub_def {K : Type} [Sub K] (v u : FVector2D K) :
    v - u = ⟨v.X - u.X, v.Y - u.Y⟩ := rfl

theorem vector_mul_def {K : Type} [Mul K] (v : FVector2D K) (s : K) :
    v * s = ⟨v.X * s, v.Y * s⟩ := rfl

theorem resize_unitSquare {K : Type} [LinearOrderedField K] (InvSqrt : K → K)
    (h1 : InvSqrt 1 = 1) (h25 : InvSqrt 25 = 1 / 5) :
    ResizeQuad2D InvSqrt (unitSquare K) 3 = ⟨⟨-3, -3⟩, ⟨4, -3⟩, ⟨4, 4⟩, ⟨-3, 4⟩⟩ ∧
    (ResizeQuad2DRef InvSqrt (unitSquare K) 3).A = ⟨-3, -3⟩ ∧
    (ResizeQuad2DRef InvSqrt (unitSquare K) 3).B = ⟨17 / 5, -6 / 5⟩ := by
  have ht1 : SafeNormalTolerance K < 1 := by
    unfold SafeNormalTolerance
    norm_num
  have ht25 : SafeNormalTolerance K < 25 := by
    unfold SafeNormalTolerance
    norm_num
  have nDA : GetSafeNormal InvSqrt (⟨0, -1⟩ : FVector2D K) (SafeNormalTolerance K) = ⟨0, -1⟩ := by
    simp [GetSafeNormal, ht1, h1]
  have nAB : GetSafeNormal InvSqrt (⟨1, 0⟩ : FVector2D K) (SafeNormalTolerance K) = ⟨1, 0⟩ := by
    simp [GetSafeNormal, ht1, h1]
  have nBC : GetSafeNormal InvSqrt (⟨0, 1⟩ : FVector2D K) (SafeNormalTolerance K) = ⟨0, 1⟩ := by
    simp [GetSafeNormal, ht1, h1]
  have nCD : GetSafeNormal InvSqrt (⟨-1, 0⟩ : FVector2D K) (SafeNormalTolerance K) = ⟨-1, 0⟩ := by
    simp [GetSafeNormal, ht1, h1]
  have nAB1 : GetSafeNormal InvSqrt (⟨4, 3⟩ : FVector2D K) (SafeNormalTolerance K) =
      ⟨4 / 5, 3 / 5⟩ := by
    have hs : (4 : K) * 4 + 3 * 3 = 25 := by norm_num
    simp only [GetSafeNormal, hs, ht25, if_true, h25]
    norm_num
  have eDA : (unitSquare K).GetDA = ⟨0, -1⟩ := by
    simp [FQuad2D.GetDA, unitSquare, vector_sub_def]
  have eAB : (unitSquare K).GetAB = ⟨1, 0⟩ := by
    simp [FQuad2D.GetAB, unitSquare, vector_sub_def]
  have eBC : (unitSquare K).GetBC = ⟨0, 1⟩ := by
    simp [FQuad2D.GetBC, unitSquare, vector_sub_def]
  have eCD : (unitSquare K).GetCD = ⟨-1, 0⟩ := by
    simp [FQuad2D.GetCD, unitSquare, vector_sub_def]
  refine ⟨?_, ?_, ?_⟩
  · simp only [ResizeQuad2D, eDA, eAB, eBC, eCD, nDA, nAB, nBC, nCD]
    simp only [unitSquare, vector_add_def, vector_mul_def]
    norm_num
  · simp only [ResizeQuad2DRef, eDA, eAB, nDA, nAB]
    simp only [unitSquare, vector_add_def, vector_mul_def]
    norm_num
  · simp only [ResizeQuad2DRef, eDA, eAB, eBC, nDA, nAB]
    simp only [unitSquare, vector_add_def, vector_mul_def, vector_sub_def, FQuad2D.GetAB, FQuad2D.GetBC]
    norm_num
    simp only [nAB1, nBC, vector_add_def, vector_mul_def]
    norm_num

end ProceduralGenerator

namespace GASInventory


/-! # The claims -/

/-- C1 fails as stated: from the sample world, where no slot holds anything and every actor
is authoritative, inserting the weapon at 1 into slot 1 and then into slot 2 of the holder
succeeds twice and leaves the weapon listed in both slots. -/
theorem single_containment_broken :
    sampleWorld.Empty ∧ (∀ it ∈ sampleWorld.items, it.Role = ROLE_Authority) ∧
      ∃ w', run 4 sampleWorld [Call.add 0 (some 1) 1, Call.add 0 (some 1) 2] = .ok w' ∧
        slotItems w' 0 1 = [1] ∧ slotItems w' 0 2 = [1] ∧ occurrences w' 1 = 2 :=
  ⟨by decide, by decide, _, rfl, by decide, by decide, by decide⟩

/-- C1, amended. Starting from a world in which no slot holds anything, after every finite
sequence of `AddItemToSlot` and `RemoveItemFromSlot` calls in which each insertion is of an
item that is, at that moment, held by no slot or already in the slot it is inserted into,
every item is listed at most once over all slots of all actors. -/
theorem single_containment_disciplined (fuel : Nat) (w : World) (calls : List Call)
    (w' : World) (h0 : w.Empty) (hd : Disciplined fuel w calls = true)
    (hrun : run fuel w calls = .ok w') (x : Nat) : occurrences w' x ≤ 1 :=
  run_single fuel calls w w' (fun y => by rw [occurrences_of_empty w h0 y]; omega) hd hrun x

/-- The weapon at 1 goes into slot 1, is removed, and goes into slot 2. -/
theorem single_containment_disciplined_witness :
    ∃ w', run 4 sampleWorld
        [Call.add 0 (some 1) 1, Call.remove 0 (some 1) 1, Call.add 0 (some 1) 2] = .ok w' ∧
      slotItems w' 0 2 = [1] ∧ occurrences w' 1 ≤ 1 :=
  ⟨_, rfl, by decide,
    single_containment_disciplined 4 sampleWorld
      [Call.add 0 (some 1) 1, Call.remove 0 (some 1) 1, Call.add 0 (some 1) 2] _
      (by decide) (by decide) rfl 1⟩

/-- C2. The capacity bound is an invariant: if no slot holds more items than its capacity,
the same is true of the world any `AddItem`, `AddItemToSlot`, `RemoveItem` or
`RemoveItemFromSlot` call returns. -/
theorem capacity_invariant (fuel : Nat) (w : World) (n : Nat) (Item : Option Nat)
    (SlotName : FName) (w' : World) (b : Bool) (hw : w.WithinCapacity) :
    (AddItem fuel w n Item = .ok (w', b) → w'.WithinCapacity) ∧
    (AddItemToSlot fuel w n Item SlotName = .ok (w', b) → w'.WithinCapacity) ∧
    (RemoveItem fuel w n Item = .ok (w', b) → w'.WithinCapacity) ∧
    (RemoveItemFromSlot fuel w n Item SlotName = .ok (w', b) → w'.WithinCapacity) := by
  refine ⟨?_, AddItemToSlot_capacity fuel w n Item SlotName w' b hw, ?_,
    RemoveItemFromSlot_capacity fuel w n Item SlotName w' b hw⟩
  · intro h
    rcases AddItem_cases fuel w n Item (w', b) h with h1 | ⟨s, h1⟩
    · cases h1
      exact hw
    · exact AddItemToSlot_capacity fuel w n Item s w' b hw h1
  · intro h
    rcases RemoveItem_cases fuel w n Item (w', b) h with h1 | ⟨s, h1⟩
    · cases h1
      exact hw
    · exact RemoveItemFromSlot_capacity fuel w n Item s w' b hw h1

/-- The sample holder takes the weapon at 1 into slot 1, of capacity 1. -/
theorem capacity_invariant_witness :
    sampleWorld.WithinCapacity ∧
      AddItemToSlot 4 sampleWorld 0 (some 1) 1 = .ok (stockedWorld, true) ∧
      stockedWorld.WithinCapacity :=
  ⟨by decide, by decide,
    (capacity_invariant 4 sampleWorld 0 (some 1) 1 stockedWorld true (by decide)).2.1
      (by decide)⟩

/-- C3. Capacity enforcement: on an authoritative actor with an empty slot of capacity 1
whose filters accept two distinct items with item data, inserting the first returns true;
inserting the second then returns false and leaves the slot holding the first only; removing
the first returns true; and inserting the second then returns true and leaves the slot
holding the second only. -/
theorem capacity_enforcement (fuel : Nat) (w : World) (n W1 W2 : Nat) (S : FName)
    (me it1 it2 : AInventoryItem) (ItemSlot : FItemSlot)
    (hw : w.Templated) (hfuel : w.items.length < fuel)
    (hme : w.items[n]? = some me) (hauth : me.Role = ROLE_Authority)
    (hslot : FindSlotByName me S = some ItemSlot)
    (hempty : ItemSlot.InventoryItems = []) (hcap : ItemSlot.ItemCapacity = 1)
    (h1 : w.items[W1]? = some it1) (h2 : w.items[W2]? = some it2) (hne : W1 ≠ W2)
    (hd1 : it1.ItemData.isSome = true) (hd2 : it2.ItemData.isSome = true)
    (hf1 : ItemSlot.CanSlotItem w (some W1) = .ok true)
    (hf2 : ItemSlot.CanSlotItem w (some W2) = .ok true) :
    ∃ wa wb wc,
      AddItemToSlot fuel w n (some W1) S = .ok (wa, true) ∧
      AddItemToSlot fuel wa n (some W2) S = .ok (wa, false) ∧
      slotItems wa n S = [W1] ∧
      RemoveItemFromSlot fuel wa n (some W1) S = .ok (wb, true) ∧
      AddItemToSlot fuel wb n (some W2) S = .ok (wc, true) ∧
      slotItems wc n S = [W2] := by
  have hr : ¬ me.Role < ROLE_Authority := by rw [hauth]; exact Nat.lt_irrefl _
  -- first insertion
  have hc1 : CanPlaceItemInSlot w n (some W1) S = .ok true := by
    rw [CanPlaceItemInSlot_eval w n me W1 S ItemSlot hme hslot hf1, hempty, hcap]
    rfl
  obtain ⟨wa, ha⟩ := AddItemToSlot_returns fuel w n W1 S me it1 ItemSlot hw hme hr h1 hd1
    hslot hc1 hfuel
  have hka := AddItemToSlot_kind fuel w n (some W1) S wa true ha
  have hla := length_eq_of_map_eq kind _ _ hka
  have hwa := AddItemToSlot_templated fuel w n (some W1) S wa true hw ha
  obtain ⟨ma, hma, hmar, hfa⟩ := AddItemToSlot_actor fuel w n W1 S wa me ItemSlot hme hslot ha
  have hadd1 : AddUnique ItemSlot.InventoryItems W1 = [W1] := by
    rw [hempty]
    rfl
  rw [hadd1] at hfa
  have hsa : slotItems wa n S = [W1] := by
    rw [AddItemToSlot_slotItems fuel w n W1 S wa me ItemSlot hme hslot ha, hadd1]
  -- second insertion, refused
  have hfa2 : ({ ItemSlot with InventoryItems := [W1] } : FItemSlot).CanSlotItem wa (some W2) =
      .ok true := by
    rw [CanSlotItem_items, CanSlotItem_congr_kind ItemSlot w wa hka, hf2]
  have hc2 : CanPlaceItemInSlot wa n (some W2) S = .ok false := by
    rw [CanPlaceItemInSlot_eval wa n ma W2 S _ hma hfa hfa2]
    have : W2 ≠ W1 := fun h => hne h.symm
    simp [this, hcap]
  have hb2 : AddItemToSlot fuel wa n (some W2) S = .ok (wa, false) :=
    (AddItemToSlot_false fuel wa n ma (some W2) S wa hma).mpr
      ⟨rfl, Or.inr (Or.inr (Or.inr hc2))⟩
  -- removal
  have hra : ¬ ma.Role < ROLE_Authority := by rw [hmar]; exact hr
  obtain ⟨wb, hb⟩ := RemoveItemFromSlot_returns fuel wa n W1 S ma _
    (templated_linked _ hwa) hma hra
    (by have := lt_of_get w W1 it1 h1; omega) hfa (by omega)
  have hkb := (RemoveItemFromSlot_kind fuel wa n (some W1) S wb true hb).trans hka
  have hlb := length_eq_of_map_eq kind _ _ hkb
  have hwb := RemoveItemFromSlot_templated fuel wa n (some W1) S wb true hwa hb
  obtain ⟨mb, hmb, hmbr, hfb⟩ := RemoveItemFromSlot_actor fuel wa n W1 S wb ma _ hma hfa hb
  have hrem : Remove [W1] W1 = [] := by simp [Remove]
  simp only [hrem] at hfb
  -- second insertion, accepted
  obtain ⟨it2b, h2b, hk2b⟩ := get_of_map_eq kind w wb hkb W2 it2 h2
  simp only [kind, Prod.mk.injEq] at hk2b
  have hfb2 : ({ ItemSlot with InventoryItems := [] } : FItemSlot).CanSlotItem wb (some W2) =
      .ok true := by
    rw [CanSlotItem_items, CanSlotItem_congr_kind ItemSlot w wb hkb, hf2]
  have hc3 : CanPlaceItemInSlot wb n (some W2) S = .ok true := by
    rw [CanPlaceItemInSlot_eval wb n mb W2 S _ hmb hfb hfb2]
    simp [hcap]
  obtain ⟨wc, hc⟩ := AddItemToSlot_returns fuel wb n W2 S mb it2b _ hwb hmb
    (by rw [hmbr]; exact hra) h2b (by rw [hk2b.2]; exact hd2) hfb hc3 (by omega)
  refine ⟨wa, wb, wc, ha, hb2, hsa, hb, hc, ?_⟩
  rw [AddItemToSlot_slotItems fuel wb n W2 S wc mb _ hmb hfb hc]
  rfl

/-- The sample holder and its two weapons, with the first weapon slot. -/
theorem capacity_enforcement_witness :
    ∃ wa wb wc,
      AddItemToSlot 4 sampleWorld 0 (some 1) 1 = .ok (wa, true) ∧
      AddItemToSlot 4 wa 0 (some 2) 1 = .ok (wa, false) ∧
      slotItems wa 0 1 = [1] ∧
      RemoveItemFromSlot 4 wa 0 (some 1) 1 = .ok (wb, true) ∧
      AddItemToSlot 4 wb 0 (some 2) 1 = .ok (wc, true) ∧
      slotItems wc 0 1 = [2] :=
  capacity_enforcement 4 sampleWorld 0 1 2 1 holderItem weaponItem weaponItem (weaponSlot 1)
    (by decide) (by decide) rfl rfl rfl rfl rfl rfl rfl (by decide) rfl rfl (by decide)
    (by decide)

/-- C4. Idempotent re-add: an item that the resolved slot already lists and that the slot's
filters accept can be placed there, whatever the slot's capacity and occupancy. -/
theorem canPlace_readd (w : World) (n : Nat) (me : AInventoryItem) (x : Nat)
    (SlotName : FName) (ItemSlot : FItemSlot)
    (hme : w.items[n]? = some me) (hslot : FindSlotByName me SlotName = some ItemSlot)
    (hin : x ∈ ItemSlot.InventoryItems)
    (hfilter : ItemSlot.CanSlotItem w (some x) = .ok true) :
    CanPlaceItemInSlot w n (some x) SlotName = .ok true := by
  simp [CanPlaceItemInSlot, hme, hslot, hfilter, Contains, hin]

/-- The stocked holder: its first slot has capacity 1 and already holds the weapon at 1. -/
theorem canPlace_readd_witness :
    (weaponSlot 1).ItemCapacity ≤ ((slotItems stockedWorld 0 1).length : Int) ∧
      CanPlaceItemInSlot stockedWorld 0 (some 1) 1 = .ok true :=
  ⟨by decide,
   canPlace_readd stockedWorld 0 _ 1 1 { weaponSlot 1 with InventoryItems := [1] } rfl rfl
    (by decide) (by decide)⟩

/-- C5 fails as stated: the weapon at 1 is listed in the consumable slot of the holder, and
`CanPlaceItemInSlot` still answers false because the category filter rejects it. -/
theorem canPlace_present_rejected :
    1 ∈ slotItems misfiledWorld 0 3 ∧
      CanPlaceItemInSlot misfiledWorld 0 (some 1) 3 = .ok false := by
  decide

/-- C5, amended. For an item the resolved slot already lists, `CanPlaceItemInSlot` answers
exactly what the slot's filters answer: presence skips the capacity test only. -/
theorem canPlace_present_eq_filter (w : World) (n : Nat) (me : AInventoryItem) (x : Nat)
    (SlotName : FName) (ItemSlot : FItemSlot)
    (hme : w.items[n]? = some me) (hslot : FindSlotByName me SlotName = some ItemSlot)
    (hin : x ∈ ItemSlot.InventoryItems) :
    CanPlaceItemInSlot w n (some x) SlotName = ItemSlot.CanSlotItem w (some x) := by
  simp only [CanPlaceItemInSlot, hme, hslot]
  cases hf : ItemSlot.CanSlotItem w (some x) with
  | error e => rfl
  | ok b =>
    cases b with
    | false => rfl
    | true => simp [Contains, hin]

theorem canPlace_present_eq_filter_witness :
    CanPlaceItemInSlot misfiledWorld 0 (some 1) 3 =
      ({ consumableSlot 3 with InventoryItems := [1] } : FItemSlot).CanSlotItem
        misfiledWorld (some 1) :=
  canPlace_present_eq_filter misfiledWorld 0 _ 1 3 _ rfl rfl (by decide)

/-- C6. Filter enforcement: when the category tag or the size tag of the item's asset is not
allowed by the resolved slot, `CanPlaceItemInSlot` answers false and `AddItemToSlot` returns
false and changes nothing, whatever the slot's capacity and content. -/
theorem filter_rejects (fuel : Nat) (w : World) (n : Nat) (me : AInventoryItem) (x : Nat)
    (itx : AInventoryItem) (data : UItemData) (SlotName : FName) (ItemSlot : FItemSlot)
    (hme : w.items[n]? = some me) (hslot : FindSlotByName me SlotName = some ItemSlot)
    (hx : w.items[x]? = some itx) (hdata : itx.ItemData = some data)
    (hrej : ItemSlot.AllowedItemCategories.HasTag data.ItemCategory = false ∨
      ItemSlot.AllowedItemSizes.HasTag data.ItemSize = false) :
    CanPlaceItemInSlot w n (some x) SlotName = .ok false ∧
      AddItemToSlot fuel w n (some x) SlotName = .ok (w, false) := by
  have hf : ItemSlot.CanSlotItem w (some x) = .ok false := by
    simp only [FItemSlot.CanSlotItem, hx, hdata]
    rcases hrej with h | h <;> simp [h]
  have hc : CanPlaceItemInSlot w n (some x) SlotName = .ok false := by
    simp [CanPlaceItemInSlot, hme, hslot, hf]
  exact ⟨hc, (AddItemToSlot_false fuel w n me (some x) SlotName w hme).mpr
    ⟨rfl, Or.inr (Or.inr (Or.inr hc))⟩⟩

/-- A weapon offered to the consumable slot of the sample holder, which is empty. -/
theorem filter_rejects_witness :
    CanPlaceItemInSlot sampleWorld 0 (some 1) 3 = .ok false ∧
      AddItemToSlot 4 sampleWorld 0 (some 1) 3 = .ok (sampleWorld, false) :=
  filter_rejects 4 sampleWorld 0 holderItem 1 weaponItem weaponData 3 (consumableSlot 3)
    rfl rfl rfl rfl (Or.inl (by decide))

/-- C7. When `AddItemToSlot` returns true for an authoritative item that the slot lists at
most once beforehand, then afterwards the item is listed exactly once in that slot, the
actor's ability system is the one it had and the item's is the same, the item's owner is the
actor and its owner slot the slot, the item is active exactly when the actor is active and
the slot activates its items, and visible exactly when the actor is visible and the slot
shows its items (with the actor's flags read before or after the call). -/
theorem addItemToSlot_postcondition (fuel : Nat) (w : World) (n x : Nat) (SlotName : FName)
    (me itx : AInventoryItem) (ItemSlot : FItemSlot) (w' : World)
    (hme : w.items[n]? = some me) (hx : w.items[x]? = some itx)
    (hxauth : itx.Role = ROLE_Authority)
    (hs : FindSlotByName me SlotName = some ItemSlot)
    (hnodup : ItemSlot.InventoryItems.count x ≤ 1)
    (h : AddItemToSlot fuel w n (some x) SlotName = .ok (w', true)) :
    ∃ me' itx', w'.items[n]? = some me' ∧ w'.items[x]? = some itx' ∧
      (slotItems w' n SlotName).count x = 1 ∧
      me'.OwnerASC = me.OwnerASC ∧ itx'.OwnerASC = me'.OwnerASC ∧
      itx'.OwnerInventoryItem = some n ∧ itx'.OwnerSlotName = SlotName ∧
      itx'.bIsItemActive = (me.bIsItemActive && ItemSlot.bActivateItem) ∧
      itx'.bIsItemActive = (me'.bIsItemActive && ItemSlot.bActivateItem) ∧
      itx'.bIsItemVisible = (me.bIsItemVisible && ItemSlot.bShowItem) ∧
      itx'.bIsItemVisible = (me'.bIsItemVisible && ItemSlot.bShowItem) := by
  obtain ⟨me0, x0, slot0, w2, w3, me3, slot3, w4, me4, slot4, w5, hme0, hx0, _, hs0, _, h2,
    h3, hme3, hs3, h4, hme4, hs4, h5, hw'⟩ := AddItemToSlot_true fuel w n (some x) SlotName w' h
  rw [hme] at hme0
  cases hme0
  cases hx0
  rw [hs] at hs0
  cases hs0
  -- the world after the insertion
  have hn1 := store_get_self w n me
    { me with
      ItemSlots := modifyFirst (fun Slot => decide (Slot.SlotName = SlotName))
        (fun Slot => { Slot with InventoryItems := AddUnique Slot.InventoryItems x })
        me.ItemSlots } hme
  have hf1 : FindSlotByName
      { me with
        ItemSlots := modifyFirst (fun Slot => decide (Slot.SlotName = SlotName))
          (fun Slot => { Slot with InventoryItems := AddUnique Slot.InventoryItems x })
          me.ItemSlots } SlotName =
      some { ItemSlot with InventoryItems := AddUnique ItemSlot.InventoryItems x } := by
    rw [FindSlotByName_modify me SlotName (fun l => AddUnique l x), hs]
    rfl
  have e1 : ∀ {β : Type} (f : AInventoryItem → β),
      (∀ (it : AInventoryItem) sl, f { it with ItemSlots := sl } = f it) →
      (w.store n
        { me with
          ItemSlots := modifyFirst (fun Slot => decide (Slot.SlotName = SlotName))
            (fun Slot => { Slot with InventoryItems := AddUnique Slot.InventoryItems x })
            me.ItemSlots }).items.map f = w.items.map f :=
    fun f hf => store_map_eq f w n me _ hme (hf me _)
  generalize w.store n
    { me with
      ItemSlots := modifyFirst (fun Slot => decide (Slot.SlotName = SlotName))
        (fun Slot => { Slot with InventoryItems := AddUnique Slot.InventoryItems x })
        me.ItemSlots } = w1 at hn1 e1 h2
  generalize hm1 : ({ me with
      ItemSlots := modifyFirst (fun Slot => decide (Slot.SlotName = SlotName))
        (fun Slot => { Slot with InventoryItems := AddUnique Slot.InventoryItems x })
        me.ItemSlots } : AInventoryItem) = m1 at hn1 hf1
  have hm1a : m1.bIsItemActive = me.bIsItemActive := by rw [← hm1]
  have hm1v : m1.bIsItemVisible = me.bIsItemVisible := by rw [← hm1]
  have hm1s : m1.OwnerASC = me.OwnerASC := by rw [← hm1]
  -- frames of the five steps
  have e2 : ∀ {β : Type} (f : AInventoryItem → β),
      (∀ (it : AInventoryItem) s pa pe,
        f { it with OwnerASC := s, PassiveAbilitiesHandles := pa,
                    PassiveEffectsHandles := pe } = f it) →
      w2.items.map f = w1.items.map f :=
    fun f hf => SetOwnerASC_map_eq f hf fuel w1 x _ w2 h2
  have e3 : ∀ {β : Type} (f : AInventoryItem → β),
      (∀ (it : AInventoryItem) o s,
        f { it with OwnerInventoryItem := o, OwnerSlotName := s } = f it) →
      w3.items.map f = w2.items.map f :=
    fun f hf => SetOwnerItem_map_eq f hf w2 x _ _ w3 h3
  have e4 : ∀ {β : Type} (f : AInventoryItem → β),
      (∀ (it : AInventoryItem) aa ae,
        f { it with bIsItemActive := true, ActiveAbilitiesHandles := aa,
                    ActiveEffectsHandles := ae } = f it) →
      (∀ (it : AInventoryItem), f { it with bIsItemActive := false } = f it) →
      w4.items.map f = w3.items.map f :=
    fun f hfa hfd => activation_step_map_eq f hfa hfd _ fuel w3 x w4 h4
  have e5 : ∀ {β : Type} (f : AInventoryItem → β),
      (∀ (it : AInventoryItem) b, f { it with bIsItemVisible := b } = f it) →
      w5.items.map f = w4.items.map f :=
    fun f hf => visibility_step_map_eq f hf _ fuel w4 x w5 h5
  have e' : w'.items = w5.items := by rw [hw']; rfl
  -- the item along the steps
  obtain ⟨x1, x2, hx1, hx2, _, hsink⟩ := SetOwnerASC_self fuel w1 x _ w2 h2
  have hx1r : x1.Role = itx.Role :=
    field_eq_of_map_eq (fun it => it.Role) _ _ (e1 _ (fun _ _ => rfl)) x x1 itx hx1 hx
  have hx2s : x2.OwnerASC = me.OwnerASC := hsink (by rw [hx1r, hxauth])
  obtain ⟨x2', hx2', hset3⟩ := SetOwnerItem_items w2 x (some n) SlotName w3 h3
  rw [hx2] at hx2'
  cases hx2'
  have hx3 : w3.items[x]? =
      some { x2 with OwnerInventoryItem := some n, OwnerSlotName := SlotName } := by
    rw [hset3, List.getElem?_set_self (lt_of_get w2 x x2 hx2)]
  generalize ({ x2 with OwnerInventoryItem := some n, OwnerSlotName := SlotName } :
    AInventoryItem) = x3 at hx3
  have hx3o : x3.OwnerInventoryItem = some n ∧ x3.OwnerSlotName = SlotName := by
    have := hset3
    have h33 : w3.items[x]? =
        some { x2 with OwnerInventoryItem := some n, OwnerSlotName := SlotName } := by
      rw [hset3, List.getElem?_set_self (lt_of_get w2 x x2 hx2)]
    rw [hx3] at h33
    cases h33
    exact ⟨rfl, rfl⟩
  have hx3s : x3.OwnerASC = x2.OwnerASC :=
    field_eq_of_map_eq (fun it => it.OwnerASC) _ _ (e3 _ (fun _ _ _ => rfl)) x x3 x2 hx3 hx2
  have hx3r : x3.Role = itx.Role := by
    have a := field_eq_of_map_eq (fun it => it.Role) _ _ (e3 _ (fun _ _ _ => rfl)) x x3 x2
      hx3 hx2
    have b := field_eq_of_map_eq (fun it => it.Role) _ _ (e2 _ (fun _ _ _ _ => rfl)) x x2 x1
      hx2 hx1
    simp only at a b
    rw [a, b, hx1r]
  obtain ⟨x4, hx4, _⟩ := get_of_map_eq (fun it => it.Role) w3 w4
    (e4 _ (fun _ _ _ => rfl) (fun _ => rfl)) x x3 hx3
  obtain ⟨x5, hx5, _⟩ := get_of_map_eq (fun it => it.Role) w4 w5
    (e5 _ (fun _ _ => rfl)) x x4 hx4
  -- the actor along the steps
  have hn2 : w2.items[n]? = some m1 :=
    SetOwnerASC_untouched fuel w1 x _ w2 h2 n m1 hn1 hm1s
  have hm3a : me3.bIsItemActive = me.bIsItemActive := by
    have a := field_eq_of_map_eq (fun it => it.bIsItemActive) _ _ (e3 _ (fun _ _ _ => rfl))
      n me3 m1 hme3 hn2
    simp only at a
    rw [a, hm1a]
  have hm3sl : me3.ItemSlots = m1.ItemSlots :=
    field_eq_of_map_eq (fun it => it.ItemSlots) _ _ (e3 _ (fun _ _ _ => rfl)) n me3 m1 hme3 hn2
  have hslot3 : slot3 = { ItemSlot with InventoryItems := AddUnique ItemSlot.InventoryItems x } := by
    rw [FindSlotByName_congr m1 me3 hm3sl SlotName, hf1] at hs3
    cases hs3
    rfl
  have hm4v : me4.bIsItemVisible = me.bIsItemVisible := by
    have a := field_eq_of_map_eq (fun it => it.bIsItemVisible) _ _
      (e4 _ (fun _ _ _ => rfl) (fun _ => rfl)) n me4 me3 hme4 hme3
    have b := field_eq_of_map_eq (fun it => it.bIsItemVisible) _ _ (e3 _ (fun _ _ _ => rfl))
      n me3 m1 hme3 hn2
    simp only at a b
    rw [a, b, hm1v]
  have hm4sl : me4.ItemSlots = m1.ItemSlots := by
    have a := field_eq_of_map_eq (fun it => it.ItemSlots) _ _
      (e4 _ (fun _ _ _ => rfl) (fun _ => rfl)) n me4 me3 hme4 hme3
    simp only at a
    rw [a, hm3sl]
  have hslot4 : slot4 = { ItemSlot with InventoryItems := AddUnique ItemSlot.InventoryItems x } := by
    rw [FindSlotByName_congr m1 me4 hm4sl SlotName, hf1] at hs4
    cases hs4
    rfl
  have hm4s : me4.OwnerASC = me.OwnerASC := by
    have a := field_eq_of_map_eq (fun it => it.OwnerASC) _ _
      (e4 _ (fun _ _ _ => rfl) (fun _ => rfl)) n me4 me3 hme4 hme3
    have b := field_eq_of_map_eq (fun it => it.OwnerASC) _ _ (e3 _ (fun _ _ _ => rfl))
      n me3 m1 hme3 hn2
    simp only at a b
    rw [a, b, hm1s]
  obtain ⟨n5, hn5, _⟩ := get_of_map_eq (fun it => it.Role) w4 w5
    (e5 _ (fun _ _ => rfl)) n me4 hme4
  have hn5s : n5.OwnerASC = me.OwnerASC := by
    have a := field_eq_of_map_eq (fun it => it.OwnerASC) _ _ (e5 _ (fun _ _ => rfl))
      n n5 me4 hn5 hme4
    simp only at a
    rw [a, hm4s]
  have hx5s : x5.OwnerASC = me.OwnerASC := by
    have a := field_eq_of_map_eq (fun it => it.OwnerASC) _ _ (e5 _ (fun _ _ => rfl))
      x x5 x4 hx5 hx4
    have b := field_eq_of_map_eq (fun it => it.OwnerASC) _ _
      (e4 _ (fun _ _ _ => rfl) (fun _ => rfl)) x x4 x3 hx4 hx3
    simp only at a b
    rw [a, b, hx3s, hx2s]
  have hx5o : x5.OwnerInventoryItem = some n ∧ x5.OwnerSlotName = SlotName := by
    have a := field_eq_of_map_eq (fun it => (it.OwnerInventoryItem, it.OwnerSlotName)) _ _
      (e5 _ (fun _ _ => rfl)) x x5 x4 hx5 hx4
    have b := field_eq_of_map_eq (fun it => (it.OwnerInventoryItem, it.OwnerSlotName)) _ _
      (e4 _ (fun _ _ _ => rfl) (fun _ => rfl)) x x4 x3 hx4 hx3
    simp only [Prod.mk.injEq] at a b
    exact ⟨by rw [a.1, b.1, hx3o.1], by rw [a.2, b.2, hx3o.2]⟩
  -- activation
  have hx54 : x5.bIsItemActive = x4.bIsItemActive :=
    field_eq_of_map_eq (fun it => it.bIsItemActive) _ _ (e5 _ (fun _ _ => rfl)) x x5 x4 hx5 hx4
  have hn54 : n5.bIsItemActive = me4.bIsItemActive :=
    field_eq_of_map_eq (fun it => it.bIsItemActive) _ _ (e5 _ (fun _ _ => rfl)) n n5 me4 hn5 hme4
  have hnauth : ¬ x3.Role < ROLE_Authority := by rw [hx3r, hxauth]; exact Nat.lt_irrefl _
  have hact : x4.bIsItemActive = (me.bIsItemActive && ItemSlot.bActivateItem) ∧
      x4.bIsItemActive = (me4.bIsItemActive && ItemSlot.bActivateItem) := by
    rw [hslot3, hm3a] at h4
    simp only at h4
    by_cases hc : me.bIsItemActive = true ∧ ItemSlot.bActivateItem = true
    · simp only [hc, and_self, if_true] at h4
      obtain ⟨y3, y4, hy3, hy4, hy⟩ := ActivateItem_self fuel w3 x w4 h4
      rw [hx3] at hy3
      cases hy3
      rw [hx4] at hy4
      cases hy4
      have h4n := ActivateItem_untouched fuel w3 x w4 h4 n me3 hme3 (by rw [hm3a, hc.1])
      rw [hme4] at h4n
      cases h4n
      rw [hy hnauth, hm3a, hc.1, hc.2]
      exact ⟨rfl, rfl⟩
    · simp only [hc, if_false] at h4
      obtain ⟨y3, y4, hy3, hy4, hy⟩ := DeactivateItem_self fuel w3 x w4 h4
      rw [hx3] at hy3
      cases hy3
      rw [hx4] at hy4
      cases hy4
      rw [hy hnauth]
      refine ⟨?_, ?_⟩
      · exact false_eq_and_of_not _ _ hc
      · cases hb : ItemSlot.bActivateItem
        · simp
        · have ha : me.bIsItemActive = false := by
            cases ha : me.bIsItemActive
            · rfl
            · exact absurd ⟨ha, hb⟩ hc
          have h4n := DeactivateItem_untouched fuel w3 x w4 h4 n me3 hme3 (by rw [hm3a, ha])
          rw [hme4] at h4n
          cases h4n
          rw [hm3a, ha]
          rfl
  -- visibility
  have hvis : x5.bIsItemVisible = (me.bIsItemVisible && ItemSlot.bShowItem) ∧
      x5.bIsItemVisible = (n5.bIsItemVisible && ItemSlot.bShowItem) := by
    rw [hslot4, hm4v] at h5
    simp only at h5
    by_cases hc : me.bIsItemVisible = true ∧ ItemSlot.bShowItem = true
    · simp only [hc, and_self, if_true] at h5
      obtain ⟨y5, hy5, hy⟩ := ShowItem_self fuel w4 x w5 h5
      rw [hx5] at hy5
      cases hy5
      have h5n := ShowItem_untouched fuel w4 x w5 h5 n me4 hme4 (by rw [hm4v, hc.1])
      rw [hn5] at h5n
      cases h5n
      rw [hy, hm4v, hc.1, hc.2]
      exact ⟨rfl, rfl⟩
    · simp only [hc, if_false] at h5
      obtain ⟨y5, hy5, hy⟩ := HideItem_self fuel w4 x w5 h5
      rw [hx5] at hy5
      cases hy5
      rw [hy]
      refine ⟨?_, ?_⟩
      · exact false_eq_and_of_not _ _ hc
      · cases hb : ItemSlot.bShowItem
        · simp
        · have ha : me.bIsItemVisible = false := by
            cases ha : me.bIsItemVisible
            · rfl
            · exact absurd ⟨ha, hb⟩ hc
          have h5n := HideItem_untouched fuel w4 x w5 h5 n me4 hme4 (by rw [hm4v, ha])
          rw [hn5] at h5n
          cases h5n
          rw [hm4v, ha]
          rfl
  refine ⟨n5, x5, by rw [e']; exact hn5, by rw [e']; exact hx5, ?_, hn5s, by rw [hx5s, hn5s],
    hx5o.1, hx5o.2, by rw [hx54]; exact hact.1, by rw [hx54, hn54]; exact hact.2,
    hvis.1, hvis.2⟩
  rw [AddItemToSlot_slotItems fuel w n x SlotName w' me ItemSlot hme hs h, count_AddUnique]
  by_cases hin : x ∈ ItemSlot.InventoryItems
  · simp only [hin, if_true]
    have := List.count_pos_iff.mpr hin
    omega
  · simp only [hin, if_false, if_true]
    have := List.count_eq_zero_of_not_mem hin
    omega

/-- The sample holder, active and visible, takes the weapon at 1 into its first slot. -/
theorem addItemToSlot_postcondition_witness :
    AddItemToSlot 4 sampleWorld 0 (some 1) 1 = .ok (stockedWorld, true) ∧
    ∃ me' itx', stockedWorld.items[0]? = some me' ∧ stockedWorld.items[1]? = some itx' ∧
      (slotItems stockedWorld 0 1).count 1 = 1 ∧
      me'.OwnerASC = holderItem.OwnerASC ∧ itx'.OwnerASC = me'.OwnerASC ∧
      itx'.OwnerInventoryItem = some 0 ∧ itx'.OwnerSlotName = 1 ∧
      itx'.bIsItemActive = (holderItem.bIsItemActive && (weaponSlot 1).bActivateItem) ∧
      itx'.bIsItemActive = (me'.bIsItemActive && (weaponSlot 1).bActivateItem) ∧
      itx'.bIsItemVisible = (holderItem.bIsItemVisible && (weaponSlot 1).bShowItem) ∧
      itx'.bIsItemVisible = (me'.bIsItemVisible && (weaponSlot 1).bShowItem) :=
  ⟨by decide,
    addItemToSlot_postcondition 4 sampleWorld 0 1 1 holderItem weaponItem (weaponSlot 1)
      stockedWorld rfl rfl rfl rfl (by decide) (by decide)⟩

/-- C8. `AddItemToSlot` returns false exactly when the actor lacks authority, the item is
null, no slot has the name, or `CanPlaceItemInSlot` answers false; and a call that returns
false returns the world it was given: no actor, no log entry, no handle has changed. -/
theorem addItemToSlot_failure_atomic (fuel : Nat) (w : World) (n : Nat) (me : AInventoryItem)
    (NewItem : Option Nat) (SlotName : FName) (w1 : World) (hme : w.items[n]? = some me) :
    AddItemToSlot fuel w n NewItem SlotName = .ok (w1, false) ↔
      (w1 = w ∧ (me.Role < ROLE_Authority ∨ NewItem = none ∨ FindSlotByName me SlotName = none ∨
        CanPlaceItemInSlot w n NewItem SlotName = .ok false)) :=
  AddItemToSlot_false fuel w n me NewItem SlotName w1 hme

theorem addItemToSlot_failure_atomic_witness :
    AddItemToSlot 4 sampleWorld 0 (some 1) 9 = .ok (sampleWorld, false) ↔
      (sampleWorld = sampleWorld ∧ (holderItem.Role < ROLE_Authority ∨ (some 1 : Option Nat) = none ∨
        FindSlotByName holderItem 9 = none ∨
        CanPlaceItemInSlot sampleWorld 0 (some 1) 9 = .ok false)) :=
  addItemToSlot_failure_atomic 4 sampleWorld 0 holderItem (some 1) 9 sampleWorld rfl

/-- C9. Authority gating: on an actor whose local role is below `ROLE_Authority`,
`SetOwnerASC` (which returns when the actor has the item data its `check` demands, and never
returns another world), `ActivateItem`, `DeactivateItem`, `AddItem`, `AddItemToSlot`,
`RemoveItem` and `RemoveItemFromSlot` return the world they were given, so no actor field
and no entry of the call log changes, and the four boolean ones return false. -/
theorem authority_gating (fuel : Nat) (w : World) (n : Nat) (me : AInventoryItem)
    (NewASC : Option Nat) (Item : Option Nat) (SlotName : FName)
    (hme : w.items[n]? = some me) (hrole : me.Role < ROLE_Authority) :
    (me.ItemData.isSome = true → SetOwnerASC (fuel + 1) w n NewASC = .ok w) ∧
    (∀ w1, SetOwnerASC (fuel + 1) w n NewASC = .ok w1 → w1 = w) ∧
    ActivateItem (fuel + 1) w n = .ok w ∧
    DeactivateItem (fuel + 1) w n = .ok w ∧
    AddItem fuel w n Item = .ok (w, false) ∧
    AddItemToSlot fuel w n Item SlotName = .ok (w, false) ∧
    RemoveItem fuel w n Item = .ok (w, false) ∧
    RemoveItemFromSlot fuel w n Item SlotName = .ok (w, false) := by
  have hne : me.Role ≠ ROLE_Authority := Nat.ne_of_lt hrole
  refine ⟨?_, ?_, ?_, ?_, ?_, ?_, ?_, ?_⟩
  · intro hd
    cases hdata : me.ItemData with
    | none => simp [hdata] at hd
    | some data => simp [SetOwnerASC, hme, hdata, hne]
  · intro w1 h
    cases hdata : me.ItemData with
    | none => simp [SetOwnerASC, hme, hdata] at h
    | some data =>
      simp only [SetOwnerASC, hme, hdata, hne, false_and, if_false, Except.ok.injEq] at h
      exact h.symm
  · simp [ActivateItem, hme, hrole]
  · simp [DeactivateItem, hme, hrole]
  · simp [AddItem, hme, hrole]
  · exact (AddItemToSlot_false fuel w n me Item SlotName w hme).mpr ⟨rfl, Or.inl hrole⟩
  · unfold RemoveItem
    cases Item <;> simp [hme, hrole]
  · unfold RemoveItemFromSlot
    cases Item <;> simp [hme, hrole]

theorem authority_gating_witness :
    (({ holderItem with Role := 1 } : AInventoryItem).ItemData.isSome = true →
      SetOwnerASC (3 + 1) clientWorld 0 (some 8) = .ok clientWorld) ∧
    (∀ w1, SetOwnerASC (3 + 1) clientWorld 0 (some 8) = .ok w1 → w1 = clientWorld) ∧
    ActivateItem (3 + 1) clientWorld 0 = .ok clientWorld ∧
    DeactivateItem (3 + 1) clientWorld 0 = .ok clientWorld ∧
    AddItem 3 clientWorld 0 (some 1) = .ok (clientWorld, false) ∧
    AddItemToSlot 3 clientWorld 0 (some 1) 1 = .ok (clientWorld, false) ∧
    RemoveItem 3 clientWorld 0 (some 1) = .ok (clientWorld, false) ∧
    RemoveItemFromSlot 3 clientWorld 0 (some 1) 1 = .ok (clientWorld, false) :=
  authority_gating 3 clientWorld 0 { holderItem with Role := 1 } (some 8) (some 1) 1 rfl
    (by decide)

/-- C10. With authority on the actor and on the item, `RemoveItemFromSlot` of a non-null
item returns, and returns true exactly when the actor has a slot of that name; after a true
result the item is no longer in that slot's array, is inactive and hidden, and has no owner
and the empty owner slot name; after a false result the world is unchanged. -/
theorem removeItemFromSlot_contract (fuel : Nat) (w : World) (n x : Nat) (SlotName : FName)
    (me itx : AInventoryItem) (hw : w.Linked) (hme : w.items[n]? = some me)
    (hauth : me.Role = ROLE_Authority) (hx : w.items[x]? = some itx)
    (hxauth : itx.Role = ROLE_Authority) (hfuel : w.items.length < fuel) :
    ∃ w' b, RemoveItemFromSlot fuel w n (some x) SlotName = .ok (w', b) ∧
      (b = true ↔ (FindSlotByName me SlotName).isSome = true) ∧
      (b = true → x ∉ slotItems w' n SlotName ∧
        ∃ itx', w'.items[x]? = some itx' ∧ itx'.bIsItemActive = false ∧
          itx'.bIsItemVisible = false ∧ itx'.OwnerInventoryItem = none ∧
          itx'.OwnerSlotName = NAME_None) ∧
      (b = false → w' = w) := by
  have hr : ¬ me.Role < ROLE_Authority := by rw [hauth]; exact Nat.lt_irrefl _
  cases hs : FindSlotByName me SlotName with
  | none =>
    exact ⟨w, false,
      (RemoveItemFromSlot_false fuel w n me (some x) SlotName w hme).mpr
        ⟨rfl, Or.inr (Or.inr hs)⟩, by simp, by simp, fun _ => rfl⟩
  | some slot =>
    obtain ⟨w', h⟩ := RemoveItemFromSlot_returns fuel w n x SlotName me slot hw hme hr
      (lt_of_get w x itx hx) hs hfuel
    refine ⟨w', true, h, by simp, fun _ => ⟨?_, ?_⟩, by simp⟩
    · rw [RemoveItemFromSlot_slotItems fuel w n x SlotName w' me slot hme hs h]
      exact not_mem_Remove _ _
    · obtain ⟨me0, x0, slot0, w2, w3, w4, hme0, hx0, _, _, h2, h3, h4, hw'⟩ :=
        RemoveItemFromSlot_true fuel w n (some x) SlotName w' h
      rw [hme] at hme0
      cases hme0
      cases hx0
      have hk1 := store_map_eq kind w n me
        { me with
          ItemSlots := modifyFirst (fun Slot => decide (Slot.SlotName = SlotName))
            (fun Slot => { Slot with InventoryItems := Remove Slot.InventoryItems x })
            me.ItemSlots } hme rfl
      obtain ⟨mx, mx2, hmx, hmx2, hact⟩ := DeactivateItem_self fuel _ x w2 h2
      have hrole : mx.Role = itx.Role := by
        have := field_eq_of_map_eq kind _ _ hk1 x mx itx hmx hx
        simp only [kind, Prod.mk.injEq] at this
        exact this.1
      have hact2 : mx2.bIsItemActive = false :=
        hact (by rw [hrole, hxauth]; exact Nat.lt_irrefl _)
      obtain ⟨mx3, hmx3, hvis⟩ := HideItem_self fuel w2 x w3 h3
      have hact3 : mx3.bIsItemActive = false := by
        have := field_eq_of_map_eq (fun it => it.bIsItemActive) _ _
          (HideItem_map_eq (fun it => it.bIsItemActive) (fun _ => rfl) fuel w2 x w3 h3)
          x mx3 mx2 hmx3 hmx2
        simp only at this
        rw [this, hact2]
      obtain ⟨mx3', hmx3', hset⟩ := SetOwnerItem_items w3 x none NAME_None w4 h4
      rw [hmx3] at hmx3'
      cases hmx3'
      refine ⟨{ mx3 with OwnerInventoryItem := none, OwnerSlotName := NAME_None }, ?_,
        hact3, hvis, rfl, rfl⟩
      rw [hw', emit_items, emit_items, hset,
        List.getElem?_set_self (lt_of_get w3 x mx3 hmx3)]

/-- The holder gives up the weapon it holds in slot 1. -/
theorem removeItemFromSlot_contract_witness :
    ∃ w' b, RemoveItemFromSlot 4 stockedWorld 0 (some 1) 1 = .ok (w', b) ∧
      (b = true ↔ (FindSlotByName
        { holderItem with
          ItemSlots := [{ weaponSlot 1 with InventoryItems := [1] }, weaponSlot 2,
            consumableSlot 3] } 1).isSome = true) ∧
      (b = true → 1 ∉ slotItems w' 0 1 ∧
        ∃ itx', w'.items[1]? = some itx' ∧ itx'.bIsItemActive = false ∧
          itx'.bIsItemVisible = false ∧ itx'.OwnerInventoryItem = none ∧
          itx'.OwnerSlotName = NAME_None) ∧
      (b = false → w' = stockedWorld) :=
  removeItemFromSlot_contract 4 stockedWorld 0 1 1 _ _ (by decide) rfl rfl rfl rfl (by decide)

/-- C11 fails on the code. The holder at 0 holds nothing; the weapon at 1 is held by the
other holder at 2, in its slot 1. `RemoveItem` on the holder at 0 looks no item up: it takes
the slot name the weapon recorded, finds a slot of that name on the holder at 0, and returns
true. The weapon is deactivated, hidden and detached, `OnItemRemoved` is broadcast, and the
holder at 2 still lists it. -/
theorem removeItem_foreign_item :
    rivalWorld.items[0]? = some holderItem ∧
      (∀ slot ∈ holderItem.ItemSlots, 1 ∉ slot.InventoryItems) ∧
      ∃ w', RemoveItem 4 rivalWorld 0 (some 1) = .ok (w', true) ∧
        w'.items[0]? = some holderItem ∧
        slotItems w' 2 1 = [1] ∧
        w'.items[1]?.map
            (fun it => (it.bIsItemActive, it.bIsItemVisible, it.OwnerInventoryItem)) =
          some (false, false, none) ∧
        w'.log =
          [Event.ClearAbility 7 102, Event.RemoveActiveGameplayEffect 7 103,
           Event.BP_OnDeactivateItem 1, Event.SetHiddenInGame 50 true, Event.BP_OnHideItem 1,
           Event.DetachFromActor 1, Event.OnItemRemoved 0 1 1, Event.OnInventoryChanged 0] :=
  ⟨rfl, by decide, _, rfl, by decide, by decide, by decide, by decide⟩

/-- C12. Activation cascade asymmetry. Let P be an authoritative actor of a world whose slot
pointers all refer to actors with item data. (1) If a slot S of P has `bActivateItem` false
and its items are inactive, are not P itself and are held by no other slot of P or of an
actor under P, then `ActivateItem` on P returns and leaves every item of S as it was, hence
inactive. (2) If P is active and the items of its slots are authoritative, `DeactivateItem`
on P returns and leaves every item of every slot of P inactive, whatever the slot's
`bActivateItem`. -/
theorem activation_asymmetry (fuel : Nat) (w : World) (p : Nat) (me : AInventoryItem)
    (hw : w.Templated) (hme : w.items[p]? = some me) (hauth : me.Role = ROLE_Authority)
    (hd : me.OwnerASC.isSome = true → me.ItemData.isSome = true)
    (hfuel : w.items.length < fuel) :
    (∀ S ∈ me.ItemSlots, S.bActivateItem = false →
      (∀ y ∈ S.InventoryItems, y ≠ p ∧
        (∃ ity, w.items[y]? = some ity ∧ ity.bIsItemActive = false) ∧
        ∀ (z : Nat) (itz : AInventoryItem) (slot : FItemSlot), Under w p z →
          w.items[z]? = some itz → slot ∈ itz.ItemSlots → y ∈ slot.InventoryItems →
          z = p ∧ slot = S) →
      ∃ w1, ActivateItem fuel w p = .ok w1 ∧
        ∀ y ∈ S.InventoryItems, ∃ ity, w.items[y]? = some ity ∧ w1.items[y]? = some ity ∧
          ity.bIsItemActive = false) ∧
    (me.bIsItemActive = true →
      (∀ slot ∈ me.ItemSlots, ∀ y ∈ slot.InventoryItems, ∀ ity, w.items[y]? = some ity →
        ity.Role = ROLE_Authority) →
      ∃ w1, DeactivateItem fuel w p = .ok w1 ∧
        ∀ slot ∈ me.ItemSlots, ∀ y ∈ slot.InventoryItems,
          ∃ ity, w1.items[y]? = some ity ∧ ity.bIsItemActive = false) := by
  constructor
  · intro S _ hflag hS
    obtain ⟨w1, h1⟩ := ActivateItem_returns fuel w p me hw hme hd hfuel
    refine ⟨w1, h1, fun y hy => ?_⟩
    obtain ⟨hyp, ⟨ity, hity, hin⟩, honly⟩ := hS y hy
    refine ⟨ity, hity, ?_, hin⟩
    rw [ActivateItem_eq_cascade] at h1
    refine cascade_beyond activateWave activateEdit activateWave_spec fuel w p w1 h1 y ity
      hity ?_
    intro hch
    cases hch with
    | root => exact hyp rfl
    | step z c it slot hpz hz _ hslot hdesc hc =>
      obtain ⟨_, rfl⟩ := honly z it slot (chain_under _ _ _ _ hpz) hz hslot hc
      have hdesc1 : slot.bActivateItem = true := hdesc
      rw [hflag] at hdesc1
      cases hdesc1
  · intro hact hitems
    have hl := templated_linked w hw
    obtain ⟨w1, h1⟩ := DeactivateItem_returns fuel w p hl (lt_of_get w p me hme) hfuel
    refine ⟨w1, h1, fun slot hslot y hy => ?_⟩
    have hroles := DeactivateItem_map_eq (fun it => it.Role) (fun _ => rfl) fuel w p w1 h1
    rw [DeactivateItem_eq_cascade] at h1
    have hskip : deactivateWave.skip me = false := by
      simp [deactivateWave, hact, hauth, ROLE_Authority]
    obtain ⟨it1, hit1, hs1⟩ := chain_settled deactivateWave deactivateEdit deactivateWave_spec
      fuel w p w1 h1 y (Chain.step p p y me slot (Chain.root p) hme hskip hslot rfl hy)
    refine ⟨it1, hit1, ?_⟩
    have hylt : y < w.items.length :=
      hl me (List.getElem?_mem hme) slot hslot y hy
    have hity := List.getElem?_eq_getElem hylt
    have hr := field_eq_of_map_eq (fun it => it.Role) _ _ hroles y it1 _ hit1 hity
    have hra := hitems slot hslot y hy _ hity
    simp only at hr
    rw [hra] at hr
    simp only [deactivateWave, decide_eq_true_eq, hr, ROLE_Authority] at hs1
    rcases hs1 with h | h
    · exact h
    · exact absurd h (by decide)

/-- In `idleWorld` the weapon at 2 sits in the holder's slot 3, which does not activate its
items, and stays inactive when the holder is activated; in `busyWorld` deactivating the
holder leaves the weapons of both slots inactive. -/
theorem activation_asymmetry_witness :
    idleWorld.Templated ∧ busyWorld.Templated ∧
      (∃ w1, ActivateItem 4 idleWorld 0 = .ok w1 ∧
        ∀ y ∈ [2], ∃ ity, idleWorld.items[y]? = some ity ∧ w1.items[y]? = some ity ∧
          ity.bIsItemActive = false) ∧
      (∃ w1, DeactivateItem 4 busyWorld 0 = .ok w1 ∧
        ∀ slot ∈ [{ weaponSlot 1 with InventoryItems := [1] },
            { consumableSlot 3 with InventoryItems := [2] }],
          ∀ y ∈ slot.InventoryItems, ∃ ity, w1.items[y]? = some ity ∧
            ity.bIsItemActive = false) := by
  refine ⟨by decide, by decide, ?_, ?_⟩
  · refine (activation_asymmetry 4 idleWorld 0 _ (by decide) rfl rfl (fun _ => rfl)
      (by decide)).1 { consumableSlot 3 with InventoryItems := [2] } (by decide) rfl ?_
    intro y hy
    have hy2 : y = 2 := by simpa using hy
    subst hy2
    refine ⟨by decide, ⟨_, rfl, rfl⟩, ?_⟩
    intro z itz slot _ hz hs hc
    match z, hz with
    | 0, hz =>
      cases hz
      have hs1 : slot ∈ [({ weaponSlot 1 with InventoryItems := [1] } : FItemSlot),
          { consumableSlot 3 with InventoryItems := [2] }] := hs
      rcases List.mem_cons.mp hs1 with rfl | hs2
      · exact absurd hc (by decide)
      · rcases List.mem_cons.mp hs2 with rfl | hs3
        · exact ⟨rfl, rfl⟩
        · exact absurd hs3 (List.not_mem_nil _)
    | 1, hz => cases hz; exact absurd (hs : slot ∈ []) (List.not_mem_nil _)
    | 2, hz => cases hz; exact absurd (hs : slot ∈ []) (List.not_mem_nil _)
    | _ + 3, hz => cases hz
  · exact (activation_asymmetry 4 busyWorld 0 _ (by decide) rfl rfl (fun _ => rfl)
      (by decide)).2 rfl
      (fun _ _ y _ ity hity =>
        (by decide : ∀ it ∈ busyWorld.items, it.Role = ROLE_Authority) ity
          (List.getElem?_mem hity))

/-- C13. `ActivateItem` on an authoritative actor N of a world whose slot pointers refer to
actors with item data, with enough fuel for the recursion. If N is active the call returns
the world unchanged. If N is inactive the call returns and N is active afterwards; without
an ability system N's handle arrays are unchanged and the first call recorded is N's
`BP_OnActivateItem`; with ability system `asc` and asset `data`, one fresh handle per entry
of `ActiveAbilities` is appended to `ActiveAbilitiesHandles`, one per entry of
`ActiveEffects` to `ActiveEffectsHandles`, and the calls recorded start with exactly these
grants followed by `BP_OnActivateItem`; and every authoritative item of every slot of N with
`bActivateItem` set is active. -/
theorem activateItem_transition (fuel : Nat) (w : World) (n : Nat) (me : AInventoryItem)
    (hw : w.Templated) (hme : w.items[n]? = some me) (hauth : me.Role = ROLE_Authority)
    (hd : me.OwnerASC.isSome = true → me.ItemData.isSome = true)
    (hfuel : w.items.length < fuel) :
    (me.bIsItemActive = true → ActivateItem fuel w n = .ok w) ∧
    (me.bIsItemActive = false →
      ∃ w1 me1, ActivateItem fuel w n = .ok w1 ∧ w1.items[n]? = some me1 ∧
        me1.bIsItemActive = true ∧
        (me.OwnerASC = none →
          me1.ActiveAbilitiesHandles = me.ActiveAbilitiesHandles ∧
          me1.ActiveEffectsHandles = me.ActiveEffectsHandles ∧
          ∃ rest, w1.log = w.log ++ [Event.BP_OnActivateItem n] ++ rest) ∧
        (∀ asc data, me.OwnerASC = some asc → me.ItemData = some data →
          me1.ActiveAbilitiesHandles =
            me.ActiveAbilitiesHandles ++
              List.range' w.nextHandle data.ActiveAbilities.length ∧
          me1.ActiveEffectsHandles =
            me.ActiveEffectsHandles ++
              List.range' (w.nextHandle + data.ActiveAbilities.length)
                data.ActiveEffects.length ∧
          ∃ rest, w1.log =
            w.log ++ giveEvents asc data.ActiveAbilities w.nextHandle ++
              applyEvents asc data.ActiveEffects (w.nextHandle + data.ActiveAbilities.length) ++
              [Event.BP_OnActivateItem n] ++ rest) ∧
        (∀ slot ∈ me.ItemSlots, slot.bActivateItem = true → ∀ y ∈ slot.InventoryItems,
          ∀ ity, w.items[y]? = some ity → ity.Role = ROLE_Authority →
            ∃ ity1, w1.items[y]? = some ity1 ∧ ity1.bIsItemActive = true)) := by
  constructor
  · intro hact
    cases fuel with
    | zero => omega
    | succ k => simp [ActivateItem, hme, hact]
  · intro hin
    obtain ⟨w1, h1⟩ := ActivateItem_returns fuel w n me hw hme hd hfuel
    have hroles := ActivateItem_map_eq (fun it => it.Role) (fun _ _ _ => rfl) fuel w n w1 h1
    have hc := h1
    rw [ActivateItem_eq_cascade] at hc
    have hskip : activateWave.skip me = false := by
      simp [activateWave, hin, hauth, ROLE_Authority]
    have hr : ¬ me.Role < ROLE_Authority := by rw [hauth]; decide
    obtain ⟨w2, hv, hself, rest, hlog⟩ := cascade_self_visit activateWave activateEdit
      activateWave_spec LogGrows logGrows_refl logGrows_trans
      (fun v self it v1 _ _ _ hvis => ActivateItem_body_log v self it v1 hvis)
      fuel w n w1 me hc hme hskip
    have hv1 : ActivateItem.body w n me = .ok w2 := hv
    have hnlt := lt_of_get w n me hme
    cases ha : me.OwnerASC with
    | none =>
      rw [ActivateItem_body_none w n me ha] at hv1
      cases hv1
      refine ⟨w1, { me with bIsItemActive := true }, h1, ?_, rfl, ?_, ?_, ?_⟩
      · rw [hself]
        exact List.getElem?_set_self hnlt
      · intro _
        exact ⟨rfl, rfl, rest, hlog⟩
      · intro asc data h _
        cases h
      · intro slot hslot hflag y hy ity hity hyr
        obtain ⟨it1, hit1, hs1⟩ := chain_settled activateWave activateEdit activateWave_spec
          fuel w n w1 hc y (Chain.step n n y me slot (Chain.root n) hme hskip hslot hflag hy)
        refine ⟨it1, hit1, ?_⟩
        have hrr := field_eq_of_map_eq (fun it => it.Role) _ _ hroles y it1 ity hit1 hity
        simp only at hrr
        rw [hyr] at hrr
        simp only [activateWave, decide_eq_true_eq, hrr, ROLE_Authority] at hs1
        rcases hs1 with h | h
        · exact h
        · exact absurd h (by decide)
    | some asc =>
      have hsome : me.ItemData.isSome = true := hd (by rw [ha]; rfl)
      obtain ⟨data, hdata⟩ := Option.isSome_iff_exists.mp hsome
      rw [ActivateItem_body_some w n me asc data ha hdata hr] at hv1
      cases hv1
      refine ⟨w1,
        { me with
          bIsItemActive := true,
          ActiveAbilitiesHandles :=
            me.ActiveAbilitiesHandles ++ List.range' w.nextHandle data.ActiveAbilities.length,
          ActiveEffectsHandles :=
            me.ActiveEffectsHandles ++
              List.range' (w.nextHandle + data.ActiveAbilities.length)
                data.ActiveEffects.length }, h1, ?_, rfl, ?_, ?_, ?_⟩
      · rw [hself]
        exact List.getElem?_set_self hnlt
      · intro h
        cases h
      · intro asc1 data1 h1a h1d
        cases h1a
        rw [hdata] at h1d
        cases h1d
        exact ⟨rfl, rfl, rest, hlog⟩
      · intro slot hslot hflag y hy ity hity hyr
        obtain ⟨it1, hit1, hs1⟩ := chain_settled activateWave activateEdit activateWave_spec
          fuel w n w1 hc y (Chain.step n n y me slot (Chain.root n) hme hskip hslot hflag hy)
        refine ⟨it1, hit1, ?_⟩
        have hrr := field_eq_of_map_eq (fun it => it.Role) _ _ hroles y it1 ity hit1 hity
        simp only at hrr
        rw [hyr] at hrr
        simp only [activateWave, decide_eq_true_eq, hrr, ROLE_Authority] at hs1
        rcases hs1 with h | h
        · exact h
        · exact absurd h (by decide)

/-- Activating the idle holder of `idleWorld`, owned by ability system 7: it becomes active
and receives the handles 100 and 101, and the weapon in its activating slot 1 is active. -/
theorem activateItem_transition_witness :
    idleWorld.Templated ∧
      ∃ w1 me1, ActivateItem 4 idleWorld 0 = .ok w1 ∧ w1.items[0]? = some me1 ∧
        me1.bIsItemActive = true ∧ me1.ActiveAbilitiesHandles = [100] ∧
        me1.ActiveEffectsHandles = [101] ∧
        ∃ ity1, w1.items[1]? = some ity1 ∧ ity1.bIsItemActive = true := by
  refine ⟨by decide, ?_⟩
  obtain ⟨w1, me1, h1, hme1, hact, _, hsome, hitems⟩ :=
    (activateItem_transition 4 idleWorld 0 _ (by decide) rfl rfl (fun _ => rfl)
      (by decide)).2 rfl
  obtain ⟨ha, he, _⟩ := hsome 7 _ rfl rfl
  exact ⟨w1, me1, h1, hme1, hact, ha, he,
    hitems { weaponSlot 1 with InventoryItems := [1] } (by decide) rfl 1 (by decide) _ rfl rfl⟩

/-- C14 fails as stated: in `nestedWorld` every actor is authoritative, the holder at 0 is
active and holds the inactive crate at 1, which holds the active weapon at 2. `DeactivateItem`
on the holder returns at once from the call on the crate, whose `bIsItemActive` is already
false, and the weapon under it is still active afterwards. -/
theorem deactivate_leaves_active_descendant :
    nestedWorld.Templated ∧ (∀ it ∈ nestedWorld.items, it.Role = ROLE_Authority) ∧
      nestedWorld.items[0]?.map (fun it => it.bIsItemActive) = some true ∧
      slotItems nestedWorld 0 1 = [1] ∧ slotItems nestedWorld 1 1 = [2] ∧
      ∃ w1, DeactivateItem 4 nestedWorld 0 = .ok w1 ∧
        w1.items[0]?.map (fun it => it.bIsItemActive) = some false ∧
        w1.items[2]?.map (fun it => it.bIsItemActive) = some true :=
  ⟨by decide, by decide, by decide, by decide, by decide, _, rfl, by decide, by decide⟩

/-- C14, amended. In a world whose slot pointers refer to actors, with enough fuel for the
recursion, `DeactivateItem` on P returns, and every authoritative actor that is P or is
reached from P through slots of actors that were active and authoritative before the call
is inactive afterwards. -/
theorem deactivate_reaches_active_chains (fuel : Nat) (w : World) (p : Nat)
    (hw : w.Linked) (hp : p < w.items.length) (hfuel : w.items.length < fuel) :
    ∃ w1, DeactivateItem fuel w p = .ok w1 ∧
      ∀ (y : Nat) (ity : AInventoryItem), Chain deactivateWave w p y →
        w.items[y]? = some ity → ity.Role = ROLE_Authority →
        ∃ ity1, w1.items[y]? = some ity1 ∧ ity1.bIsItemActive = false := by
  obtain ⟨w1, h1⟩ := DeactivateItem_returns fuel w p hw hp hfuel
  refine ⟨w1, h1, fun y ity hch hity hyr => ?_⟩
  have hroles := DeactivateItem_map_eq (fun it => it.Role) (fun _ => rfl) fuel w p w1 h1
  rw [DeactivateItem_eq_cascade] at h1
  obtain ⟨it1, hit1, hs1⟩ := chain_settled deactivateWave deactivateEdit deactivateWave_spec
    fuel w p w1 h1 y hch
  refine ⟨it1, hit1, ?_⟩
  have hrr := field_eq_of_map_eq (fun it => it.Role) _ _ hroles y it1 ity hit1 hity
  simp only at hrr
  rw [hyr] at hrr
  simp only [deactivateWave, decide_eq_true_eq, hrr, ROLE_Authority] at hs1
  rcases hs1 with h | h
  · exact h
  · exact absurd h (by decide)

/-- In `stockedWorld` the weapon at 1 is reached from the active holder at 0 and is inactive
after the holder is deactivated. -/
theorem deactivate_reaches_active_chains_witness :
    stockedWorld.Linked ∧
      ∃ w1, DeactivateItem 4 stockedWorld 0 = .ok w1 ∧
        ∃ ity1, w1.items[1]? = some ity1 ∧ ity1.bIsItemActive = false := by
  refine ⟨by decide, ?_⟩
  obtain ⟨w1, h1, hall⟩ :=
    deactivate_reaches_active_chains 4 stockedWorld 0 (by decide) (by decide) (by decide)
  exact ⟨w1, h1, hall 1 _
    (Chain.step 0 0 1 _ { weaponSlot 1 with InventoryItems := [1] } (Chain.root 0) rfl rfl
      (by decide) rfl (by decide)) rfl rfl⟩

/-- C15. Grant/revoke symmetry. Let N be an authoritative actor with asset `data`, no ability
system, inactive, with empty handle arrays and empty slots, and let A and B be distinct
ability systems. `SetOwnerASC` with A and then with B both return, and the calls they record
are, in order: one `GiveAbility` on A per passive ability and one
`ApplyGameplayEffectToSelf` on A per passive effect, one `ClearAbility` on A per handle the
first returned and one `RemoveActiveGameplayEffect` on A per handle the second returned, and
one grant on B per passive ability and per passive effect. So the revokes issued against A
are as many as the grants made to A, and B received its passive grants and no other call. -/
theorem grant_revoke_symmetry (fuel : Nat) (w : World) (n : Nat) (me : AInventoryItem)
    (data : UItemData) (A B : Nat) (hme : w.items[n]? = some me)
    (hdata : me.ItemData = some data) (hauth : me.Role = ROLE_Authority)
    (hsink : me.OwnerASC = none) (_hinact : me.bIsItemActive = false)
    (haa : me.ActiveAbilitiesHandles = []) (hae : me.ActiveEffectsHandles = [])
    (hpa : me.PassiveAbilitiesHandles = []) (hpe : me.PassiveEffectsHandles = [])
    (hslots : ∀ slot ∈ me.ItemSlots, slot.InventoryItems = []) (hAB : A ≠ B)
    (hfuel : 0 < fuel) :
    ∃ w1 w2 calls, SetOwnerASC fuel w n (some A) = .ok w1 ∧
      SetOwnerASC fuel w1 n (some B) = .ok w2 ∧
      w1.log = w.log ++ (giveEvents A data.PassiveAbilities w.nextHandle ++
        applyEvents A data.PassiveEffects (w.nextHandle + data.PassiveAbilities.length)) ∧
      w2.log = w.log ++ calls ∧
      calls =
        giveEvents A data.PassiveAbilities w.nextHandle ++
        applyEvents A data.PassiveEffects (w.nextHandle + data.PassiveAbilities.length) ++
        clearEvents A (List.range' w.nextHandle data.PassiveAbilities.length) ++
        removeEvents A (List.range' (w.nextHandle + data.PassiveAbilities.length)
          data.PassiveEffects.length) ++
        giveEvents B data.PassiveAbilities w1.nextHandle ++
        applyEvents B data.PassiveEffects (w1.nextHandle + data.PassiveAbilities.length) ∧
      grantsTo A calls = data.PassiveAbilities.length + data.PassiveEffects.length ∧
      revokesFrom A calls = grantsTo A calls ∧
      callsTo B calls =
        giveEvents B data.PassiveAbilities w1.nextHandle ++
        applyEvents B data.PassiveEffects (w1.nextHandle + data.PassiveAbilities.length) := by
  obtain ⟨k, rfl⟩ : ∃ k, fuel = k + 1 := ⟨fuel - 1, by omega⟩
  have hr : ¬ me.Role < ROLE_Authority := by rw [hauth]; decide
  have hBA : ¬ B = A := fun h => hAB h.symm
  have h1 : SetOwnerASC (k + 1) w n (some A) = .ok (SetOwnerASC.body w n me data (some A)) := by
    rw [SetOwnerASC_eq_cascade]
    exact cascade_leaf (setOwnerWave (some A)) k w n me _ hme
      (by simp [setOwnerWave, hdata]) (by simp [setOwnerWave, hauth, hsink])
      (by simp [setOwnerWave, hdata]) hslots
  have hnlt := lt_of_get w n me hme
  obtain ⟨me1, hdef⟩ : ∃ me1 : AInventoryItem, me1 =
      { me with
        OwnerASC := some A,
        PassiveAbilitiesHandles :=
          me.PassiveAbilitiesHandles ++ List.range' w.nextHandle data.PassiveAbilities.length,
        PassiveEffectsHandles :=
          me.PassiveEffectsHandles ++
            List.range' (w.nextHandle + data.PassiveAbilities.length)
              data.PassiveEffects.length } := ⟨_, rfl⟩
  have hr1 : ¬ me1.Role < ROLE_Authority := by rw [hdef]; exact hr
  have ha1 : me1.OwnerASC = some A := by rw [hdef]
  have hd1 : me1.ItemData = some data := by rw [hdef]; exact hdata
  have hs1 : ∀ slot ∈ me1.ItemSlots, slot.InventoryItems = [] := by rw [hdef]; exact hslots
  have hb1 : (SetOwnerASC.body w n me data (some A)).items[n]? = some me1 := by
    rw [SetOwnerASC_body_fresh w n me data A hsink hr, hdef]
    exact List.getElem?_set_self hnlt
  have h2 : SetOwnerASC (k + 1) (SetOwnerASC.body w n me data (some A)) n (some B) = .ok
      (SetOwnerASC.body (SetOwnerASC.body w n me data (some A)) n me1 data (some B)) := by
    rw [SetOwnerASC_eq_cascade]
    exact cascade_leaf (setOwnerWave (some B)) k _ n me1 _ hb1
      (by simp [setOwnerWave, hd1])
      (by simp [setOwnerWave, ha1, hAB, (by rw [hdef]; exact hauth : me1.Role = ROLE_Authority)])
      (by simp only [setOwnerWave, hd1]) hs1
  rw [SetOwnerASC_body_swap _ n me1 data A B ha1 hr1] at h2
  rw [SetOwnerASC_body_fresh w n me data A hsink hr] at h1 h2
  subst hdef
  refine ⟨_, _, _, h1, h2, rfl, ?_, rfl, ?_, ?_, ?_⟩
  · simp [revokeAll, haa, hae, hpa, hpe, clearEvents, removeEvents]
  · simp [grantsTo_append, grantsTo_giveEvents, grantsTo_applyEvents, grantsTo_clearEvents,
      grantsTo_removeEvents, hBA]
  · simp [grantsTo_append, grantsTo_giveEvents, grantsTo_applyEvents, grantsTo_clearEvents,
      grantsTo_removeEvents, revokesFrom_append, revokesFrom_giveEvents,
      revokesFrom_applyEvents, revokesFrom_clearEvents, revokesFrom_removeEvents, hBA]
  · simp [callsTo_append, callsTo_giveEvents, callsTo_applyEvents, callsTo_clearEvents,
      callsTo_removeEvents, hAB]

/-- The lone weapon, whose asset has one passive ability and one passive effect, is given
ability system 7 and then 8: two grants to 7, two revokes from 7. -/
theorem grant_revoke_symmetry_witness :
    ∃ w1 w2 calls, SetOwnerASC 1 loneWorld 0 (some 7) = .ok w1 ∧
      SetOwnerASC 1 w1 0 (some 8) = .ok w2 ∧ w2.log = loneWorld.log ++ calls ∧
      grantsTo 7 calls = 2 ∧ revokesFrom 7 calls = grantsTo 7 calls := by
  obtain ⟨w1, w2, calls, h1, h2, _, hl2, _, hg, hrv, _⟩ :=
    grant_revoke_symmetry 1 loneWorld 0 weaponItem weaponData 7 8 rfl rfl rfl rfl rfl rfl rfl
      rfl rfl (by decide) (by decide) (by decide)
  exact ⟨w1, w2, calls, h1, h2, hl2, hg, hrv⟩

/-- C16 fails on the code. The lone weapon is given ability system 7, which returns the
handles 100 and 101. `SetOwnerASC` with null then revokes both against 7, and the passive
handle arrays still hold 100 and 101: `RemoveAbilitiesFromASC` and `RemoveEffectsFromASC`
walk the array they are passed and never empty it. With ability system 8 in place of null
the passive arrays hold the revoked handles followed by the two new ones. -/
theorem revoke_keeps_handles :
    ∃ w1, SetOwnerASC 2 loneWorld 0 (some 7) = .ok w1 ∧
      w1.items[0]?.map
          (fun it => (it.OwnerASC, it.PassiveAbilitiesHandles, it.PassiveEffectsHandles)) =
        some (some 7, [100], [101]) ∧
      (∃ w2, SetOwnerASC 2 w1 0 none = .ok w2 ∧
        w2.log =
          [Event.GiveAbility 7 11 100, Event.ApplyGameplayEffectToSelf 7 12 101,
           Event.ClearAbility 7 100, Event.RemoveActiveGameplayEffect 7 101] ∧
        w2.items[0]?.map
            (fun it => (it.OwnerASC, it.PassiveAbilitiesHandles, it.PassiveEffectsHandles)) =
          some (none, [100], [101])) ∧
      (∃ w3, SetOwnerASC 2 w1 0 (some 8) = .ok w3 ∧
        w3.log =
          [Event.GiveAbility 7 11 100, Event.ApplyGameplayEffectToSelf 7 12 101,
           Event.ClearAbility 7 100, Event.RemoveActiveGameplayEffect 7 101,
           Event.GiveAbility 8 11 102, Event.ApplyGameplayEffectToSelf 8 12 103] ∧
        w3.items[0]?.map
            (fun it => (it.OwnerASC, it.PassiveAbilitiesHandles, it.PassiveEffectsHandles)) =
          some (some 8, [100, 102], [101, 103])) :=
  ⟨_, rfl, by decide, ⟨_, rfl, by decide, by decide⟩, ⟨_, rfl, by decide, by decide⟩⟩

/-- C17 fails on the code. The lone weapon is enabled with ability system 7 and then
disabled. Enabling makes four grants, with handles 100 to 103. Disabling revokes the active
handles 102 and 103 in `DeactivateItem` and then, since the arrays are not emptied, revokes
them again together with 100 and 101 in `SetOwnerASC`: six revokes for four grants, and the
four handle arrays are not empty at the end. -/
theorem enable_disable_revokes_twice :
    ∃ w1, SetItemEnabled 2 loneWorld 0 true (some 7) = .ok w1 ∧
      w1.log =
        [Event.GiveAbility 7 11 100, Event.ApplyGameplayEffectToSelf 7 12 101,
         Event.GiveAbility 7 13 102, Event.ApplyGameplayEffectToSelf 7 14 103,
         Event.BP_OnActivateItem 0, Event.SetHiddenInGame 50 false, Event.BP_OnShowItem 0] ∧
      ∃ w2, SetItemEnabled 2 w1 0 false (some 7) = .ok w2 ∧
        callsTo 7 w2.log =
          [Event.GiveAbility 7 11 100, Event.ApplyGameplayEffectToSelf 7 12 101,
           Event.GiveAbility 7 13 102, Event.ApplyGameplayEffectToSelf 7 14 103,
           Event.ClearAbility 7 102, Event.RemoveActiveGameplayEffect 7 103,
           Event.ClearAbility 7 102, Event.ClearAbility 7 100,
           Event.RemoveActiveGameplayEffect 7 103, Event.RemoveActiveGameplayEffect 7 101] ∧
        grantsTo 7 w2.log = 4 ∧ revokesFrom 7 w2.log = 6 ∧
        w2.items[0]?.map
            (fun it => (it.ActiveAbilitiesHandles, it.ActiveEffectsHandles,
              it.PassiveAbilitiesHandles, it.PassiveEffectsHandles)) =
          some ([102], [103], [100], [101]) :=
  ⟨_, rfl, by decide, _, rfl, by decide, by decide, by decide, by decide⟩

/-- C18 fails as stated: in `nestedWorld` every actor is authoritative and has item data, the
holder at 0 is owned by ability system 7 and holds the crate at 1, already owned by 8, which
holds the weapon at 2, owned by 7. `SetOwnerASC` with 8 on the holder returns at once from
the call on the crate, whose `OwnerASC` equals the new one, and the weapon under it keeps
ability system 7. -/
theorem setOwnerASC_misses_descendant :
    nestedWorld.Templated ∧ (∀ it ∈ nestedWorld.items, it.Role = ROLE_Authority) ∧
      nestedWorld.items[0]?.map (fun it => (it.OwnerASC, it.ItemData.isSome)) =
        some (some 7, true) ∧
      slotItems nestedWorld 0 1 = [1] ∧ slotItems nestedWorld 1 1 = [2] ∧
      ∃ w1, SetOwnerASC 4 nestedWorld 0 (some 8) = .ok w1 ∧
        w1.items[0]?.map (fun it => it.OwnerASC) = some (some 8) ∧
        w1.items[1]?.map (fun it => it.OwnerASC) = some (some 8) ∧
        w1.items[2]?.map (fun it => it.OwnerASC) = some (some 7) :=
  ⟨by decide, by decide, by decide, by decide, by decide, _, rfl, by decide, by decide,
    by decide⟩

/-- C18, amended. In a world whose slot pointers refer to actors with item data, with enough
fuel for the recursion, `SetOwnerASC` with `s` on an actor N that has item data returns, and
every authoritative actor that is N or is reached from N through slots of actors that were
authoritative and had an ability system other than `s` before the call has ability system
`s` afterwards. -/
theorem setOwnerASC_reaches_differing_chains (fuel : Nat) (w : World) (n : Nat)
    (s : Option Nat) (me : AInventoryItem) (hw : w.Templated) (hme : w.items[n]? = some me)
    (hd : me.ItemData.isSome = true) (hfuel : w.items.length < fuel) :
    ∃ w1, SetOwnerASC fuel w n s = .ok w1 ∧
      ∀ (y : Nat) (ity : AInventoryItem), Chain (setOwnerWave s) w n y →
        w.items[y]? = some ity → ity.Role = ROLE_Authority →
        ∃ ity1, w1.items[y]? = some ity1 ∧ ity1.OwnerASC = s := by
  obtain ⟨w1, h1⟩ := SetOwnerASC_returns fuel w n s me hw hme hd hfuel
  refine ⟨w1, h1, fun y ity hch hity hyr => ?_⟩
  have hroles := SetOwnerASC_map_eq (fun it => it.Role) (fun _ _ _ _ => rfl) fuel w n s w1 h1
  rw [SetOwnerASC_eq_cascade] at h1
  obtain ⟨it1, hit1, hs1⟩ := chain_settled (setOwnerWave s) (setOwnerEdit s)
    (setOwnerWave_spec s) fuel w n w1 h1 y hch
  refine ⟨it1, hit1, ?_⟩
  have hrr := field_eq_of_map_eq (fun it => it.Role) _ _ hroles y it1 ity hit1 hity
  simp only at hrr
  rw [hyr] at hrr
  simp only [setOwnerWave, Bool.not_eq_true', decide_eq_false_iff_not, hrr, true_and,
    not_not] at hs1
  exact hs1

/-- In `stockedWorld` the weapon at 1 is reached from the holder at 0, both owned by 7, and
is owned by 9 after `SetOwnerASC` with 9 on the holder. -/
theorem setOwnerASC_reaches_differing_chains_witness :
    stockedWorld.Templated ∧
      ∃ w1, SetOwnerASC 4 stockedWorld 0 (some 9) = .ok w1 ∧
        ∃ ity1, w1.items[1]? = some ity1 ∧ ity1.OwnerASC = some 9 := by
  refine ⟨by decide, ?_⟩
  obtain ⟨w1, h1, hall⟩ :=
    setOwnerASC_reaches_differing_chains 4 stockedWorld 0 (some 9) _ (by decide) rfl rfl
      (by decide)
  exact ⟨w1, h1, hall 1 _
    (Chain.step 0 0 1 _ { weaponSlot 1 with InventoryItems := [1] } (Chain.root 0) rfl
      (by decide) (by decide) rfl (by decide)) rfl rfl⟩

/-- C19. `SetItemEnabled` is the stated composition. For an authoritative actor N with item
data, in a world whose slot pointers refer to actors with item data and with enough fuel
for the recursion: enabling with `s` returns the world, call log included, that
`SetOwnerASC` with `s`, then `ActivateItem`, then `ShowItem` return, and there N has ability
system `s` and is active and visible; disabling, whatever ability system is passed, returns
the world that `HideItem`, then `DeactivateItem`, then `SetOwnerASC` with null return, and
there N is hidden, inactive and without ability system. -/
theorem setItemEnabled_composition (fuel : Nat) (w : World) (n : Nat) (s : Option Nat)
    (me : AInventoryItem) (hw : w.Templated) (hme : w.items[n]? = some me)
    (hauth : me.Role = ROLE_Authority) (hd : me.ItemData.isSome = true)
    (hfuel : w.items.length < fuel) :
    (∃ w1 w2 w3 me3, SetOwnerASC fuel w n s = .ok w1 ∧ ActivateItem fuel w1 n = .ok w2 ∧
      ShowItem fuel w2 n = .ok w3 ∧ SetItemEnabled fuel w n true s = .ok w3 ∧
      w3.items[n]? = some me3 ∧ me3.OwnerASC = s ∧ me3.bIsItemActive = true ∧
      me3.bIsItemVisible = true) ∧
    (∃ w1 w2 w3 me3, HideItem fuel w n = .ok w1 ∧ DeactivateItem fuel w1 n = .ok w2 ∧
      SetOwnerASC fuel w2 n none = .ok w3 ∧ SetItemEnabled fuel w n false s = .ok w3 ∧
      w3.items[n]? = some me3 ∧ me3.bIsItemVisible = false ∧ me3.bIsItemActive = false ∧
      me3.OwnerASC = none) := by
  have hr : ¬ me.Role < ROLE_Authority := by rw [hauth]; decide
  constructor
  · obtain ⟨w1, h1⟩ := SetOwnerASC_returns fuel w n s me hw hme hd hfuel
    have hs1 := SetOwnerASC_map_eq shape (fun _ _ _ _ => rfl) fuel w n s w1 h1
    have hl1 := length_eq_of_map_eq shape _ _ hs1
    have hw1 := templated_congr w w1 hs1 hw
    obtain ⟨m0, m1, hm0, hm1, _, hsink1⟩ := SetOwnerASC_self fuel w n s w1 h1
    rw [hme] at hm0
    cases hm0
    have hsh1 := field_eq_of_map_eq shape _ _ hs1 n m1 me hm1 hme
    simp only [shape, Prod.mk.injEq] at hsh1
    obtain ⟨w2, h2⟩ := ActivateItem_returns fuel w1 n m1 hw1 hm1
      (fun _ => by rw [hsh1.2.1]; exact hd) (by omega)
    have hs2 := ActivateItem_map_eq shape (fun _ _ _ => rfl) fuel w1 n w2 h2
    have hl2 := length_eq_of_map_eq shape _ _ hs2
    have hw2 := templated_congr w1 w2 hs2 hw1
    have ho2 := ActivateItem_map_eq (fun it => it.OwnerASC) (fun _ _ _ => rfl) fuel w1 n w2 h2
    obtain ⟨m1', m2, hm1', hm2, hact2⟩ := ActivateItem_self fuel w1 n w2 h2
    rw [hm1] at hm1'
    cases hm1'
    have hsink2 : m2.OwnerASC = m1.OwnerASC :=
      field_eq_of_map_eq (fun it => it.OwnerASC) _ _ ho2 n m2 m1 hm2 hm1
    obtain ⟨w3, h3⟩ := ShowItem_returns fuel w2 n (templated_linked w2 hw2)
      (lt_of_get w2 n m2 hm2) (by omega)
    have ho3 := ShowItem_map_eq (fun it => (it.OwnerASC, it.bIsItemActive)) (fun _ => rfl)
      fuel w2 n w3 h3
    obtain ⟨m3, hm3, hvis3⟩ := ShowItem_self fuel w2 n w3 h3
    have hf3 := field_eq_of_map_eq (fun it => (it.OwnerASC, it.bIsItemActive)) _ _ ho3 n m3 m2
      hm3 hm2
    simp only [Prod.mk.injEq] at hf3
    refine ⟨w1, w2, w3, m3, h1, h2, h3, by simp [SetItemEnabled, h1, h2, h3], hm3, ?_, ?_,
      hvis3⟩
    · rw [hf3.1, hsink2]
      exact hsink1 hauth
    · rw [hf3.2]
      exact hact2 (by rw [hsh1.1]; exact hr)
  · have hl := templated_linked w hw
    obtain ⟨w1, h1⟩ := HideItem_returns fuel w n hl (lt_of_get w n me hme) hfuel
    have hs1 := HideItem_map_eq shape (fun _ => rfl) fuel w n w1 h1
    have hl1 := length_eq_of_map_eq shape _ _ hs1
    have hw1 := templated_congr w w1 hs1 hw
    obtain ⟨m1, hm1, hvis1⟩ := HideItem_self fuel w n w1 h1
    have hsh1 := field_eq_of_map_eq shape _ _ hs1 n m1 me hm1 hme
    simp only [shape, Prod.mk.injEq] at hsh1
    obtain ⟨w2, h2⟩ := DeactivateItem_returns fuel w1 n (templated_linked w1 hw1)
      (lt_of_get w1 n m1 hm1) (by omega)
    have hs2 := DeactivateItem_map_eq shape (fun _ => rfl) fuel w1 n w2 h2
    have hl2 := length_eq_of_map_eq shape _ _ hs2
    have hw2 := templated_congr w1 w2 hs2 hw1
    have hv2 := DeactivateItem_map_eq (fun it => it.bIsItemVisible) (fun _ => rfl) fuel w1 n
      w2 h2
    obtain ⟨m1', m2, hm1', hm2, hact2⟩ := DeactivateItem_self fuel w1 n w2 h2
    rw [hm1] at hm1'
    cases hm1'
    have hvis2 : m2.bIsItemVisible = m1.bIsItemVisible :=
      field_eq_of_map_eq (fun it => it.bIsItemVisible) _ _ hv2 n m2 m1 hm2 hm1
    have hsh2 := field_eq_of_map_eq shape _ _ hs2 n m2 m1 hm2 hm1
    simp only [shape, Prod.mk.injEq] at hsh2
    obtain ⟨w3, h3⟩ := SetOwnerASC_returns fuel w2 n none m2 hw2 hm2
      (by rw [hsh2.2.1, hsh1.2.1]; exact hd) (by omega)
    have hf3 := SetOwnerASC_map_eq (fun it => (it.bIsItemActive, it.bIsItemVisible))
      (fun _ _ _ _ => rfl) fuel w2 n none w3 h3
    obtain ⟨m2', m3, hm2', hm3, _, hsink3⟩ := SetOwnerASC_self fuel w2 n none w3 h3
    rw [hm2] at hm2'
    cases hm2'
    have hg3 := field_eq_of_map_eq (fun it => (it.bIsItemActive, it.bIsItemVisible)) _ _ hf3 n
      m3 m2 hm3 hm2
    simp only [Prod.mk.injEq] at hg3
    refine ⟨w1, w2, w3, m3, h1, h2, h3, by simp [SetItemEnabled, h1, h2, h3], hm3, ?_, ?_, ?_⟩
    · rw [hg3.2, hvis2]
      exact hvis1
    · rw [hg3.1]
      exact hact2 (by rw [hsh1.1]; exact hr)
    · exact hsink3 (by rw [hsh2.1, hsh1.1]; exact hauth)

/-- Enabling the lone weapon with ability system 7 and disabling the stocked holder. -/
theorem setItemEnabled_composition_witness :
    loneWorld.Templated ∧
      ∃ w1 w2 w3 me3, SetOwnerASC 2 loneWorld 0 (some 7) = .ok w1 ∧
        ActivateItem 2 w1 0 = .ok w2 ∧ ShowItem 2 w2 0 = .ok w3 ∧
        SetItemEnabled 2 loneWorld 0 true (some 7) = .ok w3 ∧
        w3.items[0]? = some me3 ∧ me3.OwnerASC = some 7 ∧ me3.bIsItemActive = true ∧
        me3.bIsItemVisible = true :=
  ⟨by decide,
    (setItemEnabled_composition 2 loneWorld 0 (some 7) _ (by decide) rfl rfl rfl
      (by decide)).1⟩

/-- C20. The visibility machine, with no condition on any actor's role. In a world whose slot
pointers refer to actors, with enough fuel for the recursion: `ShowItem` on a hidden actor N
returns, N is visible, every item of every slot of N with `bShowItem` set is visible, and
an actor other than N that only slots with `bShowItem` false hold, among the slots of N and
of the actors under N, is left as it was; `HideItem` on a visible N returns, and N and every
item of every slot of N are hidden; `ShowItem` on a visible N and `HideItem` on a hidden N
return the world unchanged. -/
theorem visibility_machine (fuel : Nat) (w : World) (n : Nat) (me : AInventoryItem)
    (hw : w.Linked) (hme : w.items[n]? = some me) (hfuel : w.items.length < fuel) :
    (me.bIsItemVisible = false →
      ∃ w1 me1, ShowItem fuel w n = .ok w1 ∧ w1.items[n]? = some me1 ∧
        me1.bIsItemVisible = true ∧
        (∀ slot ∈ me.ItemSlots, slot.bShowItem = true → ∀ y ∈ slot.InventoryItems,
          ∃ ity1, w1.items[y]? = some ity1 ∧ ity1.bIsItemVisible = true) ∧
        (∀ (y : Nat) (ity : AInventoryItem), y ≠ n → w.items[y]? = some ity →
          (∀ (z : Nat) (itz : AInventoryItem) (slot : FItemSlot), Under w n z →
            w.items[z]? = some itz → slot ∈ itz.ItemSlots → y ∈ slot.InventoryItems →
            slot.bShowItem = false) →
          w1.items[y]? = some ity)) ∧
    (me.bIsItemVisible = true →
      ∃ w1 me1, HideItem fuel w n = .ok w1 ∧ w1.items[n]? = some me1 ∧
        me1.bIsItemVisible = false ∧
        ∀ slot ∈ me.ItemSlots, ∀ y ∈ slot.InventoryItems,
          ∃ ity1, w1.items[y]? = some ity1 ∧ ity1.bIsItemVisible = false) ∧
    (me.bIsItemVisible = true → ShowItem fuel w n = .ok w) ∧
    (me.bIsItemVisible = false → HideItem fuel w n = .ok w) := by
  have hnlt := lt_of_get w n me hme
  refine ⟨fun hvis => ?_, fun hvis => ?_, fun hvis => ?_, fun hvis => ?_⟩
  · obtain ⟨w1, h1⟩ := ShowItem_returns fuel w n hw hnlt hfuel
    obtain ⟨me1, hme1, hv1⟩ := ShowItem_self fuel w n w1 h1
    refine ⟨w1, me1, h1, hme1, hv1, ?_, ?_⟩
    · intro slot hslot hflag y hy
      rw [ShowItem_eq_cascade] at h1
      obtain ⟨it1, hit1, hs1⟩ := chain_settled showWave showEdit showWave_spec fuel w n w1 h1
        y (Chain.step n n y me slot (Chain.root n) hme hvis hslot hflag hy)
      exact ⟨it1, hit1, hs1⟩
    · intro y ity hyn hity honly
      rw [ShowItem_eq_cascade] at h1
      refine cascade_beyond showWave showEdit showWave_spec fuel w n w1 h1 y ity hity ?_
      intro hch
      cases hch with
      | root => exact hyn rfl
      | step z c it slot hpz hz _ hslot hdesc hc =>
        have hno := honly z it slot (chain_under _ _ _ _ hpz) hz hslot hc
        have hdesc1 : slot.bShowItem = true := hdesc
        rw [hno] at hdesc1
        cases hdesc1
  · obtain ⟨w1, h1⟩ := HideItem_returns fuel w n hw hnlt hfuel
    obtain ⟨me1, hme1, hv1⟩ := HideItem_self fuel w n w1 h1
    refine ⟨w1, me1, h1, hme1, hv1, ?_⟩
    intro slot hslot y hy
    rw [HideItem_eq_cascade] at h1
    obtain ⟨it1, hit1, hs1⟩ := chain_settled hideWave hideEdit hideWave_spec fuel w n w1 h1
      y (Chain.step n n y me slot (Chain.root n) hme (by simp [hideWave, hvis]) hslot rfl hy)
    exact ⟨it1, hit1, by simpa [hideWave] using hs1⟩
  · cases fuel with
    | zero => omega
    | succ k => simp [ShowItem, hme, hvis]
  · cases fuel with
    | zero => omega
    | succ k => simp [HideItem, hme, hvis]

/-- On a client, where no actor of `mirrorWorld` is authoritative, showing the holder makes
it and the weapon at 1 in its showing slot visible and leaves the weapon at 2 in slot 3 as it
was. -/
theorem visibility_machine_witness :
    (∀ it ∈ mirrorWorld.items, it.Role < ROLE_Authority) ∧
    ∃ w1 me1, ShowItem 4 mirrorWorld 0 = .ok w1 ∧ w1.items[0]? = some me1 ∧
      me1.bIsItemVisible = true ∧
      (∃ ity1, w1.items[1]? = some ity1 ∧ ity1.bIsItemVisible = true) ∧
      w1.items[2]? = mirrorWorld.items[2]? := by
  refine ⟨by decide, ?_⟩
  obtain ⟨w1, me1, h1, hme1, hv1, hshown, hkept⟩ :=
    (visibility_machine 4 mirrorWorld 0 _ (by decide) rfl (by decide)).1 rfl
  refine ⟨w1, me1, h1, hme1, hv1,
    hshown { weaponSlot 1 with InventoryItems := [1] } (by decide) rfl 1 (by decide), ?_⟩
  refine hkept 2 _ (by decide) rfl ?_
  intro z itz slot _ hz hs hc
  match z, hz with
  | 0, hz =>
    cases hz
    have hs1 : slot ∈ [({ weaponSlot 1 with InventoryItems := [1] } : FItemSlot),
        { consumableSlot 3 with InventoryItems := [2] }] := hs
    rcases List.mem_cons.mp hs1 with rfl | hs2
    · exact absurd hc (by decide)
    · rcases List.mem_cons.mp hs2 with rfl | hs3
      · rfl
      · exact absurd hs3 (List.not_mem_nil _)
  | 1, hz => cases hz; exact absurd (hs : slot ∈ []) (List.not_mem_nil _)
  | 2, hz => cases hz; exact absurd (hs : slot ∈ []) (List.not_mem_nil _)
  | _ + 3, hz => cases hz

/-- C21. Template binding is first-write-wins. On an authoritative actor N: if N has no item
data and no slots, `SetItemData` with a non-null asset returns a world in which N has that
asset and exactly the asset's slots, in the asset's order, every other field of N and every
other actor being as before and no call being recorded; if N already has item data,
`SetItemData` returns the world unchanged whatever asset, null included, is passed. -/
theorem setItemData_first_write (w : World) (n : Nat) (me : AInventoryItem)
    (hme : w.items[n]? = some me) (hauth : me.Role = ROLE_Authority) :
    (∀ T : UItemData, me.ItemData = none → me.ItemSlots = [] →
      ∃ w1, SetItemData w n (some T) = .ok w1 ∧
        w1.items[n]? = some { me with ItemData := some T, ItemSlots := T.ItemSlots } ∧
        (∀ i, i ≠ n → w1.items[i]? = w.items[i]?) ∧
        w1.log = w.log ∧ w1.nextHandle = w.nextHandle) ∧
    (∀ T : Option UItemData, me.ItemData.isSome = true → SetItemData w n T = .ok w) := by
  constructor
  · intro T hnone hslots
    have h1 : SetItemData w n (some T) = .ok (w.store n
        { me with ItemData := some T, ItemSlots := me.ItemSlots ++ T.ItemSlots }) := by
      simp only [SetItemData, hme]
      rw [if_pos hauth]
      simp only [hnone]
    refine ⟨_, h1, ?_, ?_, rfl, rfl⟩
    · simp only [World.store, hslots, List.nil_append]
      exact List.getElem?_set_self (lt_of_get w n me hme)
    · intro i hi
      simp only [World.store]
      exact List.getElem?_set_ne (fun h => hi h.symm)
  · intro T hsome
    obtain ⟨d, hd⟩ := Option.isSome_iff_exists.mp hsome
    simp [SetItemData, hme, hauth, hd]

/-- A freshly spawned actor is given the weapon asset; a second `SetItemData`, on the lone
weapon, changes nothing. -/
theorem setItemData_first_write_witness :
    (∃ w1, SetItemData { items := [freshItem], log := [], nextHandle := 100 } 0
        (some weaponData) = .ok w1 ∧
      w1.items[0]? = some weaponItem) ∧
    SetItemData loneWorld 0 (some { weaponData with ItemName := 99 }) = .ok loneWorld := by
  constructor
  · obtain ⟨w1, h1, hn, _⟩ :=
      (setItemData_first_write { items := [freshItem], log := [], nextHandle := 100 } 0
        freshItem rfl rfl).1 weaponData rfl rfl
    exact ⟨w1, h1, hn⟩
  · exact (setItemData_first_write loneWorld 0 weaponItem rfl rfl).2 _ rfl

/-- C22. `AddItem` is first-fit. Let N be an authoritative actor whose slots have distinct
names, X an actor with item data, in a world whose slot pointers refer to actors with item
data, with enough fuel for the recursion. `AddItem` on N with X returns, and returns true
exactly when `CanPlaceItemInSlot` answers true for some slot of N. When it returns true,
`FindSlotForItem` returned a slot S of N that `CanPlaceItemInSlot` accepts while it rejects
every slot declared before S, the item array of S is its former content with X added if it
was not there, and the item array of every slot of another name is as before. When it
returns false the world is unchanged. -/
theorem addItem_first_fit (fuel : Nat) (w : World) (n x : Nat) (me itx : AInventoryItem)
    (hw : w.Templated) (hme : w.items[n]? = some me) (hauth : me.Role = ROLE_Authority)
    (hx : w.items[x]? = some itx) (hd : itx.ItemData.isSome = true)
    (hnames : (me.ItemSlots.map (fun Slot => Slot.SlotName)).Nodup)
    (hfuel : w.items.length < fuel) :
    ∃ w' b, AddItem fuel w n (some x) = .ok (w', b) ∧
      (b = true ↔
        ∃ slot ∈ me.ItemSlots, CanPlaceItemInSlot w n (some x) slot.SlotName = .ok true) ∧
      (b = true →
        ∃ pre S post, me.ItemSlots = pre ++ S :: post ∧
          (∀ s ∈ pre, CanPlaceItemInSlot w n (some x) s.SlotName = .ok false) ∧
          CanPlaceItemInSlot w n (some x) S.SlotName = .ok true ∧
          FindSlotForItem w n (some x) = .ok (some S) ∧
          slotItems w' n S.SlotName = AddUnique S.InventoryItems x ∧
          ∀ Other, Other ≠ S.SlotName → slotItems w' n Other = slotItems w n Other) ∧
      (b = false → w' = w) := by
  have hr : ¬ me.Role < ROLE_Authority := by rw [hauth]; decide
  have hfind : FindSlotForItem w n (some x) = FindSlotForItem.scan w n (some x) me.ItemSlots := by
    simp [FindSlotForItem, hme]
  rcases scan_first_fit w n (some x)
      (CanPlaceItemInSlot_total w n x me itx hme hx) me.ItemSlots with
    ⟨hnone, hall⟩ | ⟨pre, S, post, hsplit, hpre, hS, hscan⟩
  · refine ⟨w, false, by simp [AddItem, hme, hr, FindSlotForItem, hnone], ?_,
      fun h => Bool.noConfusion h, fun _ => rfl⟩
    constructor
    · intro h
      cases h
    · rintro ⟨slot, hslot, hcan⟩
      rw [hall slot hslot] at hcan
      cases hcan
  · have hmem : S ∈ me.ItemSlots := by rw [hsplit]; simp
    have hfs := FindSlotByName_of_nodup me S hmem hnames
    obtain ⟨w', h'⟩ := AddItemToSlot_returns fuel w n x S.SlotName me itx S hw hme hr hx hd hfs
      hS hfuel
    refine ⟨w', true, by simp [AddItem, hme, hr, FindSlotForItem, hscan, h'], ?_, fun _ => ?_,
      fun h => Bool.noConfusion h⟩
    · exact ⟨fun _ => ⟨S, hmem, hS⟩, fun _ => rfl⟩
    · exact ⟨pre, S, post, hsplit, hpre, hS, by rw [hfind, hscan],
        AddItemToSlot_slotItems fuel w n x S.SlotName w' me S hme hfs h',
        fun Other hne => AddItemToSlot_slotItems_ne fuel w n x S.SlotName Other w' hne h'⟩

/-- In `stockedWorld` slot 1 of the holder is full: `AddItem` of the weapon at 2 skips it and
puts the weapon into slot 2. -/
theorem addItem_first_fit_witness :
    stockedWorld.Templated ∧
      ∃ w', AddItem 4 stockedWorld 0 (some 2) = .ok (w', true) ∧
        slotItems w' 0 2 = [2] ∧ slotItems w' 0 1 = [1] := by
  refine ⟨by decide, ?_⟩
  obtain ⟨w', b, h, hiff, htrue, _⟩ :=
    addItem_first_fit 4 stockedWorld 0 2 _ _ (by decide) rfl rfl rfl rfl (by decide)
      (by decide)
  have hb : b = true := hiff.mpr ⟨weaponSlot 2, by decide, by decide⟩
  subst hb
  obtain ⟨pre, S, post, _, _, _, hfind, hitems, hother⟩ := htrue rfl
  have hS : S = weaponSlot 2 := by
    have h2 : FindSlotForItem stockedWorld 0 (some 2) = .ok (some (weaponSlot 2)) := by
      decide
    rw [h2] at hfind
    cases hfind
    rfl
  subst hS
  exact ⟨w', h, hitems, hother 1 (by decide)⟩

/-- C23. Enumeration is the depth-first pre-order listing. In a world whose slot pointers
refer to actors and whose containment is well founded, with fuel above the rank of N,
`GetInventoryItems` on N returns the former content of `OutItems`, followed by N when
`bIncludeSelf` is set, followed, when `bPropagateToChildren` is set, by the pre-order
listing `specPreorder` of what N holds, to any depth not below the rank of N, and otherwise
by the direct contents of N. -/
theorem getInventoryItems_preorder (fuel : Nat) (w : World) (n : Nat) (rank : Nat → Nat)
    (hw : w.Linked) (hrank : Ranked w rank) (hn : n < w.items.length)
    (hfuel : rank n < fuel) (d : Nat) (hd : rank n ≤ d)
    (bIncludeSelf bPropagateToChildren : Bool) (OutItems : List Nat) :
    GetInventoryItems fuel w n bIncludeSelf bPropagateToChildren OutItems =
      .ok (OutItems ++ (if bIncludeSelf = true then [n] else []) ++
        (if bPropagateToChildren = true then specPreorder d w n else directContents w n)) := by
  cases bPropagateToChildren with
  | true =>
    rw [GetInventoryItems_deep w hw rank hrank fuel n hn hfuel bIncludeSelf OutItems,
      specPreorder_stable w rank hrank fuel d n (by omega) hd]
    rfl
  | false =>
    obtain ⟨f, rfl⟩ : ∃ f, fuel = f + 1 := ⟨fuel - 1, by omega⟩
    rw [GetInventoryItems_flat w f n hn bIncludeSelf OutItems]
    rfl

/-- In `nestedWorld` the holder at 0 holds the crate at 1, which holds the weapon at 2: with
both flags set the listing is holder, crate, weapon; without propagation it is the holder
and the crate. -/
theorem getInventoryItems_preorder_witness :
    nestedWorld.Linked ∧ Ranked nestedWorld (fun i => 2 - i) ∧
      GetInventoryItems 4 nestedWorld 0 true true [] = .ok [0, 1, 2] ∧
      GetInventoryItems 4 nestedWorld 0 true false [] = .ok [0, 1] ∧
      GetInventoryItems 4 nestedWorld 0 false true [9] = .ok [9, 1, 2] := by
  have hrank : Ranked nestedWorld (fun i => 2 - i) := by
    intro z itz slot c hz hs hc
    match z, hz with
    | 0, hz =>
      cases hz
      have hs1 : slot ∈ [({ weaponSlot 1 with InventoryItems := [1] } : FItemSlot),
          weaponSlot 2, consumableSlot 3] := hs
      simp only [List.mem_cons, List.mem_singleton, List.not_mem_nil, or_false] at hs1
      rcases hs1 with rfl | rfl | rfl
      · have : c = 1 := by simpa using hc
        subst this
        decide
      · exact absurd hc (List.not_mem_nil _)
      · exact absurd hc (List.not_mem_nil _)
    | 1, hz =>
      cases hz
      have hs1 : slot ∈ [({ weaponSlot 1 with InventoryItems := [2] } : FItemSlot)] := hs
      have hs2 : slot = { weaponSlot 1 with InventoryItems := [2] } := by simpa using hs1
      subst hs2
      have : c = 2 := by simpa using hc
      subst this
      decide
    | 2, hz => cases hz; exact absurd (hs : slot ∈ []) (List.not_mem_nil _)
    | _ + 3, hz => cases hz
  exact ⟨by decide, hrank,
    getInventoryItems_preorder 4 nestedWorld 0 (fun i => 2 - i) (by decide) hrank (by decide)
      (by decide) 2 (by decide) true true [],
    getInventoryItems_preorder 4 nestedWorld 0 (fun i => 2 - i) (by decide) hrank (by decide)
      (by decide) 2 (by decide) true false [],
    getInventoryItems_preorder 4 nestedWorld 0 (fun i => 2 - i) (by decide) hrank (by decide)
      (by decide) 2 (by decide) false true [9]⟩

/-- C24 fails as stated: in `sampleWorld` no slot holds anything. `AddItemToSlot` on the
holder at 0 with the holder itself and slot 1 returns true, no test standing in the way, and
the holder then lists itself; from there `GetInventoryItems` on it with
`bPropagateToChildren` set does not return, whatever the recursion budget. -/
theorem self_insertion_never_enumerates :
    sampleWorld.Empty ∧
      ∃ w', AddItemToSlot 4 sampleWorld 0 (some 0) 1 = .ok (w', true) ∧
        slotItems w' 0 1 = [0] ∧
        ∀ fuel, GetInventoryItems fuel w' 0 true true [] = .error .fuel := by
  have h : ∃ w', AddItemToSlot 4 sampleWorld 0 (some 0) 1 = .ok (w', true) ∧
      slotItems w' 0 1 = [0] ∧
      ∃ me slot rest items, w'.items[0]? = some me ∧ me.ItemSlots = slot :: rest ∧
        slot.InventoryItems = 0 :: items :=
    ⟨_, rfl, by decide, _, _, _, _, by exact rfl, by exact rfl, by exact rfl⟩
  obtain ⟨w', h1, h2, me, slot, rest, items, hme, hs, hi⟩ := h
  exact ⟨by decide, w', h1, h2,
    fun fuel => GetInventoryItems_self_loop w' 0 me slot rest items hme hs hi fuel true []⟩

/-- C24, amended. Start from a world in which no slot holds anything and issue any sequence
of `AddItem`, `AddItemToSlot`, `RemoveItem` and `RemoveItemFromSlot` requests in which no
insertion is of an item into itself or into an actor the item contains, directly or through
other actors. In the world reached no actor is contained in itself, and there is a rank,
strictly smaller on every item than on its holder, such that `GetInventoryItems` on any
actor N returns the pre-order listing for every recursion budget above the rank of N.
Moreover the containment below every actor N has a depth `h`, the number of steps of the
longest chain of containment going down from N, and the recursion of `GetInventoryItems` on
N is exactly that deep: a budget of `f` nested calls is enough as soon as `h < f`, the call
on N itself and `h` levels of recursion below it, and the result is then the pre-order
listing down to depth `h`; with `bPropagateToChildren` set no budget `f ≤ h` is enough. -/
theorem orderly_requests_keep_tree (fuel : Nat) (w : World) (reqs : List Request)
    (w' : World) (h0 : w.Empty) (hord : Orderly fuel w reqs)
    (hrun : serve fuel w reqs = .ok w') :
    (∀ z c, Holds w' z c → ¬ Under w' c z) ∧
    (∃ rank, Ranked w' rank ∧
      ∀ n, n < w'.items.length → ∀ f, rank n < f →
        ∀ (bIncludeSelf bPropagateToChildren : Bool) (OutItems : List Nat),
          GetInventoryItems f w' n bIncludeSelf bPropagateToChildren OutItems =
            .ok (OutItems ++ (if bIncludeSelf = true then [n] else []) ++
              (if bPropagateToChildren = true then specPreorder (rank n) w' n
               else directContents w' n))) ∧
    ∀ n, n < w'.items.length → ∃ h, IsDepth w' n h ∧
      (∀ f, h < f →
        ∀ (bIncludeSelf bPropagateToChildren : Bool) (OutItems : List Nat),
          GetInventoryItems f w' n bIncludeSelf bPropagateToChildren OutItems =
            .ok (OutItems ++ (if bIncludeSelf = true then [n] else []) ++
              (if bPropagateToChildren = true then specPreorder h w' n
               else directContents w' n))) ∧
      ∀ f, f ≤ h → ∀ (bIncludeSelf : Bool) (OutItems : List Nat),
        GetInventoryItems f w' n bIncludeSelf true OutItems = .error .fuel := by
  obtain ⟨hw', rank, hr⟩ := serve_tree fuel reqs w w' (templated_of_empty w h0)
    ⟨_, ranked_of_empty w h0⟩ hord hrun
  have hl := templated_linked w' hw'
  refine ⟨fun z c h => ranked_acyclic w' rank hr z c h, ⟨rank, hr, ?_⟩, ?_⟩
  · intro n hn f hf inc prop out
    cases prop with
    | true =>
      rw [GetInventoryItems_deep w' hl rank hr f n hn hf inc out,
        specPreorder_stable w' rank hr f (rank n) n (by omega) (Nat.le_refl _)]
      rfl
    | false =>
      obtain ⟨g, rfl⟩ : ∃ g, f = g + 1 := ⟨f - 1, by omega⟩
      rw [GetInventoryItems_flat w' g n hn inc out]
      rfl
  · intro n hn
    obtain ⟨h, hh⟩ := depth_exists w' rank hr n
    exact ⟨h, hh, fun f hf inc prop out => GetInventoryItems_depth w' hl n h hn hh.2 f hf
      inc prop out, fun f hf inc out => GetInventoryItems_short w' hl f n h hh.1 hf inc out⟩

/-- From `sampleWorld` the weapon at 1 is put into slot 1 of the holder and the weapon at 2
is then added by `AddItem`: neither weapon contains the holder, no actor ends up inside
itself, and the enumeration of the holder returns. The containment below the holder has
depth 1: a budget of 2 nested calls lists the holder and both weapons, a budget of 1 runs
out. -/
theorem orderly_requests_keep_tree_witness :
    sampleWorld.Empty ∧
      ∃ w', serve 4 sampleWorld
          [Request.addItemToSlot 0 (some 1) 1, Request.addItem 0 (some 2)] = .ok w' ∧
        slotItems w' 0 1 = [1] ∧ slotItems w' 0 2 = [2] ∧
        (∀ z c, Holds w' z c → ¬ Under w' c z) ∧
        (∃ f result, GetInventoryItems f w' 0 true true [] = .ok result) ∧
        IsDepth w' 0 1 ∧
        GetInventoryItems 2 w' 0 true true [] = .ok [0, 1, 2] ∧
        GetInventoryItems 1 w' 0 true true [] = .error .fuel := by
  have hord : Orderly 4 sampleWorld
      [Request.addItemToSlot 0 (some 1) 1, Request.addItem 0 (some 2)] := by
    refine ⟨fun hu => absurd (under_leaf sampleWorld 1 0 weaponItem rfl rfl hu) (by decide),
      fun res hres => ?_⟩
    have h1 : perform 4 sampleWorld (Request.addItemToSlot 0 (some 1) 1) =
        .ok (stockedWorld, true) := rfl
    rw [h1] at hres
    cases hres
    exact ⟨fun hu => absurd (under_leaf stockedWorld 2 0 weaponItem rfl rfl hu) (by decide),
      fun _ _ => trivial⟩
  have hrun : ∃ w', serve 4 sampleWorld
      [Request.addItemToSlot 0 (some 1) 1, Request.addItem 0 (some 2)] = .ok w' ∧
      slotItems w' 0 1 = [1] ∧ slotItems w' 0 2 = [2] ∧ 0 < w'.items.length ∧
      directContents w' 0 = [1, 2] ∧ directContents w' 1 = [] ∧ directContents w' 2 = [] ∧
      specPreorder 1 w' 0 = [1, 2] :=
    ⟨_, rfl, by decide, by decide, by decide, by decide, by decide, by decide, by decide⟩
  obtain ⟨w', hw', hs1, hs2, hlen, hc0, hc1, hc2, hpre⟩ := hrun
  obtain ⟨hacyc, ⟨rank, _, hget⟩, hdepth⟩ :=
    orderly_requests_keep_tree 4 sampleWorld _ w' (by decide) hord hw'
  obtain ⟨h, hh, hok, hshort⟩ := hdepth 0 hlen
  have hone : IsDepth w' 0 1 := by
    refine ⟨descent_of_mem w' 0 1 0 (by rw [hc0]; decide) (Descent.here 1), fun d hd => ?_⟩
    cases hd with
    | here => exact Nat.zero_le _
    | down _ c e hnc hc =>
      have hmem := holds_mem_directContents w' 0 c hnc
      rw [hc0] at hmem
      have hleaf : directContents w' c = [] := by
        rcases List.mem_cons.mp hmem with h1 | h2
        · rw [h1]; exact hc1
        · rw [List.mem_singleton.mp h2]; exact hc2
      have := descent_leaf w' c e hleaf hc
      omega
  have hh1 : h = 1 := isDepth_unique w' 0 h 1 hh hone
  subst hh1
  refine ⟨by decide, w', hw', hs1, hs2, hacyc, ⟨rank 0 + 1, _,
    hget 0 hlen (rank 0 + 1) (by omega) true true []⟩, hone, ?_,
    hshort 1 (Nat.le_refl _) true []⟩
  rw [hok 2 (by omega) true true [], hpre]
  rfl

/-- C25. `BP_FilterItemsBySlot` is an order-preserving filter: when every input item is an
actor of the world, it returns the output array followed by the input items whose
`OwnerSlotName` equals the given name, in input order and with multiplicity. The function
only reads the actors. -/
theorem filterItemsBySlot_filter (w : World) (SlotName : FName) (InItems : List Nat)
    (hin : ∀ i ∈ InItems, i < w.items.length) (OutItems : List Nat) :
    BP_FilterItemsBySlot w SlotName InItems OutItems =
      .ok (OutItems ++ InItems.filter
        (fun i => decide (w.items[i]?.map (fun it => it.OwnerSlotName) = some SlotName))) := by
  unfold BP_FilterItemsBySlot
  induction InItems generalizing OutItems with
  | nil => simp [forEachOut]
  | cons i rest ih =>
    have hi := hin i (List.mem_cons_self _ _)
    have hrest := ih (fun j hj => hin j (List.mem_cons_of_mem _ hj))
    simp only [forEachOut, List.getElem?_eq_getElem hi, Option.map_some', Option.some.injEq,
      List.filter_cons]
    by_cases hs : (w.items[i]).OwnerSlotName = SlotName
    · simp only [hs, if_true, decide_True]
      rw [hrest]
      simp
    · simp only [hs, if_false, decide_False]
      rw [hrest]
      simp

/-- In `idleWorld` the weapon at 1 records slot 1 and the weapon at 2 slot 3. -/
theorem filterItemsBySlot_filter_witness :
    BP_FilterItemsBySlot idleWorld 1 [1, 2, 1, 0] [5] = .ok [5, 1, 1] :=
  filterItemsBySlot_filter idleWorld 1 [1, 2, 1, 0] (by decide) [5]

/-- C26. Frame of `SetAlternativeAttachToComponent`. In a world whose slot pointers refer to
actors, the call on N with component `c` returns, and every actor keeps its role, root
component, item data, ability system, active and visible flags, four handle arrays and slots
(names, filters, capacities, flags and item arrays). The attach component of N becomes `c`
and that of every other actor is as before. An actor that no slot of N lists keeps its
back-reference; an actor that a slot of N lists has back-reference N and the name of a slot
of N that lists it. -/
theorem setAlternativeAttach_frame (w : World) (n : Nat) (c : Option Nat)
    (me : AInventoryItem) (hw : w.Linked) (hme : w.items[n]? = some me) :
    ∃ w1, SetAlternativeAttachToComponent w n c = .ok w1 ∧
      w1.items.length = w.items.length ∧
      ∀ (i : Nat) (it : AInventoryItem), w.items[i]? = some it →
        ∃ it1, w1.items[i]? = some it1 ∧ standing it1 = standing it ∧
          it1.AlternativeAttachComponent =
            (if i = n then c else it.AlternativeAttachComponent) ∧
          ((∀ slot ∈ me.ItemSlots, i ∉ slot.InventoryItems) →
            it1.OwnerInventoryItem = it.OwnerInventoryItem ∧
            it1.OwnerSlotName = it.OwnerSlotName) ∧
          ((∃ slot ∈ me.ItemSlots, i ∈ slot.InventoryItems) → Placed n me.ItemSlots i it1) := by
  have hnlt := lt_of_get w n me hme
  obtain ⟨w1, h1⟩ := reattach_returns n me.ItemSlots w.items.length hnlt
    (fun slot hslot y hy => hw me (List.getElem?_mem hme) slot hslot y hy)
    (w.store n { me with AlternativeAttachComponent := c })
    (by simp [World.store])
  obtain ⟨hre, hplaced⟩ := reattach_loops n me.ItemSlots me.ItemSlots (fun _ h => h) _ w1 h1
  refine ⟨w1, by simp only [SetAlternativeAttachToComponent, hme]; exact h1,
    by rw [hre.1]; simp [World.store], fun i it hi => ?_⟩
  have h0 : ∃ it0, (w.store n { me with AlternativeAttachComponent := c }).items[i]? = some it0 ∧
      standing it0 = standing it ∧
      it0.AlternativeAttachComponent = (if i = n then c else it.AlternativeAttachComponent) ∧
      it0.OwnerInventoryItem = it.OwnerInventoryItem ∧ it0.OwnerSlotName = it.OwnerSlotName := by
    by_cases hin : n = i
    · subst hin
      rw [hme] at hi
      cases hi
      exact ⟨{ me with AlternativeAttachComponent := c },
        List.getElem?_set_self hnlt, rfl, by simp, rfl, rfl⟩
    · refine ⟨it, ?_, rfl, by rw [if_neg (fun h => hin h.symm)], rfl, rfl⟩
      simp only [World.store]
      rw [List.getElem?_set_ne hin]
      exact hi
  obtain ⟨it0, hi0, hs0, ha0, ho0, hn0⟩ := h0
  obtain ⟨it1, hi1, hs1, ha1, hp1⟩ := hre.2 i it0 hi0
  refine ⟨it1, hi1, hs1.trans hs0, ha1.trans ha0, fun hno => ?_, fun hyes => ?_⟩
  · rcases hp1 with rfl | ⟨_, slot, hslot, hmem, _⟩
    · exact ⟨ho0, hn0⟩
    · exact absurd hmem (hno slot hslot)
  · obtain ⟨slot, hslot, hmem⟩ := hyes
    obtain ⟨it2, hi2, hp2⟩ := hplaced slot hslot i hmem
    rw [hi1] at hi2
    cases hi2
    exact hp2

/-- In `stockedWorld` the holder at 0 is given attach component 60: the weapon at 1, in its
slot 1, has back-reference 0 and is active and visible as before. -/
theorem setAlternativeAttach_frame_witness :
    stockedWorld.Linked ∧
      ∃ w1, SetAlternativeAttachToComponent stockedWorld 0 (some 60) = .ok w1 ∧
        (∃ it0, w1.items[0]? = some it0 ∧ it0.AlternativeAttachComponent = some 60) ∧
        ∃ it1, w1.items[1]? = some it1 ∧ it1.OwnerInventoryItem = some 0 ∧
          it1.bIsItemActive = true ∧ it1.bIsItemVisible = true := by
  refine ⟨by decide, ?_⟩
  obtain ⟨w1, h1, _, hall⟩ :=
    setAlternativeAttach_frame stockedWorld 0 (some 60) _ (by decide) rfl
  obtain ⟨it0, hi0, _, ha0, _, _⟩ := hall 0 _ rfl
  obtain ⟨it1, hi1, hs1, _, _, hp1⟩ := hall 1 _ rfl
  have hplaced := hp1 ⟨{ weaponSlot 1 with InventoryItems := [1] }, by decide, by decide⟩
  exact ⟨w1, h1, ⟨it0, hi0, ha0⟩, it1, hi1, hplaced.1,
    congrArg (fun s => s.2.2.2.2.1) hs1, congrArg (fun s => s.2.2.2.2.2.1) hs1⟩

/-- C27. Downward-closed deactivation. In a world whose slot pointers refer to actors, let
every actor under N be authoritative and let no active actor under N sit in a slot of an
inactive one. Then `DeactivateItem` on N, with enough fuel for the recursion, returns; N and
every actor contained in N, directly or through other actors, are inactive afterwards; the
actors under N are the same as before; and still no active actor under N sits in a slot of
an inactive one. -/
theorem deactivate_downward_closed (fuel : Nat) (w : World) (n : Nat) (hw : w.Linked)
    (hn : n < w.items.length)
    (hauth : ∀ (y : Nat) (ity : AInventoryItem), Under w n y → w.items[y]? = some ity →
      ity.Role = ROLE_Authority)
    (hdc : DownClosed w n) (hfuel : w.items.length < fuel) :
    ∃ w1, DeactivateItem fuel w n = .ok w1 ∧
      (∀ y, Under w n y → ∃ ity1, w1.items[y]? = some ity1 ∧ ity1.bIsItemActive = false) ∧
      (∀ y, Under w1 n y ↔ Under w n y) ∧ DownClosed w1 n := by
  obtain ⟨w1, h1⟩ := DeactivateItem_returns fuel w n hw hn hfuel
  have hshape := DeactivateItem_map_eq shape (fun _ => rfl) fuel w n w1 h1
  have hroles := DeactivateItem_map_eq (fun it => it.Role) (fun _ => rfl) fuel w n w1 h1
  have hiff : ∀ y, Under w1 n y ↔ Under w n y :=
    fun y => ⟨under_congr w1 w hshape.symm n y, under_congr w w1 hshape n y⟩
  have hall : ∀ y, Under w n y →
      ∃ ity1, w1.items[y]? = some ity1 ∧ ity1.bIsItemActive = false := by
    intro y hy
    obtain ⟨ity, hity, hcase⟩ := under_inactive_or_chain w n hw hn hauth hdc y hy
    rcases hcase with hin | hch
    · exact ⟨ity, DeactivateItem_untouched fuel w n w1 h1 y ity hity hin, hin⟩
    · have hc := h1
      rw [DeactivateItem_eq_cascade] at hc
      obtain ⟨it1, hit1, hs1⟩ := chain_settled deactivateWave deactivateEdit
        deactivateWave_spec fuel w n w1 hc y hch
      refine ⟨it1, hit1, ?_⟩
      have hrr : it1.Role = ity.Role :=
        field_eq_of_map_eq (fun it => it.Role) _ _ hroles y it1 ity hit1 hity
      rw [hauth y ity hy hity] at hrr
      simp only [deactivateWave, decide_eq_true_eq, hrr, ROLE_Authority] at hs1
      rcases hs1 with h | h
      · exact h
      · exact absurd h (by decide)
  refine ⟨w1, h1, hall, hiff, ?_⟩
  intro z itz slot c itc hu hz _ hslot hc hcget
  obtain ⟨ity1, hi1, hin⟩ := hall c ((hiff c).mp (Under.step n z c itz slot hu hz hslot hc))
  rw [hcget] at hi1
  cases hi1
  exact hin

/-- In `stockedWorld` the active holder at 0 holds the active weapon at 1: both are inactive
after `DeactivateItem` on the holder. -/
theorem deactivate_downward_closed_witness :
    stockedWorld.Linked ∧
      ∃ w1, DeactivateItem 4 stockedWorld 0 = .ok w1 ∧
        (∃ it0, w1.items[0]? = some it0 ∧ it0.bIsItemActive = false) ∧
        (∃ it1, w1.items[1]? = some it1 ∧ it1.bIsItemActive = false) ∧
        DownClosed w1 0 := by
  refine ⟨by decide, ?_⟩
  have hdc : DownClosed stockedWorld 0 := by
    intro z itz slot c itc _ hz hin hs _ _
    match z, hz with
    | 0, hz => cases hz; cases hin
    | 1, hz => cases hz; cases hin
    | 2, hz => cases hz; exact absurd (hs : slot ∈ []) (List.not_mem_nil _)
    | _ + 3, hz => cases hz
  obtain ⟨w1, h1, hall, _, hdc1⟩ :=
    deactivate_downward_closed 4 stockedWorld 0 (by decide) (by decide)
      (fun _ ity _ hity =>
        (by decide : ∀ it ∈ stockedWorld.items, it.Role = ROLE_Authority) ity
          (List.getElem?_mem hity))
      hdc (by decide)
  exact ⟨w1, h1, hall 0 (Under.root 0),
    hall 1 (Under.step 0 0 1 _ { weaponSlot 1 with InventoryItems := [1] } (Under.root 0) rfl
      (by decide) (by decide)), hdc1⟩

/-- C28. State propagation terminates on any finite containment graph. In a world whose slot
pointers refer to actors with item data, with no condition on cycles or on how many slots
list an actor, and with fuel above the number of actors, `ActivateItem`, `DeactivateItem`,
`ShowItem`, `HideItem` and `SetOwnerASC` on an actor with item data all return. Each returns
the world of its traced run, and in that run every actor is written at most once: the list
of writes has no duplicate, an actor not in it is as before, and an actor in it is what the
single edit of the function makes of what it was. -/
theorem propagation_terminates_once (fuel : Nat) (w : World) (n : Nat) (s : Option Nat)
    (me : AInventoryItem) (hw : w.Templated) (hme : w.items[n]? = some me)
    (hd : me.ItemData.isSome = true) (hfuel : w.items.length < fuel) :
    (∃ w1 t, ActivateItem fuel w n = .ok w1 ∧
      cascadeTrace activateWave fuel w n = .ok (w1, t) ∧ Once activateWave activateEdit w w1 t) ∧
    (∃ w1 t, DeactivateItem fuel w n = .ok w1 ∧
      cascadeTrace deactivateWave fuel w n = .ok (w1, t) ∧
      Once deactivateWave deactivateEdit w w1 t) ∧
    (∃ w1 t, ShowItem fuel w n = .ok w1 ∧
      cascadeTrace showWave fuel w n = .ok (w1, t) ∧ Once showWave showEdit w w1 t) ∧
    (∃ w1 t, HideItem fuel w n = .ok w1 ∧
      cascadeTrace hideWave fuel w n = .ok (w1, t) ∧ Once hideWave hideEdit w w1 t) ∧
    (∃ w1 t, SetOwnerASC fuel w n s = .ok w1 ∧
      cascadeTrace (setOwnerWave s) fuel w n = .ok (w1, t) ∧
      Once (setOwnerWave s) (setOwnerEdit s) w w1 t) := by
  have hl := templated_linked w hw
  have hn := lt_of_get w n me hme
  refine ⟨?_, ?_, ?_, ?_, ?_⟩
  · obtain ⟨w1, h1⟩ := ActivateItem_returns fuel w n me hw hme (fun _ => hd) hfuel
    obtain ⟨t, ht, ho⟩ := cascade_once activateWave activateEdit activateWave_spec fuel w n w1
      (by rw [← ActivateItem_eq_cascade]; exact h1)
    exact ⟨w1, t, h1, ht, ho⟩
  · obtain ⟨w1, h1⟩ := DeactivateItem_returns fuel w n hl hn hfuel
    obtain ⟨t, ht, ho⟩ := cascade_once deactivateWave deactivateEdit deactivateWave_spec fuel w
      n w1 (by rw [← DeactivateItem_eq_cascade]; exact h1)
    exact ⟨w1, t, h1, ht, ho⟩
  · obtain ⟨w1, h1⟩ := ShowItem_returns fuel w n hl hn hfuel
    obtain ⟨t, ht, ho⟩ := cascade_once showWave showEdit showWave_spec fuel w n w1
      (by rw [← ShowItem_eq_cascade]; exact h1)
    exact ⟨w1, t, h1, ht, ho⟩
  · obtain ⟨w1, h1⟩ := HideItem_returns fuel w n hl hn hfuel
    obtain ⟨t, ht, ho⟩ := cascade_once hideWave hideEdit hideWave_spec fuel w n w1
      (by rw [← HideItem_eq_cascade]; exact h1)
    exact ⟨w1, t, h1, ht, ho⟩
  · obtain ⟨w1, h1⟩ := SetOwnerASC_returns fuel w n s me hw hme hd hfuel
    obtain ⟨t, ht, ho⟩ := cascade_once (setOwnerWave s) (setOwnerEdit s) (setOwnerWave_spec s)
      fuel w n w1 (by rw [← SetOwnerASC_eq_cascade]; exact h1)
    exact ⟨w1, t, h1, ht, ho⟩

/-- In `knotWorld` two holders hold each other and one is listed in two slots: `ActivateItem`
on the first returns after writing to each of the two once. -/
theorem propagation_terminates_once_witness :
    knotWorld.Templated ∧ slotItems knotWorld 0 1 = [1] ∧ slotItems knotWorld 0 2 = [1] ∧
      slotItems knotWorld 1 1 = [0] ∧
      ∃ w1 t, ActivateItem 3 knotWorld 0 = .ok w1 ∧
        cascadeTrace activateWave 3 knotWorld 0 = .ok (w1, t) ∧ t.Nodup ∧ t = [0, 1] := by
  refine ⟨by decide, by decide, by decide, by decide, ?_⟩
  obtain ⟨w1, t, h1, ht, ho⟩ :=
    (propagation_terminates_once 3 knotWorld 0 none _ (by decide) rfl rfl (by decide)).1
  refine ⟨w1, t, h1, ht, ho.2.1, ?_⟩
  have h2 : ∃ v, cascadeTrace activateWave 3 knotWorld 0 = .ok (v, [0, 1]) := ⟨_, rfl⟩
  obtain ⟨v, hv⟩ := h2
  rw [hv] at ht
  cases ht
  rfl

/-- C29. Items without item data pass every filter. For a null item, or an item that is an
actor with no item data, `CanSlotItem` answers true for every slot, and `CanPlaceItemInSlot`
on an actor N answers false when N has no slot of the given name and otherwise answers
whether the slot already lists the item or holds fewer items than `ItemCapacity`; the
allowed categories and sizes of the slot play no part. -/
theorem untemplated_passes_filters (w : World) (n : Nat) (me : AInventoryItem)
    (NewItem : Option Nat) (hme : w.items[n]? = some me)
    (hx : NewItem = none ∨
      ∃ x itx, NewItem = some x ∧ w.items[x]? = some itx ∧ itx.ItemData = none) :
    (∀ slot : FItemSlot, slot.CanSlotItem w NewItem = .ok true) ∧
    (∀ SlotName : FName, FindSlotByName me SlotName = none →
      CanPlaceItemInSlot w n NewItem SlotName = .ok false) ∧
    (∀ (SlotName : FName) (ItemSlot : FItemSlot), FindSlotByName me SlotName = some ItemSlot →
      CanPlaceItemInSlot w n NewItem SlotName =
        .ok (Contains ItemSlot.InventoryItems NewItem ||
          decide ((ItemSlot.InventoryItems.length : Int) < ItemSlot.ItemCapacity))) := by
  have hcan : ∀ slot : FItemSlot, slot.CanSlotItem w NewItem = .ok true := by
    intro slot
    rcases hx with rfl | ⟨x, itx, rfl, hitx, hnone⟩
    · rfl
    · simp [FItemSlot.CanSlotItem, hitx, hnone]
  refine ⟨hcan, ?_, ?_⟩
  · intro SlotName hnone
    simp [CanPlaceItemInSlot, hme, hnone]
  · intro SlotName ItemSlot hslot
    simp only [CanPlaceItemInSlot, hme, hslot, hcan ItemSlot]
    by_cases hc : Contains ItemSlot.InventoryItems NewItem = true
    · simp [hc]
    · by_cases hl : (ItemSlot.InventoryItems.length : Int) < ItemSlot.ItemCapacity
      · simp [hc, hl]
      · simp [hc, hl]

/-- A freshly spawned actor at 1, with no item data, is offered to the consumable slot 3 of
the holder, whose filters admit consumables only: it can be placed. -/
theorem untemplated_passes_filters_witness :
    CanPlaceItemInSlot { items := [holderItem, freshItem], log := [], nextHandle := 100 } 0
      (some 1) 3 = .ok true ∧
    CanPlaceItemInSlot { items := [holderItem, freshItem], log := [], nextHandle := 100 } 0
      none 3 = .ok true :=
  ⟨(untemplated_passes_filters { items := [holderItem, freshItem], log := [], nextHandle := 100 }
      0 holderItem (some 1) rfl (Or.inr ⟨1, freshItem, rfl, rfl, rfl⟩)).2.2 3 (consumableSlot 3)
      rfl,
    (untemplated_passes_filters { items := [holderItem, freshItem], log := [], nextHandle := 100 }
      0 holderItem none rfl (Or.inl rfl)).2.2 3 (consumableSlot 3) rfl⟩

/-- C30. Removal does not tear down passive grants. When `RemoveItemFromSlot`, or
`RemoveItem`, on N with the actor X returns true, X has the ability system and the passive
handle arrays it had, as has every other actor; and every call recorded by the removal is no
grant and, if it is a revoke, revokes a handle held in an active handle array of an actor
owned by the ability system it goes to. So a passive handle of X that no active handle
array holds is not revoked. -/
theorem removal_keeps_passive_grants (fuel : Nat) (w : World) (n x : Nat) (SlotName : FName)
    (w' : World) (itx : AInventoryItem) (hx : w.items[x]? = some itx)
    (h : RemoveItemFromSlot fuel w n (some x) SlotName = .ok (w', true) ∨
      RemoveItem fuel w n (some x) = .ok (w', true)) :
    (∃ itx', w'.items[x]? = some itx' ∧ itx'.OwnerASC = itx.OwnerASC ∧
      itx'.PassiveAbilitiesHandles = itx.PassiveAbilitiesHandles ∧
      itx'.PassiveEffectsHandles = itx.PassiveEffectsHandles) ∧
    w'.items.map passiveGrants = w.items.map passiveGrants ∧
    ∃ ext, w'.log = w.log ++ ext ∧ (∀ e ∈ ext, e.SparesPassive w) ∧
      (∀ k ∈ itx.PassiveAbilitiesHandles,
        (∀ (z : Nat) (itz : AInventoryItem), w.items[z]? = some itz →
          k ∉ itz.ActiveAbilitiesHandles) →
        ∀ a, Event.ClearAbility a k ∉ ext) ∧
      (∀ k ∈ itx.PassiveEffectsHandles,
        (∀ (z : Nat) (itz : AInventoryItem), w.items[z]? = some itz →
          k ∉ itz.ActiveEffectsHandles) →
        ∀ a, Event.RemoveActiveGameplayEffect a k ∉ ext) := by
  have hslot : ∃ s, RemoveItemFromSlot fuel w n (some x) s = .ok (w', true) := by
    rcases h with h | h
    · exact ⟨SlotName, h⟩
    · rcases RemoveItem_cases fuel w n (some x) (w', true) h with h1 | h1
      · cases h1
      · exact h1
  obtain ⟨s, hs⟩ := hslot
  obtain ⟨⟨_, ext, hlog, hsp⟩, hpassive⟩ := RemoveItemFromSlot_spares fuel w n (some x) s w' hs
  obtain ⟨itx', hx', hf⟩ := get_of_map_eq passiveGrants w w' hpassive x itx hx
  simp only [passiveGrants, Prod.mk.injEq] at hf
  refine ⟨⟨itx', hx', hf.1, hf.2.1, hf.2.2⟩, hpassive, ext, hlog, hsp, ?_, ?_⟩
  · intro k _ hno a hmem
    obtain ⟨z, itz, hz, _, hk⟩ := hsp _ hmem
    exact hno z itz hz hk
  · intro k _ hno a hmem
    obtain ⟨z, itz, hz, _, hk⟩ := hsp _ hmem
    exact hno z itz hz hk

/-- The weapon at 1 is removed from slot 1 of the holder of `stockedWorld`: it keeps ability
system 7 and its passive handles 100 and 101. -/
theorem removal_keeps_passive_grants_witness :
    ∃ w', RemoveItemFromSlot 4 stockedWorld 0 (some 1) 1 = .ok (w', true) ∧
      ∃ itx', w'.items[1]? = some itx' ∧ itx'.OwnerASC = some 7 ∧
        itx'.PassiveAbilitiesHandles = [100] ∧ itx'.PassiveEffectsHandles = [101] :=
  ⟨_, rfl, (removal_keeps_passive_grants 4 stockedWorld 0 1 1 _ _ rfl (Or.inl rfl)).1⟩

end GASInventory

namespace ProceduralGenerator

/-- C31 fails on the code. Over the real numbers, with the inverse of the real square root as
`InvSqrt`, take the unit square and `Delta` 3. `ResizeQuad2D` reads every edge from its
argument and returns the square with corners (-3,-3), (4,-3), (4,4), (-3,4).
`ResizeQuad2DRef` moves A to (-3,-3) as well, but its second statement then reads the edge AB
from the moved A, (4,3) in the place of (1,0), and moves B to (17/5, -6/5): the two results
differ. -/
theorem resizeQuad2DRef_reads_moved_corner :
    ResizeQuad2D (fun s : ℝ => (Real.sqrt s)⁻¹) (unitSquare ℝ) 3 =
        ⟨⟨-3, -3⟩, ⟨4, -3⟩, ⟨4, 4⟩, ⟨-3, 4⟩⟩ ∧
      (ResizeQuad2DRef (fun s : ℝ => (Real.sqrt s)⁻¹) (unitSquare ℝ) 3).A = ⟨-3, -3⟩ ∧
      (ResizeQuad2DRef (fun s : ℝ => (Real.sqrt s)⁻¹) (unitSquare ℝ) 3).B =
        ⟨17 / 5, -6 / 5⟩ ∧
      ResizeQuad2DRef (fun s : ℝ => (Real.sqrt s)⁻¹) (unitSquare ℝ) 3 ≠
        ResizeQuad2D (fun s : ℝ => (Real.sqrt s)⁻¹) (unitSquare ℝ) 3 := by
  have h25 : Real.sqrt 25 = 5 := by
    rw [show (25 : ℝ) = 5 ^ 2 by norm_num]
    exact Real.sqrt_sq (by norm_num)
  obtain ⟨hval, hA, hB⟩ := resize_unitSquare (fun s : ℝ => (Real.sqrt s)⁻¹)
    (by simp) (by simp only [h25]; norm_num)
  refine ⟨hval, hA, hB, fun h => ?_⟩
  have hx := congrArg (fun q => q.B.X) h
  simp only [hB, hval] at hx
  norm_num at hx

end ProceduralGenerator
